import Mathlib

/-! # Clustering driver and hypercube index: embedding and verified properties

Shallow embedding of `cluster_folder/cluster_info.cpp`,
`hypercube_folder/hypercube_class.cpp` and `common/dataset.hpp`.

Modelling conventions.

* `double` / `float` values are exact rationals (`ℚ`); the code only compares
  distances, so every property below is order-theoretic.
* `int` values are mathematical integers (`Int`); the bucket address and the
  current bit of the probe are natural numbers.
* A `const Abstract_Object*` into the dataset is the position of the object in
  the dataset (a `Nat`); the address order used by `std::pair` comparison is a
  parameter `addr`.
* `std::vector` / C arrays that are indexed but never resized (`centroids`,
  `clusters`, `cube_array`) are total functions of the index.
* `std::priority_queue` is a list kept sorted from the largest pair to the
  smallest; `std::map` is a partial function on its keys.
* `int` radii and counters are unbounded: signed overflow is undefined in the
  source, and the statements are about runs without it.
* Random draws are arguments of the functions that make them.
* An access outside a vector or the dataset, and the division by
  `max_Di * max_Di = 0` of the seeding, end a run of the seeding with a fault
  (`seeding_fault`); the weighted search returns `none` for a read outside `P`.
* A division of a `double` that the source leaves without a guard (`silhouette`) has the
  result `none` when the divisor is 0, where the source holds an infinity or a NaN.
* Code outside the three files (the hash functions behind `get_0_or_1`,
  `get_name`, `Object::get_ith`, the mean curve, `euclidean_distance`) enters as
  a parameter.
-/

namespace AP3

/-! ## dataset.hpp -/

/-- The class `Dataset`: the number of objects and the accessor of the i-th object. -/
structure Dataset (Obj : Type) where
  get_num_of_Objects : Nat
  get_ith_object : Nat → Obj

/-! ## cluster_info.cpp : weighted search -/

/-- Read of `P[i]` for an `int` index; `none` when the index is outside the vector. -/
def getP (P : List ℚ) (i : Int) : Option ℚ :=
  if 0 ≤ i then P[i.toNat]? else none

/-- The function `binary_search` of cluster_info.cpp (lines 255-274). The quotient
`(upper_index - lower_index) / 2` is only taken when the difference is non-negative, where
the rounding of C++ and of `Int` agree. The result is `none` when a read leaves the vector. -/
def binary_search (P : List ℚ) (x : ℚ) (lower_index upper_index : Int) : Option Int :=
  if upper_index ≥ lower_index then
    let r := lower_index + (upper_index - lower_index) / 2
    if r = 0 then some 1
    else
      match getP P (r - 1), getP P r with
      | some p1, some p =>
        if p1 < x ∧ x ≤ p then some r
        else if x > p then binary_search P x (r + 1) upper_index
        else if x ≤ p1 then binary_search P x lower_index (r - 1)
        else some 0
      | _, _ => none
  else some 0
termination_by (upper_index - lower_index + 1).toNat
decreasing_by
  all_goals simp_wf
  all_goals omega

/-! ## cluster_info.cpp : exact Lloyd assignment -/

/-- The inner loop of the assignment (lines 297-309): `min_dist` starts at the distance to
centroid 0 and `cluster_index` at 0; `j` runs over `1 .. K-1` and replaces both on a strictly
smaller distance. Returns `(min_dist, cluster_index)`. -/
def nearest_centroid {Obj : Type} (metric : Obj → Obj → ℚ) (centroids : Nat → Obj) (K : Nat)
    (object : Obj) : ℚ × Nat :=
  (List.range' 1 (K - 1)).foldl
    (fun (st : ℚ × Nat) (j : Nat) =>
      let dist := metric object (centroids j)
      if dist < st.1 then (dist, j) else st)
    (metric object (centroids 0), 0)

/-- The call `clusters[cluster_index].push_back(object)`. -/
def push_back (clusters : Nat → List Nat) (cluster_index : Nat) (object : Nat) : Nat → List Nat :=
  fun j => if j = cluster_index then clusters j ++ [object] else clusters j

/-- One assignment step of `Cluster_info::exact_lloyds` (lines 285-313): the clusters are
cleared, then every dataset position is pushed to the cluster of its nearest centroid. -/
def exact_lloyds_assignment {Obj : Type} (metric : Obj → Obj → ℚ) (dataset : Dataset Obj)
    (centroids : Nat → Obj) (K : Nat) : Nat → List Nat :=
  (List.range dataset.get_num_of_Objects).foldl
    (fun clusters i =>
      push_back clusters (nearest_centroid metric centroids K (dataset.get_ith_object i)).2 i)
    (fun _ => [])

/-! ## hypercube_class.cpp -/

/-- The enum `search_type`. -/
inductive search_type where
  | kNN
  | RANGE_SEARCH
  deriving DecidableEq

/-- The comparison `operator<` of `std::pair <double, const Abstract_Object*>`: lexicographic,
the pointers compared by address. -/
def pair_lt (addr : Nat → Nat) (a b : ℚ × Nat) : Prop :=
  a.1 < b.1 ∨ (¬ b.1 < a.1 ∧ addr a.2 < addr b.2)

instance pair_lt_decidable (addr : Nat → Nat) (a b : ℚ × Nat) : Decidable (pair_lt addr a b) := by
  unfold pair_lt
  exact inferInstance

/-- The call `max_heap->push(a)`: the queue is a list sorted from the largest pair down. -/
def heap_push (addr : Nat → Nat) (a : ℚ × Nat) : List (ℚ × Nat) → List (ℚ × Nat)
  | [] => [a]
  | b :: rest => if pair_lt addr b a then a :: b :: rest else b :: heap_push addr a rest

/-- The function `push_at_most_N` (lines 227-238). With `N ≤ 0` and an empty queue the source
calls `top()` on an empty queue, which is undefined; the model leaves the queue as it is
there, and every statement about kNN assumes `N ≥ 1`, where that branch is not reached. -/
def push_at_most_N (addr : Nat → Nat) (obj_p : Nat) (N : Int) (dist : ℚ)
    (max_heap : List (ℚ × Nat)) : List (ℚ × Nat) :=
  if (max_heap.length : Int) < N then heap_push addr (dist, obj_p) max_heap
  else
    match max_heap with
    | [] => []
    | top :: rest => if dist < top.1 then heap_push addr (dist, obj_p) rest else top :: rest

/-- The class `hypercube` together with the globals of params.hpp it reads: the dimension
`d1`, the budgets `M` and `probes`, the bucket table `cube_array` (2^d1 lists of dataset
positions) and the bit projector `get_0_or_1` (f_array[j] after h_array[j]). -/
structure hypercube (Obj : Type) where
  d1 : Nat
  M : Int
  probes : Int
  cube_array : Nat → List Nat
  get_0_or_1 : Nat → Obj → Nat

/-- The mutable state of one probe: the two remaining budgets and the accumulator behind the
`void*` (the queue for kNN, the list for range search). The fields `opened` and `examined`
are not in the source; they record, in order, every bucket the third stage opens and every
item whose distance is computed, each with the two remaining budgets at that moment. -/
structure probe_state where
  M_rem : Int
  probes_rem : Int
  max_heap : List (ℚ × Nat)
  opened : List (Nat × Int × Int)
  examined : List (Nat × Int × Int)

/-- The body of the loop of `vertex_visiting_third_stage` for one item (lines 208-222), up to
and including `M_rem -= 1`. -/
def examine {Obj : Type} (addr : Nat → Nat) (dataset : Dataset Obj) (Type_ : search_type)
    (R : Int) (query_object : Obj) (metric : Obj → Obj → ℚ) (N : Int) (R2 : Int)
    (s : probe_state) (obj_p : Nat) : probe_state :=
  let dist := metric query_object (dataset.get_ith_object obj_p)
  { M_rem := s.M_rem - 1
    probes_rem := s.probes_rem
    max_heap :=
      match Type_ with
      | search_type.kNN => push_at_most_N addr obj_p N dist s.max_heap
      | search_type.RANGE_SEARCH =>
        if (R2 : ℚ) ≤ dist ∧ dist < (R : ℚ) then s.max_heap ++ [(dist, obj_p)] else s.max_heap
    opened := s.opened
    examined := s.examined ++ [(obj_p, s.M_rem, s.probes_rem)] }

/-- The loop of `vertex_visiting_third_stage` over the bucket list: it returns as soon as
`M_rem` is 0 after an item. -/
def third_stage_loop {Obj : Type} (addr : Nat → Nat) (dataset : Dataset Obj)
    (Type_ : search_type) (R : Int) (query_object : Obj) (metric : Obj → Obj → ℚ) (N : Int)
    (R2 : Int) : List Nat → probe_state → probe_state
  | [], s => s
  | obj_p :: rest, s =>
    let s1 := examine addr dataset Type_ R query_object metric N R2 s obj_p
    if s1.M_rem = 0 then s1
    else third_stage_loop addr dataset Type_ R query_object metric N R2 rest s1

/-- The function `hypercube::vertex_visiting_third_stage` (lines 203-225). -/
def vertex_visiting_third_stage {Obj : Type} (addr : Nat → Nat) (cube : hypercube Obj)
    (dataset : Dataset Obj) (Type_ : search_type) (R : Int) (curr_vertex : Nat)
    (s : probe_state) (query_object : Obj) (metric : Obj → Obj → ℚ) (N : Int) (R2 : Int) :
    probe_state :=
  third_stage_loop addr dataset Type_ R query_object metric N R2 (cube.cube_array curr_vertex)
    { s with opened := s.opened ++ [(curr_vertex, s.M_rem, s.probes_rem)] }

/-- The function `hypercube::vertex_visiting_second_stage` (lines 183-201). -/
def vertex_visiting_second_stage {Obj : Type} (addr : Nat → Nat) (cube : hypercube Obj)
    (dataset : Dataset Obj) (Type_ : search_type) (R : Int) (curr_vertex : Nat)
    (s : probe_state) (curr_bit : Nat) (ham_rem : Nat) (query_object : Obj)
    (metric : Obj → Obj → ℚ) (N : Int) (R2 : Int) : probe_state :=
  if ham_rem = 0 then
    let s1 := vertex_visiting_third_stage addr cube dataset Type_ R curr_vertex s query_object
      metric N R2
    { s1 with probes_rem := s1.probes_rem - 1 }
  else if curr_bit >>> ham_rem ≠ 0 then
    let s1 := vertex_visiting_second_stage addr cube dataset Type_ R curr_vertex s
      (curr_bit >>> 1) ham_rem query_object metric N R2
    if s1.M_rem = 0 ∨ s1.probes_rem = 0 then s1
    else
      vertex_visiting_second_stage addr cube dataset Type_ R (curr_vertex ^^^ curr_bit) s1
        (curr_bit >>> 1) (ham_rem - 1) query_object metric N R2
  else
    vertex_visiting_second_stage addr cube dataset Type_ R (curr_vertex ^^^ curr_bit) s
      (curr_bit >>> 1) (ham_rem - 1) query_object metric N R2
termination_by curr_bit + ham_rem
decreasing_by
  all_goals simp_wf
  · have h1 : curr_bit ≠ 0 := by
      intro h0
      subst h0
      simp at *
    have h2 : curr_bit >>> 1 < curr_bit := by
      rw [Nat.shiftRight_eq_div_pow]
      omega
    omega
  · omega
  · omega

/-- The function `hypercube::vertex_visiting_first_stage` (lines 169-182). Both callers enter
it with `ham_dist = 0`; the bound `ham_dist ≤ d1` is carried as an argument, since the test
`ham_dist == d1` of the source only ends the recursion from below. -/
def vertex_visiting_first_stage {Obj : Type} (addr : Nat → Nat) (cube : hypercube Obj)
    (dataset : Dataset Obj) (Type_ : search_type) (R : Int) (curr_vertex : Nat)
    (ham_dist : Nat) (hle : ham_dist ≤ cube.d1) (s : probe_state) (curr_bit : Nat)
    (query_object : Obj) (metric : Obj → Obj → ℚ) (N : Int) (R2 : Int) : probe_state :=
  let s1 := vertex_visiting_second_stage addr cube dataset Type_ R curr_vertex s curr_bit
    ham_dist query_object metric N R2
  if h : s1.M_rem = 0 ∨ s1.probes_rem = 0 ∨ ham_dist = cube.d1 then s1
  else
    vertex_visiting_first_stage addr cube dataset Type_ R curr_vertex (ham_dist + 1)
      (by omega) s1 curr_bit query_object metric N R2
termination_by cube.d1 - ham_dist
decreasing_by
  simp_wf
  omega

/-- The address loop shared by `import_data`, `appr_nearest_neighbors` and `range_search`:
`index = (index << 1) + get_0_or_1(j, obj)` for `j = 0 .. d1-1`. -/
def vertex_of {Obj : Type} (cube : hypercube Obj) (obj : Obj) : Nat :=
  (List.range cube.d1).foldl (fun index j => (index <<< 1) + cube.get_0_or_1 j obj) 0

/-- The function `hypercube::import_data` (lines 24-34). -/
def import_data {Obj : Type} (cube : hypercube Obj) (dataset : Dataset Obj) : hypercube Obj :=
  { cube with
    cube_array :=
      (List.range dataset.get_num_of_Objects).foldl
        (fun arr i => push_back arr (vertex_of cube (dataset.get_ith_object i)) i)
        cube.cube_array }

/-- The freshly constructed index (constructor, lines 9-13): every bucket is empty. -/
def new_hypercube {Obj : Type} (d1 : Nat) (M probes : Int) (get_0_or_1 : Nat → Obj → Nat) :
    hypercube Obj :=
  { d1 := d1, M := M, probes := probes, cube_array := fun _ => [], get_0_or_1 := get_0_or_1 }

/-- The state in which both query functions start the probe. -/
def initial_probe {Obj : Type} (cube : hypercube Obj) : probe_state :=
  { M_rem := cube.M, probes_rem := cube.probes, max_heap := [], opened := [], examined := [] }

/-- The probe started by `appr_nearest_neighbors` and `range_search`: first stage from the
address of the query, Hamming distance 0, budgets `M` and `probes`, current bit
`1 << (d1-1)` (which needs `d1 ≥ 1`). -/
def probe {Obj : Type} (addr : Nat → Nat) (cube : hypercube Obj) (dataset : Dataset Obj)
    (Type_ : search_type) (R : Int) (query_object : Obj) (metric : Obj → Obj → ℚ) (N : Int)
    (R2 : Int) : probe_state :=
  vertex_visiting_first_stage addr cube dataset Type_ R (vertex_of cube query_object) 0
    (Nat.zero_le _) (initial_probe cube) (1 <<< (cube.d1 - 1)) query_object metric N R2

/-- The function `hypercube::appr_nearest_neighbors` (lines 240-266): the queue is drained
from the back of the result vector, so the result is the queue from smallest to largest. The
inner radius is not passed by the source (default argument) and is not read for kNN. -/
def appr_nearest_neighbors {Obj : Type} (addr : Nat → Nat) (cube : hypercube Obj)
    (dataset : Dataset Obj) (query_object : Obj) (N : Int) (metric : Obj → Obj → ℚ) :
    List (ℚ × Nat) :=
  (probe addr cube dataset search_type.kNN 0 query_object metric N 0).max_heap.reverse

/-- The function `hypercube::range_search` (lines 269-283). -/
def range_search {Obj : Type} (addr : Nat → Nat) (cube : hypercube Obj) (dataset : Dataset Obj)
    (query_object : Obj) (R : Int) (metric : Obj → Obj → ℚ) (R2 : Int) : List (ℚ × Nat) :=
  (probe addr cube dataset search_type.RANGE_SEARCH R query_object metric 0 R2).max_heap

/-! ## cluster_info.cpp : reverse assignment -/

/-- The body of the loop over the items a range query returned (lines 503-518): `st` is the
claim map and the flag, `i` the index of the querying centroid. -/
def claim {Obj : Type} (get_name : Obj → String) (dataset : Dataset Obj) (i : Nat)
    (st : (String → Option (ℚ × Nat)) × Bool) (item : ℚ × Nat) :
    (String → Option (ℚ × Nat)) × Bool :=
  let dist := item.1
  let id := get_name (dataset.get_ith_object item.2)
  match st.1 id with
  | none => (fun s => if s = id then some (dist, i) else st.1 s, true)
  | some c =>
    if c.1 > dist then (fun s => if s = id then some (dist, i) else st.1 s, st.2) else st

/-- One pass of the `while(1)` loop (lines 495-520): the flag starts false and every centroid
`i = 0 .. K-1` runs its range query with the current `R` and `R2`. The argument `range_query`
gives the list the query of centroid `i` returns in pass number `pass`. -/
def range_pass {Obj : Type} (get_name : Obj → String) (dataset : Dataset Obj)
    (range_query : Nat → Nat → Int → Int → List (ℚ × Nat)) (K : Nat) (pass : Nat) (R R2 : Int)
    (map : String → Option (ℚ × Nat)) : (String → Option (ℚ × Nat)) × Bool :=
  (List.range K).foldl
    (fun st i => (range_query pass i R R2).foldl (claim get_name dataset i) st)
    (map, false)

/-- The `while(1)` loop (lines 491-527): it ends with the first pass that leaves the flag
false, else `R2 = R; R *= 2`. The first argument bounds the number of passes; the result is
`none` when the bound is reached before the loop has ended. -/
def range_growing {Obj : Type} (get_name : Obj → String) (dataset : Dataset Obj)
    (range_query : Nat → Nat → Int → Int → List (ℚ × Nat)) (K : Nat) :
    Nat → Nat → Int → Int → (String → Option (ℚ × Nat)) → Option (String → Option (ℚ × Nat))
  | 0, _, _, _, _ => none
  | fuel + 1, pass, R, R2, map =>
    let st := range_pass get_name dataset range_query K pass R R2 map
    if st.2 = false then some st.1
    else range_growing get_name dataset range_query K fuel (pass + 1) (R * 2) R st.1

/-- The last loop of the assignment (lines 532-563): a claimed position goes to the cluster
of its claim, any other to the cluster of its nearest centroid. -/
def assign_claims {Obj : Type} (metric : Obj → Obj → ℚ) (get_name : Obj → String)
    (dataset : Dataset Obj) (centroids : Nat → Obj) (K : Nat)
    (map : String → Option (ℚ × Nat)) : Nat → List Nat :=
  (List.range dataset.get_num_of_Objects).foldl
    (fun clusters i =>
      match map (get_name (dataset.get_ith_object i)) with
      | some c => push_back clusters c.2 i
      | none =>
        push_back clusters (nearest_centroid metric centroids K (dataset.get_ith_object i)).2 i)
    (fun _ => [])

/-- The conversion `(int)` of a double: truncation toward zero. -/
def double_to_int (x : ℚ) : Int :=
  if 0 ≤ x then ⌊x⌋ else ⌈x⌉

/-- The initial radius (lines 481-487): the truncated distance of the last two centroids,
lowered to the truncated distance of every pair `i < j`, then halved with `int` division. -/
def initial_R {Obj : Type} (distance : Obj → Obj → ℚ) (centroids : Nat → Obj) (K : Nat) : Int :=
  Int.tdiv
    ((List.range K).foldl
      (fun R i =>
        (List.range' (i + 1) (K - (i + 1))).foldl
          (fun R j => min R (double_to_int (distance (centroids i) (centroids j)))) R)
      (double_to_int (distance (centroids (K - 2)) (centroids (K - 1)))))
    2

/-- One assignment step of the reverse assignment shared by `lsh_range_search_clustering`,
`cube_range_search_clustering` and `frechet_range_search_clustering` (lines 470-563 for the
hypercube): empty claim map, the radius-growing loop from `R0` with inner radius 0, then the
last loop. -/
def reverse_assignment {Obj : Type} (metric : Obj → Obj → ℚ) (get_name : Obj → String)
    (dataset : Dataset Obj) (centroids : Nat → Obj) (K : Nat)
    (range_query : Nat → Nat → Int → Int → List (ℚ × Nat)) (R0 : Int) (fuel : Nat) :
    Option (Nat → List Nat) :=
  (range_growing get_name dataset range_query K fuel 0 R0 0 (fun _ => none)).map
    (assign_claims metric get_name dataset centroids K)

/-- One assignment step of `Cluster_info::cube_range_search_clustering` (lines 453-563) on an
index `cube` that holds the dataset: with `K = 1` it is the exact Lloyd assignment, else the
reverse assignment whose range query is `cube.range_search(centroids[i], R, metric, R2)` and
whose initial radius comes from `euclidean_distance`. -/
def cube_range_search_assignment {Obj : Type} (addr : Nat → Nat) (cube : hypercube Obj)
    (metric euclidean_distance : Obj → Obj → ℚ) (get_name : Obj → String)
    (dataset : Dataset Obj) (centroids : Nat → Obj) (K : Nat) (fuel : Nat) :
    Option (Nat → List Nat) :=
  if K = 1 then some (exact_lloyds_assignment metric dataset centroids K)
  else
    reverse_assignment metric get_name dataset centroids K
      (fun _ i R R2 => range_search addr cube dataset (centroids i) R metric R2)
      (initial_R euclidean_distance centroids K) fuel

/-! ## Notions used to state the properties -/

/-- The number of one bits of a natural number. -/
def popcount (n : Nat) : Nat :=
  ((List.range n.size).filter (fun j => n.testBit j)).length

/-- The Hamming distance of two bucket addresses. -/
def hamming (a b : Nat) : Nat :=
  popcount (a ^^^ b)

/-- The K cluster lists split the dataset positions: every position below `n` occurs once in
one list with index below `K` and in no other list, the lists hold nothing else, and their
sizes add up to `n`. -/
def is_partition (n K : Nat) (clusters : Nat → List Nat) : Prop :=
  (∀ i, i < n → ∃ j, j < K ∧ (clusters j).count i = 1 ∧ ∀ j', j' ≠ j → i ∉ clusters j') ∧
  (∀ j i, i ∈ clusters j → i < n ∧ j < K) ∧
  (∑ j in Finset.range K, (clusters j).length) = n

/-! ## Auxiliary notions used in the proofs -/

/-- Either budget of the probe is used up. -/
def stopped (s : probe_state) : Prop :=
  s.M_rem = 0 ∨ s.probes_rem = 0

instance stopped_decidable (s : probe_state) : Decidable (stopped s) := by
  unfold stopped
  exact inferInstance

/-- The bucket addresses in the order the probe has opened them. -/
def buckets (s : probe_state) : List Nat :=
  s.opened.map (fun e => e.1)

/-- The items in the order the probe has computed their distance. -/
def items (s : probe_state) : List Nat :=
  s.examined.map (fun e => e.1)

/-- What the third stage does to the accumulator for one item (lines 211-220). -/
def accumulate {Obj : Type} (addr : Nat → Nat) (dataset : Dataset Obj) (Type_ : search_type)
    (R : Int) (query_object : Obj) (metric : Obj → Obj → ℚ) (N : Int) (R2 : Int)
    (acc : List (ℚ × Nat)) (obj_p : Nat) : List (ℚ × Nat) :=
  match Type_ with
  | search_type.kNN =>
    push_at_most_N addr obj_p N (metric query_object (dataset.get_ith_object obj_p)) acc
  | search_type.RANGE_SEARCH =>
    if (R2 : ℚ) ≤ metric query_object (dataset.get_ith_object obj_p) ∧
        metric query_object (dataset.get_ith_object obj_p) < (R : ℚ) then
      acc ++ [(metric query_object (dataset.get_ith_object obj_p), obj_p)]
    else acc

/-- The second stage at `ham_rem = 0`: the third stage on the bucket, then `probes_rem -= 1`. -/
def open_bucket {Obj : Type} (addr : Nat → Nat) (cube : hypercube Obj) (dataset : Dataset Obj)
    (Type_ : search_type) (R : Int) (query_object : Obj) (metric : Obj → Obj → ℚ) (N : Int)
    (R2 : Int) (curr_vertex : Nat) (s : probe_state) : probe_state :=
  { vertex_visiting_third_stage addr cube dataset Type_ R curr_vertex s query_object metric N R2
    with
    probes_rem :=
      (vertex_visiting_third_stage addr cube dataset Type_ R curr_vertex s query_object metric N
        R2).probes_rem - 1 }

/-- Opening the buckets of a list one after the other, stopping after the first bucket that
leaves a budget at 0. -/
def visit_all {Obj : Type} (addr : Nat → Nat) (cube : hypercube Obj) (dataset : Dataset Obj)
    (Type_ : search_type) (R : Int) (query_object : Obj) (metric : Obj → Obj → ℚ) (N : Int)
    (R2 : Int) : List Nat → probe_state → probe_state
  | [], s => s
  | v :: vs, s =>
    if stopped (open_bucket addr cube dataset Type_ R query_object metric N R2 v s) then
      open_bucket addr cube dataset Type_ R query_object metric N R2 v s
    else
      visit_all addr cube dataset Type_ R query_object metric N R2 vs
        (open_bucket addr cube dataset Type_ R query_object metric N R2 v s)

/-- The addresses the second stage reaches from `curr_vertex` when no budget cuts it short,
in the order of its recursion: `ham_rem` of the bits from `curr_bit` downwards are flipped. -/
def shell (curr_vertex curr_bit ham_rem : Nat) : List Nat :=
  if ham_rem = 0 then [curr_vertex]
  else if curr_bit >>> ham_rem ≠ 0 then
    shell curr_vertex (curr_bit >>> 1) ham_rem ++
      shell (curr_vertex ^^^ curr_bit) (curr_bit >>> 1) (ham_rem - 1)
  else shell (curr_vertex ^^^ curr_bit) (curr_bit >>> 1) (ham_rem - 1)
termination_by curr_bit + ham_rem
decreasing_by
  all_goals simp_wf
  · have h1 : curr_bit ≠ 0 := by
      intro h0
      subst h0
      simp at *
    have h2 : curr_bit >>> 1 < curr_bit := by
      rw [Nat.shiftRight_eq_div_pow]
      omega
    omega
  · omega
  · omega

/-- The shells of Hamming distance `ham_dist, ham_dist + 1, ..., ham_dist + count - 1`, one
after the other. -/
def shells_from (curr_vertex curr_bit : Nat) (ham_dist count : Nat) : List Nat :=
  (List.range' ham_dist count).flatMap (fun h => shell curr_vertex curr_bit h)

/-- The order in which a probe with query address `v` opens the buckets of a hypercube of
dimension `d1` when no budget cuts it short. -/
def probe_order (d1 v : Nat) : List Nat :=
  shells_from v (1 <<< (d1 - 1)) 0 (d1 + 1)

/-- The items of the index in the order an uncut probe from address `v` examines them. -/
def items_in_order {Obj : Type} (cube : hypercube Obj) (v : Nat) : List Nat :=
  (probe_order cube.d1 v).flatMap cube.cube_array

/-- The record of the examined items agrees with the budget `M`: the remaining budget is `M`
less the number of items examined, the k-th item was examined with `M - k` left, and every
item was examined while both remaining budgets were at least 1. -/
def ex_inv (M : Int) (s : probe_state) : Prop :=
  s.M_rem = M - s.examined.length ∧
  ∀ (k : Nat) (e : Nat × Int × Int), s.examined[k]? = some e → e.2.1 = M - k ∧ 1 ≤ e.2.1 ∧ 1 ≤ e.2.2

/-- The record of the opened buckets agrees with the budget `probes`: the remaining budget is
`probes` less the number of buckets opened, the k-th bucket was opened with `probes - k` left,
and every bucket was opened while both remaining budgets were at least 1. -/
def op_inv (probes : Int) (s : probe_state) : Prop :=
  s.probes_rem = probes - s.opened.length ∧
  ∀ (k : Nat) (e : Nat × Int × Int), s.opened[k]? = some e → e.2.2 = probes - k ∧ 1 ≤ e.2.1 ∧ 1 ≤ e.2.2

/-- The number of one bits among the lowest `b` bits. -/
def popcount_below (b m : Nat) : Nat :=
  ((List.range b).filter (fun j => m.testBit j)).length

/-- Every item is stored at most once in the bucket table: no bucket lists an item twice and
no two buckets share an item. -/
def stored_once {Obj : Type} (cube : hypercube Obj) : Prop :=
  (∀ v, (cube.cube_array v).Nodup) ∧
  ∀ v v', v ≠ v' → List.Disjoint (cube.cube_array v) (cube.cube_array v')

/-- Loop invariant of the inner loop of the assignment: after the indices below `s`, the state
holds the smallest distance seen and the first index that attains it. -/
def nearest_inv {Obj : Type} (metric : Obj → Obj → ℚ) (centroids : Nat → Obj) (object : Obj)
    (s : Nat) (st : ℚ × Nat) : Prop :=
  st.2 < s ∧ st.1 = metric object (centroids st.2) ∧
    (∀ j, j < s → st.1 ≤ metric object (centroids j)) ∧
    (∀ j, j < st.2 → st.1 < metric object (centroids j))

/-! ## A small index on which the statements are instantiated -/

/-- Four points of the line, at distances 0.5, 1.5, 2.5 and 3.5 from the origin. -/
def sample_dataset : Dataset ℚ :=
  { get_num_of_Objects := 4, get_ith_object := fun i => [1 / 2, 3 / 2, 5 / 2, 7 / 2].getD i 0 }

/-- The distance of two points of the line. -/
def sample_metric (a b : ℚ) : ℚ :=
  |a - b|

/-- Two projected bits of a point of the line. -/
def sample_bits (j : Nat) (o : ℚ) : Nat :=
  if j = 0 then (if 2 < o then 1 else 0) else (if 1 < o ∧ o < 3 then 1 else 0)

/-- The index of dimension 2 over the four points, with budgets `M = 4` and `probes = 4`. -/
def sample_cube : hypercube ℚ :=
  import_data (new_hypercube 2 4 4 sample_bits) sample_dataset

/-! ## Notions used to state the properties of the reverse assignment -/

/-- The value the claim map holds for a name after the body of the claim loop has run for an
item of that name at distance `dist` from centroid `i` (lines 511-518). -/
def claim_update (dist : ℚ) (i : Nat) (old : Option (ℚ × Nat)) : Option (ℚ × Nat) :=
  match old with
  | none => some (dist, i)
  | some c => if c.1 > dist then some (dist, i) else some c

/-- The distinct names of the items of the dataset. -/
def item_names {Obj : Type} (get_name : Obj → String) (dataset : Dataset Obj) : List String :=
  ((List.range dataset.get_num_of_Objects).map
    (fun i => get_name (dataset.get_ith_object i))).dedup

/-- The names of the dataset that the claim map does not hold. -/
def unclaimed {Obj : Type} (get_name : Obj → String) (dataset : Dataset Obj)
    (map : String → Option (ℚ × Nat)) : List String :=
  (item_names get_name dataset).filter (fun s => (map s).isNone)

/-- The centroids `i` in turn run their queries `Q i` and claim the items returned: the loop
over the centroids of one pass, for any list of centroid indices. -/
def claim_pass {Obj : Type} (get_name : Obj → String) (dataset : Dataset Obj)
    (Q : Nat → List (ℚ × Nat)) (indices : List Nat)
    (st : (String → Option (ℚ × Nat)) × Bool) : (String → Option (ℚ × Nat)) × Bool :=
  indices.foldl (fun st i => (Q i).foldl (claim get_name dataset i) st) st

/-- The cluster the last loop of the assignment pushes position `i` to (lines 538-562). -/
def claimed_cluster {Obj : Type} (metric : Obj → Obj → ℚ) (get_name : Obj → String)
    (dataset : Dataset Obj) (centroids : Nat → Obj) (K : Nat)
    (map : String → Option (ℚ × Nat)) (i : Nat) : Nat :=
  match map (get_name (dataset.get_ith_object i)) with
  | some c => c.2
  | none => (nearest_centroid metric centroids K (dataset.get_ith_object i)).2

/-- Centroid `j` has run a query that returns position `p`, when every centroid has run its
queries up to radius `T` and the centroids below `i` have also run the query of the ring
`[T, R)`. -/
def seen_by {Obj : Type} (metric : Obj → Obj → ℚ) (dataset : Dataset Obj) (centroids : Nat → Obj)
    (T R : Int) (i j p : Nat) : Prop :=
  metric (dataset.get_ith_object p) (centroids j) < (T : ℚ) ∨
    (j < i ∧ metric (dataset.get_ith_object p) (centroids j) < (R : ℚ))

/-- Loop invariant of the claim loops: a position is unclaimed exactly when no centroid has
seen it, and a claim holds the distance and the index of the first centroid that is nearest
among those that have seen the position. -/
def claim_inv {Obj : Type} (metric : Obj → Obj → ℚ) (get_name : Obj → String)
    (dataset : Dataset Obj) (centroids : Nat → Obj) (K : Nat) (T R : Int) (i : Nat)
    (m : String → Option (ℚ × Nat)) : Prop :=
  ∀ p, p < dataset.get_num_of_Objects →
    (m (get_name (dataset.get_ith_object p)) = none ↔
      ∀ j, j < K → ¬ seen_by metric dataset centroids T R i j p) ∧
    ∀ c, m (get_name (dataset.get_ith_object p)) = some c →
      c.2 < K ∧ c.1 = metric (dataset.get_ith_object p) (centroids c.2) ∧
      seen_by metric dataset centroids T R i c.2 p ∧
      ∀ j, j < K → seen_by metric dataset centroids T R i j p →
        c.1 < metric (dataset.get_ith_object p) (centroids j) ∨
          (c.1 = metric (dataset.get_ith_object p) (centroids j) ∧ c.2 ≤ j)

/-- The names of the four points of the sample dataset. -/
def sample_name (o : ℚ) : String :=
  if o = 1 / 2 then "a" else if o = 3 / 2 then "b" else if o = 5 / 2 then "c" else "d"

/-- Two centroids on the line, at 1 and at 3. -/
def sample_centroids (j : Nat) : ℚ :=
  2 * j + 1

/-! ## cluster_info.cpp : update of the centroids -/

/-- The loops of `mean` for the mean vector (lines 751-764): `mean_vector` starts as `d`
zeros, and for every object of the cluster and every `j < d` the entry `j` grows by
`object->get_ith(j) / T`. The accessor `get_ith` of the class `Object` is a parameter. -/
def mean_vector {Obj : Type} (get_ith : Obj → Nat → ℚ) (d : Nat) (T : Nat) (cluster : List Obj) :
    List ℚ :=
  cluster.foldl
    (fun mean_vector object =>
      (List.range d).foldl
        (fun mean_vector j => mean_vector.set j (mean_vector.getD j 0 + get_ith object j / T))
        mean_vector)
    (List.replicate d 0)

/-- The function `mean` (lines 734-769): `none` is the null pointer returned for an empty
cluster. The mean curve (`CBTree::post_order_traversal`) and the constructor of `Object` from
a vector are parameters. -/
def mean {Obj : Type} (get_ith : Obj → Nat → ℚ) (new_Object : List ℚ → Obj)
    (post_order_traversal : List Obj → Obj) (d : Nat) (update_method : String)
    (cluster : List Obj) : Option Obj :=
  if cluster.length = 0 then none
  else if update_method = "Mean Frechet" then some (post_order_traversal cluster)
  else some (new_Object (mean_vector get_ith d cluster.length cluster))

/-- The loop of `Cluster_info::update` over the clusters (lines 700-717): the state is the
vector of centroids and `avg_deviation`; `mean_of i` is the result of `mean` for cluster `i`. -/
def update_loop {Obj : Type} (mean_of : Nat → Option Obj) (metric : Obj → Obj → ℚ) (K : Nat)
    (centroids : Nat → Obj) : (Nat → Obj) × ℚ :=
  (List.range K).foldl
    (fun st i =>
      match mean_of i with
      | none => st
      | some cluster_mean =>
        (Function.update st.1 i cluster_mean, st.2 + metric cluster_mean (st.1 i) / K))
    (centroids, 0)

/-- What a call of `Cluster_info::update` leaves behind: the centroids, the value of
`avg_deviation`, the static counter `iters` and the returned flag. -/
structure update_result (Obj : Type) where
  centroids : Nat → Obj
  avg_deviation : ℚ
  iters : Int
  converged : Bool

/-- The function `Cluster_info::update` (lines 691-732), with `e_euclid = 1`,
`e_frechet = 20` and `max_iters = 12`; the static counter `iters` is passed in and returned.
The clusters hold dataset positions, which `mean` reads through the dataset. -/
def update {Obj : Type} (get_ith : Obj → Nat → ℚ) (new_Object : List ℚ → Obj)
    (post_order_traversal : List Obj → Obj) (d : Nat) (dataset : Dataset Obj)
    (update_method : String) (metric : Obj → Obj → ℚ) (K : Nat) (clusters : Nat → List Nat)
    (centroids : Nat → Obj) (iters : Int) : update_result Obj :=
  let st := update_loop
    (fun i => mean get_ith new_Object post_order_traversal d update_method
      ((clusters i).map dataset.get_ith_object))
    metric K centroids
  { centroids := st.1
    avg_deviation := st.2
    iters := iters + 1
    converged :=
      if iters + 1 ≥ 12 then true
      else if update_method = "Mean Frechet" ∧ st.2 < 20 then true
      else if update_method = "Mean Vector" ∧ st.2 < 1 then true
      else false }

/-- What `Cluster_info::exact_lloyds` leaves behind: the clusters and centroids of the last
iteration and the static counter of `update`. -/
structure lloyds_result (Obj : Type) where
  clusters : Nat → List Nat
  centroids : Nat → Obj
  iters : Int

/-- The function `Cluster_info::exact_lloyds` (lines 279-319): the loop
`while (!converged)` of assignment and update. The first argument bounds the number of
iterations; the result is `none` when the bound is reached before `update` has returned
true. -/
def exact_lloyds {Obj : Type} (get_ith : Obj → Nat → ℚ) (new_Object : List ℚ → Obj)
    (post_order_traversal : List Obj → Obj) (d : Nat) (dataset : Dataset Obj)
    (update_method : String) (metric : Obj → Obj → ℚ) (K : Nat) :
    Nat → (Nat → Obj) → Int → Option (lloyds_result Obj)
  | 0, _, _ => none
  | fuel + 1, centroids, iters =>
    let clusters := exact_lloyds_assignment metric dataset centroids K
    let u := update get_ith new_Object post_order_traversal d dataset update_method metric K
      clusters centroids iters
    if u.converged = true then
      some { clusters := clusters, centroids := u.centroids, iters := u.iters }
    else
      exact_lloyds get_ith new_Object post_order_traversal d dataset update_method metric K
        fuel u.centroids u.iters

/-! ## cluster_info.cpp : k-means++ seeding -/

/-- The two ways a run of `K_means_init` leaves the model: an access outside a vector or the
dataset (undefined behaviour in the source), and a division by `max_Di * max_Di = 0`, after
which the float vector `P` holds no numbers. -/
inductive seeding_fault where
  | out_of_bounds
  | not_a_number
  deriving DecidableEq

/-- The variables of `K_means_init` that live across the rounds of its loop: `t`,
`centroid_index`, the centroids, and the vectors `D` and `nearest_centroid`. The fields
`chosen` and `sampled` are not in the source: `chosen` lists the dataset positions copied
into the centroids, in order, and `sampled` lists, for every round, the value of `t` at its
start and the index `r` that `binary_search` returned. -/
structure seeding_state (Obj : Type) where
  t : Nat
  centroid_index : Nat
  centroids : Nat → Obj
  D : Nat → ℚ
  nearest_centroid : Nat → Int
  chosen : List Nat
  sampled : List (Nat × Int)

/-- The variables of the loop over the items of one round (lines 194-222): `D`,
`nearest_centroid`, `max_Di`, and the positions written to `object_index[1], [2], ...`. -/
structure scan_state where
  D : Nat → ℚ
  nearest_centroid : Nat → Int
  max_Di : ℚ
  scanned : List Nat

/-- The body of the loop over the items for the item `i` (lines 199-221); `newest` is
`centroids[t-1]`. -/
def scan_step {Obj : Type} (metric : Obj → Obj → ℚ) (dataset : Dataset Obj) (FLT_MAX : ℚ)
    (initial_centroid : Nat) (t centroid_index : Nat) (newest : Obj) (s : scan_state)
    (i : Nat) : scan_state :=
  let D1 := if t = 1 ∧ i ≠ initial_centroid then Function.update s.D i FLT_MAX else s.D
  let nc1 :=
    if t = 1 ∧ i ≠ initial_centroid then Function.update s.nearest_centroid i (-1)
    else s.nearest_centroid
  if nc1 i ≠ (i : Int) then
    let dist := metric newest (dataset.get_ith_object i)
    let D2 := if dist < D1 i then Function.update D1 i dist else D1
    let nc2 := if dist < D1 i then Function.update nc1 i (centroid_index : Int) else nc1
    { D := D2
      nearest_centroid := nc2
      max_Di := if D2 i > s.max_Di then D2 i else s.max_Di
      scanned := s.scanned ++ [i] }
  else { D := D1, nearest_centroid := nc1, max_Di := s.max_Di, scanned := s.scanned }

/-- The loop over the items of one round (lines 194-222), from `max_Di = 0`. -/
def scan {Obj : Type} (metric : Obj → Obj → ℚ) (dataset : Dataset Obj) (FLT_MAX : ℚ)
    (initial_centroid : Nat) (st : seeding_state Obj) : scan_state :=
  (List.range dataset.get_num_of_Objects).foldl
    (scan_step metric dataset FLT_MAX initial_centroid st.t st.centroid_index
      (st.centroids (st.t - 1)))
    { D := st.D, nearest_centroid := st.nearest_centroid, max_Di := 0, scanned := [] }

/-- The vector `P` of partial sums (lines 226-231) for `m = num_of_Objects - t`: `P[0] = 0`
and `P[i] = P[i-1] + D[object_index[i]]^2 / max_Di^2` for `i = 1 .. m`. The entries are
written in increasing order of `i`, so the vector is built by appending. -/
def compute_P (D : Nat → ℚ) (object_index : List Nat) (max_Di : ℚ) (m : Nat) : List ℚ :=
  (List.range' 1 m).foldl
    (fun P i =>
      P ++ [P.getD (i - 1) 0 +
        (D (object_index.getD i 0) * D (object_index.getD i 0)) / (max_Di * max_Di)])
    [0]

/-- One round of the loop `while (t < K)` (lines 189-251). The vectors `P` and
`object_index` have `num_of_Objects - t + 1` entries, `object_index` starting as zeros; the
draw `x` of the round is a function of the upper end `P[num_of_Objects - t]` of its
distribution. -/
def seeding_round {Obj : Type} (metric : Obj → Obj → ℚ) (dataset : Dataset Obj) (FLT_MAX : ℚ)
    (initial_centroid : Nat) (x : Nat → ℚ → ℚ) (st : seeding_state Obj) :
    Except seeding_fault (seeding_state Obj) :=
  if dataset.get_num_of_Objects < st.t then Except.error seeding_fault.out_of_bounds
  else
    let sc := scan metric dataset FLT_MAX initial_centroid st
    if dataset.get_num_of_Objects - st.t < sc.scanned.length then
      Except.error seeding_fault.out_of_bounds
    else
      let object_index :=
        0 :: (sc.scanned ++
          List.replicate (dataset.get_num_of_Objects - st.t - sc.scanned.length) 0)
      if 1 ≤ dataset.get_num_of_Objects - st.t ∧ sc.max_Di = 0 then
        Except.error seeding_fault.not_a_number
      else
        let P := compute_P sc.D object_index sc.max_Di (dataset.get_num_of_Objects - st.t)
        match binary_search P (x st.t (P.getD (dataset.get_num_of_Objects - st.t) 0)) 0
            ((dataset.get_num_of_Objects - st.t : Nat) : Int) with
        | none => Except.error seeding_fault.out_of_bounds
        | some r =>
          match (if 0 ≤ r then object_index[r.toNat]? else none) with
          | none => Except.error seeding_fault.out_of_bounds
          | some centroid_index =>
            if centroid_index < dataset.get_num_of_Objects then
              Except.ok
                { t := st.t + 1
                  centroid_index := centroid_index
                  centroids :=
                    Function.update st.centroids st.t (dataset.get_ith_object centroid_index)
                  D := Function.update sc.D centroid_index 0
                  nearest_centroid :=
                    Function.update sc.nearest_centroid centroid_index (centroid_index : Int)
                  chosen := st.chosen ++ [centroid_index]
                  sampled := st.sampled ++ [(st.t, r)] }
            else Except.error seeding_fault.out_of_bounds

/-- The loop `while (t < K)` (lines 187-252). The first argument bounds the number of
rounds; `t` starts at 1 and grows by one per round, so a bound of `K` is never used up. -/
def seeding_loop {Obj : Type} (metric : Obj → Obj → ℚ) (dataset : Dataset Obj) (FLT_MAX : ℚ)
    (initial_centroid : Nat) (x : Nat → ℚ → ℚ) (K : Nat) :
    Nat → seeding_state Obj → Except seeding_fault (seeding_state Obj)
  | 0, st => Except.ok st
  | fuel + 1, st =>
    if st.t < K then
      match seeding_round metric dataset FLT_MAX initial_centroid x st with
      | Except.error e => Except.error e
      | Except.ok st1 => seeding_loop metric dataset FLT_MAX initial_centroid x K fuel st1
    else Except.ok st

/-- The state in which `K_means_init` enters its loop (lines 171-184): the drawn item is
centroid 0, and the vectors `D` and `nearest_centroid` are zeros except at its position. -/
def seeding_start {Obj : Type} (dataset : Dataset Obj) (centroids : Nat → Obj)
    (initial_centroid : Nat) : seeding_state Obj :=
  { t := 1
    centroid_index := initial_centroid
    centroids := Function.update centroids 0 (dataset.get_ith_object initial_centroid)
    D := Function.update (fun _ => 0) initial_centroid 0
    nearest_centroid := Function.update (fun _ => 0) initial_centroid (initial_centroid : Int)
    chosen := [initial_centroid]
    sampled := [] }

/-- The function `Cluster_info::K_means_init` (lines 162-253). The random draws are
arguments: `initial_centroid` is the index drawn first, and `x t b` is the number drawn in the
round that starts with `t` centroids from the distribution on `[0, b]`. The vectors `D` and
`nearest_centroid` start as zeros; `centroids` has `K` entries and the dataset
`num_of_Objects` items, so `K = 0` or `initial_centroid ≥ num_of_Objects` is an access out of
bounds. -/
def K_means_init {Obj : Type} (metric : Obj → Obj → ℚ) (dataset : Dataset Obj) (FLT_MAX : ℚ)
    (K : Nat) (centroids : Nat → Obj) (initial_centroid : Nat) (x : Nat → ℚ → ℚ) :
    Except seeding_fault (seeding_state Obj) :=
  if K = 0 ∨ dataset.get_num_of_Objects ≤ initial_centroid then
    Except.error seeding_fault.out_of_bounds
  else
    seeding_loop metric dataset FLT_MAX initial_centroid x K K
      (seeding_start dataset centroids initial_centroid)

/-! ### Notions used to state the properties of the seeding -/

/-- The rounds of the loop without its guard: `j` rounds from the state `st`. -/
def seeding_rounds {Obj : Type} (metric : Obj → Obj → ℚ) (dataset : Dataset Obj) (FLT_MAX : ℚ)
    (initial_centroid : Nat) (x : Nat → ℚ → ℚ) :
    Nat → seeding_state Obj → Except seeding_fault (seeding_state Obj)
  | 0, st => Except.ok st
  | j + 1, st =>
    match seeding_round metric dataset FLT_MAX initial_centroid x st with
    | Except.error e => Except.error e
    | Except.ok st1 => seeding_rounds metric dataset FLT_MAX initial_centroid x j st1

/-- The value of `nearest_centroid[i]` that the test `nearest_centroid[i] != i` of a round
reads (after the first-round initialisation of line 200). -/
def scan_nc1 {Obj : Type} (initial_centroid : Nat) (st : seeding_state Obj) (i : Nat) : Int :=
  if st.t = 1 ∧ i ≠ initial_centroid then -1 else st.nearest_centroid i

/-- The value of `D[i]` that the comparison with `dist` of a round reads. -/
def scan_D1 {Obj : Type} (FLT_MAX : ℚ) (initial_centroid : Nat) (st : seeding_state Obj)
    (i : Nat) : ℚ :=
  if st.t = 1 ∧ i ≠ initial_centroid then FLT_MAX else st.D i

/-- The value of `D[i]` after the loop over the items of a round. -/
def scan_D2 {Obj : Type} (metric : Obj → Obj → ℚ) (dataset : Dataset Obj) (FLT_MAX : ℚ)
    (initial_centroid : Nat) (st : seeding_state Obj) (i : Nat) : ℚ :=
  if scan_nc1 initial_centroid st i ≠ (i : Int) ∧
      metric (st.centroids (st.t - 1)) (dataset.get_ith_object i) <
        scan_D1 FLT_MAX initial_centroid st i then
    metric (st.centroids (st.t - 1)) (dataset.get_ith_object i)
  else scan_D1 FLT_MAX initial_centroid st i

/-- The value of `nearest_centroid[i]` after the loop over the items of a round. -/
def scan_nc2 {Obj : Type} (metric : Obj → Obj → ℚ) (dataset : Dataset Obj) (FLT_MAX : ℚ)
    (initial_centroid : Nat) (st : seeding_state Obj) (i : Nat) : Int :=
  if scan_nc1 initial_centroid st i ≠ (i : Int) ∧
      metric (st.centroids (st.t - 1)) (dataset.get_ith_object i) <
        scan_D1 FLT_MAX initial_centroid st i then
    (st.centroid_index : Int)
  else scan_nc1 initial_centroid st i

/-- The state at the end of a round (lines 246-251) in which the loop over the items left
`sc`, the search returned `r` and `object_index[r]` is `centroid_index`. -/
def seeding_next {Obj : Type} (dataset : Dataset Obj) (st : seeding_state Obj) (sc : scan_state)
    (r : Int) (centroid_index : Nat) : seeding_state Obj :=
  { t := st.t + 1
    centroid_index := centroid_index
    centroids := Function.update st.centroids st.t (dataset.get_ith_object centroid_index)
    D := Function.update sc.D centroid_index 0
    nearest_centroid := Function.update sc.nearest_centroid centroid_index (centroid_index : Int)
    chosen := st.chosen ++ [centroid_index]
    sampled := st.sampled ++ [(st.t, r)] }

/-- The centroids chosen so far are dataset items at pairwise distinct positions, and the
vector `nearest_centroid` marks exactly these positions. -/
def seeding_inv {Obj : Type} (dataset : Dataset Obj) (initial_centroid : Nat)
    (st : seeding_state Obj) : Prop :=
  1 ≤ st.t ∧ st.chosen.length = st.t ∧ st.chosen.Nodup ∧
  (∀ c ∈ st.chosen, c < dataset.get_num_of_Objects) ∧
  st.centroid_index ∈ st.chosen ∧
  (∀ k, k < st.t → st.centroids k = dataset.get_ith_object (st.chosen.getD k 0)) ∧
  (∀ c ∈ st.chosen, st.nearest_centroid c = (c : Int)) ∧
  (st.t = 1 → st.chosen = [initial_centroid]) ∧
  (st.t ≠ 1 → ∀ i, i < dataset.get_num_of_Objects → i ∉ st.chosen →
    st.nearest_centroid i ≠ (i : Int)) ∧
  (∀ e ∈ st.sampled, 1 ≤ e.2 ∧ e.2 ≤ (dataset.get_num_of_Objects : Int) - e.1) ∧
  st.sampled.length + 1 = st.t

/-- A dataset with one point of the line. -/
def single_dataset : Dataset ℚ :=
  { get_num_of_Objects := 1, get_ith_object := fun _ => 1 / 2 }

/-- The draw that takes the middle of the range `[0, b]` in every round. -/
def half_draw (_t : Nat) (b : ℚ) : ℚ :=
  b / 2

/-! ## hypercube_class.cpp : brute-force search -/

/-- The function `hypercube::exact_nearest_neighbors` (lines 285-322): every dataset position
is offered to a queue of at most `N` pairs, and the queue is drained from the back of the
result vector, so the result is the queue from smallest to largest. With `N ≤ 0` the source
calls `top()` on an empty queue, which is undefined; the model leaves the queue as it is
there. -/
def exact_nearest_neighbors {Obj : Type} (addr : Nat → Nat) (dataset : Dataset Obj)
    (query_object : Obj) (N : Int) (metric : Obj → Obj → ℚ) : List (ℚ × Nat) :=
  ((List.range dataset.get_num_of_Objects).foldl
    (fun max_heap i =>
      let dist := metric query_object (dataset.get_ith_object i)
      if (max_heap.length : Int) < N then heap_push addr (dist, i) max_heap
      else
        match max_heap with
        | [] => []
        | top :: rest =>
          if dist < top.1 then heap_push addr (dist, i) rest else top :: rest)
    []).reverse

/-- The value `AF` that `hypercube::execute` computes for one `index` of its inner loop
(lines 78-117): `dist_cube` and `dist_true` stay 0 when the vector has no entry `index`, and
`AF` is only computed when the approximate vector has one (`none` otherwise). The quotient
of the source is a `double`; it is a rational only for `dist_true ≠ 0`. -/
def execute_AF (appr_nearest exact_nearest : List (ℚ × Nat)) (index : Nat) : Option ℚ :=
  let dist_cube := if appr_nearest.length ≥ index + 1 then (appr_nearest.getD index (0, 0)).1 else 0
  let dist_true :=
    if exact_nearest.length ≥ index + 1 then (exact_nearest.getD index (0, 0)).1 else 0
  if appr_nearest.length ≥ index + 1 then some (dist_cube / dist_true) else none

/-! ## cluster_info.cpp : silhouette -/

/-- The division of a `double` by an `int` where the source has no guard. A zero divisor
gives an infinity or a NaN in the source, which is no rational: the result is `none`. -/
def double_div (x : ℚ) (y : Int) : Option ℚ :=
  if y = 0 then none else some (x / (y : ℚ))

/-- The value `s_i` of member number `j` of cluster `i` in `Cluster_info::silhouette`
(lines 791-832): `a_i` is the mean distance to the other members of the cluster, `b_i` the
mean distance to the members of the cluster whose centroid is nearest among the other
centroids (cluster 0 when no distance is below `DBL_MAX`), and
`s_i = (b_i - a_i) / max(a_i, b_i)`, each division under the guard of the source. -/
def silhouette_s_i {Obj : Type} (metric : Obj → Obj → ℚ) (dataset : Dataset Obj) (DBL_MAX : ℚ)
    (K : Nat) (clusters : Nat → List Nat) (centroids : Nat → Obj) (i j : Nat) : ℚ :=
  let cl_size := (clusters i).length
  let obj_p := dataset.get_ith_object ((clusters i).getD j 0)
  let a_sum := (List.range cl_size).foldl
    (fun a_i k =>
      if j = k then a_i
      else a_i + metric obj_p (dataset.get_ith_object ((clusters i).getD k 0)))
    0
  let a_i := if cl_size ≠ 1 then a_sum / (((cl_size : Int) - 1 : Int) : ℚ) else a_sum
  let nearest := (List.range K).foldl
    (fun (st : ℚ × Nat) k =>
      if k = i then st
      else
        let dist := metric obj_p (centroids k)
        if dist < st.1 then (dist, k) else st)
    (DBL_MAX, 0)
  let cluster_index := nearest.2
  let b_cl_size := (clusters cluster_index).length
  let b_sum := (List.range b_cl_size).foldl
    (fun b_i k => b_i + metric obj_p (dataset.get_ith_object ((clusters cluster_index).getD k 0)))
    0
  let b_i := if b_cl_size ≠ 0 then b_sum / (b_cl_size : ℚ) else b_sum
  let t := if a_i > b_i then a_i else b_i
  if t ≠ 0 then (b_i - a_i) / t else 0

/-- The function `Cluster_info::silhouette` (lines 773-848): one entry per cluster,
`cl_eval / (cl_size - 1)`, then the entry `s_total / total_size`. The state of the loop over
the clusters is the vector built so far, `s_total` and `total_size`; the state of the loop
over the members is `cl_eval` and `s_total`. -/
def silhouette {Obj : Type} (metric : Obj → Obj → ℚ) (dataset : Dataset Obj) (DBL_MAX : ℚ)
    (K : Nat) (clusters : Nat → List Nat) (centroids : Nat → Obj) : List (Option ℚ) :=
  let st := (List.range K).foldl
    (fun (st : List (Option ℚ) × ℚ × Int) i =>
      let cl_size := (clusters i).length
      let inner := (List.range cl_size).foldl
        (fun (acc : ℚ × ℚ) j =>
          let s_i := silhouette_s_i metric dataset DBL_MAX K clusters centroids i j
          (acc.1 + s_i, acc.2 + s_i))
        (0, st.2.1)
      (st.1 ++ [double_div inner.1 ((cl_size : Int) - 1)], inner.2, st.2.2 + (cl_size : Int)))
    ([], 0, 0)
  st.1 ++ [double_div st.2.1 st.2.2]

/-! ## cluster_info.cpp : the static counter of `update` -/

/-- The object and the arguments of one call of `Cluster_info::update`: the update method, the
metric, and the fields `K`, `clusters` and `centroids` of the object it is called on. -/
structure update_call (Obj : Type) where
  dataset : Dataset Obj
  update_method : String
  metric : Obj → Obj → ℚ
  K : Nat
  clusters : Nat → List Nat
  centroids : Nat → Obj

/-- A sequence of calls of `Cluster_info::update` in one run of the program: the static
counter `iters` (line 697) starts at 0 and every call reads and writes it. The result is
what each call leaves behind, in order, and the counter after the last call. -/
def update_sequence {Obj : Type} (get_ith : Obj → Nat → ℚ) (new_Object : List ℚ → Obj)
    (post_order_traversal : List Obj → Obj) (d : Nat) (calls : List (update_call Obj)) :
    List (update_result Obj) × Int :=
  calls.foldl
    (fun st c =>
      let u := update get_ith new_Object post_order_traversal d c.dataset c.update_method
        c.metric c.K c.clusters c.centroids st.2
      (st.1 ++ [u], u.iters))
    ([], 0)

/-! ## Notions used to state the properties of the claim loops and of the seeding -/

/-- The claim loops on a sequence of returned pairs, each with the index of the centroid whose
query returned it: the body `claim` runs for one pair after the other. -/
def claim_all {Obj : Type} (get_name : Obj → String) (dataset : Dataset Obj)
    (events : List (Nat × ℚ × Nat)) (st : (String → Option (ℚ × Nat)) × Bool) :
    (String → Option (ℚ × Nat)) × Bool :=
  events.foldl (fun st e => claim get_name dataset e.1 st e.2) st

/-- The pairs one pass of the `while(1)` loop processes, in order: the results of the queries
of the centroids `0 .. K-1`, each pair with the index of its centroid. -/
def pass_events (range_query : Nat → Nat → Int → Int → List (ℚ × Nat)) (K : Nat) (pass : Nat)
    (R R2 : Int) : List (Nat × ℚ × Nat) :=
  (List.range K).flatMap (fun i => (range_query pass i R R2).map (fun a => (i, a)))

/-- The vector `P` of a round of `K_means_init` that starts in the state `st` (lines
194-231). -/
def round_P {Obj : Type} (metric : Obj → Obj → ℚ) (dataset : Dataset Obj) (FLT_MAX : ℚ)
    (initial_centroid : Nat) (st : seeding_state Obj) : List ℚ :=
  compute_P (scan metric dataset FLT_MAX initial_centroid st).D
    (0 :: ((scan metric dataset FLT_MAX initial_centroid st).scanned ++
      List.replicate
        (dataset.get_num_of_Objects - st.t -
          (scan metric dataset FLT_MAX initial_centroid st).scanned.length) 0))
    (scan metric dataset FLT_MAX initial_centroid st).max_Di
    (dataset.get_num_of_Objects - st.t)

/-- The vector `object_index` of a round of `K_means_init` that starts in the state `st`
(lines 192-226). -/
def round_object_index {Obj : Type} (metric : Obj → Obj → ℚ) (dataset : Dataset Obj)
    (FLT_MAX : ℚ) (initial_centroid : Nat) (st : seeding_state Obj) : List Nat :=
  0 :: ((scan metric dataset FLT_MAX initial_centroid st).scanned ++
    List.replicate
      (dataset.get_num_of_Objects - st.t -
        (scan metric dataset FLT_MAX initial_centroid st).scanned.length) 0)

/-- The entry `(D, nearest)` of an item is the bookkeeping of the first `s` centroids of the
state: `D` is the smallest distance from one of them to the item, and `nearest` is the
dataset position of the first of them at that distance. -/
def nearest_so_far {Obj : Type} (metric : Obj → Obj → ℚ) (dataset : Dataset Obj)
    (st : seeding_state Obj) (s i : Nat) (D : ℚ) (nearest : Int) : Prop :=
  ∃ k, k < s ∧ D = metric (st.centroids k) (dataset.get_ith_object i) ∧
    nearest = ((st.chosen.getD k 0 : Nat) : Int) ∧
    (∀ k', k' < s → D ≤ metric (st.centroids k') (dataset.get_ith_object i)) ∧
    ∀ k', k' < k → D < metric (st.centroids k') (dataset.get_ith_object i)

/-- At the start of a round, `centroid_index` is the position of the newest centroid, and from
the second round on the vectors `D` and `nearest_centroid` are the bookkeeping of all the
centroids but the newest, for every item that is no centroid. -/
def bookkeeping_inv {Obj : Type} (metric : Obj → Obj → ℚ) (dataset : Dataset Obj)
    (st : seeding_state Obj) : Prop :=
  st.centroid_index = st.chosen.getD (st.t - 1) 0 ∧
  (st.t ≠ 1 → ∀ i, i < dataset.get_num_of_Objects → i ∉ st.chosen →
    nearest_so_far metric dataset st (st.t - 1) i (st.D i) (st.nearest_centroid i))

/-- Two centroids of the line at distance 3 (and further ones at multiples of 3). -/
def sample_far_centroids (j : Nat) : ℚ :=
  3 * (j : ℚ)

/-- Three items of the line at the same point. -/
def identical_dataset : Dataset ℚ :=
  { get_num_of_Objects := 3, get_ith_object := fun _ => 1 / 2 }

/-! # Verified properties -/

/-! ## Weighted search -/

theorem getP_of_range (P : List ℚ) (n : ℕ) (hlen : P.length = n + 1) (i : Int)
    (h0 : 0 ≤ i) (hn : i ≤ n) : getP P i = some (P.getD i.toNat 0) := by
  have hi : i.toNat < P.length := by omega
  simp [getP, h0, List.getD, List.getElem?_eq_getElem hi]

theorem binary_search_window (P : List ℚ) (n : ℕ) (x : ℚ) (hlen : P.length = n + 1) :
    ∀ (k : ℕ) (lo hi : Int), (hi - lo + 1).toNat ≤ k → 0 ≤ lo → hi ≤ n → max lo 1 ≤ hi →
      P.getD (max lo 1 - 1).toNat 0 < x → x ≤ P.getD hi.toNat 0 →
      ∃ r : Int, binary_search P x lo hi = some r ∧ max lo 1 ≤ r ∧ r ≤ hi ∧
        P.getD (r - 1).toNat 0 < x ∧ x ≤ P.getD r.toNat 0 := by
  intro k
  induction k with
  | zero =>
    intro lo hi hk hlo hhi hw _ _
    exfalso
    have : 1 ≤ max lo 1 := le_max_right _ _
    have : lo ≤ max lo 1 := le_max_left _ _
    omega
  | succ k ih =>
    intro lo hi hk hlo hhi hw hlow hup
    have h1 : 1 ≤ max lo 1 := le_max_right _ _
    have h2 : lo ≤ max lo 1 := le_max_left _ _
    rw [binary_search]
    have hge : hi ≥ lo := by omega
    simp only [hge, if_true]
    by_cases hr : lo + (hi - lo) / 2 = 0
    · simp only [hr, if_true]
      have hlo0 : lo = 0 := by omega
      have hhi1 : hi = 1 := by
        subst hlo0
        have : max (0:Int) 1 = 1 := by simp
        omega
      subst hlo0; subst hhi1
      refine ⟨1, rfl, ?_, le_refl _, ?_, ?_⟩
      · simp
      · simpa using hlow
      · simpa using hup
    · simp only [hr, if_false]
      set r := lo + (hi - lo) / 2 with hrdef
      have hr0 : 0 ≤ r := by omega
      have hr1 : 1 ≤ r := by omega
      have hrhi : r ≤ hi := by omega
      have hrlo : lo ≤ r := by omega
      rw [getP_of_range P n hlen (r - 1) (by omega) (by omega),
        getP_of_range P n hlen r hr0 (by omega)]
      simp only
      by_cases hfound : P.getD (r - 1).toNat 0 < x ∧ x ≤ P.getD r.toNat 0
      · rw [if_pos hfound]
        refine ⟨r, rfl, ?_, hrhi, hfound.1, hfound.2⟩
        exact max_le hrlo hr1
      · rw [if_neg hfound]
        by_cases hgt : x > P.getD r.toNat 0
        · rw [if_pos hgt]
          have hne : r ≠ hi := by
            intro h; rw [h] at hgt; exact absurd hup (not_le.mpr hgt)
          have hmax : max (r + 1) 1 = r + 1 := max_eq_left (by omega)
          obtain ⟨r', hr', hb1, hb2, hb3, hb4⟩ :=
            ih (r + 1) hi (by omega) (by omega) hhi (by rw [hmax]; omega)
              (by rw [hmax]; simpa using hgt) hup
          refine ⟨r', hr', ?_, hb2, hb3, hb4⟩
          rw [hmax] at hb1
          exact max_le (by omega) (by omega)
        · rw [if_neg hgt]
          have hle : x ≤ P.getD (r - 1).toNat 0 := by
            by_contra hc
            exact hfound ⟨not_le.mp hc, not_lt.mp hgt⟩
          rw [if_pos hle]
          have hne : max lo 1 ≠ r := by
            intro h; rw [h] at hlow; exact absurd hle (not_le.mpr hlow)
          have hmr : max lo 1 ≤ r := max_le hrlo hr1
          obtain ⟨r', hr', hb1, hb2, hb3, hb4⟩ :=
            ih lo (r - 1) (by omega) hlo (by omega) (by omega) hlow hle
          exact ⟨r', hr', hb1, by omega, hb3, hb4⟩

/-- C1. Weighted search: for a vector `P[0..n]` with `n ≥ 1`, `P[0] = 0`, `P` non-decreasing and
`0 < x ≤ P[n]`, the call `binary_search(P, x, 0, n)` returns an index `r` in `1..n` with
`P[r-1] < x ≤ P[r]`; it is the smallest index with `P[r] ≥ x` and the only index of `1..n` with
`P[r-1] < x ≤ P[r]`. -/
theorem binary_search_smallest_index (P : List ℚ) (n : ℕ) (x : ℚ)
    (hlen : P.length = n + 1) (hn : 1 ≤ n) (hP0 : P.getD 0 0 = 0)
    (hmono : ∀ i j : ℕ, i ≤ j → j ≤ n → P.getD i 0 ≤ P.getD j 0)
    (hx0 : 0 < x) (hxn : x ≤ P.getD n 0) :
    ∃ r : ℕ, binary_search P x 0 n = some (r : Int) ∧ 1 ≤ r ∧ r ≤ n ∧
      P.getD (r - 1) 0 < x ∧ x ≤ P.getD r 0 ∧
      (∀ k : ℕ, k ≤ n → x ≤ P.getD k 0 → r ≤ k) ∧
      (∀ r' : ℕ, 1 ≤ r' → r' ≤ n → P.getD (r' - 1) 0 < x → x ≤ P.getD r' 0 → r' = r) := by
  obtain ⟨r, hr, h1, h2, h3, h4⟩ :=
    binary_search_window P n x hlen (n + 1) 0 n (by omega) (le_refl _) (le_refl _)
      (by simp; omega)
      (by
        have e : (max (0 : Int) 1 - 1).toNat = 0 := by simp
        rw [e, hP0]; exact hx0)
      (by
        have e : ((n : Int)).toNat = n := by simp
        rw [e]; exact hxn)
  have hr1 : 1 ≤ r := le_trans (le_max_right _ _) h1
  obtain ⟨m, rfl⟩ := Int.eq_ofNat_of_zero_le (by omega : 0 ≤ r)
  have hm1 : 1 ≤ m := by omega
  have hmn : m ≤ n := by omega
  have e1 : ((m : Int) - 1).toNat = m - 1 := by omega
  have e2 : (m : Int).toNat = m := by omega
  rw [e1] at h3
  rw [e2] at h4
  have hsmall : ∀ k : ℕ, k ≤ n → x ≤ P.getD k 0 → m ≤ k := by
    intro k hk hxk
    by_contra hc
    have hle : P.getD k 0 ≤ P.getD (m - 1) 0 := hmono k (m - 1) (by omega) (by omega)
    exact absurd (lt_of_le_of_lt (le_trans hxk hle) h3) (lt_irrefl _)
  refine ⟨m, hr, hm1, hmn, h3, h4, hsmall, ?_⟩
  intro r' hr1' hrn' ha hb
  have hle1 : m ≤ r' := hsmall r' hrn' hb
  by_contra hne
  have hlt : m ≤ r' - 1 := by omega
  have hle : P.getD m 0 ≤ P.getD (r' - 1) 0 := hmono m (r' - 1) hlt (by omega)
  exact absurd (lt_of_le_of_lt (le_trans h4 hle) ha) (lt_irrefl _)

/-- Witness of C1 on the vector of the specification: `P = [0, 1, 3, 6]` gives 2 for `x = 2.5`,
3 for `x = 6` and 1 for `x = 0.5`. -/
theorem binary_search_smallest_index_witness :
    binary_search [0, 1, 3, 6] (5 / 2) 0 3 = some 2 ∧
    binary_search [0, 1, 3, 6] 6 0 3 = some 3 ∧
    binary_search [0, 1, 3, 6] (1 / 2) 0 3 = some 1 := by
  have hmono : ∀ i j : ℕ, i ≤ j → j ≤ 3 →
      ([0, 1, 3, 6] : List ℚ).getD i 0 ≤ ([0, 1, 3, 6] : List ℚ).getD j 0 := by
    intro i j hij hj
    interval_cases j <;> interval_cases i <;> norm_num
  refine ⟨?_, ?_, ?_⟩
  · obtain ⟨r, hr, _, _, _, _, _, huniq⟩ :=
      binary_search_smallest_index [0, 1, 3, 6] 3 (5 / 2) rfl (by norm_num) rfl hmono
        (by norm_num) (by norm_num)
    have : 2 = r := huniq 2 (by norm_num) (by norm_num) (by norm_num) (by norm_num)
    subst this
    exact hr
  · obtain ⟨r, hr, _, _, _, _, _, huniq⟩ :=
      binary_search_smallest_index [0, 1, 3, 6] 3 6 rfl (by norm_num) rfl hmono
        (by norm_num) (by norm_num)
    have : 3 = r := huniq 3 (by norm_num) (by norm_num) (by norm_num) (by norm_num)
    subst this
    exact hr
  · obtain ⟨r, hr, _, _, _, _, _, huniq⟩ :=
      binary_search_smallest_index [0, 1, 3, 6] 3 (1 / 2) rfl (by norm_num) rfl hmono
        (by norm_num) (by norm_num)
    have : 1 = r := huniq 1 (by norm_num) (by norm_num) (by norm_num) (by norm_num)
    subst this
    exact hr

/-! ## Exact Lloyd assignment -/

theorem foldl_push_back (idx : Nat → Nat) (l : List Nat) (c0 : Nat → List Nat) :
    l.foldl (fun clusters i => push_back clusters (idx i) i) c0 =
      fun j => c0 j ++ l.filter (fun i => idx i = j) := by
  induction l generalizing c0 with
  | nil => funext j; simp
  | cons a t ih =>
    rw [List.foldl_cons, ih]
    funext j
    by_cases h : idx a = j
    · subst h
      simp [push_back, List.filter_cons]
    · have h' : ¬ j = idx a := fun e => h e.symm
      simp [push_back, List.filter_cons, h, h']

theorem sum_filter_length (K : Nat) (idx : Nat → Nat) (l : List Nat)
    (h : ∀ i ∈ l, idx i < K) :
    (∑ j in Finset.range K, (l.filter (fun i => idx i = j)).length) = l.length := by
  induction l with
  | nil => simp
  | cons a t ih =>
    have ha : idx a < K := h a (List.mem_cons_self _ _)
    have ht : ∀ i ∈ t, idx i < K := fun i hi => h i (List.mem_cons_of_mem _ hi)
    have e : ∀ j, ((a :: t).filter (fun i => idx i = j)).length =
        (if idx a = j then 1 else 0) + (t.filter (fun i => idx i = j)).length := by
      intro j
      by_cases hj : idx a = j
      · simp [List.filter_cons, hj]; omega
      · simp [List.filter_cons, hj]
    simp only [e]
    rw [Finset.sum_add_distrib, ih ht, Finset.sum_ite_eq]
    simp [ha]; omega

theorem is_partition_of_filter (n K : Nat) (idx : Nat → Nat) (h : ∀ i, i < n → idx i < K) :
    is_partition n K (fun j => (List.range n).filter (fun i => idx i = j)) := by
  refine ⟨?_, ?_, ?_⟩
  · intro i hi
    refine ⟨idx i, h i hi, ?_, ?_⟩
    · have hnd : ((List.range n).filter (fun i' => idx i' = idx i)).Nodup :=
        (List.nodup_range n).filter _
      have hmem : i ∈ (List.range n).filter (fun i' => idx i' = idx i) := by
        simp [List.mem_filter, hi]
      exact List.count_eq_one_of_mem hnd hmem
    · intro j' hj' hmem
      simp only [List.mem_filter, List.mem_range, decide_eq_true_eq] at hmem
      exact hj' hmem.2.symm
  · intro j i hmem
    simp only [List.mem_filter, List.mem_range, decide_eq_true_eq] at hmem
    exact ⟨hmem.1, hmem.2 ▸ h i hmem.1⟩
  · have := sum_filter_length K idx (List.range n) (fun i hi => h i (List.mem_range.mp hi))
    simpa using this

theorem nearest_inv_foldl {Obj : Type} (metric : Obj → Obj → ℚ) (centroids : Nat → Obj)
    (object : Obj) (len : Nat) :
    ∀ (s : Nat) (st : ℚ × Nat), nearest_inv metric centroids object s st →
      nearest_inv metric centroids object (s + len)
        ((List.range' s len).foldl
          (fun (st : ℚ × Nat) (j : Nat) =>
            let dist := metric object (centroids j)
            if dist < st.1 then (dist, j) else st) st) := by
  induction len with
  | zero => intro s st h; simpa using h
  | succ len ih =>
    intro s st h
    rw [List.range'_succ, List.foldl_cons]
    have e : s + (len + 1) = (s + 1) + len := by omega
    rw [e]
    apply ih
    obtain ⟨h1, h2, h3, h4⟩ := h
    by_cases hlt : metric object (centroids s) < st.1
    · simp only [hlt, if_true]
      refine ⟨by simp, rfl, ?_, ?_⟩
      · intro j hj
        by_cases hjs : j = s
        · subst hjs; exact le_refl _
        · exact le_of_lt (lt_of_lt_of_le hlt (h3 j (by omega)))
      · intro j hj
        exact lt_of_lt_of_le hlt (h3 j hj)
    · simp only [hlt, if_false]
      refine ⟨by omega, h2, ?_, h4⟩
      intro j hj
      by_cases hjs : j = s
      · subst hjs; exact not_lt.mp hlt
      · exact h3 j (by omega)

theorem nearest_centroid_spec {Obj : Type} (metric : Obj → Obj → ℚ) (centroids : Nat → Obj)
    (K : Nat) (hK : 1 ≤ K) (object : Obj) :
    (nearest_centroid metric centroids K object).2 < K ∧
    (nearest_centroid metric centroids K object).1 =
      metric object (centroids (nearest_centroid metric centroids K object).2) ∧
    (∀ j, j < K → (nearest_centroid metric centroids K object).1 ≤ metric object (centroids j)) ∧
    (∀ j, j < (nearest_centroid metric centroids K object).2 →
      (nearest_centroid metric centroids K object).1 < metric object (centroids j)) := by
  have h0 : nearest_inv metric centroids object 1 (metric object (centroids 0), 0) := by
    refine ⟨by simp, rfl, ?_, ?_⟩
    · intro j hj
      have : j = 0 := by omega
      subst this; exact le_refl _
    · intro j hj; simp at hj
  have h := nearest_inv_foldl metric centroids object (K - 1) 1 _ h0
  have e : 1 + (K - 1) = K := by omega
  rw [e] at h
  exact h

theorem exact_lloyds_assignment_eq {Obj : Type} (metric : Obj → Obj → ℚ) (dataset : Dataset Obj)
    (centroids : Nat → Obj) (K : Nat) :
    exact_lloyds_assignment metric dataset centroids K =
      fun j => (List.range dataset.get_num_of_Objects).filter
        (fun i => (nearest_centroid metric centroids K (dataset.get_ith_object i)).2 = j) := by
  unfold exact_lloyds_assignment
  rw [foldl_push_back (fun i => (nearest_centroid metric centroids K (dataset.get_ith_object i)).2)]
  funext j
  simp

theorem exact_lloyds_is_partition {Obj : Type} (metric : Obj → Obj → ℚ) (dataset : Dataset Obj)
    (centroids : Nat → Obj) (K : Nat) (hK : 1 ≤ K) :
    is_partition dataset.get_num_of_Objects K
      (exact_lloyds_assignment metric dataset centroids K) := by
  rw [exact_lloyds_assignment_eq]
  exact is_partition_of_filter _ K _
    (fun i _ => (nearest_centroid_spec metric centroids K hK _).1)

/-- C2. Exact Lloyd assignment: for every dataset, every `K ≥ 1` centroids and every metric,
each dataset position `i` is placed (once, and in no other cluster) in the cluster of index
`j*`, where `j*` is below `K`, minimises `metric(item_i, centroid_j)` over `j` in `0..K-1`,
and every smaller index has a strictly larger distance (ties go to the lowest index). -/
theorem exact_lloyds_assigns_first_argmin {Obj : Type} (metric : Obj → Obj → ℚ)
    (dataset : Dataset Obj) (centroids : Nat → Obj) (K : Nat) (hK : 1 ≤ K) (i : Nat)
    (hi : i < dataset.get_num_of_Objects) :
    ∃ jstar, jstar < K ∧
      (exact_lloyds_assignment metric dataset centroids K jstar).count i = 1 ∧
      (∀ j, j ≠ jstar → i ∉ exact_lloyds_assignment metric dataset centroids K j) ∧
      (∀ j, j < K → metric (dataset.get_ith_object i) (centroids jstar) ≤
        metric (dataset.get_ith_object i) (centroids j)) ∧
      (∀ j, j < jstar → metric (dataset.get_ith_object i) (centroids jstar) <
        metric (dataset.get_ith_object i) (centroids j)) := by
  obtain ⟨h1, h2, h3, h4⟩ := nearest_centroid_spec metric centroids K hK (dataset.get_ith_object i)
  refine ⟨(nearest_centroid metric centroids K (dataset.get_ith_object i)).2, h1, ?_, ?_, ?_, ?_⟩
  · rw [exact_lloyds_assignment_eq]
    have hnd : ((List.range dataset.get_num_of_Objects).filter
        (fun i' => (nearest_centroid metric centroids K (dataset.get_ith_object i')).2 =
          (nearest_centroid metric centroids K (dataset.get_ith_object i)).2)).Nodup :=
      (List.nodup_range _).filter _
    exact List.count_eq_one_of_mem hnd (by simp [List.mem_filter, hi])
  · intro j hj hmem
    rw [exact_lloyds_assignment_eq] at hmem
    simp only [List.mem_filter, List.mem_range, decide_eq_true_eq] at hmem
    exact hj hmem.2.symm
  · intro j hj
    rw [← h2]; exact h3 j hj
  · intro j hj
    rw [← h2]; exact h4 j hj

/-- Witness of C2: four points on a line and three centroids; the point 3/2 is at distance 1/2
from both centroid 1 and centroid 2 and is placed with the lower index. -/
theorem exact_lloyds_assigns_first_argmin_witness :
    ∃ jstar, jstar < 3 ∧
      (exact_lloyds_assignment (fun a b : ℚ => |a - b|)
        { get_num_of_Objects := 4, get_ith_object := fun i => [1 / 2, 3 / 2, 5 / 2, 7 / 2].getD i 0 }
        (fun j => [4, 1, 2].getD j 0) 3 jstar).count 1 = 1 ∧
      (∀ j, j ≠ jstar → 1 ∉ exact_lloyds_assignment (fun a b : ℚ => |a - b|)
        { get_num_of_Objects := 4, get_ith_object := fun i => [1 / 2, 3 / 2, 5 / 2, 7 / 2].getD i 0 }
        (fun j => [4, 1, 2].getD j 0) 3 j) ∧
      (∀ j, j < 3 → |(3 / 2 : ℚ) - [4, 1, 2].getD jstar 0| ≤ |(3 / 2 : ℚ) - [4, 1, 2].getD j 0|) ∧
      (∀ j, j < jstar → |(3 / 2 : ℚ) - [4, 1, 2].getD jstar 0| < |(3 / 2 : ℚ) - [4, 1, 2].getD j 0|) :=
  exact_lloyds_assigns_first_argmin (fun a b : ℚ => |a - b|)
    { get_num_of_Objects := 4, get_ith_object := fun i => [1 / 2, 3 / 2, 5 / 2, 7 / 2].getD i 0 }
    (fun j => [4, 1, 2].getD j 0) 3 (by decide) 1 (by decide)

/-! ## The probe of the hypercube: structure of a run -/

section probe_engine

variable {Obj : Type} (addr : Nat → Nat) (cube : hypercube Obj) (dataset : Dataset Obj)
  (Type_ : search_type) (R : Int) (query_object : Obj) (metric : Obj → Obj → ℚ) (N : Int)
  (R2 : Int)

theorem examine_fields (s : probe_state) (obj_p : Nat) :
    (examine addr dataset Type_ R query_object metric N R2 s obj_p).M_rem = s.M_rem - 1 ∧
    (examine addr dataset Type_ R query_object metric N R2 s obj_p).probes_rem = s.probes_rem ∧
    (examine addr dataset Type_ R query_object metric N R2 s obj_p).max_heap =
      accumulate addr dataset Type_ R query_object metric N R2 s.max_heap obj_p ∧
    buckets (examine addr dataset Type_ R query_object metric N R2 s obj_p) = buckets s ∧
    items (examine addr dataset Type_ R query_object metric N R2 s obj_p) = items s ++ [obj_p] := by
  cases Type_ <;> simp [examine, accumulate, buckets, items]

theorem third_stage_loop_spec (b : List Nat) :
    ∀ s : probe_state, ∃ t, t ≤ b.length ∧
      items (third_stage_loop addr dataset Type_ R query_object metric N R2 b s) =
        items s ++ b.take t ∧
      buckets (third_stage_loop addr dataset Type_ R query_object metric N R2 b s) = buckets s ∧
      (third_stage_loop addr dataset Type_ R query_object metric N R2 b s).max_heap =
        (b.take t).foldl (accumulate addr dataset Type_ R query_object metric N R2) s.max_heap ∧
      (third_stage_loop addr dataset Type_ R query_object metric N R2 b s).M_rem = s.M_rem - t ∧
      (third_stage_loop addr dataset Type_ R query_object metric N R2 b s).probes_rem =
        s.probes_rem ∧
      ((third_stage_loop addr dataset Type_ R query_object metric N R2 b s).M_rem ≠ 0 →
        t = b.length) := by
  induction b with
  | nil =>
    intro s
    exact ⟨0, by simp [third_stage_loop]⟩
  | cons a r ih =>
    intro s
    obtain ⟨e1, e2, e3, e4, e5⟩ :=
      examine_fields addr dataset Type_ R query_object metric N R2 s a
    by_cases h0 : (examine addr dataset Type_ R query_object metric N R2 s a).M_rem = 0
    · refine ⟨1, by simp, ?_⟩
      simp only [third_stage_loop, h0, if_true]
      refine ⟨by simpa using e5, e4, by simpa using e3, ?_, e2, ?_⟩
      · rw [e1] at h0; push_cast; omega
      · intro hne; exact absurd rfl hne
    · obtain ⟨t, ht, i1, i2, i3, i4, i5, i6⟩ :=
        ih (examine addr dataset Type_ R query_object metric N R2 s a)
      refine ⟨t + 1, by simp; omega, ?_⟩
      simp only [third_stage_loop, h0, if_false]
      refine ⟨?_, ?_, ?_, ?_, ?_, ?_⟩
      · rw [i1, e5]; simp
      · rw [i2, e4]
      · rw [i3, e3]; simp
      · rw [i4, e1]; push_cast; omega
      · rw [i5, e2]
      · intro hne
        have := i6 hne
        simp; omega

theorem open_bucket_spec (v : Nat) (s : probe_state) :
    ∃ t, t ≤ (cube.cube_array v).length ∧
      items (open_bucket addr cube dataset Type_ R query_object metric N R2 v s) =
        items s ++ (cube.cube_array v).take t ∧
      buckets (open_bucket addr cube dataset Type_ R query_object metric N R2 v s) =
        buckets s ++ [v] ∧
      (open_bucket addr cube dataset Type_ R query_object metric N R2 v s).max_heap =
        ((cube.cube_array v).take t).foldl
          (accumulate addr dataset Type_ R query_object metric N R2) s.max_heap ∧
      (open_bucket addr cube dataset Type_ R query_object metric N R2 v s).M_rem = s.M_rem - t ∧
      (open_bucket addr cube dataset Type_ R query_object metric N R2 v s).probes_rem =
        s.probes_rem - 1 ∧
      ((open_bucket addr cube dataset Type_ R query_object metric N R2 v s).M_rem ≠ 0 →
        t = (cube.cube_array v).length) := by
  obtain ⟨t, ht, i1, i2, i3, i4, i5, i6⟩ :=
    third_stage_loop_spec addr dataset Type_ R query_object metric N R2 (cube.cube_array v)
      { s with opened := s.opened ++ [(v, s.M_rem, s.probes_rem)] }
  refine ⟨t, ht, ?_, ?_, ?_, ?_, ?_, ?_⟩
  · simpa [open_bucket, vertex_visiting_third_stage, items] using i1
  · simpa [open_bucket, vertex_visiting_third_stage, buckets] using i2
  · simpa [open_bucket, vertex_visiting_third_stage] using i3
  · simpa [open_bucket, vertex_visiting_third_stage] using i4
  · simp only [open_bucket, vertex_visiting_third_stage]
    rw [i5]
  · simpa [open_bucket, vertex_visiting_third_stage] using i6

theorem visit_all_append (l1 l2 : List Nat) (hne : l1 ≠ []) :
    ∀ s : probe_state,
      visit_all addr cube dataset Type_ R query_object metric N R2 (l1 ++ l2) s =
        if stopped (visit_all addr cube dataset Type_ R query_object metric N R2 l1 s) then
          visit_all addr cube dataset Type_ R query_object metric N R2 l1 s
        else
          visit_all addr cube dataset Type_ R query_object metric N R2 l2
            (visit_all addr cube dataset Type_ R query_object metric N R2 l1 s) := by
  induction l1 with
  | nil => exact absurd rfl hne
  | cons v t ih =>
    intro s
    by_cases hs : stopped (open_bucket addr cube dataset Type_ R query_object metric N R2 v s)
    · simp [visit_all, hs]
    · cases t with
      | nil => simp [visit_all, hs]
      | cons w t' =>
        have := ih (by simp) (open_bucket addr cube dataset Type_ R query_object metric N R2 v s)
        simp only [List.cons_append, visit_all, hs, if_false] at this ⊢
        exact this

theorem shell_ne_nil : ∀ (n v cb h : Nat), cb + h = n → (h = 0 ∨ 2 ^ h ≤ 2 * cb) →
    shell v cb h ≠ [] := by
  intro n
  induction n using Nat.strong_induction_on with
  | _ n ih =>
    intro v cb h hn hc
    rw [shell]
    by_cases h0 : h = 0
    · simp [h0]
    · simp only [h0, if_false]
      have hc' : 2 ^ h ≤ 2 * cb := by
        rcases hc with hc | hc
        · exact absurd hc h0
        · exact hc
      obtain ⟨h', rfl⟩ : ∃ h', h = h' + 1 := ⟨h - 1, by omega⟩
      have hpow : 2 ^ (h' + 1) = 2 * 2 ^ h' := by rw [pow_succ]; ring
      have hcb : cb ≠ 0 := by
        intro hz; subst hz
        have : 0 < 2 ^ (h' + 1) := Nat.two_pow_pos _
        omega
      have hhalf : cb >>> 1 = cb / 2 := by rw [Nat.shiftRight_eq_div_pow]
      by_cases hb : cb >>> (h' + 1) ≠ 0
      · rw [if_pos hb]
        have hge : 2 ^ (h' + 1) ≤ cb := by
          rw [Nat.shiftRight_eq_div_pow] at hb
          by_contra hlt
          exact hb (Nat.div_eq_of_lt (not_le.mp hlt))
        have : shell v (cb >>> 1) (h' + 1) ≠ [] := by
          apply ih (cb >>> 1 + (h' + 1)) (by rw [hhalf]; omega) v _ _ rfl
          right
          rw [hhalf, hpow] at *
          omega
        simp [this]
      · rw [if_neg hb]
        apply ih (cb >>> 1 + (h' + 1 - 1)) (by rw [hhalf]; omega) _ _ _ rfl
        by_cases hz : h' = 0
        · left; omega
        · right
          obtain ⟨h'', rfl⟩ : ∃ h'', h' = h'' + 1 := ⟨h' - 1, by omega⟩
          have hpow2 : 2 ^ (h'' + 1) = 2 * 2 ^ h'' := by rw [pow_succ]; ring
          simp only [Nat.add_sub_cancel]
          rw [hhalf, hpow2]
          rw [hpow, hpow2] at hc'
          omega

theorem second_stage_eq : ∀ (n v cb h : Nat) (s : probe_state), cb + h = n →
    vertex_visiting_second_stage addr cube dataset Type_ R v s cb h query_object metric N R2 =
      visit_all addr cube dataset Type_ R query_object metric N R2 (shell v cb h) s := by
  intro n
  induction n using Nat.strong_induction_on with
  | _ n ih =>
    intro v cb h s hn
    rw [vertex_visiting_second_stage, shell]
    by_cases h0 : h = 0
    · simp only [h0, if_true, visit_all]
      have e : open_bucket addr cube dataset Type_ R query_object metric N R2 v s =
          { vertex_visiting_third_stage addr cube dataset Type_ R v s query_object metric N R2
            with
            probes_rem :=
              (vertex_visiting_third_stage addr cube dataset Type_ R v s query_object metric N
                R2).probes_rem - 1 } := rfl
      rw [← e]
      simp
    · simp only [h0, if_false]
      have hhalf : cb >>> 1 = cb / 2 := by rw [Nat.shiftRight_eq_div_pow]
      by_cases hb : cb >>> h ≠ 0
      · rw [if_pos hb, if_pos hb]
        have hge : 2 ^ h ≤ cb := by
          rw [Nat.shiftRight_eq_div_pow] at hb
          by_contra hlt
          exact hb (Nat.div_eq_of_lt (not_le.mp hlt))
        have hcb : cb ≠ 0 := by
          intro hz; subst hz
          have : 0 < 2 ^ h := Nat.two_pow_pos _
          omega
        have hne : shell v (cb >>> 1) h ≠ [] := by
          apply shell_ne_nil _ v _ _ rfl
          right
          obtain ⟨h', rfl⟩ : ∃ h', h = h' + 1 := ⟨h - 1, by omega⟩
          have hpow : 2 ^ (h' + 1) = 2 * 2 ^ h' := by rw [pow_succ]; ring
          rw [hhalf, hpow] at *
          omega
        rw [visit_all_append addr cube dataset Type_ R query_object metric N R2 _ _ hne]
        rw [ih (cb >>> 1 + h) (by rw [hhalf]; omega) v _ _ s rfl]
        by_cases hs : stopped
            (visit_all addr cube dataset Type_ R query_object metric N R2 (shell v (cb >>> 1) h) s)
        · have hs' := hs
          unfold stopped at hs'
          simp only [hs', hs, if_true]
        · have hs' := hs
          unfold stopped at hs'
          simp only [hs', hs, if_false]
          exact ih (cb >>> 1 + (h - 1)) (by rw [hhalf]; omega) _ _ _ _ rfl
      · rw [if_neg hb, if_neg hb]
        exact ih (cb >>> 1 + (h - 1)) (by rw [hhalf]; omega) _ _ _ _ rfl

theorem shells_from_succ (v cb h0 c : Nat) :
    shells_from v cb h0 (c + 1) = shell v cb h0 ++ shells_from v cb (h0 + 1) c := by
  simp [shells_from, List.range'_succ, List.flatMap_cons]

theorem first_stage_eq (v cb : Nat) (hcb : ∀ h, h ≤ cube.d1 → (h = 0 ∨ 2 ^ h ≤ 2 * cb)) :
    ∀ (k h0 : Nat) (hle : h0 ≤ cube.d1) (s : probe_state), cube.d1 - h0 = k →
      vertex_visiting_first_stage addr cube dataset Type_ R v h0 hle s cb query_object metric N
          R2 =
        visit_all addr cube dataset Type_ R query_object metric N R2
          (shells_from v cb h0 (cube.d1 + 1 - h0)) s := by
  intro k
  induction k with
  | zero =>
    intro h0 hle s hk
    have hd : h0 = cube.d1 := by omega
    rw [vertex_visiting_first_stage, dif_pos (Or.inr (Or.inr hd))]
    have e : cube.d1 + 1 - h0 = 0 + 1 := by omega
    rw [e, shells_from_succ]
    simp only [shells_from, List.range'_zero, List.flatMap_nil, List.append_nil]
    exact second_stage_eq addr cube dataset Type_ R query_object metric N R2 _ v cb h0 s rfl
  | succ k ih =>
    intro h0 hle s hk
    have hd : h0 ≠ cube.d1 := by omega
    have e : cube.d1 + 1 - h0 = (cube.d1 + 1 - (h0 + 1)) + 1 := by omega
    rw [e, shells_from_succ]
    have hne : shell v cb h0 ≠ [] := shell_ne_nil _ v cb h0 rfl (hcb h0 hle)
    rw [visit_all_append addr cube dataset Type_ R query_object metric N R2 _ _ hne]
    have h2 := second_stage_eq addr cube dataset Type_ R query_object metric N R2 _ v cb h0 s rfl
    rw [← h2]
    by_cases hs : stopped
        (vertex_visiting_second_stage addr cube dataset Type_ R v s cb h0 query_object metric N R2)
    · have hc : (vertex_visiting_second_stage addr cube dataset Type_ R v s cb h0 query_object
          metric N R2).M_rem = 0 ∨
          (vertex_visiting_second_stage addr cube dataset Type_ R v s cb h0 query_object
          metric N R2).probes_rem = 0 ∨ h0 = cube.d1 := by
        rcases hs with hs | hs
        · exact Or.inl hs
        · exact Or.inr (Or.inl hs)
      rw [vertex_visiting_first_stage, dif_pos hc, if_pos hs]
    · have hc : ¬ ((vertex_visiting_second_stage addr cube dataset Type_ R v s cb h0 query_object
          metric N R2).M_rem = 0 ∨
          (vertex_visiting_second_stage addr cube dataset Type_ R v s cb h0 query_object
          metric N R2).probes_rem = 0 ∨ h0 = cube.d1) := by
        intro hc
        rcases hc with hc | hc | hc
        · exact hs (Or.inl hc)
        · exact hs (Or.inr hc)
        · exact hd hc
      rw [vertex_visiting_first_stage, dif_neg hc, if_neg hs]
      exact ih (h0 + 1) (by omega) _ (by omega)

theorem probe_eq (hd : 1 ≤ cube.d1) :
    probe addr cube dataset Type_ R query_object metric N R2 =
      visit_all addr cube dataset Type_ R query_object metric N R2
        (probe_order cube.d1 (vertex_of cube query_object)) (initial_probe cube) := by
  unfold probe probe_order
  have h := first_stage_eq addr cube dataset Type_ R query_object metric N R2
    (vertex_of cube query_object) (1 <<< (cube.d1 - 1))
    (by
      intro h hh
      by_cases h0 : h = 0
      · left; exact h0
      · right
        rw [Nat.one_shiftLeft]
        have e : 2 * 2 ^ (cube.d1 - 1) = 2 ^ cube.d1 := by
          obtain ⟨d, hd'⟩ : ∃ d, cube.d1 = d + 1 := ⟨cube.d1 - 1, by omega⟩
          rw [hd']; simp [pow_succ]; ring
        rw [e]
        exact Nat.pow_le_pow_right (by norm_num) hh)
    cube.d1 0 (Nat.zero_le _) (initial_probe cube) rfl
  simpa using h

end probe_engine

section probe_run

variable {Obj : Type} (addr : Nat → Nat) (cube : hypercube Obj) (dataset : Dataset Obj)
  (Type_ : search_type) (R : Int) (query_object : Obj) (metric : Obj → Obj → ℚ) (N : Int)
  (R2 : Int)

/-- What a run over the bucket list `L` has done: `j` buckets of `L` were opened in order and
the first `k` items of those buckets were examined in order; the accumulator is the fold of
the third-stage step over the examined items. -/
theorem visit_all_spec (L : List Nat) :
    ∀ s : probe_state, ∃ j k, j ≤ L.length ∧
      k ≤ ((L.take j).flatMap cube.cube_array).length ∧
      buckets (visit_all addr cube dataset Type_ R query_object metric N R2 L s) =
        buckets s ++ L.take j ∧
      items (visit_all addr cube dataset Type_ R query_object metric N R2 L s) =
        items s ++ ((L.take j).flatMap cube.cube_array).take k ∧
      (visit_all addr cube dataset Type_ R query_object metric N R2 L s).max_heap =
        (((L.take j).flatMap cube.cube_array).take k).foldl
          (accumulate addr dataset Type_ R query_object metric N R2) s.max_heap ∧
      (visit_all addr cube dataset Type_ R query_object metric N R2 L s).M_rem = s.M_rem - k ∧
      (visit_all addr cube dataset Type_ R query_object metric N R2 L s).probes_rem =
        s.probes_rem - j ∧
      (L ≠ [] → 1 ≤ j) ∧
      ((visit_all addr cube dataset Type_ R query_object metric N R2 L s).M_rem ≠ 0 →
        k = ((L.take j).flatMap cube.cube_array).length) ∧
      (¬ stopped (visit_all addr cube dataset Type_ R query_object metric N R2 L s) →
        j = L.length) := by
  induction L with
  | nil =>
    intro s
    exact ⟨0, 0, by simp [visit_all]⟩
  | cons v vs ih =>
    intro s
    obtain ⟨t, ht, o1, o2, o3, o4, o5, o6⟩ :=
      open_bucket_spec addr cube dataset Type_ R query_object metric N R2 v s
    by_cases hs : stopped (open_bucket addr cube dataset Type_ R query_object metric N R2 v s)
    · refine ⟨1, t, by simp, by simpa using ht, ?_⟩
      rw [visit_all, if_pos hs]
      refine ⟨by simpa using o2, ?_, ?_, o4, by simpa using o5, by simp, ?_, ?_⟩
      · simpa using o1
      · simpa using o3
      · intro hne; simpa using o6 hne
      · intro hns; exact absurd hs hns
    · have hM : (open_bucket addr cube dataset Type_ R query_object metric N R2 v s).M_rem ≠ 0 :=
        fun h => hs (Or.inl h)
      have htl : t = (cube.cube_array v).length := o6 hM
      rw [htl, List.take_length] at o1 o3
      obtain ⟨j, k, hj, hk, i1, i2, i3, i4, i5, _, i7, i8⟩ :=
        ih (open_bucket addr cube dataset Type_ R query_object metric N R2 v s)
      have e : ((v :: vs).take (j + 1)).flatMap cube.cube_array =
          cube.cube_array v ++ (vs.take j).flatMap cube.cube_array := by
        simp [List.flatMap_cons]
      refine ⟨j + 1, (cube.cube_array v).length + k, by simp; omega, ?_, ?_⟩
      · rw [e, List.length_append]; omega
      rw [visit_all, if_neg hs]
      rw [e, List.take_append]
      refine ⟨?_, ?_, ?_, ?_, ?_, by simp, ?_, ?_⟩
      · rw [i1, o2]; simp
      · rw [i2, o1]; simp
      · rw [i3, o3, List.foldl_append]
      · rw [i4, o4, htl]; push_cast; omega
      · rw [i5, o5]; push_cast; omega
      · intro hne
        rw [i7 hne]; simp
      · intro hns
        rw [i8 hns]; simp

theorem getElem_opt_snoc {α : Type} (l : List α) (a : α) (k : Nat) (e : α)
    (h : (l ++ [a])[k]? = some e) : l[k]? = some e ∨ (k = l.length ∧ e = a) := by
  by_cases hk : k < l.length
  · left
    rw [List.getElem?_append_left hk] at h
    exact h
  · right
    rw [List.getElem?_append_right (by omega)] at h
    by_cases hk2 : k - l.length = 0
    · rw [hk2] at h
      simp at h
      exact ⟨by omega, h.symm⟩
    · obtain ⟨m, hm⟩ : ∃ m, k - l.length = m + 1 := ⟨k - l.length - 1, by omega⟩
      rw [hm] at h
      simp at h

theorem third_stage_loop_log (M : Int) (b : List Nat) :
    ∀ s : probe_state, 1 ≤ s.M_rem → 1 ≤ s.probes_rem → ex_inv M s →
      ex_inv M (third_stage_loop addr dataset Type_ R query_object metric N R2 b s) ∧
      0 ≤ (third_stage_loop addr dataset Type_ R query_object metric N R2 b s).M_rem ∧
      (third_stage_loop addr dataset Type_ R query_object metric N R2 b s).opened = s.opened ∧
      (third_stage_loop addr dataset Type_ R query_object metric N R2 b s).probes_rem =
        s.probes_rem := by
  induction b with
  | nil =>
    intro s h1 h2 h3
    exact ⟨h3, by show 0 ≤ s.M_rem; omega, rfl, rfl⟩
  | cons a r ih =>
    intro s h1 h2 h3
    have hex : ex_inv M (examine addr dataset Type_ R query_object metric N R2 s a) := by
      obtain ⟨g1, g2⟩ := h3
      refine ⟨?_, ?_⟩
      · simp only [examine, List.length_append, List.length_singleton]
        push_cast; omega
      · intro k e hk
        simp only [examine] at hk
        rcases getElem_opt_snoc _ _ _ _ hk with hk' | ⟨hk1, hk2⟩
        · exact g2 k e hk'
        · subst hk2
          simp only
          refine ⟨by omega, h1, h2⟩
    have hM : (examine addr dataset Type_ R query_object metric N R2 s a).M_rem = s.M_rem - 1 :=
      rfl
    have hO : (examine addr dataset Type_ R query_object metric N R2 s a).opened = s.opened := rfl
    have hP : (examine addr dataset Type_ R query_object metric N R2 s a).probes_rem =
        s.probes_rem := rfl
    by_cases h0 : (examine addr dataset Type_ R query_object metric N R2 s a).M_rem = 0
    · simp only [third_stage_loop, h0, if_true]
      exact ⟨hex, by omega, hO, hP⟩
    · simp only [third_stage_loop, h0, if_false]
      obtain ⟨i1, i2, i3, i4⟩ :=
        ih (examine addr dataset Type_ R query_object metric N R2 s a) (by omega) (by omega) hex
      exact ⟨i1, i2, by rw [i3, hO], by rw [i4, hP]⟩

theorem open_bucket_log (M probes : Int) (v : Nat) (s : probe_state)
    (h1 : 1 ≤ s.M_rem) (h2 : 1 ≤ s.probes_rem) (h3 : ex_inv M s) (h4 : op_inv probes s) :
    ex_inv M (open_bucket addr cube dataset Type_ R query_object metric N R2 v s) ∧
    op_inv probes (open_bucket addr cube dataset Type_ R query_object metric N R2 v s) ∧
    0 ≤ (open_bucket addr cube dataset Type_ R query_object metric N R2 v s).M_rem ∧
    0 ≤ (open_bucket addr cube dataset Type_ R query_object metric N R2 v s).probes_rem := by
  obtain ⟨i1, i2, i3, i4⟩ :=
    third_stage_loop_log addr dataset Type_ R query_object metric N R2 M (cube.cube_array v)
      { s with opened := s.opened ++ [(v, s.M_rem, s.probes_rem)] } h1 h2 h3
  replace i3 : (third_stage_loop addr dataset Type_ R query_object metric N R2
      (cube.cube_array v) { s with opened := s.opened ++ [(v, s.M_rem, s.probes_rem)] }).opened =
      s.opened ++ [(v, s.M_rem, s.probes_rem)] := i3
  replace i4 : (third_stage_loop addr dataset Type_ R query_object metric N R2
      (cube.cube_array v)
      { s with opened := s.opened ++ [(v, s.M_rem, s.probes_rem)] }).probes_rem =
      s.probes_rem := i4
  obtain ⟨g1, g2⟩ := h4
  refine ⟨?_, ?_, ?_, ?_⟩
  · exact ⟨i1.1, i1.2⟩
  · refine ⟨?_, ?_⟩
    · show (third_stage_loop addr dataset Type_ R query_object metric N R2 (cube.cube_array v)
        { s with opened := s.opened ++ [(v, s.M_rem, s.probes_rem)] }).probes_rem - 1 =
        probes - ((third_stage_loop addr dataset Type_ R query_object metric N R2
          (cube.cube_array v)
          { s with opened := s.opened ++ [(v, s.M_rem, s.probes_rem)] }).opened.length : Int)
      rw [i3, i4]
      simp only [List.length_append, List.length_singleton]
      push_cast; omega
    · intro k e hk
      have hk' : (s.opened ++ [(v, s.M_rem, s.probes_rem)])[k]? = some e := by
        rw [← i3]; exact hk
      rcases getElem_opt_snoc _ _ _ _ hk' with hk'' | ⟨hk1, hk2⟩
      · exact g2 k e hk''
      · subst hk2
        simp only
        refine ⟨by omega, h1, h2⟩
  · exact i2
  · show 0 ≤ (third_stage_loop addr dataset Type_ R query_object metric N R2 (cube.cube_array v)
        { s with opened := s.opened ++ [(v, s.M_rem, s.probes_rem)] }).probes_rem - 1
    rw [i4]; omega

theorem visit_all_log (M probes : Int) (L : List Nat) :
    ∀ s : probe_state, 1 ≤ s.M_rem → 1 ≤ s.probes_rem → ex_inv M s → op_inv probes s →
      ex_inv M (visit_all addr cube dataset Type_ R query_object metric N R2 L s) ∧
      op_inv probes (visit_all addr cube dataset Type_ R query_object metric N R2 L s) ∧
      0 ≤ (visit_all addr cube dataset Type_ R query_object metric N R2 L s).M_rem ∧
      0 ≤ (visit_all addr cube dataset Type_ R query_object metric N R2 L s).probes_rem := by
  induction L with
  | nil =>
    intro s h1 h2 h3 h4
    simp only [visit_all]
    exact ⟨h3, h4, by omega, by omega⟩
  | cons v vs ih =>
    intro s h1 h2 h3 h4
    obtain ⟨i1, i2, i3, i4⟩ :=
      open_bucket_log addr cube dataset Type_ R query_object metric N R2 M probes v s h1 h2 h3 h4
    by_cases hs : stopped (open_bucket addr cube dataset Type_ R query_object metric N R2 v s)
    · simp only [visit_all, hs, if_true]
      exact ⟨i1, i2, i3, i4⟩
    · simp only [visit_all, hs, if_false]
      have hs' : ¬ ((open_bucket addr cube dataset Type_ R query_object metric N R2 v s).M_rem = 0 ∨
          (open_bucket addr cube dataset Type_ R query_object metric N R2 v s).probes_rem = 0) := hs
      push_neg at hs'
      exact ih _ (by omega) (by omega) i1 i2

end probe_run

/-! ## The order of the probe: shells of equal Hamming distance -/

theorem shell_zero (v cb : Nat) : shell v cb 0 = [v] := by
  rw [shell]; simp

theorem shell_xor : ∀ (n v cb h : Nat), cb + h = n →
    shell v cb h = (shell 0 cb h).map (fun m => v ^^^ m) := by
  intro n
  induction n using Nat.strong_induction_on with
  | _ n ih =>
    intro v cb h hn
    by_cases h0 : h = 0
    · subst h0
      simp [shell_zero]
    · rw [shell]
      conv_rhs => rw [shell]
      simp only [h0, if_false]
      have hlt : cb >>> 1 + (h - 1) < n := by
        have : cb >>> 1 ≤ cb := by rw [Nat.shiftRight_eq_div_pow]; exact Nat.div_le_self _ _
        omega
      have e2 : shell (v ^^^ cb) (cb >>> 1) (h - 1) =
          (shell (0 ^^^ cb) (cb >>> 1) (h - 1)).map (fun m => v ^^^ m) := by
        rw [ih _ hlt (v ^^^ cb) _ _ rfl, ih _ hlt (0 ^^^ cb) _ _ rfl, List.map_map]
        apply List.map_congr_left
        intro m _
        simp [Nat.xor_assoc]
      by_cases hb : cb >>> h ≠ 0
      · rw [if_pos hb, if_pos hb]
        have hcb : cb ≠ 0 := by
          intro hz; subst hz; simp at hb
        have hlt1 : cb >>> 1 + h < n := by
          have : cb >>> 1 < cb := by rw [Nat.shiftRight_eq_div_pow]; omega
          omega
        rw [List.map_append, ← e2, ← ih _ hlt1 v _ _ rfl]
      · rw [if_neg hb, if_neg hb]
        exact e2

theorem popcount_below_succ (b m : Nat) :
    popcount_below (b + 1) m = popcount_below b m + (if m.testBit b then 1 else 0) := by
  unfold popcount_below
  rw [List.range_succ, List.filter_append, List.length_append]
  by_cases h : m.testBit b <;> simp [h]

theorem popcount_below_congr (b m m' : Nat) (h : ∀ j, j < b → m.testBit j = m'.testBit j) :
    popcount_below b m = popcount_below b m' := by
  unfold popcount_below
  congr 1
  apply List.filter_congr
  intro j hj
  exact h j (List.mem_range.mp hj)

theorem popcount_below_of_lt (b m : Nat) (h : m < 2 ^ b) :
    popcount_below (b + 1) m = popcount_below b m := by
  rw [popcount_below_succ, Nat.testBit_lt_two_pow h]
  simp

theorem popcount_below_xor_top (b m : Nat) (h : m < 2 ^ b) :
    popcount_below (b + 1) (2 ^ b ^^^ m) = popcount_below b m + 1 := by
  rw [popcount_below_succ]
  have e1 : (2 ^ b ^^^ m).testBit b = true := by
    rw [Nat.testBit_xor, Nat.testBit_two_pow_self, Nat.testBit_lt_two_pow h]
    rfl
  have e2 : popcount_below b (2 ^ b ^^^ m) = popcount_below b m := by
    apply popcount_below_congr
    intro j hj
    rw [Nat.testBit_xor, Nat.testBit_two_pow_of_ne (by omega)]
    simp
  rw [e1, e2]
  simp

theorem popcount_eq_below (b m : Nat) (h : m < 2 ^ b) : popcount m = popcount_below b m := by
  have hs : m.size ≤ b := Nat.size_le.mpr h
  obtain ⟨c, rfl⟩ : ∃ c, b = m.size + c := ⟨b - m.size, by omega⟩
  clear h hs
  induction c with
  | zero => rfl
  | succ c ih =>
    have hlt : m < 2 ^ (m.size + c) :=
      lt_of_lt_of_le (Nat.lt_size_self m) (Nat.pow_le_pow_right (by norm_num) (by omega))
    rw [← Nat.add_assoc, popcount_below_of_lt _ _ hlt]
    exact ih

/-- The masks of `h` bits among the lowest `b` bits, as the second stage lists them: every mask
is below `2^b` and has `h` one bits, no mask is listed twice, and there are `b choose h`. -/
theorem shell_masks : ∀ (b h : Nat), h ≤ b →
    (∀ m ∈ shell 0 (2 ^ b / 2) h, m < 2 ^ b ∧ popcount_below b m = h) ∧
    (shell 0 (2 ^ b / 2) h).Nodup ∧
    (shell 0 (2 ^ b / 2) h).length = Nat.choose b h := by
  intro b
  induction b with
  | zero =>
    intro h hh
    have h0 : h = 0 := by omega
    subst h0
    rw [shell_zero]
    simp [popcount_below]
  | succ b ih =>
    intro h hh
    by_cases h0 : h = 0
    · subst h0
      rw [shell_zero]
      refine ⟨?_, by simp, by simp⟩
      intro m hm
      rw [List.mem_singleton] at hm
      subst hm
      refine ⟨Nat.two_pow_pos _, ?_⟩
      unfold popcount_below
      simp
    · obtain ⟨h', rfl⟩ : ∃ h', h = h' + 1 := ⟨h - 1, by omega⟩
      have hcb : 2 ^ (b + 1) / 2 = 2 ^ b := by omega
      have hhalf : (2 ^ b) >>> 1 = 2 ^ b / 2 := by rw [Nat.shiftRight_eq_div_pow]
      have hsecond : shell (0 ^^^ 2 ^ b) (2 ^ b / 2) h' =
          (shell 0 (2 ^ b / 2) h').map (fun m => 2 ^ b ^^^ m) := by
        rw [shell_xor _ (0 ^^^ 2 ^ b) _ _ rfl]
        simp
      obtain ⟨s1, s2, s3⟩ := ih h' (by omega)
      have t1 : ∀ m ∈ (shell 0 (2 ^ b / 2) h').map (fun m => 2 ^ b ^^^ m),
          m < 2 ^ (b + 1) ∧ popcount_below (b + 1) m = h' + 1 ∧ m.testBit b = true := by
        intro m hm
        rw [List.mem_map] at hm
        obtain ⟨m', hm', rfl⟩ := hm
        obtain ⟨a1, a2⟩ := s1 m' hm'
        refine ⟨?_, ?_, ?_⟩
        · exact Nat.xor_lt_two_pow (Nat.pow_lt_pow_right (by norm_num) (by omega))
            (lt_of_lt_of_le a1 (Nat.pow_le_pow_right (by norm_num) (by omega)))
        · rw [popcount_below_xor_top b m' a1, a2]
        · rw [Nat.testBit_xor, Nat.testBit_two_pow_self, Nat.testBit_lt_two_pow a1]
          rfl
      have t2 : ((shell 0 (2 ^ b / 2) h').map (fun m => 2 ^ b ^^^ m)).Nodup := by
        apply List.Nodup.map _ s2
        intro x y hxy
        have hxy' : 2 ^ b ^^^ x = 2 ^ b ^^^ y := hxy
        have := congrArg (fun z => 2 ^ b ^^^ z) hxy'
        simpa [Nat.xor_cancel_left] using this
      rw [shell, hcb]
      simp only [h0, if_false, Nat.add_sub_cancel]
      by_cases hb : (2 ^ b) >>> (h' + 1) ≠ 0
      · rw [if_pos hb, hhalf, hsecond]
        have hle : h' + 1 ≤ b := by
          by_contra hc
          apply hb
          rw [Nat.shiftRight_eq_div_pow]
          exact Nat.div_eq_of_lt (Nat.pow_lt_pow_right (by norm_num) (by omega))
        obtain ⟨f1, f2, f3⟩ := ih (h' + 1) hle
        refine ⟨?_, ?_, ?_⟩
        · intro m hm
          rw [List.mem_append] at hm
          rcases hm with hm | hm
          · obtain ⟨a1, a2⟩ := f1 m hm
            exact ⟨lt_of_lt_of_le a1 (Nat.pow_le_pow_right (by norm_num) (by omega)),
              by rw [popcount_below_of_lt b m a1, a2]⟩
          · exact ⟨(t1 m hm).1, (t1 m hm).2.1⟩
        · rw [List.nodup_append]
          refine ⟨f2, t2, ?_⟩
          intro m hm1 hm2
          have c1 := Nat.testBit_lt_two_pow (f1 m hm1).1
          have c2 := (t1 m hm2).2.2
          rw [c1] at c2
          exact absurd c2 (by simp)
        · rw [List.length_append, List.length_map, f3, s3]
          have hch := Nat.choose_succ_succ b h'
          simp only [Nat.succ_eq_add_one] at hch
          omega
      · rw [if_neg hb, hhalf, hsecond]
        have heq : h' = b := by
          by_contra hc
          apply hb
          rw [Nat.shiftRight_eq_div_pow]
          have : 2 ^ (h' + 1) ≤ 2 ^ b := Nat.pow_le_pow_right (by norm_num) (by omega)
          have hpos : 0 < 2 ^ (h' + 1) := Nat.two_pow_pos _
          exact Nat.ne_of_gt (Nat.div_pos this hpos)
        refine ⟨fun m hm => ⟨(t1 m hm).1, (t1 m hm).2.1⟩, t2, ?_⟩
        rw [List.length_map, s3, heq]
        simp

theorem hamming_xor (v m : Nat) : hamming v (v ^^^ m) = popcount m := by
  unfold hamming
  rw [Nat.xor_cancel_left]

theorem one_shiftLeft_pred (d1 : Nat) (hd : 1 ≤ d1) : 1 <<< (d1 - 1) = 2 ^ d1 / 2 := by
  rw [Nat.one_shiftLeft]
  obtain ⟨d, rfl⟩ : ∃ d, d1 = d + 1 := ⟨d1 - 1, by omega⟩
  simp only [Nat.add_sub_cancel]
  omega

theorem shell_facts (d1 : Nat) (hd : 1 ≤ d1) (v h : Nat) (hh : h ≤ d1) :
    (∀ a ∈ shell v (1 <<< (d1 - 1)) h, hamming v a = h ∧ (v < 2 ^ d1 → a < 2 ^ d1)) ∧
    (shell v (1 <<< (d1 - 1)) h).Nodup ∧
    (shell v (1 <<< (d1 - 1)) h).length = Nat.choose d1 h := by
  rw [one_shiftLeft_pred d1 hd, shell_xor _ v _ _ rfl]
  obtain ⟨m1, m2, m3⟩ := shell_masks d1 h hh
  refine ⟨?_, ?_, ?_⟩
  · intro a ha
    rw [List.mem_map] at ha
    obtain ⟨m, hm, rfl⟩ := ha
    obtain ⟨a1, a2⟩ := m1 m hm
    refine ⟨?_, fun hv => Nat.xor_lt_two_pow hv a1⟩
    rw [hamming_xor, popcount_eq_below d1 m a1, a2]
  · apply List.Nodup.map _ m2
    intro x y hxy
    have hxy' : v ^^^ x = v ^^^ y := hxy
    have := congrArg (fun z => v ^^^ z) hxy'
    simpa [Nat.xor_cancel_left] using this
  · rw [List.length_map, m3]

theorem probe_order_head (d1 v : Nat) :
    probe_order d1 v = v :: shells_from v (1 <<< (d1 - 1)) 1 d1 := by
  unfold probe_order
  rw [shells_from_succ, shell_zero]
  rfl

theorem mem_probe_order (d1 : Nat) (hd : 1 ≤ d1) (v a : Nat) (ha : a ∈ probe_order d1 v) :
    hamming v a ≤ d1 ∧ a ∈ shell v (1 <<< (d1 - 1)) (hamming v a) ∧ (v < 2 ^ d1 → a < 2 ^ d1) := by
  unfold probe_order shells_from at ha
  rw [List.mem_flatMap] at ha
  obtain ⟨h, hh, hah⟩ := ha
  rw [List.mem_range'_1] at hh
  obtain ⟨f1, _, _⟩ := shell_facts d1 hd v h (by omega)
  obtain ⟨g1, g2⟩ := f1 a hah
  rw [g1]
  exact ⟨by omega, hah, g2⟩

theorem probe_order_sorted (d1 : Nat) (hd : 1 ≤ d1) (v : Nat) :
    (probe_order d1 v).Pairwise (fun a b => hamming v a ≤ hamming v b) := by
  unfold probe_order shells_from
  rw [List.pairwise_flatMap]
  refine ⟨?_, ?_⟩
  · intro h hh
    rw [List.mem_range'_1] at hh
    obtain ⟨f1, _, _⟩ := shell_facts d1 hd v h (by omega)
    rw [List.pairwise_iff_forall_sublist]
    intro a b hab
    have ha : a ∈ shell v (1 <<< (d1 - 1)) h := hab.subset (by simp)
    have hb : b ∈ shell v (1 <<< (d1 - 1)) h := hab.subset (by simp)
    rw [(f1 a ha).1, (f1 b hb).1]
  · have hlt := List.pairwise_lt_range' 0 (d1 + 1)
    have hmem : ∀ h ∈ List.range' 0 (d1 + 1), h ≤ d1 := by
      intro h hh
      rw [List.mem_range'_1] at hh
      omega
    have := List.Pairwise.and_mem.mp hlt
    apply List.Pairwise.imp _ this
    intro h1 h2 hp a ha b hb
    obtain ⟨f1, _, _⟩ := shell_facts d1 hd v h1 (hmem h1 hp.1)
    obtain ⟨g1, _, _⟩ := shell_facts d1 hd v h2 (hmem h2 hp.2.1)
    rw [(f1 a ha).1, (g1 b hb).1]
    exact le_of_lt hp.2.2

theorem probe_order_nodup (d1 : Nat) (hd : 1 ≤ d1) (v : Nat) : (probe_order d1 v).Nodup := by
  unfold probe_order shells_from
  rw [List.nodup_flatMap]
  have hmem : ∀ h ∈ List.range' 0 (d1 + 1), h ≤ d1 := by
    intro h hh
    rw [List.mem_range'_1] at hh
    omega
  refine ⟨?_, ?_⟩
  · intro h hh
    exact (shell_facts d1 hd v h (hmem h hh)).2.1
  · have hlt := List.pairwise_lt_range' 0 (d1 + 1)
    have := List.Pairwise.and_mem.mp hlt
    apply List.Pairwise.imp _ this
    intro h1 h2 hp
    show List.Disjoint (shell v (1 <<< (d1 - 1)) h1) (shell v (1 <<< (d1 - 1)) h2)
    intro a ha hb
    obtain ⟨f1, _, _⟩ := shell_facts d1 hd v h1 (hmem h1 hp.1)
    obtain ⟨g1, _, _⟩ := shell_facts d1 hd v h2 (hmem h2 hp.2.1)
    have e1 := (f1 a ha).1
    have e2 := (g1 a hb).1
    have := hp.2.2
    omega

theorem list_sum_map_range (f : Nat → Nat) (n : Nat) :
    ((List.range n).map f).sum = ∑ i in Finset.range n, f i := by
  induction n with
  | zero => simp
  | succ n ih => rw [List.sum_range_succ, Finset.sum_range_succ, ih]

theorem probe_order_length (d1 : Nat) (hd : 1 ≤ d1) (v : Nat) :
    (probe_order d1 v).length = 2 ^ d1 := by
  unfold probe_order shells_from
  rw [List.length_flatMap, ← List.range_eq_range']
  have e : (List.range (d1 + 1)).map (List.length ∘ fun h => shell v (1 <<< (d1 - 1)) h) =
      (List.range (d1 + 1)).map (fun h => Nat.choose d1 h) := by
    apply List.map_congr_left
    intro h hh
    rw [List.mem_range] at hh
    exact (shell_facts d1 hd v h (by omega)).2.2
  rw [e, list_sum_map_range, Nat.sum_range_choose]

theorem probe_order_count_shell (d1 : Nat) (hd : 1 ≤ d1) (v h : Nat) (hh : h ≤ d1) :
    (probe_order d1 v).countP (fun a => hamming v a = h) = Nat.choose d1 h := by
  unfold probe_order shells_from
  rw [List.countP_flatMap, ← List.range_eq_range']
  have e : (List.range (d1 + 1)).map
        (List.countP (fun a => decide (hamming v a = h)) ∘ fun h' => shell v (1 <<< (d1 - 1)) h') =
      (List.range (d1 + 1)).map (fun h' => if h = h' then Nat.choose d1 h' else 0) := by
    apply List.map_congr_left
    intro h' hh'
    rw [List.mem_range] at hh'
    obtain ⟨f1, _, f3⟩ := shell_facts d1 hd v h' (by omega)
    show List.countP (fun a => decide (hamming v a = h)) (shell v (1 <<< (d1 - 1)) h') = _
    by_cases he : h = h'
    · subst he
      rw [if_pos rfl, ← f3, List.countP_eq_length]
      intro a ha
      simp [(f1 a ha).1]
    · rw [if_neg he, List.countP_eq_zero]
      intro a ha
      simp only [decide_eq_true_eq]
      rw [(f1 a ha).1]
      exact fun e => he e.symm
  rw [e, list_sum_map_range, Finset.sum_ite_eq]
  simp
  intro hc
  omega

theorem probe_order_complete (d1 : Nat) (hd : 1 ≤ d1) (v : Nat) (hv : v < 2 ^ d1) (a : Nat)
    (ha : a < 2 ^ d1) : a ∈ probe_order d1 v := by
  have hsub : (probe_order d1 v).toFinset ⊆ Finset.range (2 ^ d1) := by
    intro x hx
    rw [List.mem_toFinset] at hx
    rw [Finset.mem_range]
    exact (mem_probe_order d1 hd v x hx).2.2 hv
  have hcard : (Finset.range (2 ^ d1)).card ≤ (probe_order d1 v).toFinset.card := by
    rw [List.toFinset_card_of_nodup (probe_order_nodup d1 hd v), probe_order_length d1 hd v]
    simp
  have heq := Finset.eq_of_subset_of_card_le hsub hcard
  have : a ∈ (probe_order d1 v).toFinset := by
    rw [heq, Finset.mem_range]; exact ha
  exact List.mem_toFinset.mp this

/-! ## Results of a probe -/

section probe_result

variable {Obj : Type} (addr : Nat → Nat) (cube : hypercube Obj) (dataset : Dataset Obj)
  (Type_ : search_type) (R : Int) (query_object : Obj) (metric : Obj → Obj → ℚ) (N : Int)
  (R2 : Int)

/-- The run of a probe: it opens the first `j ≥ 1` buckets of the probe order and examines the
first `k` items of these buckets; the accumulator is the fold of the third-stage step over the
examined items. -/
theorem probe_run (hd : 1 ≤ cube.d1) :
    ∃ j k, 1 ≤ j ∧ j ≤ (probe_order cube.d1 (vertex_of cube query_object)).length ∧
      k ≤ (((probe_order cube.d1 (vertex_of cube query_object)).take j).flatMap
        cube.cube_array).length ∧
      buckets (probe addr cube dataset Type_ R query_object metric N R2) =
        (probe_order cube.d1 (vertex_of cube query_object)).take j ∧
      items (probe addr cube dataset Type_ R query_object metric N R2) =
        (((probe_order cube.d1 (vertex_of cube query_object)).take j).flatMap
          cube.cube_array).take k ∧
      (probe addr cube dataset Type_ R query_object metric N R2).max_heap =
        (items (probe addr cube dataset Type_ R query_object metric N R2)).foldl
          (accumulate addr dataset Type_ R query_object metric N R2) [] ∧
      (probe addr cube dataset Type_ R query_object metric N R2).M_rem = cube.M - k ∧
      (probe addr cube dataset Type_ R query_object metric N R2).probes_rem = cube.probes - j ∧
      ((probe addr cube dataset Type_ R query_object metric N R2).M_rem ≠ 0 →
        k = (((probe_order cube.d1 (vertex_of cube query_object)).take j).flatMap
          cube.cube_array).length) ∧
      (¬ stopped (probe addr cube dataset Type_ R query_object metric N R2) →
        j = (probe_order cube.d1 (vertex_of cube query_object)).length) := by
  rw [probe_eq addr cube dataset Type_ R query_object metric N R2 hd]
  obtain ⟨j, k, h1, h2, h3, h4, h5, h6, h7, h8, h9, h10⟩ :=
    visit_all_spec addr cube dataset Type_ R query_object metric N R2
      (probe_order cube.d1 (vertex_of cube query_object)) (initial_probe cube)
  have hne : probe_order cube.d1 (vertex_of cube query_object) ≠ [] := by
    rw [probe_order_head]; simp
  have hb : buckets (initial_probe cube) = [] := rfl
  have hi : items (initial_probe cube) = [] := rfl
  have hh : (initial_probe cube).max_heap = [] := rfl
  rw [hb, List.nil_append] at h3
  rw [hi, List.nil_append] at h4
  rw [hh] at h5
  refine ⟨j, k, h8 hne, h1, h2, h3, h4, ?_, h6, h7, h9, h10⟩
  rw [h5, h4]

theorem take_flatMap_sublist {β : Type} (L : List Nat) (f : Nat → List β) (j k : Nat) :
    (((L.take j).flatMap f).take k).Sublist (L.flatMap f) := by
  have h1 : (((L.take j).flatMap f).take k).Sublist ((L.take j).flatMap f) :=
    List.take_sublist _ _
  have h2 : ((L.take j).flatMap f).Sublist (L.flatMap f) := by
    conv_rhs => rw [← List.take_append_drop j L]
    rw [List.flatMap_append]
    exact List.sublist_append_left _ _
  exact h1.trans h2

theorem items_sublist (hd : 1 ≤ cube.d1) :
    (items (probe addr cube dataset Type_ R query_object metric N R2)).Sublist
      (items_in_order cube (vertex_of cube query_object)) := by
  obtain ⟨j, k, _, _, _, _, h4, _⟩ :=
    probe_run addr cube dataset Type_ R query_object metric N R2 hd
  rw [h4]
  exact take_flatMap_sublist _ _ j k

theorem items_inserted (hd : 1 ≤ cube.d1) (o : Nat)
    (ho : o ∈ items (probe addr cube dataset Type_ R query_object metric N R2)) :
    ∃ v, v ∈ buckets (probe addr cube dataset Type_ R query_object metric N R2) ∧
      o ∈ cube.cube_array v := by
  obtain ⟨j, k, _, _, _, h3, h4, _⟩ :=
    probe_run addr cube dataset Type_ R query_object metric N R2 hd
  rw [h4] at ho
  have ho' := List.mem_of_mem_take ho
  rw [List.mem_flatMap] at ho'
  obtain ⟨v, hv, hov⟩ := ho'
  exact ⟨v, by rw [h3]; exact hv, hov⟩

/-- With `probes ≥ 2^d1` and `M` at least the number of stored items, the probe examines
every item of every bucket of the probe order. -/
theorem items_exhaustive (hd : 1 ≤ cube.d1) (hp : (2 : Int) ^ cube.d1 ≤ cube.probes)
    (hM : ((items_in_order cube (vertex_of cube query_object)).length : Int) ≤ cube.M) :
    items (probe addr cube dataset Type_ R query_object metric N R2) =
      items_in_order cube (vertex_of cube query_object) := by
  obtain ⟨j, k, h1, h2, hk, h3, h4, _, h6, h7, h9, h10⟩ :=
    probe_run addr cube dataset Type_ R query_object metric N R2 hd
  have hlen := probe_order_length cube.d1 hd (vertex_of cube query_object)
  have hsplit : items_in_order cube (vertex_of cube query_object) =
      ((probe_order cube.d1 (vertex_of cube query_object)).take j).flatMap cube.cube_array ++
      ((probe_order cube.d1 (vertex_of cube query_object)).drop j).flatMap cube.cube_array := by
    unfold items_in_order
    conv_lhs => rw [← List.take_append_drop j (probe_order cube.d1 (vertex_of cube query_object))]
    rw [List.flatMap_append]
  have hlen2 := congrArg List.length hsplit
  rw [List.length_append] at hlen2
  rw [h4]
  by_cases hz : (probe addr cube dataset Type_ R query_object metric N R2).M_rem = 0
  · rw [h6] at hz
    have hk2 : k = (((probe_order cube.d1 (vertex_of cube query_object)).take j).flatMap
        cube.cube_array).length := by omega
    have hnil : (((probe_order cube.d1 (vertex_of cube query_object)).drop j).flatMap
        cube.cube_array) = [] := by
      apply List.eq_nil_of_length_eq_zero
      omega
    rw [hsplit, hnil, List.append_nil, hk2, List.take_length]
  · have hk2 := h9 hz
    have hj : j = (probe_order cube.d1 (vertex_of cube query_object)).length := by
      by_cases hs : stopped (probe addr cube dataset Type_ R query_object metric N R2)
      · rcases hs with hs | hs
        · exact absurd hs hz
        · rw [h7] at hs
          have : ((2 : Int) ^ cube.d1) = ((2 ^ cube.d1 : Nat) : Int) := by push_cast; rfl
          rw [this] at hp
          omega
      · exact h10 hs
    rw [hk2, List.take_length, hj, List.take_length]
    rfl

end probe_result

/-! ### The queue of the k nearest neighbours -/

theorem heap_push_perm (addr : Nat → Nat) (a : ℚ × Nat) (h : List (ℚ × Nat)) :
    (heap_push addr a h).Perm (a :: h) := by
  induction h with
  | nil => simp [heap_push]
  | cons b rest ih =>
    by_cases hlt : pair_lt addr b a
    · simp [heap_push, hlt]
    · simp only [heap_push, hlt, if_false]
      exact (List.Perm.cons b ih).trans (List.Perm.swap a b rest)

theorem heap_push_sorted (addr : Nat → Nat) (a : ℚ × Nat) (h : List (ℚ × Nat))
    (hs : h.Pairwise (fun x y => y.1 ≤ x.1)) :
    (heap_push addr a h).Pairwise (fun x y => y.1 ≤ x.1) := by
  induction h with
  | nil => simp [heap_push]
  | cons b rest ih =>
    rw [List.pairwise_cons] at hs
    by_cases hlt : pair_lt addr b a
    · simp only [heap_push, hlt, if_true]
      have hba : b.1 ≤ a.1 := by
        rcases hlt with h1 | ⟨h1, _⟩
        · exact le_of_lt h1
        · exact not_lt.mp h1
      rw [List.pairwise_cons]
      refine ⟨?_, List.pairwise_cons.mpr hs⟩
      intro x hx
      rcases List.mem_cons.mp hx with hx | hx
      · rw [hx]; exact hba
      · exact le_trans (hs.1 x hx) hba
    · simp only [heap_push, hlt, if_false]
      have hab : a.1 ≤ b.1 := by
        by_contra hc
        exact hlt (Or.inl (not_le.mp hc))
      rw [List.pairwise_cons]
      refine ⟨?_, ih hs.2⟩
      intro x hx
      rcases List.mem_cons.mp ((heap_push_perm addr a rest).subset hx) with hx | hx
      · rw [hx]; exact hab
      · exact hs.1 x hx

theorem push_at_most_N_length (addr : Nat → Nat) (o : Nat) (N : Int) (d : ℚ)
    (h : List (ℚ × Nat)) (hN : 1 ≤ N) (hl : (h.length : Int) ≤ N) :
    ((push_at_most_N addr o N d h).length : Int) = min N (h.length + 1) := by
  unfold push_at_most_N
  by_cases hlt : (h.length : Int) < N
  · rw [if_pos hlt, (heap_push_perm addr (d, o) h).length_eq]
    simp only [List.length_cons]
    push_cast
    rw [min_eq_right (by omega)]
  · rw [if_neg hlt]
    cases h with
    | nil => simp at hlt; omega
    | cons top rest =>
      simp only [List.length_cons] at hl hlt ⊢
      by_cases hd : d < top.1
      · simp only [hd, if_true, (heap_push_perm addr (d, o) rest).length_eq, List.length_cons]
        push_cast at hl hlt ⊢
        rw [min_eq_left (by omega)]
        omega
      · simp only [hd, if_false, List.length_cons]
        push_cast at hl hlt ⊢
        rw [min_eq_left (by omega)]
        omega

theorem push_at_most_N_sorted (addr : Nat → Nat) (o : Nat) (N : Int) (d : ℚ)
    (h : List (ℚ × Nat)) (hs : h.Pairwise (fun x y => y.1 ≤ x.1)) :
    (push_at_most_N addr o N d h).Pairwise (fun x y => y.1 ≤ x.1) := by
  unfold push_at_most_N
  by_cases hlt : (h.length : Int) < N
  · rw [if_pos hlt]
    exact heap_push_sorted addr _ h hs
  · rw [if_neg hlt]
    cases h with
    | nil => simp
    | cons top rest =>
      by_cases hd : d < top.1
      · simp only [hd, if_true]
        exact heap_push_sorted addr _ rest (List.pairwise_cons.mp hs).2
      · simp only [hd, if_false]
        exact hs

theorem push_at_most_N_mem (addr : Nat → Nat) (o : Nat) (N : Int) (d : ℚ)
    (h : List (ℚ × Nat)) (x : ℚ × Nat) (hx : x ∈ push_at_most_N addr o N d h) :
    x = (d, o) ∨ x ∈ h := by
  unfold push_at_most_N at hx
  by_cases hlt : (h.length : Int) < N
  · rw [if_pos hlt] at hx
    exact List.mem_cons.mp ((heap_push_perm addr _ h).subset hx)
  · rw [if_neg hlt] at hx
    cases h with
    | nil => simp at hx
    | cons top rest =>
      by_cases hd : d < top.1
      · simp only [hd, if_true] at hx
        rcases List.mem_cons.mp ((heap_push_perm addr _ rest).subset hx) with h1 | h1
        · exact Or.inl h1
        · exact Or.inr (List.mem_cons_of_mem _ h1)
      · simp only [hd, if_false] at hx
        exact Or.inr hx

theorem push_at_most_N_nodup (addr : Nat → Nat) (o : Nat) (N : Int) (d : ℚ)
    (h : List (ℚ × Nat)) (hn : (o :: h.map Prod.snd).Nodup) :
    ((push_at_most_N addr o N d h).map Prod.snd).Nodup := by
  unfold push_at_most_N
  by_cases hlt : (h.length : Int) < N
  · rw [if_pos hlt]
    have hp := (heap_push_perm addr (d, o) h).map Prod.snd
    exact (List.Perm.nodup_iff hp).mpr (by simpa using hn)
  · rw [if_neg hlt]
    cases h with
    | nil => simp
    | cons top rest =>
      have hn' : (o :: rest.map Prod.snd).Nodup := by
        simp only [List.map_cons] at hn
        have hsub : (o :: rest.map Prod.snd).Sublist (o :: top.2 :: rest.map Prod.snd) :=
          List.Sublist.cons₂ _ (List.sublist_cons_self _ _)
        exact hn.sublist hsub
      by_cases hd : d < top.1
      · simp only [hd, if_true]
        have hp := (heap_push_perm addr (d, o) rest).map Prod.snd
        exact (List.Perm.nodup_iff hp).mpr (by simpa using hn')
      · simp only [hd, if_false]
        exact (List.nodup_cons.mp hn).2

section folds

variable {Obj : Type} (addr : Nat → Nat) (dataset : Dataset Obj) (R : Int) (query_object : Obj)
  (metric : Obj → Obj → ℚ) (N : Int) (R2 : Int)

theorem knn_fold_spec (hN : 1 ≤ N) (l : List Nat) :
    ∀ acc : List (ℚ × Nat), (acc.length : Int) ≤ N → acc.Pairwise (fun x y => y.1 ≤ x.1) →
      ((l.foldl (accumulate addr dataset search_type.kNN R query_object metric N R2)
        acc).length : Int) = min N (acc.length + l.length) ∧
      (l.foldl (accumulate addr dataset search_type.kNN R query_object metric N R2)
        acc).Pairwise (fun x y => y.1 ≤ x.1) ∧
      ∀ x ∈ l.foldl (accumulate addr dataset search_type.kNN R query_object metric N R2) acc,
        x ∈ acc ∨ (x.2 ∈ l ∧ x.1 = metric query_object (dataset.get_ith_object x.2)) := by
  induction l with
  | nil =>
    intro acc h1 h2
    refine ⟨?_, h2, fun x hx => Or.inl hx⟩
    simp only [List.foldl_nil, List.length_nil]
    push_cast
    rw [min_eq_right (by omega)]
    omega
  | cons o rest ih =>
    intro acc h1 h2
    rw [List.foldl_cons]
    have e : accumulate addr dataset search_type.kNN R query_object metric N R2 acc o =
        push_at_most_N addr o N (metric query_object (dataset.get_ith_object o)) acc := rfl
    rw [e]
    have hl := push_at_most_N_length addr o N (metric query_object (dataset.get_ith_object o))
      acc hN h1
    have hs := push_at_most_N_sorted addr o N (metric query_object (dataset.get_ith_object o))
      acc h2
    obtain ⟨i1, i2, i3⟩ := ih _ (by rw [hl]; exact min_le_left _ _) hs
    refine ⟨?_, i2, ?_⟩
    · rw [i1, hl]
      simp only [List.length_cons]
      push_cast
      rcases le_total N ((acc.length : Int) + 1) with hc | hc
      · rw [min_eq_left hc, min_eq_left (by omega), min_eq_left (by omega)]
      · rw [min_eq_right hc]
        congr 1
        omega
    · intro x hx
      rcases i3 x hx with h | ⟨h, h'⟩
      · rcases push_at_most_N_mem addr o N _ acc x h with h | h
        · right
          rw [h]
          exact ⟨List.mem_cons_self _ _, rfl⟩
        · exact Or.inl h
      · exact Or.inr ⟨List.mem_cons_of_mem _ h, h'⟩

theorem knn_fold_nodup (l : List Nat) :
    ∀ acc : List (ℚ × Nat), (acc.map Prod.snd ++ l).Nodup →
      ((l.foldl (accumulate addr dataset search_type.kNN R query_object metric N R2)
        acc).map Prod.snd).Nodup := by
  induction l with
  | nil =>
    intro acc h
    simpa using h
  | cons o rest ih =>
    intro acc h
    rw [List.foldl_cons]
    have e : accumulate addr dataset search_type.kNN R query_object metric N R2 acc o =
        push_at_most_N addr o N (metric query_object (dataset.get_ith_object o)) acc := rfl
    rw [e]
    apply ih
    rw [List.nodup_append] at h ⊢
    obtain ⟨h1, h2, h3⟩ := h
    have ho : o ∉ acc.map Prod.snd := fun hm => h3 hm (List.mem_cons_self _ _)
    refine ⟨?_, (List.nodup_cons.mp h2).2, ?_⟩
    · exact push_at_most_N_nodup addr o N _ acc (List.nodup_cons.mpr ⟨ho, h1⟩)
    · intro x hx1 hx2
      rw [List.mem_map] at hx1
      obtain ⟨p, hp, rfl⟩ := hx1
      rcases push_at_most_N_mem addr o N _ acc p hp with hp' | hp'
      · rw [hp'] at hx2
        exact (List.nodup_cons.mp h2).1 hx2
      · exact h3 (List.mem_map_of_mem _ hp') (List.mem_cons_of_mem _ hx2)

theorem range_fold_eq (l : List Nat) :
    ∀ acc : List (ℚ × Nat),
      l.foldl (accumulate addr dataset search_type.RANGE_SEARCH R query_object metric N R2) acc =
        acc ++ (l.filter (fun o => (R2 : ℚ) ≤ metric query_object (dataset.get_ith_object o) ∧
          metric query_object (dataset.get_ith_object o) < (R : ℚ))).map
            (fun o => (metric query_object (dataset.get_ith_object o), o)) := by
  induction l with
  | nil => intro acc; simp
  | cons o rest ih =>
    intro acc
    rw [List.foldl_cons, ih]
    by_cases hb : (R2 : ℚ) ≤ metric query_object (dataset.get_ith_object o) ∧
        metric query_object (dataset.get_ith_object o) < (R : ℚ)
    · simp [accumulate, hb, List.filter_cons]
    · simp [accumulate, hb, List.filter_cons]

end folds

/-! ### The index built by `import_data` -/

section index

variable {Obj : Type}

theorem import_data_cube_array (d1 : Nat) (M probes : Int) (bits : Nat → Obj → Nat)
    (dataset : Dataset Obj) :
    (import_data (new_hypercube d1 M probes bits) dataset).cube_array =
      fun v => (List.range dataset.get_num_of_Objects).filter
        (fun i => vertex_of (new_hypercube d1 M probes bits) (dataset.get_ith_object i) = v) := by
  unfold import_data
  simp only
  rw [foldl_push_back
    (fun i => vertex_of (new_hypercube d1 M probes bits) (dataset.get_ith_object i))]
  funext v
  simp [new_hypercube]

theorem import_data_stored_once (d1 : Nat) (M probes : Int) (bits : Nat → Obj → Nat)
    (dataset : Dataset Obj) :
    stored_once (import_data (new_hypercube d1 M probes bits) dataset) := by
  unfold stored_once
  rw [import_data_cube_array]
  refine ⟨fun v => (List.nodup_range _).filter _, ?_⟩
  intro v v' hne i h1 h2
  simp only [List.mem_filter, decide_eq_true_eq] at h1 h2
  exact hne (h1.2.symm.trans h2.2)

theorem items_in_order_nodup (cube : hypercube Obj) (hd : 1 ≤ cube.d1) (hs : stored_once cube)
    (v : Nat) : (items_in_order cube v).Nodup := by
  unfold items_in_order
  rw [List.nodup_flatMap]
  refine ⟨fun a _ => hs.1 a, ?_⟩
  have hn := probe_order_nodup cube.d1 hd v
  apply List.Pairwise.imp _ hn
  intro a b hab
  exact hs.2 a b hab

theorem vertex_fold_lt (bits : Nat → Obj → Nat) (obj : Obj) (hb : ∀ j, bits j obj ≤ 1)
    (d : Nat) :
    (List.range d).foldl (fun index j => (index <<< 1) + bits j obj) 0 < 2 ^ d := by
  induction d with
  | zero => simp
  | succ d ih =>
    rw [List.range_succ, List.foldl_append]
    simp only [List.foldl_cons, List.foldl_nil]
    have := hb d
    rw [pow_succ, Nat.shiftLeft_eq, pow_one]
    omega

theorem vertex_of_lt (cube : hypercube Obj) (obj : Obj) (hb : ∀ j, cube.get_0_or_1 j obj ≤ 1) :
    vertex_of cube obj < 2 ^ cube.d1 :=
  vertex_fold_lt cube.get_0_or_1 obj hb cube.d1

theorem items_in_order_import (d1 : Nat) (hd : 1 ≤ d1) (M probes : Int)
    (bits : Nat → Obj → Nat) (hb : ∀ j o, bits j o ≤ 1) (dataset : Dataset Obj) (v : Nat)
    (hv : v < 2 ^ d1) :
    (items_in_order (import_data (new_hypercube d1 M probes bits) dataset) v).Perm
      (List.range dataset.get_num_of_Objects) := by
  have hn := items_in_order_nodup (import_data (new_hypercube d1 M probes bits) dataset) hd
    (import_data_stored_once d1 M probes bits dataset) v
  rw [List.perm_ext_iff_of_nodup hn (List.nodup_range _)]
  intro i
  unfold items_in_order
  rw [List.mem_flatMap, import_data_cube_array, List.mem_range]
  constructor
  · rintro ⟨a, _, hia⟩
    simp only [List.mem_filter, List.mem_range] at hia
    exact hia.1
  · intro hi
    refine ⟨vertex_of (new_hypercube d1 M probes bits) (dataset.get_ith_object i), ?_, ?_⟩
    · apply probe_order_complete d1 hd v hv
      exact vertex_of_lt (new_hypercube d1 M probes bits) _ (fun j => hb j _)
    · simp [List.mem_filter, hi]

end index

/-! ## Properties of the hypercube queries -/

theorem first_stage_probe_order {Obj : Type} (addr : Nat → Nat) (cube : hypercube Obj)
    (dataset : Dataset Obj) (Type_ : search_type) (R : Int) (query_object : Obj)
    (metric : Obj → Obj → ℚ) (N : Int) (R2 : Int) (hd : 1 ≤ cube.d1) (v : Nat)
    (s : probe_state) :
    vertex_visiting_first_stage addr cube dataset Type_ R v 0 (Nat.zero_le _) s
        (1 <<< (cube.d1 - 1)) query_object metric N R2 =
      visit_all addr cube dataset Type_ R query_object metric N R2 (probe_order cube.d1 v) s := by
  unfold probe_order
  have h := first_stage_eq addr cube dataset Type_ R query_object metric N R2 v
    (1 <<< (cube.d1 - 1))
    (by
      intro h hh
      by_cases h0 : h = 0
      · left; exact h0
      · right
        rw [Nat.one_shiftLeft]
        have e : 2 * 2 ^ (cube.d1 - 1) = 2 ^ cube.d1 := by
          obtain ⟨d, hd'⟩ : ∃ d, cube.d1 = d + 1 := ⟨cube.d1 - 1, by omega⟩
          rw [hd']; simp [pow_succ]; ring
        rw [e]
        exact Nat.pow_le_pow_right (by norm_num) hh)
    cube.d1 0 (Nat.zero_le _) s rfl
  simpa using h

theorem sample_bits_le (j : Nat) (o : ℚ) : sample_bits j o ≤ 1 := by
  unfold sample_bits
  split_ifs <;> omega

/-- C5. Output shape of `hypercube::appr_nearest_neighbors`: for every index of dimension
`d1 ≥ 1`, every query and every `N ≥ 1`, the returned vector has `min N e` pairs, where `e` is
the number of items the probe examined (so at most `N`), it is sorted by non-decreasing
distance, and every pair `(dist, item)` has `dist = metric(query, item)` and `item` stored in a
bucket that the probe opened. -/
theorem appr_nearest_neighbors_shape {Obj : Type} (addr : Nat → Nat) (cube : hypercube Obj)
    (dataset : Dataset Obj) (query_object : Obj) (N : Int) (metric : Obj → Obj → ℚ)
    (hd : 1 ≤ cube.d1) (hN : 1 ≤ N) :
    ((appr_nearest_neighbors addr cube dataset query_object N metric).length : Int) =
        min N ((items (probe addr cube dataset search_type.kNN 0 query_object metric N
          0)).length : Int) ∧
      ((appr_nearest_neighbors addr cube dataset query_object N metric).length : Int) ≤ N ∧
      (appr_nearest_neighbors addr cube dataset query_object N metric).Pairwise
        (fun x y => x.1 ≤ y.1) ∧
      ∀ x ∈ appr_nearest_neighbors addr cube dataset query_object N metric,
        x.1 = metric query_object (dataset.get_ith_object x.2) ∧
        ∃ v, v ∈ buckets (probe addr cube dataset search_type.kNN 0 query_object metric N 0) ∧
          x.2 ∈ cube.cube_array v := by
  obtain ⟨j, k, _, _, _, _, _, h5, _⟩ :=
    probe_run addr cube dataset search_type.kNN 0 query_object metric N 0 hd
  obtain ⟨f1, f2, f3⟩ := knn_fold_spec addr dataset 0 query_object metric N 0 hN
    (items (probe addr cube dataset search_type.kNN 0 query_object metric N 0)) []
    (by simp only [List.length_nil]; push_cast; omega) List.Pairwise.nil
  rw [← h5] at f1 f2 f3
  unfold appr_nearest_neighbors
  simp only [List.length_nil] at f1
  push_cast at f1
  rw [zero_add] at f1
  refine ⟨by rw [List.length_reverse]; exact f1, ?_, ?_, ?_⟩
  · rw [List.length_reverse, f1]
    exact min_le_left _ _
  · rw [List.pairwise_reverse]
    exact f2
  · intro x hx
    rw [List.mem_reverse] at hx
    rcases f3 x hx with h | ⟨h, h'⟩
    · exact absurd h (List.not_mem_nil _)
    · exact ⟨h', items_inserted addr cube dataset search_type.kNN 0 query_object metric N 0 hd
        x.2 h⟩

theorem appr_nearest_neighbors_shape_witness :
    (1 : Nat) ≤ sample_cube.d1 ∧ (1 : Int) ≤ 2 ∧
    ((appr_nearest_neighbors id sample_cube sample_dataset 0 2 sample_metric).length : Int) =
        min 2 ((items (probe id sample_cube sample_dataset search_type.kNN 0 0 sample_metric 2
          0)).length : Int) ∧
      ((appr_nearest_neighbors id sample_cube sample_dataset 0 2 sample_metric).length : Int)
        ≤ 2 ∧
      (appr_nearest_neighbors id sample_cube sample_dataset 0 2 sample_metric).Pairwise
        (fun x y => x.1 ≤ y.1) ∧
      ∀ x ∈ appr_nearest_neighbors id sample_cube sample_dataset 0 2 sample_metric,
        x.1 = sample_metric 0 (sample_dataset.get_ith_object x.2) ∧
        ∃ v, v ∈ buckets (probe id sample_cube sample_dataset search_type.kNN 0 0 sample_metric
            2 0) ∧
          x.2 ∈ sample_cube.cube_array v :=
  ⟨by decide, by decide,
    appr_nearest_neighbors_shape id sample_cube sample_dataset 0 2 sample_metric (by decide)
      (by decide)⟩

/-- C6. No duplicates in kNN: for the index that `import_data` builds over a dataset from a
freshly constructed hypercube of dimension `d1 ≥ 1`, for every query, every pair of budgets
`M` and `probes` and every `N ≥ 1` (in particular `N = |dataset|`), no dataset position occurs
twice in the result of `appr_nearest_neighbors`. -/
theorem appr_nearest_neighbors_nodup {Obj : Type} (addr : Nat → Nat) (d1 : Nat) (M probes : Int)
    (bits : Nat → Obj → Nat) (dataset : Dataset Obj) (query_object : Obj) (N : Int)
    (metric : Obj → Obj → ℚ) (hd : 1 ≤ d1) (_hN : 1 ≤ N) :
    ((appr_nearest_neighbors addr (import_data (new_hypercube d1 M probes bits) dataset) dataset
      query_object N metric).map Prod.snd).Nodup := by
  have hd' : 1 ≤ (import_data (new_hypercube d1 M probes bits) dataset).d1 := hd
  obtain ⟨j, k, _, _, _, _, _, h5, _⟩ :=
    probe_run addr (import_data (new_hypercube d1 M probes bits) dataset) dataset
      search_type.kNN 0 query_object metric N 0 hd'
  have hsub := items_sublist addr (import_data (new_hypercube d1 M probes bits) dataset) dataset
    search_type.kNN 0 query_object metric N 0 hd'
  have hnd := items_in_order_nodup (import_data (new_hypercube d1 M probes bits) dataset) hd'
    (import_data_stored_once d1 M probes bits dataset)
    (vertex_of (import_data (new_hypercube d1 M probes bits) dataset) query_object)
  have hn := knn_fold_nodup addr dataset 0 query_object metric N 0
    (items (probe addr (import_data (new_hypercube d1 M probes bits) dataset) dataset
      search_type.kNN 0 query_object metric N 0)) []
    (by simpa using hsub.nodup hnd)
  rw [← h5] at hn
  unfold appr_nearest_neighbors
  rw [List.map_reverse, List.nodup_reverse]
  exact hn

theorem appr_nearest_neighbors_nodup_witness :
    (1 : Nat) ≤ 2 ∧ (1 : Int) ≤ 4 ∧
    ((appr_nearest_neighbors id (import_data (new_hypercube 2 3 2 sample_bits) sample_dataset)
      sample_dataset 0 4 sample_metric).map Prod.snd).Nodup :=
  ⟨by decide, by decide,
    appr_nearest_neighbors_nodup id 2 3 2 sample_bits sample_dataset 0 4 sample_metric
      (by decide) (by decide)⟩

theorem range_search_spec {Obj : Type} (addr : Nat → Nat) (cube : hypercube Obj)
    (dataset : Dataset Obj) (query_object : Obj) (R : Int) (metric : Obj → Obj → ℚ) (R2 : Int)
    (hd : 1 ≤ cube.d1) :
    (∀ x ∈ range_search addr cube dataset query_object R metric R2,
        x.1 = metric query_object (dataset.get_ith_object x.2) ∧
        (∃ v, v ∈ buckets (probe addr cube dataset search_type.RANGE_SEARCH R query_object
            metric 0 R2) ∧ x.2 ∈ cube.cube_array v) ∧
        (R2 : ℚ) ≤ x.1 ∧ x.1 < (R : ℚ)) ∧
      (stored_once cube →
        ((range_search addr cube dataset query_object R metric R2).map Prod.snd).Nodup) := by
  obtain ⟨j, k, _, _, _, _, _, h5, _⟩ :=
    probe_run addr cube dataset search_type.RANGE_SEARCH R query_object metric 0 R2 hd
  have hfold := range_fold_eq addr dataset R query_object metric 0 R2
    (items (probe addr cube dataset search_type.RANGE_SEARCH R query_object metric 0 R2)) []
  rw [← h5, List.nil_append] at hfold
  unfold range_search
  rw [hfold]
  constructor
  · intro x hx
    rw [List.mem_map] at hx
    obtain ⟨o, ho, rfl⟩ := hx
    rw [List.mem_filter] at ho
    obtain ⟨ho1, ho2⟩ := ho
    simp only [decide_eq_true_eq] at ho2
    exact ⟨rfl, items_inserted addr cube dataset search_type.RANGE_SEARCH R query_object metric
      0 R2 hd o ho1, ho2.1, ho2.2⟩
  · intro hs
    have hsub := items_sublist addr cube dataset search_type.RANGE_SEARCH R query_object metric
      0 R2 hd
    have hnd := items_in_order_nodup cube hd hs (vertex_of cube query_object)
    rw [List.map_map]
    have e : (Prod.snd ∘ fun o => (metric query_object (dataset.get_ith_object o), o)) =
        (id : Nat → Nat) := rfl
    rw [e, List.map_id]
    exact (hsub.nodup hnd).filter _

theorem range_search_import_lt {Obj : Type} (addr : Nat → Nat) (d1 : Nat) (M probes : Int)
    (bits : Nat → Obj → Nat) (dataset : Dataset Obj) (query_object : Obj) (R : Int)
    (metric : Obj → Obj → ℚ) (R2 : Int) (hd : 1 ≤ d1) (x : ℚ × Nat)
    (hx : x ∈ range_search addr (import_data (new_hypercube d1 M probes bits) dataset) dataset
      query_object R metric R2) : x.2 < dataset.get_num_of_Objects := by
  obtain ⟨_, ⟨v, _, hv⟩, _⟩ := (range_search_spec addr
    (import_data (new_hypercube d1 M probes bits) dataset) dataset query_object R metric R2
    hd).1 x hx
  rw [import_data_cube_array] at hv
  simp only [List.mem_filter, List.mem_range] at hv
  exact hv.1

/-- C7. Range soundness: for every index of dimension `d1 ≥ 1`, every query, `R` and `R2`,
every pair `(dist, item)` returned by `hypercube::range_search` has
`dist = metric(query, item)`, `item` stored in a bucket that the probe opened, and
`R2 ≤ dist < R`; and when no item is stored twice in the bucket table (as after
`import_data`), no item is returned twice. -/
theorem range_search_sound {Obj : Type} (addr : Nat → Nat) (cube : hypercube Obj)
    (dataset : Dataset Obj) (query_object : Obj) (R : Int) (metric : Obj → Obj → ℚ) (R2 : Int)
    (hd : 1 ≤ cube.d1) :
    (∀ x ∈ range_search addr cube dataset query_object R metric R2,
        x.1 = metric query_object (dataset.get_ith_object x.2) ∧
        (∃ v, v ∈ buckets (probe addr cube dataset search_type.RANGE_SEARCH R query_object
            metric 0 R2) ∧ x.2 ∈ cube.cube_array v) ∧
        (R2 : ℚ) ≤ x.1 ∧ x.1 < (R : ℚ)) ∧
      (stored_once cube →
        ((range_search addr cube dataset query_object R metric R2).map Prod.snd).Nodup) :=
  range_search_spec addr cube dataset query_object R metric R2 hd

theorem range_search_sound_witness :
    (1 : Nat) ≤ sample_cube.d1 ∧
    (∀ x ∈ range_search id sample_cube sample_dataset 0 3 sample_metric 1,
        x.1 = sample_metric 0 (sample_dataset.get_ith_object x.2) ∧
        (∃ v, v ∈ buckets (probe id sample_cube sample_dataset search_type.RANGE_SEARCH 3 0
            sample_metric 0 1) ∧ x.2 ∈ sample_cube.cube_array v) ∧
        ((1 : Int) : ℚ) ≤ x.1 ∧ x.1 < ((3 : Int) : ℚ)) ∧
      ((range_search id sample_cube sample_dataset 0 3 sample_metric 1).map Prod.snd).Nodup :=
  ⟨by decide,
    (range_search_sound id sample_cube sample_dataset 0 3 sample_metric 1 (by decide)).1,
    (range_search_sound id sample_cube sample_dataset 0 3 sample_metric 1 (by decide)).2
      (import_data_stored_once 2 4 4 sample_bits sample_dataset)⟩

theorem sample_filter :
    ((List.range sample_dataset.get_num_of_Objects).filter
        (fun i => (((1 : Int) : ℚ) ≤ sample_metric 0 (sample_dataset.get_ith_object i) ∧
          sample_metric 0 (sample_dataset.get_ith_object i) < ((3 : Int) : ℚ)))).map
        (fun i => (sample_metric 0 (sample_dataset.get_ith_object i), i)) =
      [(3 / 2, 1), (5 / 2, 2)] := by
  have e : List.range sample_dataset.get_num_of_Objects = [0, 1, 2, 3] := rfl
  rw [e]
  have h0 : sample_metric 0 (sample_dataset.get_ith_object 0) = 1 / 2 := by
    simp [sample_metric, sample_dataset, abs_of_nonneg]
  have h1 : sample_metric 0 (sample_dataset.get_ith_object 1) = 3 / 2 := by
    simp [sample_metric, sample_dataset]
    norm_num
  have h2 : sample_metric 0 (sample_dataset.get_ith_object 2) = 5 / 2 := by
    simp [sample_metric, sample_dataset]
    norm_num
  have h3 : sample_metric 0 (sample_dataset.get_ith_object 3) = 7 / 2 := by
    simp [sample_metric, sample_dataset]
    norm_num
  simp only [List.filter_cons, List.filter_nil, h0, h1, h2, h3]
  norm_num
  exact ⟨h1, h2⟩

theorem range_search_perm {Obj : Type} (addr : Nat → Nat) (d1 : Nat) (M probes : Int)
    (bits : Nat → Obj → Nat) (dataset : Dataset Obj) (query_object : Obj) (R : Int)
    (metric : Obj → Obj → ℚ) (R2 : Int) (hd : 1 ≤ d1) (hb : ∀ j o, bits j o ≤ 1)
    (hp : (2 : Int) ^ d1 ≤ probes) (hM : (dataset.get_num_of_Objects : Int) ≤ M) :
    (range_search addr (import_data (new_hypercube d1 M probes bits) dataset) dataset
        query_object R metric R2).Perm
      (((List.range dataset.get_num_of_Objects).filter
          (fun i => ((R2 : ℚ) ≤ metric query_object (dataset.get_ith_object i) ∧
            metric query_object (dataset.get_ith_object i) < (R : ℚ)))).map
        (fun i => (metric query_object (dataset.get_ith_object i), i))) := by
  have hd' : 1 ≤ (import_data (new_hypercube d1 M probes bits) dataset).d1 := hd
  have hv : vertex_of (import_data (new_hypercube d1 M probes bits) dataset) query_object
      < 2 ^ d1 :=
    vertex_of_lt (import_data (new_hypercube d1 M probes bits) dataset) query_object
      (fun j => hb j _)
  have hperm := items_in_order_import d1 hd M probes bits hb dataset _ hv
  have hex := items_exhaustive addr (import_data (new_hypercube d1 M probes bits) dataset)
    dataset search_type.RANGE_SEARCH R query_object metric 0 R2 hd' hp
    (by
      rw [hperm.length_eq, List.length_range]
      have : (import_data (new_hypercube d1 M probes bits) dataset).M = M := rfl
      rw [this]
      exact hM)
  obtain ⟨j, k, _, _, _, _, _, h5, _⟩ :=
    probe_run addr (import_data (new_hypercube d1 M probes bits) dataset) dataset
      search_type.RANGE_SEARCH R query_object metric 0 R2 hd'
  have hfold := range_fold_eq addr dataset R query_object metric 0 R2
    (items (probe addr (import_data (new_hypercube d1 M probes bits) dataset) dataset
      search_type.RANGE_SEARCH R query_object metric 0 R2)) []
  rw [← h5, List.nil_append, hex] at hfold
  unfold range_search
  rw [hfold]
  exact (hperm.filter _).map _

/-- C8. Range completeness under exhaustive budgets: on the index that `import_data` builds
over a dataset of `n` items from a fresh hypercube of dimension `d1 ≥ 1` whose projected bits
are 0 or 1, with `probes ≥ 2^d1` and `M ≥ max 1 n`, `hypercube::range_search(q, R, metric, R2)`
returns, up to order, exactly the pairs `(metric(q, item), item)` of the dataset positions
whose distance to `q` lies in `[R2, R)`, each once. -/
theorem range_search_complete {Obj : Type} (addr : Nat → Nat) (d1 : Nat) (M probes : Int)
    (bits : Nat → Obj → Nat) (dataset : Dataset Obj) (query_object : Obj) (R : Int)
    (metric : Obj → Obj → ℚ) (R2 : Int) (hd : 1 ≤ d1) (hb : ∀ j o, bits j o ≤ 1)
    (hp : (2 : Int) ^ d1 ≤ probes) (hM : max 1 (dataset.get_num_of_Objects : Int) ≤ M) :
    (range_search addr (import_data (new_hypercube d1 M probes bits) dataset) dataset
        query_object R metric R2).Perm
      (((List.range dataset.get_num_of_Objects).filter
          (fun i => ((R2 : ℚ) ≤ metric query_object (dataset.get_ith_object i) ∧
            metric query_object (dataset.get_ith_object i) < (R : ℚ)))).map
        (fun i => (metric query_object (dataset.get_ith_object i), i))) :=
  range_search_perm addr d1 M probes bits dataset query_object R metric R2 hd hb hp
    (le_trans (le_max_right _ _) hM)

theorem range_search_complete_witness :
    (range_search id (import_data (new_hypercube 2 4 4 sample_bits) sample_dataset)
      sample_dataset 0 3 sample_metric 1).Perm [(3 / 2, 1), (5 / 2, 2)] :=
  sample_filter ▸
    range_search_complete id 2 4 4 sample_bits sample_dataset 0 3 sample_metric 1 (by decide)
      sample_bits_le (by decide) (by decide)

/-- C9. Hamming-ordered probing: for `d1 ≥ 1`, every query address `v` and every pair of
initial budgets, the sequence of buckets opened by `vertex_visiting_first_stage` (entered with
Hamming distance 0 and current bit `1 << (d1-1)`) starts with `v`, is non-decreasing in
Hamming distance from `v` and opens no bucket twice; when it ends with neither budget at 0 it
has opened `2^d1` buckets, for each `h ≤ d1` exactly `C(d1, h)` of them at Hamming distance `h`
from `v`, and for `v < 2^d1` these are exactly the addresses below `2^d1`. -/
theorem first_stage_hamming_order {Obj : Type} (addr : Nat → Nat) (cube : hypercube Obj)
    (dataset : Dataset Obj) (Type_ : search_type) (R : Int) (query_object : Obj)
    (metric : Obj → Obj → ℚ) (N : Int) (R2 : Int) (v : Nat) (M_rem probes_rem : Int)
    (acc : List (ℚ × Nat)) (hd : 1 ≤ cube.d1) :
    (buckets (vertex_visiting_first_stage addr cube dataset Type_ R v 0 (Nat.zero_le _)
        { M_rem := M_rem, probes_rem := probes_rem, max_heap := acc, opened := [],
          examined := [] }
        (1 <<< (cube.d1 - 1)) query_object metric N R2)).head? = some v ∧
      (buckets (vertex_visiting_first_stage addr cube dataset Type_ R v 0 (Nat.zero_le _)
        { M_rem := M_rem, probes_rem := probes_rem, max_heap := acc, opened := [],
          examined := [] }
        (1 <<< (cube.d1 - 1)) query_object metric N R2)).Pairwise
          (fun a b => hamming v a ≤ hamming v b) ∧
      (buckets (vertex_visiting_first_stage addr cube dataset Type_ R v 0 (Nat.zero_le _)
        { M_rem := M_rem, probes_rem := probes_rem, max_heap := acc, opened := [],
          examined := [] }
        (1 <<< (cube.d1 - 1)) query_object metric N R2)).Nodup ∧
      (¬ stopped (vertex_visiting_first_stage addr cube dataset Type_ R v 0 (Nat.zero_le _)
        { M_rem := M_rem, probes_rem := probes_rem, max_heap := acc, opened := [],
          examined := [] }
        (1 <<< (cube.d1 - 1)) query_object metric N R2) →
        (buckets (vertex_visiting_first_stage addr cube dataset Type_ R v 0 (Nat.zero_le _)
          { M_rem := M_rem, probes_rem := probes_rem, max_heap := acc, opened := [],
            examined := [] }
          (1 <<< (cube.d1 - 1)) query_object metric N R2)).length = 2 ^ cube.d1 ∧
        (∀ h, h ≤ cube.d1 →
          (buckets (vertex_visiting_first_stage addr cube dataset Type_ R v 0 (Nat.zero_le _)
            { M_rem := M_rem, probes_rem := probes_rem, max_heap := acc, opened := [],
              examined := [] }
            (1 <<< (cube.d1 - 1)) query_object metric N R2)).countP
              (fun a => hamming v a = h) = Nat.choose cube.d1 h) ∧
        (v < 2 ^ cube.d1 → ∀ a,
          a ∈ buckets (vertex_visiting_first_stage addr cube dataset Type_ R v 0 (Nat.zero_le _)
            { M_rem := M_rem, probes_rem := probes_rem, max_heap := acc, opened := [],
              examined := [] }
            (1 <<< (cube.d1 - 1)) query_object metric N R2) ↔ a < 2 ^ cube.d1)) := by
  rw [first_stage_probe_order addr cube dataset Type_ R query_object metric N R2 hd v]
  obtain ⟨j, k, _, _, h3, _, _, _, _, h8, _, h10⟩ :=
    visit_all_spec addr cube dataset Type_ R query_object metric N R2 (probe_order cube.d1 v)
      { M_rem := M_rem, probes_rem := probes_rem, max_heap := acc, opened := [], examined := [] }
  have hb0 : buckets
      { M_rem := M_rem, probes_rem := probes_rem, max_heap := acc, opened := [],
        examined := [] } = [] := rfl
  rw [hb0, List.nil_append] at h3
  have hne : probe_order cube.d1 v ≠ [] := by
    rw [probe_order_head]; simp
  have hj := h8 hne
  rw [h3]
  refine ⟨?_, ?_, ?_, ?_⟩
  · rw [probe_order_head]
    obtain ⟨j', rfl⟩ : ∃ j', j = j' + 1 := ⟨j - 1, by omega⟩
    rfl
  · exact (probe_order_sorted cube.d1 hd v).sublist (List.take_sublist _ _)
  · exact (probe_order_nodup cube.d1 hd v).sublist (List.take_sublist _ _)
  · intro hs
    have hjl := h10 hs
    rw [hjl, List.take_length]
    refine ⟨probe_order_length cube.d1 hd v, ?_, ?_⟩
    · intro h hh
      exact probe_order_count_shell cube.d1 hd v h hh
    · intro hv a
      constructor
      · intro ha
        exact (mem_probe_order cube.d1 hd v a ha).2.2 hv
      · intro ha
        exact probe_order_complete cube.d1 hd v hv a ha

theorem first_stage_hamming_order_witness :
    (buckets (vertex_visiting_first_stage id sample_cube sample_dataset search_type.kNN 0 1 0
        (Nat.zero_le _)
        { M_rem := 4, probes_rem := 4, max_heap := [], opened := [], examined := [] }
        (1 <<< (sample_cube.d1 - 1)) 0 sample_metric 2 0)).head? = some 1 ∧
      (buckets (vertex_visiting_first_stage id sample_cube sample_dataset search_type.kNN 0 1 0
        (Nat.zero_le _)
        { M_rem := 4, probes_rem := 4, max_heap := [], opened := [], examined := [] }
        (1 <<< (sample_cube.d1 - 1)) 0 sample_metric 2 0)).Nodup :=
  ⟨(first_stage_hamming_order id sample_cube sample_dataset search_type.kNN 0 0 sample_metric 2
      0 1 4 4 [] (by decide)).1,
    (first_stage_hamming_order id sample_cube sample_dataset search_type.kNN 0 0 sample_metric 2
      0 1 4 4 [] (by decide)).2.2.1⟩

/-- C10. Probe budgets: for every index of dimension `d1 ≥ 1` with `M ≥ 1` and `probes ≥ 1`
and every query, a probe (kNN or range) opens at most `probes` buckets and examines at most
`M` items; the k-th bucket is opened with `probes - k` buckets left and the k-th item is
examined with `M - k` items left, and every bucket is opened and every item examined while
both remaining budgets are at least 1, so nothing is opened or examined once a remaining
budget is 0. -/
theorem probe_budgets {Obj : Type} (addr : Nat → Nat) (cube : hypercube Obj)
    (dataset : Dataset Obj) (Type_ : search_type) (R : Int) (query_object : Obj)
    (metric : Obj → Obj → ℚ) (N : Int) (R2 : Int) (hd : 1 ≤ cube.d1) (hM : 1 ≤ cube.M)
    (hp : 1 ≤ cube.probes) :
    ((buckets (probe addr cube dataset Type_ R query_object metric N R2)).length : Int)
        ≤ cube.probes ∧
      ((items (probe addr cube dataset Type_ R query_object metric N R2)).length : Int)
        ≤ cube.M ∧
      (probe addr cube dataset Type_ R query_object metric N R2).probes_rem =
        cube.probes - (buckets (probe addr cube dataset Type_ R query_object metric N
          R2)).length ∧
      (probe addr cube dataset Type_ R query_object metric N R2).M_rem =
        cube.M - (items (probe addr cube dataset Type_ R query_object metric N R2)).length ∧
      (∀ (k : Nat) (e : Nat × Int × Int),
        (probe addr cube dataset Type_ R query_object metric N R2).opened[k]? = some e →
          e.2.2 = cube.probes - k ∧ 1 ≤ e.2.1 ∧ 1 ≤ e.2.2) ∧
      (∀ (k : Nat) (e : Nat × Int × Int),
        (probe addr cube dataset Type_ R query_object metric N R2).examined[k]? = some e →
          e.2.1 = cube.M - k ∧ 1 ≤ e.2.1 ∧ 1 ≤ e.2.2) := by
  have hlog := visit_all_log addr cube dataset Type_ R query_object metric N R2 cube.M
    cube.probes (probe_order cube.d1 (vertex_of cube query_object)) (initial_probe cube) hM hp
    ⟨by simp [initial_probe], by intro k e h; simp [initial_probe] at h⟩
    ⟨by simp [initial_probe], by intro k e h; simp [initial_probe] at h⟩
  rw [← probe_eq addr cube dataset Type_ R query_object metric N R2 hd] at hlog
  obtain ⟨⟨e1, e2⟩, ⟨o1, o2⟩, hM0, hp0⟩ := hlog
  have hbl : (buckets (probe addr cube dataset Type_ R query_object metric N R2)).length =
      (probe addr cube dataset Type_ R query_object metric N R2).opened.length := by
    simp [buckets]
  have hil : (items (probe addr cube dataset Type_ R query_object metric N R2)).length =
      (probe addr cube dataset Type_ R query_object metric N R2).examined.length := by
    simp [items]
  rw [hbl, hil]
  exact ⟨by omega, by omega, o1, e1, o2, e2⟩

theorem probe_budgets_witness :
    ((buckets (probe id sample_cube sample_dataset search_type.RANGE_SEARCH 3 0 sample_metric 0
        1)).length : Int) ≤ 4 ∧
      ((items (probe id sample_cube sample_dataset search_type.RANGE_SEARCH 3 0 sample_metric 0
        1)).length : Int) ≤ 4 :=
  ⟨(probe_budgets id sample_cube sample_dataset search_type.RANGE_SEARCH 3 0 sample_metric 0 1
      (by decide) (by decide) (by decide)).1,
    (probe_budgets id sample_cube sample_dataset search_type.RANGE_SEARCH 3 0 sample_metric 0 1
      (by decide) (by decide) (by decide)).2.1⟩

/-! ## The claim map of the reverse assignment -/

section claims

variable {Obj : Type} (get_name : Obj → String) (dataset : Dataset Obj)

theorem claim_fst (i : Nat) (st : (String → Option (ℚ × Nat)) × Bool) (item : ℚ × Nat)
    (s : String) :
    (claim get_name dataset i st item).1 s =
      if s = get_name (dataset.get_ith_object item.2) then claim_update item.1 i (st.1 s)
      else st.1 s := by
  unfold claim
  by_cases hs : s = get_name (dataset.get_ith_object item.2)
  · subst hs
    simp only [if_true]
    cases h : st.1 (get_name (dataset.get_ith_object item.2)) with
    | none => simp [claim_update]
    | some c =>
      simp only [claim_update]
      by_cases hc : c.1 > item.1
      · simp [hc]
      · simp [hc, h]
  · simp only [if_neg hs]
    cases h : st.1 (get_name (dataset.get_ith_object item.2)) with
    | none => simp [hs]
    | some c =>
      simp only
      by_cases hc : c.1 > item.1
      · simp [hc, hs]
      · simp [hc]

theorem claim_snd (i : Nat) (st : (String → Option (ℚ × Nat)) × Bool) (item : ℚ × Nat) :
    (claim get_name dataset i st item).2 =
      (st.2 || (st.1 (get_name (dataset.get_ith_object item.2))).isNone) := by
  unfold claim
  cases h : st.1 (get_name (dataset.get_ith_object item.2)) with
  | none => simp [h]
  | some c =>
    by_cases hc : c.1 > item.1
    · simp [h, hc]
    · simp [h, hc]

theorem claim_update_isSome (d : ℚ) (i : Nat) (o : Option (ℚ × Nat)) :
    (claim_update d i o).isSome = true := by
  unfold claim_update
  cases o with
  | none => rfl
  | some c =>
    simp only
    split_ifs <;> rfl

theorem claim_update_idem (d : ℚ) (i : Nat) (o : Option (ℚ × Nat)) :
    claim_update d i (claim_update d i o) = claim_update d i o := by
  unfold claim_update
  cases o with
  | none => simp
  | some c =>
    by_cases hc : c.1 > d
    · simp [hc]
    · simp [hc]

theorem claim_update_index (K : Nat) (d : ℚ) (i : Nat) (hi : i < K) (o : Option (ℚ × Nat))
    (ho : ∀ c, o = some c → c.2 < K) : ∀ c, claim_update d i o = some c → c.2 < K := by
  intro c hc
  unfold claim_update at hc
  cases o with
  | none =>
    simp only [Option.some.injEq] at hc
    rw [← hc]; exact hi
  | some c0 =>
    simp only at hc
    split_ifs at hc
    · simp only [Option.some.injEq] at hc
      rw [← hc]; exact hi
    · exact ho c hc

theorem claim_fold_mono (i : Nat) (L : List (ℚ × Nat)) (s : String) :
    ∀ st : (String → Option (ℚ × Nat)) × Bool, (st.1 s).isSome = true →
      ((L.foldl (claim get_name dataset i) st).1 s).isSome = true := by
  induction L with
  | nil => intro st h; exact h
  | cons a rest ih =>
    intro st h
    rw [List.foldl_cons]
    apply ih
    rw [claim_fst]
    split_ifs
    · exact claim_update_isSome _ _ _
    · exact h

theorem claim_fold_claimed (i : Nat) (L : List (ℚ × Nat)) :
    ∀ st : (String → Option (ℚ × Nat)) × Bool, ∀ a ∈ L,
      ((L.foldl (claim get_name dataset i) st).1
        (get_name (dataset.get_ith_object a.2))).isSome = true := by
  induction L with
  | nil => intro st a ha; exact absurd ha (List.not_mem_nil _)
  | cons b rest ih =>
    intro st a ha
    rw [List.foldl_cons]
    rcases List.mem_cons.mp ha with h | h
    · subst h
      apply claim_fold_mono
      rw [claim_fst, if_pos rfl]
      exact claim_update_isSome _ _ _
    · exact ih _ a h

theorem claim_fold_flag (i : Nat) (L : List (ℚ × Nat)) :
    ∀ st : (String → Option (ℚ × Nat)) × Bool,
      (L.foldl (claim get_name dataset i) st).2 = true →
        st.2 = true ∨ ∃ a ∈ L, st.1 (get_name (dataset.get_ith_object a.2)) = none := by
  induction L with
  | nil => intro st h; exact Or.inl h
  | cons b rest ih =>
    intro st h
    rw [List.foldl_cons] at h
    rcases ih _ h with h1 | ⟨a, ha, h2⟩
    · rw [claim_snd, Bool.or_eq_true] at h1
      rcases h1 with h1 | h1
      · exact Or.inl h1
      · right
        exact ⟨b, List.mem_cons_self _ _, Option.isNone_iff_eq_none.mp h1⟩
    · right
      refine ⟨a, List.mem_cons_of_mem _ ha, ?_⟩
      rw [claim_fst] at h2
      split_ifs at h2 with hs
      · have := claim_update_isSome b.1 i (st.1 (get_name (dataset.get_ith_object a.2)))
        rw [h2] at this
        exact absurd this (by simp)
      · exact h2

theorem claim_fold_index (K i : Nat) (hi : i < K) (L : List (ℚ × Nat)) :
    ∀ st : (String → Option (ℚ × Nat)) × Bool, (∀ s c, st.1 s = some c → c.2 < K) →
      ∀ s c, (L.foldl (claim get_name dataset i) st).1 s = some c → c.2 < K := by
  induction L with
  | nil => intro st h; exact h
  | cons b rest ih =>
    intro st h
    rw [List.foldl_cons]
    apply ih
    intro s c hc
    rw [claim_fst] at hc
    split_ifs at hc
    · exact claim_update_index K b.1 i hi _ (h s) c hc
    · exact h s c hc

/-- A name that no returned item carries keeps its entry; a name carried by returned items,
all at the same distance, gets the entry of one claim step. -/
theorem claim_fold_value (i : Nat) (L : List (ℚ × Nat)) (s : String) (d : ℚ)
    (hd : ∀ a ∈ L, get_name (dataset.get_ith_object a.2) = s → a.1 = d) :
    ∀ st : (String → Option (ℚ × Nat)) × Bool,
      ((∀ a ∈ L, get_name (dataset.get_ith_object a.2) ≠ s) →
        (L.foldl (claim get_name dataset i) st).1 s = st.1 s) ∧
      ((∃ a ∈ L, get_name (dataset.get_ith_object a.2) = s) →
        (L.foldl (claim get_name dataset i) st).1 s = claim_update d i (st.1 s)) ∧
      (st.1 s = claim_update d i (st.1 s) →
        (L.foldl (claim get_name dataset i) st).1 s = st.1 s) := by
  induction L with
  | nil =>
    intro st
    refine ⟨fun _ => rfl, ?_, fun _ => rfl⟩
    rintro ⟨a, ha, _⟩
    exact absurd ha (List.not_mem_nil _)
  | cons b rest ih =>
    intro st
    have hd' : ∀ a ∈ rest, get_name (dataset.get_ith_object a.2) = s → a.1 = d :=
      fun a ha => hd a (List.mem_cons_of_mem _ ha)
    obtain ⟨i1, i2, i3⟩ := ih hd' (claim get_name dataset i st b)
    rw [List.foldl_cons]
    by_cases hb : get_name (dataset.get_ith_object b.2) = s
    · have hbd : b.1 = d := hd b (List.mem_cons_self _ _) hb
      have e : (claim get_name dataset i st b).1 s = claim_update d i (st.1 s) := by
        rw [claim_fst, if_pos hb.symm, hbd]
      have hfix : (rest.foldl (claim get_name dataset i) (claim get_name dataset i st b)).1 s =
          claim_update d i (st.1 s) := by
        rw [i3 (by rw [e, claim_update_idem]), e]
      refine ⟨fun h => absurd hb (h b (List.mem_cons_self _ _)), fun _ => hfix, ?_⟩
      intro hst
      rw [hfix, ← hst]
    · have e : (claim get_name dataset i st b).1 s = st.1 s := by
        rw [claim_fst, if_neg (fun h => hb h.symm)]
      refine ⟨?_, ?_, ?_⟩
      · intro h
        rw [i1 (fun a ha => h a (List.mem_cons_of_mem _ ha)), e]
      · rintro ⟨a, ha, has⟩
        rcases List.mem_cons.mp ha with h | h
        · subst h; exact absurd has hb
        · rw [i2 ⟨a, h, has⟩, e]
      · intro hst
        rw [i3 (by rw [e]; exact hst), e]

/-! ### One pass over the centroids -/

theorem claim_pass_mono (Q : Nat → List (ℚ × Nat)) (indices : List Nat) (s : String) :
    ∀ st : (String → Option (ℚ × Nat)) × Bool, (st.1 s).isSome = true →
      ((claim_pass get_name dataset Q indices st).1 s).isSome = true := by
  induction indices with
  | nil => intro st h; exact h
  | cons i rest ih =>
    intro st h
    unfold claim_pass
    rw [List.foldl_cons]
    exact ih _ (claim_fold_mono get_name dataset i (Q i) s st h)

theorem claim_pass_claimed (Q : Nat → List (ℚ × Nat)) (indices : List Nat) :
    ∀ st : (String → Option (ℚ × Nat)) × Bool, ∀ i ∈ indices, ∀ a ∈ Q i,
      ((claim_pass get_name dataset Q indices st).1
        (get_name (dataset.get_ith_object a.2))).isSome = true := by
  induction indices with
  | nil => intro st i hi; exact absurd hi (List.not_mem_nil _)
  | cons j rest ih =>
    intro st i hi a ha
    unfold claim_pass
    rw [List.foldl_cons]
    rcases List.mem_cons.mp hi with h | h
    · subst h
      exact claim_pass_mono get_name dataset Q rest _ _
        (claim_fold_claimed get_name dataset i (Q i) st a ha)
    · exact ih _ i h a ha

theorem claim_pass_flag (Q : Nat → List (ℚ × Nat)) (indices : List Nat) :
    ∀ st : (String → Option (ℚ × Nat)) × Bool,
      (claim_pass get_name dataset Q indices st).2 = true →
        st.2 = true ∨
          ∃ i ∈ indices, ∃ a ∈ Q i, st.1 (get_name (dataset.get_ith_object a.2)) = none := by
  induction indices with
  | nil => intro st h; exact Or.inl h
  | cons j rest ih =>
    intro st h
    unfold claim_pass at h
    rw [List.foldl_cons] at h
    rcases ih _ h with h1 | ⟨i, hi, a, ha, h2⟩
    · rcases claim_fold_flag get_name dataset j (Q j) st h1 with h3 | ⟨a, ha, h3⟩
      · exact Or.inl h3
      · exact Or.inr ⟨j, List.mem_cons_self _ _, a, ha, h3⟩
    · right
      refine ⟨i, List.mem_cons_of_mem _ hi, a, ha, ?_⟩
      by_contra hne
      have hsome : (st.1 (get_name (dataset.get_ith_object a.2))).isSome = true := by
        rw [Option.isSome_iff_exists]
        cases hst : st.1 (get_name (dataset.get_ith_object a.2)) with
        | none => exact absurd hst hne
        | some c => exact ⟨c, rfl⟩
      have := claim_fold_mono get_name dataset j (Q j) _ st hsome
      rw [h2] at this
      exact absurd this (by simp)

theorem claim_pass_index (K : Nat) (Q : Nat → List (ℚ × Nat)) (indices : List Nat)
    (hK : ∀ i ∈ indices, i < K) :
    ∀ st : (String → Option (ℚ × Nat)) × Bool, (∀ s c, st.1 s = some c → c.2 < K) →
      ∀ s c, (claim_pass get_name dataset Q indices st).1 s = some c → c.2 < K := by
  induction indices with
  | nil => intro st h; exact h
  | cons j rest ih =>
    intro st h
    unfold claim_pass
    rw [List.foldl_cons]
    exact ih (fun i hi => hK i (List.mem_cons_of_mem _ hi)) _
      (claim_fold_index get_name dataset K j (hK j (List.mem_cons_self _ _)) (Q j) st h)

theorem range_pass_eq (range_query : Nat → Nat → Int → Int → List (ℚ × Nat)) (K pass : Nat)
    (R R2 : Int) (map : String → Option (ℚ × Nat)) :
    range_pass get_name dataset range_query K pass R R2 map =
      claim_pass get_name dataset (fun i => range_query pass i R R2) (List.range K)
        (map, false) := rfl

end claims

/-! ## Termination of the radius-growing loop and the partition it yields -/

theorem filter_length_lt {α : Type} (l : List α) (p q : α → Bool)
    (h : ∀ x ∈ l, q x = true → p x = true) (hx : ∃ x ∈ l, p x = true ∧ ¬ q x = true) :
    (l.filter q).length < (l.filter p).length := by
  have e : l.filter q = (l.filter p).filter q := by
    rw [List.filter_filter]
    apply List.filter_congr
    intro x hx'
    by_cases hq : q x = true
    · simp [hq, h x hx' hq]
    · simp [hq]
  rw [e, List.length_filter_lt_length_iff_exists]
  obtain ⟨x, hxl, hp, hq⟩ := hx
  exact ⟨x, List.mem_filter.mpr ⟨hxl, hp⟩, hq⟩

section growing

variable {Obj : Type} (get_name : Obj → String) (dataset : Dataset Obj)
  (range_query : Nat → Nat → Int → Int → List (ℚ × Nat)) (K : Nat)

theorem mem_item_names (i : Nat) (hi : i < dataset.get_num_of_Objects) :
    get_name (dataset.get_ith_object i) ∈ item_names get_name dataset := by
  unfold item_names
  rw [List.mem_dedup, List.mem_map]
  exact ⟨i, List.mem_range.mpr hi, rfl⟩

theorem range_pass_progress
    (hq : ∀ pass i R R2, i < K → ∀ x ∈ range_query pass i R R2,
      x.2 < dataset.get_num_of_Objects)
    (pass : Nat) (R R2 : Int) (map : String → Option (ℚ × Nat))
    (hflag : (range_pass get_name dataset range_query K pass R R2 map).2 = true) :
    (∀ s, (map s).isSome = true →
      ((range_pass get_name dataset range_query K pass R R2 map).1 s).isSome = true) ∧
    ∃ s ∈ item_names get_name dataset, map s = none ∧
      ((range_pass get_name dataset range_query K pass R R2 map).1 s).isSome = true := by
  rw [range_pass_eq] at hflag ⊢
  constructor
  · intro s hs
    exact claim_pass_mono get_name dataset _ _ s (map, false) hs
  · rcases claim_pass_flag get_name dataset _ _ (map, false) hflag with h | ⟨i, hi, a, ha, h⟩
    · exact absurd h (by simp)
    · refine ⟨get_name (dataset.get_ith_object a.2), ?_, h, ?_⟩
      · exact mem_item_names get_name dataset a.2
          (hq pass i R R2 (List.mem_range.mp hi) a ha)
      · exact claim_pass_claimed get_name dataset _ _ (map, false) i hi a ha

theorem range_pass_unclaimed
    (hq : ∀ pass i R R2, i < K → ∀ x ∈ range_query pass i R R2,
      x.2 < dataset.get_num_of_Objects)
    (pass : Nat) (R R2 : Int) (map : String → Option (ℚ × Nat))
    (hflag : (range_pass get_name dataset range_query K pass R R2 map).2 = true) :
    (unclaimed get_name dataset
        (range_pass get_name dataset range_query K pass R R2 map).1).length <
      (unclaimed get_name dataset map).length := by
  obtain ⟨h1, s, hs, h2, h3⟩ :=
    range_pass_progress get_name dataset range_query K hq pass R R2 map hflag
  unfold unclaimed
  apply filter_length_lt
  · intro x _ hx
    by_contra hne
    have hsome : (map x).isSome = true := by
      cases hm : map x with
      | none => rw [hm] at hne; exact absurd rfl hne
      | some c => rfl
    have := h1 x hsome
    rw [Option.isNone_iff_eq_none] at hx
    rw [hx] at this
    exact absurd this (by simp)
  · refine ⟨s, hs, by rw [h2]; rfl, ?_⟩
    intro hn
    rw [Option.isNone_iff_eq_none] at hn
    rw [hn] at h3
    exact absurd h3 (by simp)

theorem range_growing_terminates
    (hq : ∀ pass i R R2, i < K → ∀ x ∈ range_query pass i R R2,
      x.2 < dataset.get_num_of_Objects) :
    ∀ (fuel pass : Nat) (R R2 : Int) (map : String → Option (ℚ × Nat)),
      (unclaimed get_name dataset map).length < fuel →
        ∃ m, range_growing get_name dataset range_query K fuel pass R R2 map = some m := by
  intro fuel
  induction fuel with
  | zero => intro pass R R2 map h; exact absurd h (Nat.not_lt_zero _)
  | succ fuel ih =>
    intro pass R R2 map h
    unfold range_growing
    by_cases hflag : (range_pass get_name dataset range_query K pass R R2 map).2 = false
    · exact ⟨(range_pass get_name dataset range_query K pass R R2 map).1,
        by simp only [hflag, if_true]⟩
    · simp only [hflag, if_false]
      have hflag' : (range_pass get_name dataset range_query K pass R R2 map).2 = true := by
        simpa using hflag
      have := range_pass_unclaimed get_name dataset range_query K hq pass R R2 map hflag'
      exact ih _ _ _ _ (by omega)

theorem range_growing_fuel_mono :
    ∀ (fuel pass : Nat) (R R2 : Int) (map m : String → Option (ℚ × Nat)),
      range_growing get_name dataset range_query K fuel pass R R2 map = some m →
        ∀ extra, range_growing get_name dataset range_query K (fuel + extra) pass R R2 map =
          some m := by
  intro fuel
  induction fuel with
  | zero =>
    intro pass R R2 map m h
    simp [range_growing] at h
  | succ fuel ih =>
    intro pass R R2 map m h extra
    have e : fuel + 1 + extra = (fuel + extra) + 1 := by omega
    rw [e]
    unfold range_growing at h ⊢
    by_cases hflag : (range_pass get_name dataset range_query K pass R R2 map).2 = false
    · simp only [hflag, if_true] at h ⊢
      exact h
    · simp only [hflag, if_false] at h ⊢
      exact ih _ _ _ _ _ h extra

theorem range_growing_index :
    ∀ (fuel pass : Nat) (R R2 : Int) (map m : String → Option (ℚ × Nat)),
      (∀ s c, map s = some c → c.2 < K) →
      range_growing get_name dataset range_query K fuel pass R R2 map = some m →
        ∀ s c, m s = some c → c.2 < K := by
  intro fuel
  induction fuel with
  | zero =>
    intro pass R R2 map m _ h
    simp [range_growing] at h
  | succ fuel ih =>
    intro pass R R2 map m hmap h
    unfold range_growing at h
    have hidx : ∀ s c, (range_pass get_name dataset range_query K pass R R2 map).1 s = some c →
        c.2 < K := by
      rw [range_pass_eq]
      exact claim_pass_index get_name dataset K _ (List.range K)
        (fun i hi => List.mem_range.mp hi) (map, false) hmap
    by_cases hflag : (range_pass get_name dataset range_query K pass R R2 map).2 = false
    · simp only [hflag, if_true, Option.some.injEq] at h
      rw [← h]
      exact hidx
    · simp only [hflag, if_false] at h
      exact ih _ _ _ _ _ hidx h

end growing

section partition

variable {Obj : Type} (metric : Obj → Obj → ℚ) (get_name : Obj → String)
  (dataset : Dataset Obj) (centroids : Nat → Obj) (K : Nat)

theorem assign_claims_eq (map : String → Option (ℚ × Nat)) :
    assign_claims metric get_name dataset centroids K map =
      fun j => (List.range dataset.get_num_of_Objects).filter
        (fun i => claimed_cluster metric get_name dataset centroids K map i = j) := by
  have e : assign_claims metric get_name dataset centroids K map =
      (List.range dataset.get_num_of_Objects).foldl
        (fun clusters i =>
          push_back clusters (claimed_cluster metric get_name dataset centroids K map i) i)
        (fun _ => []) := by
    unfold assign_claims
    congr 1
    funext clusters i
    unfold claimed_cluster
    cases map (get_name (dataset.get_ith_object i)) <;> rfl
  rw [e, foldl_push_back (claimed_cluster metric get_name dataset centroids K map)]
  funext j
  simp

theorem assign_claims_is_partition (hK : 1 ≤ K) (map : String → Option (ℚ × Nat))
    (hmap : ∀ s c, map s = some c → c.2 < K) :
    is_partition dataset.get_num_of_Objects K
      (assign_claims metric get_name dataset centroids K map) := by
  rw [assign_claims_eq]
  apply is_partition_of_filter
  intro i _
  unfold claimed_cluster
  cases h : map (get_name (dataset.get_ith_object i)) with
  | none => exact (nearest_centroid_spec metric centroids K hK _).1
  | some c => exact hmap _ c h

theorem reverse_assignment_is_partition (hK : 1 ≤ K)
    (range_query : Nat → Nat → Int → Int → List (ℚ × Nat)) (R0 : Int) (fuel : Nat)
    (clusters : Nat → List Nat)
    (h : reverse_assignment metric get_name dataset centroids K range_query R0 fuel =
      some clusters) :
    is_partition dataset.get_num_of_Objects K clusters := by
  unfold reverse_assignment at h
  rw [Option.map_eq_some'] at h
  obtain ⟨m, hm, rfl⟩ := h
  apply assign_claims_is_partition metric get_name dataset centroids K hK
  exact range_growing_index get_name dataset range_query K fuel 0 R0 0 (fun _ => none) m
    (by intro s c hc; simp at hc) hm

theorem unclaimed_empty_map :
    (unclaimed get_name dataset (fun _ => none)).length ≤ dataset.get_num_of_Objects := by
  unfold unclaimed item_names
  calc _ ≤ (((List.range dataset.get_num_of_Objects).map
          (fun i => get_name (dataset.get_ith_object i))).dedup).length :=
        List.length_filter_le _ _
    _ ≤ ((List.range dataset.get_num_of_Objects).map
          (fun i => get_name (dataset.get_ith_object i))).length :=
        (List.dedup_sublist _).length_le
    _ = dataset.get_num_of_Objects := by simp

theorem reverse_assignment_returns
    (range_query : Nat → Nat → Int → Int → List (ℚ × Nat)) (R0 : Int)
    (hq : ∀ pass i R R2, i < K → ∀ x ∈ range_query pass i R R2,
      x.2 < dataset.get_num_of_Objects) :
    ∃ clusters, reverse_assignment metric get_name dataset centroids K range_query R0
      (dataset.get_num_of_Objects + 1) = some clusters := by
  obtain ⟨m, hm⟩ := range_growing_terminates get_name dataset range_query K hq
    (dataset.get_num_of_Objects + 1) 0 R0 0 (fun _ => none)
    (by have := unclaimed_empty_map get_name dataset; omega)
  exact ⟨_, by unfold reverse_assignment; rw [hm]; rfl⟩

end partition

/-! ## The reverse assignment with exact range queries -/

section exact

variable {Obj : Type} (metric : Obj → Obj → ℚ) (get_name : Obj → String)
  (dataset : Dataset Obj) (centroids : Nat → Obj) (K : Nat)

theorem seen_by_succ (T R : Int) (i j p : Nat) :
    seen_by metric dataset centroids T R (i + 1) j p ↔
      seen_by metric dataset centroids T R i j p ∨
        (j = i ∧ metric (dataset.get_ith_object p) (centroids i) < (R : ℚ)) := by
  unfold seen_by
  constructor
  · rintro (h | ⟨h1, h2⟩)
    · exact Or.inl (Or.inl h)
    · by_cases hj : j = i
      · subst hj; exact Or.inr ⟨rfl, h2⟩
      · exact Or.inl (Or.inr ⟨by omega, h2⟩)
  · rintro ((h | ⟨h1, h2⟩) | ⟨h1, h2⟩)
    · exact Or.inl h
    · exact Or.inr ⟨by omega, h2⟩
    · subst h1; exact Or.inr ⟨by omega, h2⟩

/-- The queries of centroid `i` in the ring `[T, R)` keep the invariant. -/
theorem claim_inv_step (hsym : ∀ a b, metric a b = metric b a)
    (hname : ∀ p q, p < dataset.get_num_of_Objects → q < dataset.get_num_of_Objects →
      get_name (dataset.get_ith_object p) = get_name (dataset.get_ith_object q) → p = q)
    (T R : Int) (i : Nat) (hi : i < K) (L : List (ℚ × Nat))
    (hL : ∀ x, x ∈ L ↔ x.2 < dataset.get_num_of_Objects ∧
      x.1 = metric (centroids i) (dataset.get_ith_object x.2) ∧ (T : ℚ) ≤ x.1 ∧ x.1 < (R : ℚ))
    (st : (String → Option (ℚ × Nat)) × Bool)
    (hinv : claim_inv metric get_name dataset centroids K T R i st.1) :
    claim_inv metric get_name dataset centroids K T R (i + 1)
      (L.foldl (claim get_name dataset i) st).1 := by
  intro p hp
  have hd : ∀ a ∈ L, get_name (dataset.get_ith_object a.2) = get_name (dataset.get_ith_object p) →
      a.1 = metric (dataset.get_ith_object p) (centroids i) := by
    intro a ha hn
    obtain ⟨h1, h2, _, _⟩ := (hL a).mp ha
    have := hname a.2 p h1 hp hn
    rw [h2, this, hsym]
  obtain ⟨v1, v2, _⟩ := claim_fold_value get_name dataset i L
    (get_name (dataset.get_ith_object p)) (metric (dataset.get_ith_object p) (centroids i)) hd st
  obtain ⟨inv1, inv2⟩ := hinv p hp
  by_cases hin : (T : ℚ) ≤ metric (dataset.get_ith_object p) (centroids i) ∧
      metric (dataset.get_ith_object p) (centroids i) < (R : ℚ)
  · have hex : ∃ a ∈ L, get_name (dataset.get_ith_object a.2) =
        get_name (dataset.get_ith_object p) := by
      refine ⟨(metric (dataset.get_ith_object p) (centroids i), p), ?_, rfl⟩
      rw [hL]
      exact ⟨hp, hsym _ _, hin.1, hin.2⟩
    rw [v2 hex]
    have hseen_i : seen_by metric dataset centroids T R (i + 1) i p :=
      (seen_by_succ metric dataset centroids T R i i p).mpr (Or.inr ⟨rfl, hin.2⟩)
    cases hm : st.1 (get_name (dataset.get_ith_object p)) with
    | none =>
      have hnone := inv1.mp hm
      simp only [claim_update]
      refine ⟨⟨fun h => by simp at h, fun h => absurd hseen_i (h i hi)⟩, ?_⟩
      intro c hc
      simp only [Option.some.injEq] at hc
      subst hc
      refine ⟨hi, rfl, hseen_i, ?_⟩
      intro j hj hs
      rcases (seen_by_succ metric dataset centroids T R i j p).mp hs with h | ⟨h, _⟩
      · exact absurd h (hnone j hj)
      · subst h
        exact Or.inr ⟨rfl, le_refl _⟩
    | some c0 =>
      obtain ⟨c1, c2, c3, c4⟩ := inv2 c0 hm
      simp only [claim_update]
      by_cases hgt : c0.1 > metric (dataset.get_ith_object p) (centroids i)
      · rw [if_pos hgt]
        refine ⟨⟨fun h => by simp at h, fun h => absurd hseen_i (h i hi)⟩, ?_⟩
        intro c hc
        simp only [Option.some.injEq] at hc
        subst hc
        refine ⟨hi, rfl, hseen_i, ?_⟩
        intro j hj hs
        rcases (seen_by_succ metric dataset centroids T R i j p).mp hs with h | ⟨h, _⟩
        · left
          rcases c4 j hj h with h' | ⟨h', _⟩
          · exact lt_trans hgt h'
          · show metric (dataset.get_ith_object p) (centroids i) < _
            rw [← h']; exact hgt
        · subst h
          exact Or.inr ⟨rfl, le_refl _⟩
      · rw [if_neg hgt]
        have hle : c0.1 ≤ metric (dataset.get_ith_object p) (centroids i) := not_lt.mp hgt
        refine ⟨⟨fun h => by simp at h, fun h => absurd hseen_i (h i hi)⟩, ?_⟩
        intro c hc
        simp only [Option.some.injEq] at hc
        subst hc
        refine ⟨c1, c2, (seen_by_succ metric dataset centroids T R i c0.2 p).mpr (Or.inl c3), ?_⟩
        intro j hj hs
        rcases (seen_by_succ metric dataset centroids T R i j p).mp hs with h | ⟨h, _⟩
        · exact c4 j hj h
        · subst h
          rcases c3 with h3 | ⟨h3, _⟩
          · left
            rw [c2]
            exact lt_of_lt_of_le h3 hin.1
          · rcases lt_or_eq_of_le hle with h4 | h4
            · exact Or.inl h4
            · exact Or.inr ⟨h4, le_of_lt h3⟩
  · have hno : ∀ a ∈ L, get_name (dataset.get_ith_object a.2) ≠
        get_name (dataset.get_ith_object p) := by
      intro a ha hn
      obtain ⟨h1, _, h3, h4⟩ := (hL a).mp ha
      have := hd a ha hn
      rw [this] at h3 h4
      exact hin ⟨h3, h4⟩
    rw [v1 hno]
    have hiff : ∀ j, seen_by metric dataset centroids T R (i + 1) j p ↔
        seen_by metric dataset centroids T R i j p := by
      intro j
      rw [seen_by_succ]
      constructor
      · rintro (h | ⟨h1, h2⟩)
        · exact h
        · subst h1
          left
          by_contra hT
          exact hin ⟨not_lt.mp hT, h2⟩
      · exact fun h => Or.inl h
    refine ⟨?_, ?_⟩
    · rw [inv1]
      constructor
      · intro h j hj hs; exact h j hj ((hiff j).mp hs)
      · intro h j hj hs; exact h j hj ((hiff j).mpr hs)
    · intro c hc
      obtain ⟨c1, c2, c3, c4⟩ := inv2 c hc
      exact ⟨c1, c2, (hiff _).mpr c3, fun j hj hs => c4 j hj ((hiff j).mp hs)⟩

end exact

section exact_loop

variable {Obj : Type} (metric : Obj → Obj → ℚ) (get_name : Obj → String)
  (dataset : Dataset Obj) (centroids : Nat → Obj) (K : Nat)
  (range_query : Nat → Nat → Int → Int → List (ℚ × Nat))

theorem claim_pass_range_succ (Q : Nat → List (ℚ × Nat)) (i : Nat)
    (st : (String → Option (ℚ × Nat)) × Bool) :
    claim_pass get_name dataset Q (List.range (i + 1)) st =
      (Q i).foldl (claim get_name dataset i) (claim_pass get_name dataset Q (List.range i) st) := by
  unfold claim_pass
  rw [List.range_succ, List.foldl_append]
  rfl

/-- One pass of the loop takes the invariant from no centroid to all centroids of the ring. -/
theorem claim_inv_pass (hsym : ∀ a b, metric a b = metric b a)
    (hname : ∀ p q, p < dataset.get_num_of_Objects → q < dataset.get_num_of_Objects →
      get_name (dataset.get_ith_object p) = get_name (dataset.get_ith_object q) → p = q)
    (horacle : ∀ pass i R R2, i < K → ∀ x, x ∈ range_query pass i R R2 ↔
      x.2 < dataset.get_num_of_Objects ∧
      x.1 = metric (centroids i) (dataset.get_ith_object x.2) ∧ (R2 : ℚ) ≤ x.1 ∧ x.1 < (R : ℚ))
    (pass : Nat) (T R : Int) (m : String → Option (ℚ × Nat))
    (hinv : claim_inv metric get_name dataset centroids K T R 0 m) :
    claim_inv metric get_name dataset centroids K T R K
      (range_pass get_name dataset range_query K pass R T m).1 := by
  rw [range_pass_eq]
  have h : ∀ i, i ≤ K → claim_inv metric get_name dataset centroids K T R i
      (claim_pass get_name dataset (fun i => range_query pass i R T) (List.range i)
        (m, false)).1 := by
    intro i
    induction i with
    | zero => intro _; exact hinv
    | succ i ih =>
      intro hi
      rw [claim_pass_range_succ]
      exact claim_inv_step metric get_name dataset centroids K hsym hname T R i (by omega) _
        (horacle pass i R T (by omega)) _ (ih (by omega))
  exact h K (le_refl _)

theorem claim_inv_next (T R R' : Int) (hTR : T ≤ R) (m : String → Option (ℚ × Nat))
    (hinv : claim_inv metric get_name dataset centroids K T R K m) :
    claim_inv metric get_name dataset centroids K R R' 0 m := by
  have hiff : ∀ j p, j < K → (seen_by metric dataset centroids R R' 0 j p ↔
      seen_by metric dataset centroids T R K j p) := by
    intro j p hj
    unfold seen_by
    have hTR' : (T : ℚ) ≤ (R : ℚ) := by exact_mod_cast hTR
    constructor
    · rintro (h | ⟨h, _⟩)
      · exact Or.inr ⟨hj, h⟩
      · exact absurd h (Nat.not_lt_zero _)
    · rintro (h | ⟨_, h⟩)
      · exact Or.inl (lt_of_lt_of_le h hTR')
      · exact Or.inl h
  intro p hp
  obtain ⟨inv1, inv2⟩ := hinv p hp
  refine ⟨?_, ?_⟩
  · rw [inv1]
    constructor
    · intro h j hj hs; exact h j hj ((hiff j p hj).mp hs)
    · intro h j hj hs; exact h j hj ((hiff j p hj).mpr hs)
  · intro c hc
    obtain ⟨c1, c2, c3, c4⟩ := inv2 c hc
    exact ⟨c1, c2, (hiff _ p c1).mpr c3, fun j hj hs => c4 j hj ((hiff j p hj).mp hs)⟩

theorem claim_inv_growing (hsym : ∀ a b, metric a b = metric b a)
    (hname : ∀ p q, p < dataset.get_num_of_Objects → q < dataset.get_num_of_Objects →
      get_name (dataset.get_ith_object p) = get_name (dataset.get_ith_object q) → p = q)
    (horacle : ∀ pass i R R2, i < K → ∀ x, x ∈ range_query pass i R R2 ↔
      x.2 < dataset.get_num_of_Objects ∧
      x.1 = metric (centroids i) (dataset.get_ith_object x.2) ∧ (R2 : ℚ) ≤ x.1 ∧ x.1 < (R : ℚ)) :
    ∀ (fuel pass : Nat) (R T : Int) (m m' : String → Option (ℚ × Nat)),
      claim_inv metric get_name dataset centroids K T R 0 m →
      range_growing get_name dataset range_query K fuel pass R T m = some m' →
        ∃ T' R', claim_inv metric get_name dataset centroids K T' R' K m' := by
  intro fuel
  induction fuel with
  | zero =>
    intro pass R T m m' _ h
    simp [range_growing] at h
  | succ fuel ih =>
    intro pass R T m m' hinv h
    have hpass := claim_inv_pass metric get_name dataset centroids K range_query hsym hname
      horacle pass T R m hinv
    unfold range_growing at h
    by_cases hflag : (range_pass get_name dataset range_query K pass R T m).2 = false
    · simp only [hflag, if_true, Option.some.injEq] at h
      rw [← h]
      exact ⟨T, R, hpass⟩
    · simp only [hflag, if_false] at h
      have hflag' : (range_pass get_name dataset range_query K pass R T m).2 = true := by
        simpa using hflag
      rw [range_pass_eq] at hflag'
      have hTR : T ≤ R := by
        rcases claim_pass_flag get_name dataset _ _ (m, false) hflag' with
          hf | ⟨i, hi, a, ha, _⟩
        · exact absurd hf (by simp)
        · obtain ⟨_, _, h3, h4⟩ := (horacle pass i R T (List.mem_range.mp hi) a).mp ha
          have : (T : ℚ) < (R : ℚ) := lt_of_le_of_lt h3 h4
          have : T < R := by exact_mod_cast this
          omega
      exact ih _ _ _ _ _
        (claim_inv_next metric get_name dataset centroids K T R (R * 2) hTR _ hpass) h

/-- At the end of the loop every claim names the cluster the exact assignment chooses. -/
theorem claimed_cluster_eq (hK : 1 ≤ K) (T R : Int) (m : String → Option (ℚ × Nat))
    (hinv : claim_inv metric get_name dataset centroids K T R K m) (p : Nat)
    (hp : p < dataset.get_num_of_Objects) :
    claimed_cluster metric get_name dataset centroids K m p =
      (nearest_centroid metric centroids K (dataset.get_ith_object p)).2 := by
  unfold claimed_cluster
  cases hm : m (get_name (dataset.get_ith_object p)) with
  | none => rfl
  | some c =>
    simp only
    obtain ⟨_, inv2⟩ := hinv p hp
    obtain ⟨c1, c2, c3, c4⟩ := inv2 c hm
    obtain ⟨s1, s2, s3, s4⟩ := nearest_centroid_spec metric centroids K hK
      (dataset.get_ith_object p)
    have hmin : ∀ j, j < K → c.1 ≤ metric (dataset.get_ith_object p) (centroids j) := by
      intro j hj
      by_cases hs : seen_by metric dataset centroids T R K j p
      · rcases c4 j hj hs with h | ⟨h, _⟩
        · exact le_of_lt h
        · exact le_of_eq h
      · unfold seen_by at hs c3
        rw [not_or] at hs
        obtain ⟨hs1, hs2⟩ := hs
        have hs1' := not_lt.mp hs1
        have hs2' : (R : ℚ) ≤ metric (dataset.get_ith_object p) (centroids j) := by
          by_contra hlt
          exact hs2 ⟨hj, not_le.mp hlt⟩
        rw [← c2] at c3
        rcases c3 with h | ⟨_, h⟩
        · exact le_of_lt (lt_of_lt_of_le h hs1')
        · exact le_of_lt (lt_of_lt_of_le h hs2')
    have heq : c.1 = (nearest_centroid metric centroids K (dataset.get_ith_object p)).1 := by
      apply le_antisymm
      · rw [s2]; exact hmin _ s1
      · rw [c2]; exact s3 _ c1
    have hge : (nearest_centroid metric centroids K (dataset.get_ith_object p)).2 ≤ c.2 := by
      by_contra hlt
      have := s4 c.2 (not_le.mp hlt)
      rw [← c2, heq] at this
      exact lt_irrefl _ this
    have hseen : seen_by metric dataset centroids T R K
        (nearest_centroid metric centroids K (dataset.get_ith_object p)).2 p := by
      unfold seen_by at c3 ⊢
      rw [← s2, ← heq]
      rw [← c2] at c3
      rcases c3 with h | ⟨_, h⟩
      · exact Or.inl h
      · exact Or.inr ⟨s1, h⟩
    have hle : c.2 ≤ (nearest_centroid metric centroids K (dataset.get_ith_object p)).2 := by
      rcases c4 _ s1 hseen with h | ⟨_, h⟩
      · rw [← s2, heq] at h
        exact absurd h (lt_irrefl _)
      · exact h
    omega

theorem claim_inv_initial (hnn : ∀ a b, 0 ≤ metric a b) (R0 : Int) :
    claim_inv metric get_name dataset centroids K 0 R0 0 (fun _ => none) := by
  intro p _
  refine ⟨⟨?_, fun _ => rfl⟩, ?_⟩
  · intro _ j _ hs
    unfold seen_by at hs
    rcases hs with h | ⟨h, _⟩
    · have := hnn (dataset.get_ith_object p) (centroids j)
      have h' : metric (dataset.get_ith_object p) (centroids j) < 0 := by
        simpa using h
      exact absurd this (not_le.mpr h')
    · exact absurd h (Nat.not_lt_zero _)
  · intro c hc
    simp at hc

/-- With exact range queries the reverse assignment returns the clusters of the exact
assignment. -/
theorem reverse_assignment_exact (hK : 1 ≤ K) (hsym : ∀ a b, metric a b = metric b a)
    (hnn : ∀ a b, 0 ≤ metric a b)
    (hname : ∀ p q, p < dataset.get_num_of_Objects → q < dataset.get_num_of_Objects →
      get_name (dataset.get_ith_object p) = get_name (dataset.get_ith_object q) → p = q)
    (horacle : ∀ pass i R R2, i < K → ∀ x, x ∈ range_query pass i R R2 ↔
      x.2 < dataset.get_num_of_Objects ∧
      x.1 = metric (centroids i) (dataset.get_ith_object x.2) ∧ (R2 : ℚ) ≤ x.1 ∧ x.1 < (R : ℚ))
    (R0 : Int) :
    reverse_assignment metric get_name dataset centroids K range_query R0
        (dataset.get_num_of_Objects + 1) =
      some (exact_lloyds_assignment metric dataset centroids K) := by
  obtain ⟨m, hm⟩ := range_growing_terminates get_name dataset range_query K
    (fun pass i R R2 hi x hx => ((horacle pass i R R2 hi x).mp hx).1)
    (dataset.get_num_of_Objects + 1) 0 R0 0 (fun _ => none)
    (by have := unclaimed_empty_map get_name dataset; omega)
  obtain ⟨T, R, hinv⟩ := claim_inv_growing metric get_name dataset centroids K range_query hsym
    hname horacle _ 0 R0 0 _ m (claim_inv_initial metric get_name dataset centroids K hnn R0) hm
  unfold reverse_assignment
  rw [hm, Option.map_some', assign_claims_eq, exact_lloyds_assignment_eq]
  congr 1
  funext j
  apply List.filter_congr
  intro p hp
  rw [claimed_cluster_eq metric get_name dataset centroids K hK T R m hinv p
    (List.mem_range.mp hp)]

end exact_loop

theorem sample_metric_symm (a b : ℚ) : sample_metric a b = sample_metric b a :=
  abs_sub_comm a b

theorem sample_metric_nonneg (a b : ℚ) : 0 ≤ sample_metric a b :=
  abs_nonneg _

theorem sample_name_injective (p q : Nat) (hp : p < sample_dataset.get_num_of_Objects)
    (hq : q < sample_dataset.get_num_of_Objects)
    (h : sample_name (sample_dataset.get_ith_object p) =
      sample_name (sample_dataset.get_ith_object q)) : p = q := by
  have hp' : p < 4 := hp
  have hq' : q < 4 := hq
  have e0 : sample_name (sample_dataset.get_ith_object 0) = "a" := by
    simp [sample_name, sample_dataset]
  have e1 : sample_name (sample_dataset.get_ith_object 1) = "b" := by
    simp [sample_name, sample_dataset]; norm_num
  have e2 : sample_name (sample_dataset.get_ith_object 2) = "c" := by
    simp [sample_name, sample_dataset]; norm_num
  have e3 : sample_name (sample_dataset.get_ith_object 3) = "d" := by
    simp [sample_name, sample_dataset]; norm_num
  interval_cases p <;> interval_cases q <;> first
    | rfl
    | (simp [e0, e1, e2, e3] at h)

/-- The range query of the hypercube with exhaustive budgets is exact. -/
theorem range_search_exact {Obj : Type} (addr : Nat → Nat) (d1 : Nat) (M probes : Int)
    (bits : Nat → Obj → Nat) (dataset : Dataset Obj) (query_object : Obj) (R : Int)
    (metric : Obj → Obj → ℚ) (R2 : Int) (hd : 1 ≤ d1) (hb : ∀ j o, bits j o ≤ 1)
    (hp : (2 : Int) ^ d1 ≤ probes) (hM : (dataset.get_num_of_Objects : Int) ≤ M)
    (x : ℚ × Nat) :
    x ∈ range_search addr (import_data (new_hypercube d1 M probes bits) dataset) dataset
        query_object R metric R2 ↔
      x.2 < dataset.get_num_of_Objects ∧
      x.1 = metric query_object (dataset.get_ith_object x.2) ∧ (R2 : ℚ) ≤ x.1 ∧
      x.1 < (R : ℚ) := by
  rw [(range_search_perm addr d1 M probes bits dataset query_object R metric R2 hd hb hp
    hM).mem_iff]
  simp only [List.mem_map, List.mem_filter, List.mem_range, decide_eq_true_eq]
  constructor
  · rintro ⟨i, ⟨hi, h1, h2⟩, rfl⟩
    exact ⟨hi, rfl, h1, h2⟩
  · rintro ⟨h1, h2, h3, h4⟩
    refine ⟨x.2, ⟨h1, ?_, ?_⟩, ?_⟩
    · rw [← h2]; exact h3
    · rw [← h2]; exact h4
    · rw [← h2]

/-- C3. Partition invariant: for `K ≥ 1`, the clusters built by the assignment step of
`exact_lloyds` split the dataset positions (every position below `|dataset|` occurs once in
one of the `K` lists and in no other, the lists hold nothing else, and the `K` sizes add up
to `|dataset|`); the same holds for the clusters built by the reverse assignment, whatever
the range queries return, every claimed centroid index being below `K`; and when the range
queries return dataset positions only, the reverse assignment ends within `|dataset| + 1`
passes of its radius loop and returns such clusters. -/
theorem assignment_is_partition {Obj : Type} (metric : Obj → Obj → ℚ) (get_name : Obj → String)
    (dataset : Dataset Obj) (centroids : Nat → Obj) (K : Nat) (hK : 1 ≤ K) :
    is_partition dataset.get_num_of_Objects K
        (exact_lloyds_assignment metric dataset centroids K) ∧
      ∀ (range_query : Nat → Nat → Int → Int → List (ℚ × Nat)) (R0 : Int),
        (∀ fuel clusters,
          reverse_assignment metric get_name dataset centroids K range_query R0 fuel =
            some clusters → is_partition dataset.get_num_of_Objects K clusters) ∧
        (∀ fuel m, range_growing get_name dataset range_query K fuel 0 R0 0 (fun _ => none) =
            some m → ∀ s c, m s = some c → c.2 < K) ∧
        ((∀ pass i R R2, i < K → ∀ x ∈ range_query pass i R R2,
            x.2 < dataset.get_num_of_Objects) →
          ∃ clusters,
            reverse_assignment metric get_name dataset centroids K range_query R0
              (dataset.get_num_of_Objects + 1) = some clusters ∧
            is_partition dataset.get_num_of_Objects K clusters) := by
  refine ⟨exact_lloyds_is_partition metric dataset centroids K hK, ?_⟩
  intro range_query R0
  refine ⟨?_, ?_, ?_⟩
  · intro fuel clusters h
    exact reverse_assignment_is_partition metric get_name dataset centroids K hK range_query R0
      fuel clusters h
  · intro fuel m h
    exact range_growing_index get_name dataset range_query K fuel 0 R0 0 (fun _ => none) m
      (by intro s c hc; simp at hc) h
  · intro hq
    obtain ⟨clusters, h⟩ := reverse_assignment_returns metric get_name dataset centroids K
      range_query R0 hq
    exact ⟨clusters, h, reverse_assignment_is_partition metric get_name dataset centroids K hK
      range_query R0 _ clusters h⟩

theorem assignment_is_partition_witness :
    (1 : Nat) ≤ 2 ∧
    is_partition sample_dataset.get_num_of_Objects 2
      (exact_lloyds_assignment sample_metric sample_dataset sample_centroids 2) ∧
    ∃ clusters,
      reverse_assignment sample_metric sample_name sample_dataset sample_centroids 2
        (fun _ i R R2 =>
          range_search id sample_cube sample_dataset (sample_centroids i) R sample_metric R2)
        1 (sample_dataset.get_num_of_Objects + 1) = some clusters ∧
      is_partition sample_dataset.get_num_of_Objects 2 clusters :=
  ⟨by decide,
    (assignment_is_partition sample_metric sample_name sample_dataset sample_centroids 2
      (by decide)).1,
    ((assignment_is_partition sample_metric sample_name sample_dataset sample_centroids 2
      (by decide)).2 _ 1).2.2
      (fun _ i R R2 _ x hx =>
        range_search_import_lt id 2 4 4 sample_bits sample_dataset (sample_centroids i) R
          sample_metric R2 (by decide) x hx)⟩

/-- C4. Reverse assignment agrees with exact Lloyd when the range queries are exhaustive: for
`K ≥ 2` centroids, a symmetric metric with non-negative values, pairwise distinct item names
and range queries that return exactly the dataset items whose distance to the querying
centroid lies in `[R2, R)`, one assignment step of the reverse assignment ends (within
`|dataset| + 1` passes) and builds the same `K` clusters as the assignment step of
`exact_lloyds`; this is the case for `cube_range_search_clustering` on the index built by
`import_data` with `d1 ≥ 1`, bits 0 or 1, `probes ≥ 2^d1` and `M ≥ |dataset|`. -/
theorem reverse_assignment_agrees_with_lloyds {Obj : Type} (metric : Obj → Obj → ℚ)
    (get_name : Obj → String) (dataset : Dataset Obj) (centroids : Nat → Obj) (K : Nat)
    (hK : 2 ≤ K) (hsym : ∀ a b, metric a b = metric b a) (hnn : ∀ a b, 0 ≤ metric a b)
    (hname : ∀ p q, p < dataset.get_num_of_Objects → q < dataset.get_num_of_Objects →
      get_name (dataset.get_ith_object p) = get_name (dataset.get_ith_object q) → p = q) :
    (∀ (range_query : Nat → Nat → Int → Int → List (ℚ × Nat)) (R0 : Int),
        (∀ pass i R R2, i < K → ∀ x, x ∈ range_query pass i R R2 ↔
          x.2 < dataset.get_num_of_Objects ∧
          x.1 = metric (centroids i) (dataset.get_ith_object x.2) ∧ (R2 : ℚ) ≤ x.1 ∧
          x.1 < (R : ℚ)) →
        reverse_assignment metric get_name dataset centroids K range_query R0
            (dataset.get_num_of_Objects + 1) =
          some (exact_lloyds_assignment metric dataset centroids K)) ∧
      ∀ (addr : Nat → Nat) (d1 : Nat) (M probes : Int) (bits : Nat → Obj → Nat)
        (euclidean_distance : Obj → Obj → ℚ),
        1 ≤ d1 → (∀ j o, bits j o ≤ 1) → (2 : Int) ^ d1 ≤ probes →
        (dataset.get_num_of_Objects : Int) ≤ M →
        cube_range_search_assignment addr (import_data (new_hypercube d1 M probes bits) dataset)
            metric euclidean_distance get_name dataset centroids K
            (dataset.get_num_of_Objects + 1) =
          some (exact_lloyds_assignment metric dataset centroids K) := by
  constructor
  · intro range_query R0 horacle
    exact reverse_assignment_exact metric get_name dataset centroids K range_query (by omega)
      hsym hnn hname horacle R0
  · intro addr d1 M probes bits euclidean_distance hd hb hp hM
    unfold cube_range_search_assignment
    rw [if_neg (by omega)]
    exact reverse_assignment_exact metric get_name dataset centroids K _ (by omega) hsym hnn
      hname
      (fun _ i R R2 _ x =>
        range_search_exact addr d1 M probes bits dataset (centroids i) R metric R2 hd hb hp hM
          x) _

theorem reverse_assignment_agrees_with_lloyds_witness :
    cube_range_search_assignment id sample_cube sample_metric sample_metric sample_name
        sample_dataset sample_centroids 2 (sample_dataset.get_num_of_Objects + 1) =
      some (exact_lloyds_assignment sample_metric sample_dataset sample_centroids 2) :=
  (reverse_assignment_agrees_with_lloyds sample_metric sample_name sample_dataset
    sample_centroids 2 (by decide) sample_metric_symm sample_metric_nonneg
    sample_name_injective).2 id 2 4 4 sample_bits sample_metric (by decide) sample_bits_le
    (by decide) (by decide)

theorem unclaimed_empty_eq {Obj : Type} (get_name : Obj → String) (dataset : Dataset Obj) :
    unclaimed get_name dataset (fun _ => none) = item_names get_name dataset := by
  unfold unclaimed
  simp

/-- C17. The radius-growing loop of the reverse assignment terminates: for range queries that
return dataset positions only, a pass that does not exit (flag true) keeps every name the
claim map holds and adds at least one name of the dataset that the map did not hold, so from
the empty map the `while(1)` loop ends within `D + 1` passes, `D` the number of distinct item
names: a bound of `D + 1` passes yields the final map, and any larger bound yields the same
map. -/
theorem range_growing_loop_terminates {Obj : Type} (get_name : Obj → String)
    (dataset : Dataset Obj) (range_query : Nat → Nat → Int → Int → List (ℚ × Nat)) (K : Nat)
    (hq : ∀ pass i R R2, i < K → ∀ x ∈ range_query pass i R R2,
      x.2 < dataset.get_num_of_Objects) :
    (∀ (pass : Nat) (R R2 : Int) (map : String → Option (ℚ × Nat)),
        (range_pass get_name dataset range_query K pass R R2 map).2 = true →
          (∀ s, (map s).isSome = true →
            ((range_pass get_name dataset range_query K pass R R2 map).1 s).isSome = true) ∧
          ∃ s ∈ item_names get_name dataset, map s = none ∧
            ((range_pass get_name dataset range_query K pass R R2 map).1 s).isSome = true) ∧
      ∀ (pass : Nat) (R R2 : Int),
        ∃ m, range_growing get_name dataset range_query K
              ((item_names get_name dataset).length + 1) pass R R2 (fun _ => none) = some m ∧
          ∀ extra, range_growing get_name dataset range_query K
              ((item_names get_name dataset).length + 1 + extra) pass R R2 (fun _ => none) =
            some m := by
  constructor
  · intro pass R R2 map hflag
    exact range_pass_progress get_name dataset range_query K hq pass R R2 map hflag
  · intro pass R R2
    obtain ⟨m, hm⟩ := range_growing_terminates get_name dataset range_query K hq
      ((item_names get_name dataset).length + 1) pass R R2 (fun _ => none)
      (by rw [unclaimed_empty_eq]; omega)
    exact ⟨m, hm, range_growing_fuel_mono get_name dataset range_query K _ pass R R2 _ m hm⟩

theorem range_growing_loop_terminates_witness :
    ∃ m, range_growing sample_name sample_dataset
        (fun _ i R R2 =>
          range_search id sample_cube sample_dataset (sample_centroids i) R sample_metric R2)
        2 ((item_names sample_name sample_dataset).length + 1) 0 1 0 (fun _ => none) =
      some m :=
  (((range_growing_loop_terminates sample_name sample_dataset
    (fun _ i R R2 =>
      range_search id sample_cube sample_dataset (sample_centroids i) R sample_metric R2)
    2
    (fun _ i R R2 _ x hx =>
      range_search_import_lt id 2 4 4 sample_bits sample_dataset (sample_centroids i) R
        sample_metric R2 (by decide) x hx)).2 0 1 0).imp fun _ h => h.1)

/-! ## The bucket address and the bucket table -/

theorem vertex_fold_sum {Obj : Type} (bits : Nat → Obj → Nat) (obj : Obj) (d : Nat) :
    (List.range d).foldl (fun index j => (index <<< 1) + bits j obj) 0 =
      ∑ j in Finset.range d, bits j obj * 2 ^ (d - 1 - j) := by
  induction d with
  | zero => simp
  | succ d ih =>
    rw [List.range_succ, List.foldl_append]
    simp only [List.foldl_cons, List.foldl_nil]
    rw [ih, Finset.sum_range_succ, Nat.shiftLeft_eq, pow_one, Finset.sum_mul]
    have e : d + 1 - 1 - d = 0 := by omega
    rw [e, pow_zero, mul_one]
    congr 1
    apply Finset.sum_congr rfl
    intro j hj
    rw [Finset.mem_range] at hj
    have e2 : d + 1 - 1 - j = (d - 1 - j) + 1 := by omega
    rw [e2, pow_succ, mul_assoc]

theorem vertex_fold_lt_of_lt {Obj : Type} (bits : Nat → Obj → Nat) (obj : Obj) (d : Nat)
    (hb : ∀ j, j < d → bits j obj ≤ 1) (k : Nat) (hk : k ≤ d) :
    (List.range k).foldl (fun index j => (index <<< 1) + bits j obj) 0 < 2 ^ k := by
  induction k with
  | zero => simp
  | succ k ih =>
    rw [List.range_succ, List.foldl_append]
    simp only [List.foldl_cons, List.foldl_nil]
    have h1 := hb k (by omega)
    have h2 := ih (by omega)
    rw [pow_succ, Nat.shiftLeft_eq, pow_one]
    omega

theorem import_data_cube_array_append {Obj : Type} (cube : hypercube Obj)
    (dataset : Dataset Obj) :
    (import_data cube dataset).cube_array =
      fun v => cube.cube_array v ++ (List.range dataset.get_num_of_Objects).filter
        (fun i => vertex_of cube (dataset.get_ith_object i) = v) := by
  unfold import_data
  simp only
  rw [foldl_push_back (fun i => vertex_of cube (dataset.get_ith_object i))]

/-- C11. Hypercube address: for every item whose projected bits `b_0 .. b_(d1-1)` are 0 or 1,
the bucket index that `import_data` and the two query paths compute by
`index = (index << 1) + b_j` is the MSB-first sum of `b_j * 2^(d1-1-j)`; it is below `2^d1`,
as is every intermediate value (after `k` bits the value is below `2^k`), and `import_data`
appends position `i` to the bucket of that index, so it writes only to addresses below
`2^d1`. -/
theorem vertex_of_msb_first {Obj : Type} (cube : hypercube Obj) (obj : Obj)
    (hb : ∀ j, j < cube.d1 → cube.get_0_or_1 j obj ≤ 1) :
    vertex_of cube obj = ∑ j in Finset.range cube.d1, cube.get_0_or_1 j obj * 2 ^ (cube.d1 - 1 - j) ∧
      vertex_of cube obj < 2 ^ cube.d1 ∧
      (∀ k, k ≤ cube.d1 →
        (List.range k).foldl (fun index j => (index <<< 1) + cube.get_0_or_1 j obj) 0 < 2 ^ k) ∧
      ∀ (dataset : Dataset Obj) (i : Nat), i < dataset.get_num_of_Objects →
        dataset.get_ith_object i = obj →
        i ∈ (import_data cube dataset).cube_array (vertex_of cube obj) := by
  refine ⟨vertex_fold_sum cube.get_0_or_1 obj cube.d1,
    vertex_fold_lt_of_lt cube.get_0_or_1 obj cube.d1 hb cube.d1 (le_refl _),
    fun k hk => vertex_fold_lt_of_lt cube.get_0_or_1 obj cube.d1 hb k hk, ?_⟩
  intro dataset i hi hobj
  rw [import_data_cube_array_append]
  simp only [List.mem_append, List.mem_filter, List.mem_range, decide_eq_true_eq]
  right
  exact ⟨hi, by rw [hobj]⟩

theorem vertex_of_msb_first_witness :
    vertex_of sample_cube (5 / 2) =
        ∑ j in Finset.range sample_cube.d1,
          sample_cube.get_0_or_1 j (5 / 2) * 2 ^ (sample_cube.d1 - 1 - j) ∧
      vertex_of sample_cube (5 / 2) < 2 ^ sample_cube.d1 :=
  ⟨(vertex_of_msb_first sample_cube (5 / 2) (fun j _ => sample_bits_le j _)).1,
    (vertex_of_msb_first sample_cube (5 / 2) (fun j _ => sample_bits_le j _)).2.1⟩

/-- C12. After `hypercube::import_data(dataset)` on a freshly constructed index, every
dataset position below `|dataset|` is stored exactly once, in the bucket of its address and in
no other bucket, the buckets hold nothing else, and every bucket lists its positions in
increasing (dataset) order; when the projected bits are 0 or 1 every address is below `2^d1`,
so the `2^d1` buckets of the table split the dataset positions and their sizes add up to
`|dataset|`. -/
theorem import_data_partition {Obj : Type} (d1 : Nat) (M probes : Int) (bits : Nat → Obj → Nat)
    (dataset : Dataset Obj) :
    (∀ i, i < dataset.get_num_of_Objects →
      ((import_data (new_hypercube d1 M probes bits) dataset).cube_array
          (vertex_of (new_hypercube d1 M probes bits) (dataset.get_ith_object i))).count i = 1 ∧
      ∀ v, v ≠ vertex_of (new_hypercube d1 M probes bits) (dataset.get_ith_object i) →
        i ∉ (import_data (new_hypercube d1 M probes bits) dataset).cube_array v) ∧
      (∀ v i, i ∈ (import_data (new_hypercube d1 M probes bits) dataset).cube_array v →
        i < dataset.get_num_of_Objects) ∧
      (∀ v, ((import_data (new_hypercube d1 M probes bits) dataset).cube_array v).Pairwise
        (fun a b => a < b)) ∧
      ((∀ j o, bits j o ≤ 1) →
        is_partition dataset.get_num_of_Objects (2 ^ d1)
            (import_data (new_hypercube d1 M probes bits) dataset).cube_array ∧
          ∀ v, 2 ^ d1 ≤ v →
            (import_data (new_hypercube d1 M probes bits) dataset).cube_array v = []) := by
  rw [import_data_cube_array]
  refine ⟨?_, ?_, ?_, ?_⟩
  · intro i hi
    constructor
    · apply List.count_eq_one_of_mem ((List.nodup_range _).filter _)
      simp [List.mem_filter, hi]
    · intro v hv hmem
      simp only [List.mem_filter, List.mem_range, decide_eq_true_eq] at hmem
      exact hv hmem.2.symm
  · intro v i hmem
    simp only [List.mem_filter, List.mem_range] at hmem
    exact hmem.1
  · intro v
    exact (List.pairwise_lt_range _).sublist (List.filter_sublist _)
  · intro hb
    have hlt : ∀ i, vertex_of (new_hypercube d1 M probes bits) (dataset.get_ith_object i) <
        2 ^ d1 := fun i =>
      vertex_of_lt (new_hypercube d1 M probes bits) (dataset.get_ith_object i) (fun j => hb j _)
    refine ⟨is_partition_of_filter _ _ _ (fun i _ => hlt i), ?_⟩
    intro v hv
    rw [List.filter_eq_nil_iff]
    intro i _
    have := hlt i
    simp only [decide_eq_true_eq]
    omega

theorem import_data_partition_witness :
    is_partition sample_dataset.get_num_of_Objects (2 ^ 2) sample_cube.cube_array ∧
      ∀ v, (sample_cube.cube_array v).Pairwise (fun a b => a < b) :=
  ⟨((import_data_partition 2 4 4 sample_bits sample_dataset).2.2.2 sample_bits_le).1,
    (import_data_partition 2 4 4 sample_bits sample_dataset).2.2.1⟩

/-! ## The update of the centroids -/

theorem getD_set_zero (l : List ℚ) (i j : Nat) (a : ℚ) :
    (l.set i a).getD j 0 = if i = j ∧ i < l.length then a else l.getD j 0 := by
  simp only [List.getD_eq_getElem?_getD, List.getElem?_set]
  by_cases h1 : i = j
  · subst h1
    by_cases h2 : i < l.length
    · simp [h2]
    · simp [h2, List.getElem?_eq_none (not_lt.mp h2)]
  · simp [h1]

theorem mean_inner_spec (f : Nat → ℚ) (k : Nat) (mv : List ℚ) :
    ((List.range k).foldl (fun mv j => mv.set j (mv.getD j 0 + f j)) mv).length = mv.length ∧
    ∀ j, ((List.range k).foldl (fun mv j => mv.set j (mv.getD j 0 + f j)) mv).getD j 0 =
      if j < k ∧ j < mv.length then mv.getD j 0 + f j else mv.getD j 0 := by
  induction k with
  | zero => simp
  | succ k ih =>
    obtain ⟨h1, h2⟩ := ih
    rw [List.range_succ, List.foldl_append]
    simp only [List.foldl_cons, List.foldl_nil]
    refine ⟨by rw [List.length_set, h1], ?_⟩
    intro j
    rw [getD_set_zero, h1, h2 k, h2 j]
    by_cases hjk : k = j
    · subst hjk
      by_cases hl : k < mv.length
      · simp [hl]
      · simp [hl]
    · by_cases hlt : j < k
      · have : j < k + 1 := by omega
        simp [hjk, hlt, this]
      · have : ¬ j < k + 1 := by omega
        simp [hjk, hlt, this]

theorem mean_outer_spec {Obj : Type} (get_ith : Obj → Nat → ℚ) (d T : Nat) (cluster : List Obj) :
    ∀ acc : List ℚ, acc.length = d →
      (cluster.foldl
        (fun mean_vector object =>
          (List.range d).foldl
            (fun mean_vector j =>
              mean_vector.set j (mean_vector.getD j 0 + get_ith object j / T))
            mean_vector) acc).length = d ∧
      ∀ j, j < d →
        (cluster.foldl
          (fun mean_vector object =>
            (List.range d).foldl
              (fun mean_vector j =>
                mean_vector.set j (mean_vector.getD j 0 + get_ith object j / T))
              mean_vector) acc).getD j 0 =
          acc.getD j 0 + (cluster.map (fun x => get_ith x j / T)).sum := by
  induction cluster with
  | nil =>
    intro acc hacc
    simp [hacc]
  | cons x rest ih =>
    intro acc hacc
    obtain ⟨h1, h2⟩ := mean_inner_spec (fun j => get_ith x j / T) d acc
    rw [List.foldl_cons]
    obtain ⟨i1, i2⟩ := ih _ (h1.trans hacc)
    refine ⟨i1, ?_⟩
    intro j hj
    rw [i2 j hj, h2 j, if_pos ⟨hj, by omega⟩, List.map_cons, List.sum_cons]
    ring

theorem sum_map_div {Obj : Type} (f : Obj → ℚ) (T : ℚ) (l : List Obj) :
    (l.map (fun x => f x / T)).sum = (l.map f).sum / T := by
  induction l with
  | nil => simp
  | cons x rest ih =>
    rw [List.map_cons, List.sum_cons, ih, List.map_cons, List.sum_cons]
    ring

theorem mean_vector_spec {Obj : Type} (get_ith : Obj → Nat → ℚ) (d T : Nat)
    (cluster : List Obj) :
    (mean_vector get_ith d T cluster).length = d ∧
    ∀ j, j < d → (mean_vector get_ith d T cluster).getD j 0 =
      (cluster.map (fun x => get_ith x j)).sum / T := by
  obtain ⟨h1, h2⟩ := mean_outer_spec get_ith d T cluster (List.replicate d 0) (by simp)
  refine ⟨h1, ?_⟩
  intro j hj
  unfold mean_vector
  rw [h2 j hj, sum_map_div]
  simp [List.getD_eq_getElem?_getD, List.getElem?_replicate, hj]

/-- C13. Mean-vector update: for every non-empty cluster of `T` vectors and every update
method other than "Mean Frechet" (in particular "Mean Vector"), `mean` returns the object
built from the vector of length `d` whose `j`-th coordinate, for every `j < d`, is
`(x_1[j] + ... + x_T[j]) / T` (in exact arithmetic; the code accumulates `x_i[j] / T`). -/
theorem mean_is_arithmetic_mean {Obj : Type} (get_ith : Obj → Nat → ℚ)
    (new_Object : List ℚ → Obj) (post_order_traversal : List Obj → Obj) (d : Nat)
    (update_method : String) (cluster : List Obj) (hne : cluster ≠ [])
    (hm : update_method ≠ "Mean Frechet") :
    ∃ v, mean get_ith new_Object post_order_traversal d update_method cluster =
        some (new_Object v) ∧
      v.length = d ∧
      ∀ j, j < d → v.getD j 0 = (cluster.map (fun x => get_ith x j)).sum / cluster.length := by
  refine ⟨mean_vector get_ith d cluster.length cluster, ?_,
    (mean_vector_spec get_ith d cluster.length cluster).1,
    (mean_vector_spec get_ith d cluster.length cluster).2⟩
  unfold mean
  have hl : cluster.length ≠ 0 := fun h => hne (List.length_eq_zero.mp h)
  rw [if_neg hl, if_neg hm]

theorem mean_is_arithmetic_mean_witness :
    ∃ v, mean (fun (o : List ℚ) j => o.getD j 0) id (fun _ => []) 2 "Mean Vector"
          [[1, 2], [3, 6]] = some v ∧
      v.length = 2 ∧
      ∀ j, j < 2 → v.getD j 0 =
        (([[1, 2], [3, 6]] : List (List ℚ)).map (fun x => x.getD j 0)).sum /
          ([[1, 2], [3, 6]] : List (List ℚ)).length :=
  mean_is_arithmetic_mean (fun (o : List ℚ) j => o.getD j 0) id (fun _ => []) 2 "Mean Vector"
    [[1, 2], [3, 6]] (by simp) (by decide)

theorem update_loop_spec {Obj : Type} (mean_of : Nat → Option Obj) (metric : Obj → Obj → ℚ)
    (K : Nat) (centroids : Nat → Obj) (k : Nat) :
    (List.range k).foldl
        (fun (st : (Nat → Obj) × ℚ) i =>
          match mean_of i with
          | none => st
          | some cluster_mean =>
            (Function.update st.1 i cluster_mean, st.2 + metric cluster_mean (st.1 i) / K))
        (centroids, 0) =
      (fun i => if i < k then (mean_of i).getD (centroids i) else centroids i,
        ∑ i in Finset.range k,
          match mean_of i with
          | none => 0
          | some cluster_mean => metric cluster_mean (centroids i) / K) := by
  induction k with
  | zero => simp
  | succ k ih =>
    rw [List.range_succ, List.foldl_append, ih, Finset.sum_range_succ]
    simp only [List.foldl_cons, List.foldl_nil]
    cases hm : mean_of k with
    | none =>
      simp only [add_zero]
      congr 1
      funext i
      by_cases hik : i = k
      · subst hik
        simp [hm]
      · by_cases hlt : i < k
        · have : i < k + 1 := by omega
          simp [hlt, this]
        · have : ¬ i < k + 1 := by omega
          simp [hlt, this]
    | some m =>
      simp only [lt_self_iff_false, if_false]
      congr 1
      funext i
      by_cases hik : i = k
      · subst hik
        simp [hm]
      · rw [Function.update_noteq hik]
        by_cases hlt : i < k
        · have : i < k + 1 := by omega
          simp [hlt, this]
        · have : ¬ i < k + 1 := by omega
          simp [hlt, this]

theorem update_loop_eq {Obj : Type} (mean_of : Nat → Option Obj) (metric : Obj → Obj → ℚ)
    (K : Nat) (centroids : Nat → Obj) :
    update_loop mean_of metric K centroids =
      (fun i => if i < K then (mean_of i).getD (centroids i) else centroids i,
        ∑ i in Finset.range K,
          match mean_of i with
          | none => 0
          | some cluster_mean => metric cluster_mean (centroids i) / K) :=
  update_loop_spec mean_of metric K centroids K

theorem mean_nil {Obj : Type} (get_ith : Obj → Nat → ℚ) (new_Object : List ℚ → Obj)
    (post_order_traversal : List Obj → Obj) (d : Nat) (update_method : String) :
    mean get_ith new_Object post_order_traversal d update_method [] = none := by
  simp [mean]

theorem mean_isSome {Obj : Type} (get_ith : Obj → Nat → ℚ) (new_Object : List ℚ → Obj)
    (post_order_traversal : List Obj → Obj) (d : Nat) (update_method : String)
    (cluster : List Obj) (hne : cluster ≠ []) :
    ∃ m, mean get_ith new_Object post_order_traversal d update_method cluster = some m := by
  unfold mean
  have hl : cluster.length ≠ 0 := fun h => hne (List.length_eq_zero.mp h)
  rw [if_neg hl]
  split_ifs
  · exact ⟨_, rfl⟩
  · exact ⟨_, rfl⟩

theorem update_avg_deviation {Obj : Type} (get_ith : Obj → Nat → ℚ) (new_Object : List ℚ → Obj)
    (post_order_traversal : List Obj → Obj) (d : Nat) (dataset : Dataset Obj)
    (update_method : String) (metric : Obj → Obj → ℚ) (K : Nat) (clusters : Nat → List Nat)
    (centroids : Nat → Obj) (iters : Int) :
    (update get_ith new_Object post_order_traversal d dataset update_method metric K clusters
        centroids iters).avg_deviation =
      ∑ i in (Finset.range K).filter (fun i => clusters i ≠ []),
        metric
          ((update get_ith new_Object post_order_traversal d dataset update_method metric K
            clusters centroids iters).centroids i)
          (centroids i) / K := by
  unfold update
  simp only
  rw [update_loop_eq, Finset.sum_filter]
  dsimp only
  apply Finset.sum_congr rfl
  intro i hi
  rw [Finset.mem_range] at hi
  by_cases he : clusters i = []
  · simp [he, mean_nil]
  · have hne : (clusters i).map dataset.get_ith_object ≠ [] := by
      simpa using he
    obtain ⟨m, hm⟩ := mean_isSome get_ith new_Object post_order_traversal d update_method _ hne
    simp [he, hm, hi]

/-- C14. Empty cluster in update: `Cluster_info::update` leaves the centroid of every empty
cluster unchanged (and every centroid of index `K` or more), replaces the centroid of every
non-empty cluster `i < K` by the mean of that cluster, and `avg_deviation` is the sum, over
the non-empty clusters only, of `metric(new mean, old centroid) / K`: an empty cluster adds
nothing. -/
theorem update_empty_cluster {Obj : Type} (get_ith : Obj → Nat → ℚ) (new_Object : List ℚ → Obj)
    (post_order_traversal : List Obj → Obj) (d : Nat) (dataset : Dataset Obj)
    (update_method : String) (metric : Obj → Obj → ℚ) (K : Nat) (clusters : Nat → List Nat)
    (centroids : Nat → Obj) (iters : Int) :
    (∀ i, clusters i = [] →
      (update get_ith new_Object post_order_traversal d dataset update_method metric K clusters
        centroids iters).centroids i = centroids i) ∧
    (∀ i, K ≤ i →
      (update get_ith new_Object post_order_traversal d dataset update_method metric K clusters
        centroids iters).centroids i = centroids i) ∧
    (∀ i, i < K → clusters i ≠ [] →
      mean get_ith new_Object post_order_traversal d update_method
          ((clusters i).map dataset.get_ith_object) =
        some ((update get_ith new_Object post_order_traversal d dataset update_method metric K
          clusters centroids iters).centroids i)) ∧
    (update get_ith new_Object post_order_traversal d dataset update_method metric K clusters
        centroids iters).avg_deviation =
      ∑ i in (Finset.range K).filter (fun i => clusters i ≠ []),
        metric
          ((update get_ith new_Object post_order_traversal d dataset update_method metric K
            clusters centroids iters).centroids i)
          (centroids i) / K := by
  refine ⟨?_, ?_, ?_, update_avg_deviation get_ith new_Object post_order_traversal d dataset
    update_method metric K clusters centroids iters⟩
  · intro i he
    unfold update
    simp only
    rw [update_loop_eq]
    simp [he, mean_nil]
  · intro i hi
    unfold update
    simp only
    rw [update_loop_eq]
    have : ¬ i < K := by omega
    simp [this]
  · intro i hi he
    have hne : (clusters i).map dataset.get_ith_object ≠ [] := by
      simpa using he
    obtain ⟨m, hm⟩ := mean_isSome get_ith new_Object post_order_traversal d update_method _ hne
    unfold update
    simp only
    rw [update_loop_eq]
    simp [hi, hm]

/-- C15. Convergence rule: `Cluster_info::update` returns true if and only if the iteration
counter after the call is at least 12, or the update method is "Mean Vector" and
`avg_deviation < 1`, or the update method is "Mean Frechet" and `avg_deviation < 20`; the
counter after the call is the counter before plus one, and `avg_deviation` is the sum over
the non-empty clusters of `metric(new mean, old centroid) / K`. -/
theorem update_converged_iff {Obj : Type} (get_ith : Obj → Nat → ℚ) (new_Object : List ℚ → Obj)
    (post_order_traversal : List Obj → Obj) (d : Nat) (dataset : Dataset Obj)
    (update_method : String) (metric : Obj → Obj → ℚ) (K : Nat) (clusters : Nat → List Nat)
    (centroids : Nat → Obj) (iters : Int) :
    ((update get_ith new_Object post_order_traversal d dataset update_method metric K clusters
        centroids iters).converged = true ↔
      (12 ≤ (update get_ith new_Object post_order_traversal d dataset update_method metric K
          clusters centroids iters).iters ∨
        (update_method = "Mean Vector" ∧
          (update get_ith new_Object post_order_traversal d dataset update_method metric K
            clusters centroids iters).avg_deviation < 1) ∨
        (update_method = "Mean Frechet" ∧
          (update get_ith new_Object post_order_traversal d dataset update_method metric K
            clusters centroids iters).avg_deviation < 20))) ∧
    (update get_ith new_Object post_order_traversal d dataset update_method metric K clusters
        centroids iters).iters = iters + 1 ∧
    (update get_ith new_Object post_order_traversal d dataset update_method metric K clusters
        centroids iters).avg_deviation =
      ∑ i in (Finset.range K).filter (fun i => clusters i ≠ []),
        metric
          ((update get_ith new_Object post_order_traversal d dataset update_method metric K
            clusters centroids iters).centroids i)
          (centroids i) / K := by
  refine ⟨?_, rfl, update_avg_deviation get_ith new_Object post_order_traversal d dataset
    update_method metric K clusters centroids iters⟩
  unfold update
  simp only
  by_cases h1 : iters + 1 ≥ 12
  · simp [h1]
  · have h1' : ¬ (12 : Int) ≤ iters + 1 := h1
    by_cases h2 : update_method = "Mean Frechet"
    · subst h2
      simp [h1, h1']
    · by_cases h3 : update_method = "Mean Vector"
      · subst h3
        simp [h1, h1']
      · simp [h1, h1', h2, h3]

/-! ## The loop of `exact_lloyds` -/

theorem exact_lloyds_terminates {Obj : Type} (get_ith : Obj → Nat → ℚ)
    (new_Object : List ℚ → Obj) (post_order_traversal : List Obj → Obj) (d : Nat)
    (dataset : Dataset Obj) (update_method : String) (metric : Obj → Obj → ℚ) (K : Nat) :
    ∀ (fuel : Nat) (centroids : Nat → Obj) (iters : Int), 1 ≤ fuel → 12 ≤ iters + fuel →
      ∃ r, exact_lloyds get_ith new_Object post_order_traversal d dataset update_method metric
          K fuel centroids iters = some r ∧ iters < r.iters ∧ r.iters ≤ iters + fuel := by
  intro fuel
  induction fuel with
  | zero => intro _ _ h; omega
  | succ fuel ih =>
    intro centroids iters _ h12
    unfold exact_lloyds
    simp only
    by_cases hc : (update get_ith new_Object post_order_traversal d dataset update_method
        metric K (exact_lloyds_assignment metric dataset centroids K) centroids
        iters).converged = true
    · rw [if_pos hc]
      refine ⟨_, rfl, ?_, ?_⟩
      · show iters < iters + 1
        omega
      · show iters + 1 ≤ iters + ((fuel + 1 : Nat) : Int)
        push_cast
        omega
    · rw [if_neg hc]
      have hit : (update get_ith new_Object post_order_traversal d dataset update_method
          metric K (exact_lloyds_assignment metric dataset centroids K) centroids
          iters).iters = iters + 1 := rfl
      have hlt : iters + 1 < 12 := by
        by_contra hge
        apply hc
        unfold update
        simp only
        rw [if_pos (by omega)]
      rw [hit]
      have hf : 1 ≤ fuel := by
        push_cast at h12
        omega
      obtain ⟨r, hr, h1, h2⟩ := ih
        (update get_ith new_Object post_order_traversal d dataset update_method
          metric K (exact_lloyds_assignment metric dataset centroids K) centroids
          iters).centroids (iters + 1) hf (by push_cast at h12 ⊢; omega)
      refine ⟨r, hr, by omega, ?_⟩
      push_cast
      omega

theorem exact_lloyds_fuel_mono {Obj : Type} (get_ith : Obj → Nat → ℚ)
    (new_Object : List ℚ → Obj) (post_order_traversal : List Obj → Obj) (d : Nat)
    (dataset : Dataset Obj) (update_method : String) (metric : Obj → Obj → ℚ) (K : Nat) :
    ∀ (fuel : Nat) (centroids : Nat → Obj) (iters : Int) (r : lloyds_result Obj),
      exact_lloyds get_ith new_Object post_order_traversal d dataset update_method metric K
        fuel centroids iters = some r →
      ∀ extra, exact_lloyds get_ith new_Object post_order_traversal d dataset update_method
        metric K (fuel + extra) centroids iters = some r := by
  intro fuel
  induction fuel with
  | zero =>
    intro centroids iters r h
    simp [exact_lloyds] at h
  | succ fuel ih =>
    intro centroids iters r h extra
    have e : fuel + 1 + extra = (fuel + extra) + 1 := by omega
    rw [e]
    unfold exact_lloyds at h ⊢
    simp only at h ⊢
    by_cases hc : (update get_ith new_Object post_order_traversal d dataset update_method
        metric K (exact_lloyds_assignment metric dataset centroids K) centroids
        iters).converged = true
    · rw [if_pos hc] at h ⊢
      exact h
    · rw [if_neg hc] at h ⊢
      exact ih _ _ _ h extra

/-- C16. Iteration cap: starting from an iteration counter of 0, for every dataset, `K`,
metric, update method and initial centroids, the loop of `exact_lloyds` ends after at least
one and at most 12 iterations: a bound of 12 iterations yields its result, the counter of
`update` (the number of calls of `update`) is then between 1 and 12, and any larger bound
yields the same result. -/
theorem exact_lloyds_iteration_cap {Obj : Type} (get_ith : Obj → Nat → ℚ)
    (new_Object : List ℚ → Obj) (post_order_traversal : List Obj → Obj) (d : Nat)
    (dataset : Dataset Obj) (update_method : String) (metric : Obj → Obj → ℚ) (K : Nat)
    (centroids : Nat → Obj) :
    ∃ r, exact_lloyds get_ith new_Object post_order_traversal d dataset update_method metric K
        12 centroids 0 = some r ∧
      1 ≤ r.iters ∧ r.iters ≤ 12 ∧
      ∀ extra, exact_lloyds get_ith new_Object post_order_traversal d dataset update_method
        metric K (12 + extra) centroids 0 = some r := by
  obtain ⟨r, hr, h1, h2⟩ := exact_lloyds_terminates get_ith new_Object post_order_traversal d
    dataset update_method metric K 12 centroids 0 (by omega) (by norm_num)
  refine ⟨r, hr, by omega, ?_, ?_⟩
  · push_cast at h2
    omega
  · exact exact_lloyds_fuel_mono get_ith new_Object post_order_traversal d dataset
      update_method metric K 12 centroids 0 r hr

/-! ## The weighted search outside its domain -/

theorem binary_search_nonpos (P : List ℚ) (n : ℕ) (x : ℚ) (hlen : P.length = n + 1)
    (hP : ∀ i : ℕ, i ≤ n → 0 ≤ P.getD i 0) (hx : x ≤ 0) :
    ∀ (k : ℕ) (hi : Int), hi.toNat ≤ k → 0 ≤ hi → hi ≤ n →
      binary_search P x 0 hi = some 1 := by
  intro k
  induction k using Nat.strong_induction_on with
  | _ k ih =>
    intro hi hk h0 hn
    rw [binary_search]
    have hge : hi ≥ 0 := h0
    simp only [hge, if_true]
    by_cases hr : 0 + (hi - 0) / 2 = 0
    · simp only [hr, if_true]
    · simp only [hr, if_false]
      set r := 0 + (hi - 0) / 2 with hrdef
      have hr1 : 1 ≤ r := by omega
      have hrhi : r ≤ hi := by omega
      rw [getP_of_range P n hlen (r - 1) (by omega) (by omega),
        getP_of_range P n hlen r (by omega) (by omega)]
      simp only
      have hp1 : 0 ≤ P.getD (r - 1).toNat 0 := hP _ (by omega)
      have hp2 : 0 ≤ P.getD r.toNat 0 := hP _ (by omega)
      rw [if_neg (fun h => absurd (lt_of_lt_of_le h.1 hx) (not_lt.mpr hp1)),
        if_neg (fun h => absurd (lt_of_le_of_lt hp2 h) (not_lt.mpr hx)),
        if_pos (le_trans hx hp1)]
      exact ih (r - 1).toNat (by omega) (r - 1) (le_refl _) (by omega) (by omega)

theorem binary_search_above_from (P : List ℚ) (n : ℕ) (x : ℚ) (hlen : P.length = n + 1)
    (hx : ∀ i : ℕ, i ≤ n → P.getD i 0 < x) :
    ∀ (k : ℕ) (lo hi : Int), (hi - lo + 1).toNat ≤ k → 1 ≤ lo → hi ≤ n →
      binary_search P x lo hi = some 0 := by
  intro k
  induction k with
  | zero =>
    intro lo hi hk hlo hhi
    rw [binary_search]
    have : ¬ hi ≥ lo := by omega
    simp only [this, if_false]
  | succ k ih =>
    intro lo hi hk hlo hhi
    rw [binary_search]
    by_cases hge : hi ≥ lo
    · simp only [hge, if_true]
      have hr : ¬ lo + (hi - lo) / 2 = 0 := by omega
      simp only [hr, if_false]
      set r := lo + (hi - lo) / 2 with hrdef
      have hrlo : lo ≤ r := by omega
      have hrhi : r ≤ hi := by omega
      rw [getP_of_range P n hlen (r - 1) (by omega) (by omega),
        getP_of_range P n hlen r (by omega) (by omega)]
      simp only
      have hp : P.getD r.toNat 0 < x := hx _ (by omega)
      rw [if_neg (fun h => absurd h.2 (not_le.mpr hp)), if_pos hp]
      exact ih (r + 1) hi (by omega) (by omega) hhi
    · simp only [hge, if_false]

theorem binary_search_above (P : List ℚ) (n : ℕ) (x : ℚ) (hlen : P.length = n + 1)
    (hx : ∀ i : ℕ, i ≤ n → P.getD i 0 < x) :
    binary_search P x 0 n = some (if n ≤ 1 then 1 else 0) := by
  rw [binary_search]
  have hge : (n : Int) ≥ 0 := by omega
  simp only [hge, if_true]
  by_cases hn : n ≤ 1
  · have hr : (0 : Int) + ((n : Int) - 0) / 2 = 0 := by omega
    simp only [hr, if_true, hn]
  · have hr : ¬ (0 : Int) + ((n : Int) - 0) / 2 = 0 := by omega
    simp only [hr, if_false, hn]
    set r := (0 : Int) + ((n : Int) - 0) / 2 with hrdef
    rw [getP_of_range P n hlen (r - 1) (by omega) (by omega),
      getP_of_range P n hlen r (by omega) (by omega)]
    simp only
    have hp : P.getD r.toNat 0 < x := hx _ (by omega)
    rw [if_neg (fun h => absurd h.2 (not_le.mpr hp)), if_pos hp]
    exact binary_search_above_from P n x hlen hx _ (r + 1) n (le_refl _) (by omega) (le_refl _)

/-- C19, as the code has it. The weighted search has no error path: for a vector `P[0..n]`
with `P[0] = 0` and `P` non-decreasing, `binary_search(P, x, 0, n)` returns the index 1 for
every `x ≤ 0`, and for every `x > P[n]` it returns 0 when `n ≥ 2` and 1 when `n ≤ 1`; each is
returned to the caller as an ordinary `int`. -/
theorem binary_search_outside_domain (P : List ℚ) (n : ℕ) (x : ℚ) (hlen : P.length = n + 1)
    (hP0 : P.getD 0 0 = 0)
    (hmono : ∀ i j : ℕ, i ≤ j → j ≤ n → P.getD i 0 ≤ P.getD j 0) :
    (x ≤ 0 → binary_search P x 0 n = some 1) ∧
      (P.getD n 0 < x → binary_search P x 0 n = some (if n ≤ 1 then 1 else 0)) := by
  constructor
  · intro hx
    have hP : ∀ i : ℕ, i ≤ n → 0 ≤ P.getD i 0 := by
      intro i hi
      have := hmono 0 i (Nat.zero_le _) hi
      rw [hP0] at this
      exact this
    exact binary_search_nonpos P n x hlen hP hx n n (by simp) (by omega) (le_refl _)
  · intro hx
    exact binary_search_above P n x hlen
      (fun i hi => lt_of_le_of_lt (hmono i n hi (le_refl _)) hx)

theorem binary_search_outside_domain_witness :
    binary_search [0, 1, 3, 6] (-1) 0 3 = some 1 ∧ binary_search [0, 1, 3, 6] 7 0 3 = some 0 := by
  have hmono : ∀ i j : ℕ, i ≤ j → j ≤ 3 →
      ([0, 1, 3, 6] : List ℚ).getD i 0 ≤ ([0, 1, 3, 6] : List ℚ).getD j 0 := by
    intro i j hij hj
    interval_cases j <;> interval_cases i <;> norm_num
  exact ⟨(binary_search_outside_domain [0, 1, 3, 6] 3 (-1) rfl rfl hmono).1 (by norm_num),
    (binary_search_outside_domain [0, 1, 3, 6] 3 7 rfl rfl hmono).2 (by norm_num)⟩

/-- C19, as stated, fails: called with `x = 7 > P[3] = 6` on `P = [0, 1, 3, 6]` the weighted
search returns the value 0 to its caller, and called with `x = 0` it returns the index 1; in
neither case is the outcome an error. -/
theorem binary_search_returns_no_error :
    binary_search [0, 1, 3, 6] 7 0 3 = some 0 ∧ binary_search [0, 1, 3, 6] 0 0 3 = some 1 := by
  have hx : ∀ i : ℕ, i ≤ 3 → ([0, 1, 3, 6] : List ℚ).getD i 0 < 7 := by
    intro i hi
    interval_cases i <;> norm_num
  have hP : ∀ i : ℕ, i ≤ 3 → (0 : ℚ) ≤ ([0, 1, 3, 6] : List ℚ).getD i 0 := by
    intro i hi
    interval_cases i <;> norm_num
  exact ⟨binary_search_above [0, 1, 3, 6] 3 7 rfl hx,
    binary_search_nonpos [0, 1, 3, 6] 3 0 rfl hP (le_refl _) 3 3 (by simp) (by omega)
      (le_refl _)⟩

/-! ## The k-means++ seeding -/

section seeding

variable {Obj : Type} (metric : Obj → Obj → ℚ) (dataset : Dataset Obj) (FLT_MAX : ℚ)
  (initial_centroid : Nat)

/-- What the body of the loop over the items does for item `k`, in terms of the two values it
reads at `k`. -/
theorem scan_step_fields (t centroid_index : Nat) (newest : Obj) (s : scan_state) (k : Nat)
    (d1 : ℚ) (n1 : Int)
    (hd1 : d1 = if t = 1 ∧ k ≠ initial_centroid then FLT_MAX else s.D k)
    (hn1 : n1 = if t = 1 ∧ k ≠ initial_centroid then -1 else s.nearest_centroid k) :
    (scan_step metric dataset FLT_MAX initial_centroid t centroid_index newest s k).D =
      Function.update s.D k
        (if n1 ≠ (k : Int) ∧ metric newest (dataset.get_ith_object k) < d1 then
          metric newest (dataset.get_ith_object k) else d1) ∧
    (scan_step metric dataset FLT_MAX initial_centroid t centroid_index newest s
        k).nearest_centroid =
      Function.update s.nearest_centroid k
        (if n1 ≠ (k : Int) ∧ metric newest (dataset.get_ith_object k) < d1 then
          (centroid_index : Int) else n1) ∧
    (scan_step metric dataset FLT_MAX initial_centroid t centroid_index newest s k).scanned =
      (if n1 ≠ (k : Int) then s.scanned ++ [k] else s.scanned) ∧
    (scan_step metric dataset FLT_MAX initial_centroid t centroid_index newest s k).max_Di =
      (if n1 ≠ (k : Int) then
        (if (if n1 ≠ (k : Int) ∧ metric newest (dataset.get_ith_object k) < d1 then
            metric newest (dataset.get_ith_object k) else d1) > s.max_Di then
          (if n1 ≠ (k : Int) ∧ metric newest (dataset.get_ith_object k) < d1 then
            metric newest (dataset.get_ith_object k) else d1)
        else s.max_Di)
      else s.max_Di) := by
  unfold scan_step
  by_cases hc : t = 1 ∧ k ≠ initial_centroid
  · rw [if_pos hc] at hd1 hn1
    rw [hd1, hn1]
    simp only [if_pos hc, Function.update_same]
    have hne : (-1 : Int) ≠ (k : Int) := by omega
    simp only [ne_eq, hne, not_false_eq_true, if_true, true_and]
    by_cases hlt : metric newest (dataset.get_ith_object k) < FLT_MAX
    · simp only [if_pos hlt, Function.update_same, Function.update_idem, and_self]
    · simp only [if_neg hlt, Function.update_same, and_self]
  · rw [if_neg hc] at hd1 hn1
    rw [hd1, hn1]
    simp only [if_neg hc]
    by_cases hne : s.nearest_centroid k ≠ (k : Int)
    · simp only [ne_eq, hne, not_false_eq_true, if_true, true_and]
      by_cases hlt : metric newest (dataset.get_ith_object k) < s.D k
      · simp only [if_pos hlt, Function.update_same, and_self]
      · simp only [if_neg hlt, Function.update_eq_self, and_self]
    · simp only [hne, if_false, false_and, Function.update_eq_self, and_self]

/-- The loop over the first `k` items of a round. -/
theorem scan_fold (st : seeding_state Obj) (k : Nat) :
    ((List.range k).foldl
        (scan_step metric dataset FLT_MAX initial_centroid st.t st.centroid_index
          (st.centroids (st.t - 1)))
        { D := st.D, nearest_centroid := st.nearest_centroid, max_Di := 0, scanned := [] }).D =
      (fun i => if i < k then scan_D2 metric dataset FLT_MAX initial_centroid st i
        else st.D i) ∧
    ((List.range k).foldl
        (scan_step metric dataset FLT_MAX initial_centroid st.t st.centroid_index
          (st.centroids (st.t - 1)))
        { D := st.D, nearest_centroid := st.nearest_centroid, max_Di := 0,
          scanned := [] }).nearest_centroid =
      (fun i => if i < k then scan_nc2 metric dataset FLT_MAX initial_centroid st i
        else st.nearest_centroid i) ∧
    ((List.range k).foldl
        (scan_step metric dataset FLT_MAX initial_centroid st.t st.centroid_index
          (st.centroids (st.t - 1)))
        { D := st.D, nearest_centroid := st.nearest_centroid, max_Di := 0,
          scanned := [] }).scanned =
      (List.range k).filter (fun i => scan_nc1 initial_centroid st i ≠ (i : Int)) ∧
    0 ≤ ((List.range k).foldl
        (scan_step metric dataset FLT_MAX initial_centroid st.t st.centroid_index
          (st.centroids (st.t - 1)))
        { D := st.D, nearest_centroid := st.nearest_centroid, max_Di := 0,
          scanned := [] }).max_Di ∧
    ∀ i, i < k → scan_nc1 initial_centroid st i ≠ (i : Int) →
      scan_D2 metric dataset FLT_MAX initial_centroid st i ≤
        ((List.range k).foldl
          (scan_step metric dataset FLT_MAX initial_centroid st.t st.centroid_index
            (st.centroids (st.t - 1)))
          { D := st.D, nearest_centroid := st.nearest_centroid, max_Di := 0,
            scanned := [] }).max_Di := by
  induction k with
  | zero =>
    refine ⟨?_, ?_, rfl, le_refl _, ?_⟩
    · funext i; simp
    · funext i; simp
    · intro i hi; omega
  | succ k ih =>
    rw [List.range_succ, List.foldl_append]
    simp only [List.foldl_cons, List.foldl_nil]
    generalize (List.range k).foldl
        (scan_step metric dataset FLT_MAX initial_centroid st.t st.centroid_index
          (st.centroids (st.t - 1)))
        { D := st.D, nearest_centroid := st.nearest_centroid, max_Di := 0, scanned := [] } = s
      at ih ⊢
    obtain ⟨hD, hnc, hsc, hmax0, hmax⟩ := ih
    have hDk : s.D k = st.D k := by rw [hD]; simp
    have hnck : s.nearest_centroid k = st.nearest_centroid k := by rw [hnc]; simp
    obtain ⟨f1, f2, f3, f4⟩ := scan_step_fields metric dataset FLT_MAX initial_centroid st.t
      st.centroid_index (st.centroids (st.t - 1)) s k
      (scan_D1 FLT_MAX initial_centroid st k) (scan_nc1 initial_centroid st k)
      (by rw [hDk]; rfl) (by rw [hnck]; rfl)
    have e2 : (if scan_nc1 initial_centroid st k ≠ (k : Int) ∧
          metric (st.centroids (st.t - 1)) (dataset.get_ith_object k) <
            scan_D1 FLT_MAX initial_centroid st k then
          metric (st.centroids (st.t - 1)) (dataset.get_ith_object k)
        else scan_D1 FLT_MAX initial_centroid st k) =
        scan_D2 metric dataset FLT_MAX initial_centroid st k := rfl
    have e3 : (if scan_nc1 initial_centroid st k ≠ (k : Int) ∧
          metric (st.centroids (st.t - 1)) (dataset.get_ith_object k) <
            scan_D1 FLT_MAX initial_centroid st k then
          (st.centroid_index : Int)
        else scan_nc1 initial_centroid st k) =
        scan_nc2 metric dataset FLT_MAX initial_centroid st k := rfl
    rw [e2] at f1 f4
    rw [e3] at f2
    rw [f1, f2, f3, f4]
    refine ⟨?_, ?_, ?_, ?_, ?_⟩
    · funext i
      by_cases hik : i = k
      · subst hik; simp
      · rw [Function.update_noteq hik, hD]
        have : (i < k + 1) ↔ (i < k) := by omega
        simp only [this]
    · funext i
      by_cases hik : i = k
      · subst hik; simp
      · rw [Function.update_noteq hik, hnc]
        have : (i < k + 1) ↔ (i < k) := by omega
        simp only [this]
    · rw [List.filter_append, hsc]
      by_cases hcand : scan_nc1 initial_centroid st k ≠ (k : Int)
      · rw [if_pos hcand]
        simp [List.filter_cons, hcand]
      · rw [if_neg hcand]
        simp [List.filter_cons, hcand]
    · split_ifs with h1 h2
      · exact le_of_lt (lt_of_le_of_lt hmax0 h2)
      · exact hmax0
      · exact hmax0
    · intro i hi hcand
      by_cases hik : i = k
      · subst hik
        rw [if_pos hcand]
        split_ifs with h
        · exact le_refl _
        · exact not_lt.mp h
      · have := hmax i (by omega) hcand
        split_ifs with h1 h2
        · exact le_of_lt (lt_of_le_of_lt this h2)
        · exact this
        · exact this

theorem scan_spec (st : seeding_state Obj) :
    (scan metric dataset FLT_MAX initial_centroid st).scanned =
      (List.range dataset.get_num_of_Objects).filter
        (fun i => scan_nc1 initial_centroid st i ≠ (i : Int)) ∧
    (∀ i, i < dataset.get_num_of_Objects →
      (scan metric dataset FLT_MAX initial_centroid st).D i =
        scan_D2 metric dataset FLT_MAX initial_centroid st i) ∧
    (∀ i, i < dataset.get_num_of_Objects →
      (scan metric dataset FLT_MAX initial_centroid st).nearest_centroid i =
        scan_nc2 metric dataset FLT_MAX initial_centroid st i) ∧
    0 ≤ (scan metric dataset FLT_MAX initial_centroid st).max_Di ∧
    ∀ i, i < dataset.get_num_of_Objects → scan_nc1 initial_centroid st i ≠ (i : Int) →
      scan_D2 metric dataset FLT_MAX initial_centroid st i ≤
        (scan metric dataset FLT_MAX initial_centroid st).max_Di := by
  obtain ⟨h1, h2, h3, h4, h5⟩ := scan_fold metric dataset FLT_MAX initial_centroid st
    dataset.get_num_of_Objects
  unfold scan
  refine ⟨h3, ?_, ?_, h4, h5⟩
  · intro i hi
    rw [h1]
    simp [hi]
  · intro i hi
    rw [h2]
    simp [hi]

end seeding

theorem filter_not_mem_length (n : Nat) (chosen : List Nat) (hnd : chosen.Nodup)
    (hlt : ∀ c ∈ chosen, c < n) :
    ((List.range n).filter (fun i => i ∉ chosen)).length = n - chosen.length := by
  have h1 : ((List.range n).filter (fun i => i ∈ chosen)).Perm chosen := by
    rw [List.perm_ext_iff_of_nodup ((List.nodup_range n).filter _) hnd]
    intro a
    simp only [List.mem_filter, List.mem_range, decide_eq_true_eq]
    exact ⟨fun h => h.2, fun h => ⟨hlt a h, h⟩⟩
  have h2 := List.filter_append_perm (fun i => decide (i ∈ chosen)) (List.range n)
  have h3 := h2.length_eq
  rw [List.length_append, h1.length_eq, List.length_range] at h3
  have e : (List.range n).filter (fun i => decide (i ∉ chosen)) =
      (List.range n).filter (fun x => !decide (x ∈ chosen)) := by
    apply List.filter_congr
    intro x _
    simp
  rw [e]
  omega

theorem compute_P_succ (D : Nat → ℚ) (object_index : List Nat) (max_Di : ℚ) (m : Nat) :
    compute_P D object_index max_Di (m + 1) =
      compute_P D object_index max_Di m ++
        [(compute_P D object_index max_Di m).getD m 0 +
          (D (object_index.getD (m + 1) 0) * D (object_index.getD (m + 1) 0)) /
            (max_Di * max_Di)] := by
  unfold compute_P
  rw [List.range'_concat, List.foldl_append]
  simp only [List.foldl_cons, List.foldl_nil]
  have e : 1 + 1 * m - 1 = m := by omega
  have e' : 1 + 1 * m = m + 1 := by omega
  rw [e, e']

theorem compute_P_spec (D : Nat → ℚ) (object_index : List Nat) (max_Di : ℚ) (m : Nat) :
    (compute_P D object_index max_Di m).length = m + 1 ∧
    (compute_P D object_index max_Di m).getD 0 0 = 0 ∧
    ∀ i j, i ≤ j → j ≤ m →
      (compute_P D object_index max_Di m).getD i 0 ≤
        (compute_P D object_index max_Di m).getD j 0 := by
  induction m with
  | zero =>
    refine ⟨rfl, rfl, ?_⟩
    intro i j hij hj
    have : i = j := by omega
    rw [this]
  | succ m ih =>
    obtain ⟨h1, h2, h3⟩ := ih
    rw [compute_P_succ]
    have hq : 0 ≤ (D (object_index.getD (m + 1) 0) * D (object_index.getD (m + 1) 0)) /
        (max_Di * max_Di) := div_nonneg (mul_self_nonneg _) (mul_self_nonneg _)
    have hget : ∀ i, i ≤ m →
        (compute_P D object_index max_Di m ++
          [(compute_P D object_index max_Di m).getD m 0 +
            (D (object_index.getD (m + 1) 0) * D (object_index.getD (m + 1) 0)) /
              (max_Di * max_Di)]).getD i 0 =
        (compute_P D object_index max_Di m).getD i 0 := by
      intro i hi
      rw [List.getD_eq_getElem?_getD, List.getElem?_append_left (by omega),
        ← List.getD_eq_getElem?_getD]
    have hlast : (compute_P D object_index max_Di m ++
          [(compute_P D object_index max_Di m).getD m 0 +
            (D (object_index.getD (m + 1) 0) * D (object_index.getD (m + 1) 0)) /
              (max_Di * max_Di)]).getD (m + 1) 0 =
        (compute_P D object_index max_Di m).getD m 0 +
          (D (object_index.getD (m + 1) 0) * D (object_index.getD (m + 1) 0)) /
            (max_Di * max_Di) := by
      rw [List.getD_eq_getElem?_getD, List.getElem?_append_right (by omega)]
      simp [h1]
    refine ⟨by simp [h1], ?_, ?_⟩
    · rw [hget 0 (by omega)]; exact h2
    · intro i j hij hj
      by_cases hjm : j ≤ m
      · rw [hget i (by omega), hget j hjm]
        exact h3 i j hij hjm
      · have hj' : j = m + 1 := by omega
        subst hj'
        rw [hlast]
        by_cases him : i ≤ m
        · rw [hget i him]
          have := h3 i m him (le_refl _)
          linarith
        · have hi' : i = m + 1 := by omega
          subst hi'
          rw [hlast]

/-- The weighted search of a round returns an index of `1 .. m`. -/
theorem binary_search_round (P : List ℚ) (m : Nat) (x : ℚ) (hlen : P.length = m + 1)
    (hm : 1 ≤ m) (hP0 : P.getD 0 0 = 0)
    (hmono : ∀ i j : ℕ, i ≤ j → j ≤ m → P.getD i 0 ≤ P.getD j 0)
    (hx0 : 0 ≤ x) (hxm : x ≤ P.getD m 0) :
    ∃ r : Int, binary_search P x 0 m = some r ∧ 1 ≤ r ∧ r ≤ m := by
  by_cases hz : x ≤ 0
  · have hP : ∀ i : ℕ, i ≤ m → 0 ≤ P.getD i 0 := by
      intro i hi
      have := hmono 0 i (Nat.zero_le _) hi
      rw [hP0] at this
      exact this
    exact ⟨1, binary_search_nonpos P m x hlen hP hz m m (by simp) (by omega) (le_refl _),
      le_refl _, by omega⟩
  · have hpos : 0 < x := lt_of_le_of_ne hx0 (fun h => hz (le_of_eq h.symm))
    have e1 : (max (0 : Int) 1 - 1).toNat = 0 := by simp
    have e2 : ((m : Int)).toNat = m := by simp
    obtain ⟨r, hr, h1, h2, _, _⟩ := binary_search_window P m x hlen
      ((m : Int) - 0 + 1).toNat 0 m (le_refl _) (le_refl _) (le_refl _)
      (by simp; omega) (by rw [e1, hP0]; exact hpos) (by rw [e2]; exact hxm)
    refine ⟨r, hr, ?_, h2⟩
    have : max (0 : Int) 1 = 1 := by simp
    omega

section seeding_round

variable {Obj : Type} (metric : Obj → Obj → ℚ) (dataset : Dataset Obj) (FLT_MAX : ℚ)
  (initial_centroid : Nat)

/-- The test `nearest_centroid[i] != i` of a round holds exactly for the positions that are
not centroids yet. -/
theorem scan_candidate_iff (st : seeding_state Obj)
    (hinv : seeding_inv dataset initial_centroid st) (i : Nat)
    (hi : i < dataset.get_num_of_Objects) :
    scan_nc1 initial_centroid st i ≠ (i : Int) ↔ i ∉ st.chosen := by
  obtain ⟨_, _, _, _, _, _, hnc, h1, hne1, _, _⟩ := hinv
  unfold scan_nc1
  by_cases ht : st.t = 1
  · have hch := h1 ht
    by_cases hii : i = initial_centroid
    · subst hii
      have hmem : i ∈ st.chosen := by rw [hch]; simp
      have := hnc i hmem
      simp [ht, this, hmem]
    · have hmem : i ∉ st.chosen := by rw [hch]; simpa using hii
      have hneg : (-1 : Int) ≠ (i : Int) := by omega
      simp [ht, hii, hmem, hneg]
  · rw [if_neg (fun h => ht h.1)]
    constructor
    · intro h hmem
      exact h (hnc i hmem)
    · intro h
      exact hne1 ht i hi h

theorem scan_scanned_eq (st : seeding_state Obj)
    (hinv : seeding_inv dataset initial_centroid st) :
    (scan metric dataset FLT_MAX initial_centroid st).scanned =
      (List.range dataset.get_num_of_Objects).filter (fun i => i ∉ st.chosen) := by
  rw [(scan_spec metric dataset FLT_MAX initial_centroid st).1]
  apply List.filter_congr
  intro i hi
  rw [List.mem_range] at hi
  have := scan_candidate_iff dataset initial_centroid st hinv i hi
  by_cases hc : i ∈ st.chosen
  · have h' : ¬ scan_nc1 initial_centroid st i ≠ (i : Int) := fun h => (this.mp h) hc
    simp [hc, h']
  · have h' : scan_nc1 initial_centroid st i ≠ (i : Int) := this.mpr hc
    simp [hc, h']

theorem scan_scanned_length (st : seeding_state Obj)
    (hinv : seeding_inv dataset initial_centroid st) :
    (scan metric dataset FLT_MAX initial_centroid st).scanned.length =
      dataset.get_num_of_Objects - st.t := by
  rw [scan_scanned_eq metric dataset FLT_MAX initial_centroid st hinv,
    filter_not_mem_length _ _ hinv.2.2.1 hinv.2.2.2.1, hinv.2.1]

/-- A round that starts with fewer centroids than items stays in bounds: it ends in the
division by zero when `max_Di = 0`, and else picks a position that is not a centroid yet. -/
theorem seeding_round_spec (x : Nat → ℚ → ℚ) (hx : ∀ t b, 0 ≤ b → 0 ≤ x t b ∧ x t b ≤ b)
    (st : seeding_state Obj) (hinv : seeding_inv dataset initial_centroid st)
    (ht : st.t < dataset.get_num_of_Objects) :
    ((scan metric dataset FLT_MAX initial_centroid st).max_Di = 0 →
      seeding_round metric dataset FLT_MAX initial_centroid x st =
        Except.error seeding_fault.not_a_number) ∧
    ((scan metric dataset FLT_MAX initial_centroid st).max_Di ≠ 0 →
      ∃ (r : Int) (ci : Nat), 1 ≤ r ∧ r ≤ (dataset.get_num_of_Objects : Int) - st.t ∧
        ci < dataset.get_num_of_Objects ∧ ci ∉ st.chosen ∧
        seeding_round metric dataset FLT_MAX initial_centroid x st =
          Except.ok (seeding_next dataset st
            (scan metric dataset FLT_MAX initial_centroid st) r ci)) := by
  have hlen := scan_scanned_length metric dataset FLT_MAX initial_centroid st hinv
  have hsc := scan_scanned_eq metric dataset FLT_MAX initial_centroid st hinv
  have h1 : ¬ dataset.get_num_of_Objects < st.t := by omega
  have h2 : ¬ dataset.get_num_of_Objects - st.t <
      (scan metric dataset FLT_MAX initial_centroid st).scanned.length := by omega
  have hm : 1 ≤ dataset.get_num_of_Objects - st.t := by omega
  constructor
  · intro hz
    unfold seeding_round
    simp only [if_neg h1, if_neg h2]
    rw [if_pos ⟨hm, hz⟩]
  · intro hnz
    have hrep : dataset.get_num_of_Objects - st.t -
        (scan metric dataset FLT_MAX initial_centroid st).scanned.length = 0 := by omega
    obtain ⟨p1, p2, p3⟩ := compute_P_spec (scan metric dataset FLT_MAX initial_centroid st).D
      (0 :: ((scan metric dataset FLT_MAX initial_centroid st).scanned ++
        List.replicate (dataset.get_num_of_Objects - st.t -
          (scan metric dataset FLT_MAX initial_centroid st).scanned.length) 0))
      (scan metric dataset FLT_MAX initial_centroid st).max_Di
      (dataset.get_num_of_Objects - st.t)
    have hb : 0 ≤ (compute_P (scan metric dataset FLT_MAX initial_centroid st).D
        (0 :: ((scan metric dataset FLT_MAX initial_centroid st).scanned ++
          List.replicate (dataset.get_num_of_Objects - st.t -
            (scan metric dataset FLT_MAX initial_centroid st).scanned.length) 0))
        (scan metric dataset FLT_MAX initial_centroid st).max_Di
        (dataset.get_num_of_Objects - st.t)).getD (dataset.get_num_of_Objects - st.t) 0 := by
      have := p3 0 (dataset.get_num_of_Objects - st.t) (Nat.zero_le _) (le_refl _)
      rw [p2] at this
      exact this
    obtain ⟨hx0, hxb⟩ := hx st.t _ hb
    obtain ⟨r, hr, hr1, hr2⟩ := binary_search_round _ (dataset.get_num_of_Objects - st.t)
      _ p1 hm p2 p3 hx0 hxb
    have hr0 : 0 ≤ r := by omega
    obtain ⟨k, hk⟩ : ∃ k, r.toNat = k + 1 := ⟨r.toNat - 1, by omega⟩
    have hidx : k < (scan metric dataset FLT_MAX initial_centroid st).scanned.length := by
      omega
    have hget : (0 :: ((scan metric dataset FLT_MAX initial_centroid st).scanned ++
        List.replicate (dataset.get_num_of_Objects - st.t -
          (scan metric dataset FLT_MAX initial_centroid st).scanned.length) 0))[r.toNat]? =
        some ((scan metric dataset FLT_MAX initial_centroid st).scanned.getD k 0) := by
      rw [hk, List.getElem?_cons_succ, List.getElem?_append_left hidx,
        List.getD_eq_getElem?_getD, List.getElem?_eq_getElem hidx]
      rfl
    have hmem : (scan metric dataset FLT_MAX initial_centroid st).scanned.getD k 0 ∈
        (scan metric dataset FLT_MAX initial_centroid st).scanned := by
      rw [List.getD_eq_getElem?_getD, List.getElem?_eq_getElem hidx]
      exact List.getElem_mem _
    have hmem' : (scan metric dataset FLT_MAX initial_centroid st).scanned.getD k 0 ∈
        (List.range dataset.get_num_of_Objects).filter (fun i => i ∉ st.chosen) := by
      rw [← hsc]; exact hmem
    rw [List.mem_filter, List.mem_range] at hmem'
    obtain ⟨hci1, hci2⟩ := hmem'
    simp only [decide_eq_true_eq] at hci2
    refine ⟨r, (scan metric dataset FLT_MAX initial_centroid st).scanned.getD k 0, hr1,
      by omega, hci1, hci2, ?_⟩
    unfold seeding_round
    simp only [if_neg h1, if_neg h2]
    rw [if_neg (fun h => hnz h.2)]
    simp only [hr, if_pos hr0, hget, if_pos hci1]
    rfl

end seeding_round

section seeding_inv

variable {Obj : Type} (metric : Obj → Obj → ℚ) (dataset : Dataset Obj) (FLT_MAX : ℚ)
  (initial_centroid : Nat)

theorem seeding_start_inv (centroids : Nat → Obj)
    (hinit : initial_centroid < dataset.get_num_of_Objects) :
    seeding_inv dataset initial_centroid (seeding_start dataset centroids initial_centroid) := by
  unfold seeding_inv seeding_start
  refine ⟨le_refl _, rfl, by simp, by simpa using hinit, by simp, ?_, ?_, fun _ => rfl,
    fun h => absurd rfl h, by simp, rfl⟩
  · intro k hk
    have hk0 : k = 0 := by
      simp only at hk
      omega
    subst hk0
    simp
  · intro c hc
    simp only [List.mem_singleton] at hc
    subst hc
    simp

theorem seeding_next_inv (st : seeding_state Obj)
    (hinv : seeding_inv dataset initial_centroid st) (r : Int) (ci : Nat) (hr1 : 1 ≤ r)
    (hr2 : r ≤ (dataset.get_num_of_Objects : Int) - st.t)
    (hci1 : ci < dataset.get_num_of_Objects) (hci2 : ci ∉ st.chosen) :
    seeding_inv dataset initial_centroid
      (seeding_next dataset st (scan metric dataset FLT_MAX initial_centroid st) r ci) := by
  have hcand := scan_candidate_iff dataset initial_centroid st hinv
  obtain ⟨_, hnc2, hnc3, _, _⟩ := scan_spec metric dataset FLT_MAX initial_centroid st
  obtain ⟨i1, i2, i3, i4, i5, i6, i7, i8, i9, i10, i11⟩ := hinv
  unfold seeding_inv seeding_next
  refine ⟨by simp, by simp [i2], ?_, ?_, by simp, ?_, ?_, ?_, ?_, ?_, by simp [i11]⟩
  · rw [List.nodup_append]
    refine ⟨i3, List.nodup_singleton _, ?_⟩
    intro a ha hb
    simp only [List.mem_singleton] at hb
    subst hb
    exact hci2 ha
  · intro c hc
    rcases List.mem_append.mp hc with h | h
    · exact i4 c h
    · simp only [List.mem_singleton] at h
      subst h; exact hci1
  · intro k hk
    dsimp only at hk ⊢
    by_cases hkt : k = st.t
    · subst hkt
      rw [Function.update_same, List.getD_eq_getElem?_getD,
        List.getElem?_append_right (by omega)]
      simp [i2]
    · rw [Function.update_noteq hkt, i6 k (by omega), List.getD_eq_getElem?_getD,
        List.getD_eq_getElem?_getD, List.getElem?_append_left (by omega)]
  · intro c hc
    simp only
    rcases List.mem_append.mp hc with h | h
    · have hne : c ≠ ci := fun e => hci2 (e ▸ h)
      rw [Function.update_noteq hne, hnc3 c (i4 c h)]
      have hnot : ¬ scan_nc1 initial_centroid st c ≠ (c : Int) :=
        fun hh => ((hcand c (i4 c h)).mp hh) h
      unfold scan_nc2
      rw [if_neg (fun hh => hnot hh.1)]
      exact not_not.mp hnot
    · simp only [List.mem_singleton] at h
      subst h
      rw [Function.update_same]
  · intro h
    simp only at h
    omega
  · intro _ i hi hmem
    simp only at hmem ⊢
    have hne : i ≠ ci := fun e => hmem (by rw [e]; simp)
    have hnc : i ∉ st.chosen := fun h => hmem (List.mem_append_left _ h)
    rw [Function.update_noteq hne, hnc3 i hi]
    have hc1 : scan_nc1 initial_centroid st i ≠ (i : Int) := (hcand i hi).mpr hnc
    unfold scan_nc2
    split_ifs
    · intro e
      have : st.centroid_index = i := by exact_mod_cast e
      exact hnc (this ▸ i5)
    · exact hc1
  · intro e he
    simp only at he
    rcases List.mem_append.mp he with h | h
    · exact i10 e h
    · simp only [List.mem_singleton] at h
      subst h
      exact ⟨hr1, hr2⟩

/-- When items at different positions are at a positive distance, every position that is not
a centroid yet has a positive `D` after the loop over the items. -/
theorem scan_D2_pos (hF : 0 < FLT_MAX)
    (hpos : ∀ i j, i < dataset.get_num_of_Objects → j < dataset.get_num_of_Objects → i ≠ j →
      0 < metric (dataset.get_ith_object i) (dataset.get_ith_object j))
    (st : seeding_state Obj) (hinv : seeding_inv dataset initial_centroid st)
    (hD : st.t ≠ 1 → ∀ i, i < dataset.get_num_of_Objects → i ∉ st.chosen → 0 < st.D i)
    (i : Nat) (hi : i < dataset.get_num_of_Objects) (hmem : i ∉ st.chosen) :
    0 < scan_D2 metric dataset FLT_MAX initial_centroid st i := by
  obtain ⟨i1, i2, i3, i4, i5, i6, i7, i8, i9, i10, i11⟩ := hinv
  have hd1 : 0 < scan_D1 FLT_MAX initial_centroid st i := by
    unfold scan_D1
    by_cases ht : st.t = 1
    · have hii : i ≠ initial_centroid := by
        intro e
        apply hmem
        rw [i8 ht, e]
        simp
      rw [if_pos ⟨ht, hii⟩]
      exact hF
    · rw [if_neg (fun h => ht h.1)]
      exact hD ht i hi hmem
  have hdist : 0 < metric (st.centroids (st.t - 1)) (dataset.get_ith_object i) := by
    rw [i6 (st.t - 1) (by omega)]
    have hc : st.chosen.getD (st.t - 1) 0 ∈ st.chosen := by
      rw [List.getD_eq_getElem?_getD, List.getElem?_eq_getElem (by omega)]
      exact List.getElem_mem _
    exact hpos _ i (i4 _ hc) hi (fun e => hmem (e ▸ hc))
  unfold scan_D2
  split_ifs
  · exact hdist
  · exact hd1

theorem scan_max_Di_pos (hF : 0 < FLT_MAX)
    (hpos : ∀ i j, i < dataset.get_num_of_Objects → j < dataset.get_num_of_Objects → i ≠ j →
      0 < metric (dataset.get_ith_object i) (dataset.get_ith_object j))
    (st : seeding_state Obj) (hinv : seeding_inv dataset initial_centroid st)
    (hD : st.t ≠ 1 → ∀ i, i < dataset.get_num_of_Objects → i ∉ st.chosen → 0 < st.D i)
    (ht : st.t < dataset.get_num_of_Objects) :
    (scan metric dataset FLT_MAX initial_centroid st).max_Di ≠ 0 := by
  have hlen := scan_scanned_length metric dataset FLT_MAX initial_centroid st hinv
  have hsc := scan_scanned_eq metric dataset FLT_MAX initial_centroid st hinv
  have hne : (scan metric dataset FLT_MAX initial_centroid st).scanned ≠ [] := by
    intro e
    rw [e] at hlen
    simp only [List.length_nil] at hlen
    omega
  obtain ⟨i, hi⟩ := List.exists_mem_of_ne_nil _ hne
  rw [hsc, List.mem_filter, List.mem_range] at hi
  obtain ⟨hi1, hi2⟩ := hi
  simp only [decide_eq_true_eq] at hi2
  have h1 := scan_D2_pos metric dataset FLT_MAX initial_centroid hF hpos st hinv hD i hi1 hi2
  have h2 := (scan_spec metric dataset FLT_MAX initial_centroid st).2.2.2.2 i hi1
    ((scan_candidate_iff dataset initial_centroid st hinv i hi1).mpr hi2)
  exact ne_of_gt (lt_of_lt_of_le h1 h2)

theorem seeding_next_pos (hF : 0 < FLT_MAX)
    (hpos : ∀ i j, i < dataset.get_num_of_Objects → j < dataset.get_num_of_Objects → i ≠ j →
      0 < metric (dataset.get_ith_object i) (dataset.get_ith_object j))
    (st : seeding_state Obj) (hinv : seeding_inv dataset initial_centroid st)
    (hD : st.t ≠ 1 → ∀ i, i < dataset.get_num_of_Objects → i ∉ st.chosen → 0 < st.D i)
    (r : Int) (ci : Nat) (i : Nat) (hi : i < dataset.get_num_of_Objects)
    (hmem : i ∉ (seeding_next dataset st (scan metric dataset FLT_MAX initial_centroid st) r
      ci).chosen) :
    0 < (seeding_next dataset st (scan metric dataset FLT_MAX initial_centroid st) r ci).D i := by
  unfold seeding_next at hmem ⊢
  simp only at hmem ⊢
  have hne : i ≠ ci := fun e => hmem (by rw [e]; simp)
  have hnc : i ∉ st.chosen := fun h => hmem (List.mem_append_left _ h)
  rw [Function.update_noteq hne, (scan_spec metric dataset FLT_MAX initial_centroid st).2.1 i hi]
  exact scan_D2_pos metric dataset FLT_MAX initial_centroid hF hpos st hinv hD i hi hnc

end seeding_inv

section seeding_loop

variable {Obj : Type} (metric : Obj → Obj → ℚ) (dataset : Dataset Obj) (FLT_MAX : ℚ)
  (initial_centroid : Nat) (x : Nat → ℚ → ℚ)

theorem seeding_round_t (st st1 : seeding_state Obj)
    (h : seeding_round metric dataset FLT_MAX initial_centroid x st = Except.ok st1) :
    st1.t = st.t + 1 := by
  unfold seeding_round at h
  simp only at h
  repeat' split at h
  all_goals first
    | (cases h; done)
    | (cases h; rfl)

theorem seeding_rounds_add (a b : Nat) :
    ∀ st : seeding_state Obj,
      seeding_rounds metric dataset FLT_MAX initial_centroid x (a + b) st =
        match seeding_rounds metric dataset FLT_MAX initial_centroid x a st with
        | Except.error e => Except.error e
        | Except.ok st1 => seeding_rounds metric dataset FLT_MAX initial_centroid x b st1 := by
  induction a with
  | zero =>
    intro st
    simp [seeding_rounds]
  | succ a ih =>
    intro st
    have e : a + 1 + b = (a + b) + 1 := by omega
    rw [e]
    simp only [seeding_rounds]
    cases seeding_round metric dataset FLT_MAX initial_centroid x st with
    | error e => rfl
    | ok st1 => exact ih st1

/-- The loop `while (t < K)` makes `K - t` rounds. -/
theorem seeding_loop_eq (K : Nat) :
    ∀ (fuel : Nat) (st : seeding_state Obj), K - st.t ≤ fuel →
      seeding_loop metric dataset FLT_MAX initial_centroid x K fuel st =
        seeding_rounds metric dataset FLT_MAX initial_centroid x (K - st.t) st := by
  intro fuel
  induction fuel with
  | zero =>
    intro st h
    have : K - st.t = 0 := by omega
    rw [this]
    rfl
  | succ fuel ih =>
    intro st h
    unfold seeding_loop
    by_cases ht : st.t < K
    · rw [if_pos ht]
      obtain ⟨j, hj⟩ : ∃ j, K - st.t = j + 1 := ⟨K - st.t - 1, by omega⟩
      rw [hj]
      simp only [seeding_rounds]
      cases hr : seeding_round metric dataset FLT_MAX initial_centroid x st with
      | error e => rfl
      | ok st1 =>
        have ht1 := seeding_round_t metric dataset FLT_MAX initial_centroid x st st1 hr
        simp only
        rw [ih st1 (by omega)]
        have : K - st1.t = j := by omega
        rw [this]
    · rw [if_neg ht]
      have : K - st.t = 0 := by omega
      rw [this]
      rfl

theorem K_means_init_eq (K : Nat) (centroids : Nat → Obj) (hK : 1 ≤ K)
    (hinit : initial_centroid < dataset.get_num_of_Objects) :
    K_means_init metric dataset FLT_MAX K centroids initial_centroid x =
      seeding_rounds metric dataset FLT_MAX initial_centroid x (K - 1)
        (seeding_start dataset centroids initial_centroid) := by
  unfold K_means_init
  rw [if_neg (by omega)]
  exact seeding_loop_eq metric dataset FLT_MAX initial_centroid x K K _
    (by simp [seeding_start])

/-- The rounds stay in bounds while there are fewer centroids than items: they end in the
division by zero or keep the invariant. -/
theorem seeding_rounds_spec (hx : ∀ t b, 0 ≤ b → 0 ≤ x t b ∧ x t b ≤ b) (j : Nat) :
    ∀ st : seeding_state Obj, seeding_inv dataset initial_centroid st →
      st.t + j ≤ dataset.get_num_of_Objects →
      seeding_rounds metric dataset FLT_MAX initial_centroid x j st =
          Except.error seeding_fault.not_a_number ∨
        ∃ st1, seeding_rounds metric dataset FLT_MAX initial_centroid x j st = Except.ok st1 ∧
          seeding_inv dataset initial_centroid st1 ∧ st1.t = st.t + j := by
  induction j with
  | zero =>
    intro st hinv _
    exact Or.inr ⟨st, rfl, hinv, rfl⟩
  | succ j ih =>
    intro st hinv ht
    obtain ⟨r1, r2⟩ := seeding_round_spec metric dataset FLT_MAX initial_centroid x hx st hinv
      (by omega)
    simp only [seeding_rounds]
    by_cases hz : (scan metric dataset FLT_MAX initial_centroid st).max_Di = 0
    · left
      rw [r1 hz]
    · obtain ⟨r, ci, hr1, hr2, hci1, hci2, hround⟩ := r2 hz
      rw [hround]
      simp only
      have hinv1 := seeding_next_inv metric dataset FLT_MAX initial_centroid st hinv r ci hr1
        hr2 hci1 hci2
      have ht1 : (seeding_next dataset st (scan metric dataset FLT_MAX initial_centroid st) r
          ci).t = st.t + 1 := rfl
      rcases ih _ hinv1 (by rw [ht1]; omega) with h | ⟨st1, h1, h2, h3⟩
      · exact Or.inl h
      · exact Or.inr ⟨st1, h1, h2, by rw [h3, ht1]; omega⟩

/-- When items at different positions are at a positive distance, no round divides by
zero. -/
theorem seeding_rounds_pos (hx : ∀ t b, 0 ≤ b → 0 ≤ x t b ∧ x t b ≤ b) (hF : 0 < FLT_MAX)
    (hpos : ∀ i j, i < dataset.get_num_of_Objects → j < dataset.get_num_of_Objects → i ≠ j →
      0 < metric (dataset.get_ith_object i) (dataset.get_ith_object j)) (j : Nat) :
    ∀ st : seeding_state Obj, seeding_inv dataset initial_centroid st →
      (st.t ≠ 1 → ∀ i, i < dataset.get_num_of_Objects → i ∉ st.chosen → 0 < st.D i) →
      st.t + j ≤ dataset.get_num_of_Objects →
      ∃ st1, seeding_rounds metric dataset FLT_MAX initial_centroid x j st = Except.ok st1 := by
  induction j with
  | zero =>
    intro st _ _ _
    exact ⟨st, rfl⟩
  | succ j ih =>
    intro st hinv hD ht
    obtain ⟨_, r2⟩ := seeding_round_spec metric dataset FLT_MAX initial_centroid x hx st hinv
      (by omega)
    have hz := scan_max_Di_pos metric dataset FLT_MAX initial_centroid hF hpos st hinv hD
      (by omega)
    obtain ⟨r, ci, hr1, hr2, hci1, hci2, hround⟩ := r2 hz
    simp only [seeding_rounds]
    rw [hround]
    simp only
    have hinv1 := seeding_next_inv metric dataset FLT_MAX initial_centroid st hinv r ci hr1
      hr2 hci1 hci2
    have ht1 : (seeding_next dataset st (scan metric dataset FLT_MAX initial_centroid st) r
        ci).t = st.t + 1 := rfl
    exact ih _ hinv1
      (fun _ i hi hmem =>
        seeding_next_pos metric dataset FLT_MAX initial_centroid hF hpos st hinv hD r ci i hi
          hmem)
      (by rw [ht1]; omega)

end seeding_loop

theorem half_draw_valid (t : Nat) (b : ℚ) (hb : 0 ≤ b) :
    0 ≤ half_draw t b ∧ half_draw t b ≤ b := by
  unfold half_draw
  constructor <;> linarith

/-- The round that starts with every item a centroid reads `object_index[1]` outside the
vector. -/
theorem seeding_round_full {Obj : Type} (metric : Obj → Obj → ℚ) (dataset : Dataset Obj)
    (FLT_MAX : ℚ) (initial_centroid : Nat) (x : Nat → ℚ → ℚ) (st : seeding_state Obj)
    (hinv : seeding_inv dataset initial_centroid st)
    (ht : st.t = dataset.get_num_of_Objects) :
    seeding_round metric dataset FLT_MAX initial_centroid x st =
      Except.error seeding_fault.out_of_bounds := by
  have hlen := scan_scanned_length metric dataset FLT_MAX initial_centroid st hinv
  have e : dataset.get_num_of_Objects - st.t = 0 := by omega
  rw [e] at hlen
  have hs : (scan metric dataset FLT_MAX initial_centroid st).scanned = [] :=
    List.length_eq_zero.mp hlen
  unfold seeding_round
  rw [if_neg (by omega)]
  simp only [e, hs, List.length_nil, lt_self_iff_false, if_false, Nat.sub_zero,
    List.replicate_zero, List.append_nil, List.nil_append]
  rw [if_neg (by omega)]
  have hb : ∀ y : ℚ, binary_search (compute_P (scan metric dataset FLT_MAX initial_centroid st).D
      [0] (scan metric dataset FLT_MAX initial_centroid st).max_Di 0) y 0 ((0 : Nat) : Int) =
      some 1 := by
    intro y
    rw [binary_search]
    simp
  rw [hb]
  simp

/-- The seeding away from the division by zero: for every dataset with `|dataset| ≥ K ≥ 1`,
every metric, every first index below `|dataset|` and every draw `x` with `0 ≤ x ≤ P_last` in
each round, `K_means_init` makes no access out of bounds: either a round divides by
`max_Di^2 = 0`, or it returns with `t = K`, every sampled index `r` of a round with `t`
centroids in `1 .. |dataset| - t`, and the `K` centroids copies of the dataset items at `K`
pairwise distinct positions below `|dataset|`. When `FLT_MAX > 0` and items at different
positions are at a positive distance, no round divides by zero and it returns. -/
theorem K_means_init_selects_distinct {Obj : Type} (metric : Obj → Obj → ℚ)
    (dataset : Dataset Obj) (FLT_MAX : ℚ) (K : Nat) (centroids : Nat → Obj)
    (initial_centroid : Nat) (x : Nat → ℚ → ℚ) (hK : 1 ≤ K)
    (hn : K ≤ dataset.get_num_of_Objects)
    (hinit : initial_centroid < dataset.get_num_of_Objects)
    (hx : ∀ t b, 0 ≤ b → 0 ≤ x t b ∧ x t b ≤ b) :
    (K_means_init metric dataset FLT_MAX K centroids initial_centroid x =
          Except.error seeding_fault.not_a_number ∨
        ∃ st, K_means_init metric dataset FLT_MAX K centroids initial_centroid x =
            Except.ok st ∧
          st.t = K ∧ st.chosen.length = K ∧ st.chosen.Nodup ∧
          (∀ c ∈ st.chosen, c < dataset.get_num_of_Objects) ∧
          (∀ k, k < K → st.centroids k = dataset.get_ith_object (st.chosen.getD k 0)) ∧
          st.sampled.length + 1 = K ∧
          ∀ e ∈ st.sampled, 1 ≤ e.2 ∧ e.2 ≤ (dataset.get_num_of_Objects : Int) - e.1) ∧
      (0 < FLT_MAX →
        (∀ i j, i < dataset.get_num_of_Objects → j < dataset.get_num_of_Objects → i ≠ j →
          0 < metric (dataset.get_ith_object i) (dataset.get_ith_object j)) →
        ∃ st, K_means_init metric dataset FLT_MAX K centroids initial_centroid x =
          Except.ok st) := by
  rw [K_means_init_eq metric dataset FLT_MAX initial_centroid x K centroids hK hinit]
  have hinv := seeding_start_inv dataset initial_centroid centroids hinit
  have ht : (seeding_start dataset centroids initial_centroid).t = 1 := rfl
  constructor
  · rcases seeding_rounds_spec metric dataset FLT_MAX initial_centroid x hx (K - 1) _ hinv
        (by rw [ht]; omega) with h | ⟨st, h1, h2, h3⟩
    · exact Or.inl h
    · right
      have htK : st.t = K := by rw [h3, ht]; omega
      obtain ⟨_, i2, i3, i4, _, i6, _, _, _, i10, i11⟩ := h2
      exact ⟨st, h1, htK, by rw [i2, htK], i3, i4, fun k hk => i6 k (by omega),
        by rw [i11, htK], i10⟩
  · intro hF hpos
    exact seeding_rounds_pos metric dataset FLT_MAX initial_centroid x hx hF hpos (K - 1) _
      hinv (fun h => absurd ht h) (by rw [ht]; omega)

theorem K_means_init_selects_distinct_witness :
    ∃ st, K_means_init sample_metric sample_dataset 1000 2 sample_centroids 0 half_draw =
      Except.ok st :=
  (K_means_init_selects_distinct sample_metric sample_dataset 1000 2 sample_centroids 0
    half_draw (by decide) (by decide) (by decide) half_draw_valid).2 (by norm_num)
    (by
      intro i j hi hj hij
      have hi' : i < 4 := hi
      have hj' : j < 4 := hj
      unfold sample_metric
      rw [abs_pos]
      interval_cases i <;> interval_cases j <;>
        first
          | exact absurd rfl hij
          | (simp [sample_dataset]; norm_num))

/-- C20, as the code has it. Seeding has no check of the dataset size and no error path: on a
dataset with `1 ≤ |dataset| < K`, `K_means_init` makes the rounds of its loop as on any
dataset. Its first `|dataset| - 1` rounds stay within the dataset and the vectors: either
one of them divides by `max_Di^2 = 0`, or after them every dataset item is a centroid, the
first `|dataset|` centroids being copies of the items at pairwise distinct positions; the
run then goes on with the `K - |dataset|` rounds that are left. -/
theorem K_means_init_small_dataset {Obj : Type} (metric : Obj → Obj → ℚ)
    (dataset : Dataset Obj) (FLT_MAX : ℚ) (K : Nat) (centroids : Nat → Obj)
    (initial_centroid : Nat) (x : Nat → ℚ → ℚ) (hn1 : 1 ≤ dataset.get_num_of_Objects)
    (hnK : dataset.get_num_of_Objects < K)
    (hinit : initial_centroid < dataset.get_num_of_Objects)
    (hx : ∀ t b, 0 ≤ b → 0 ≤ x t b ∧ x t b ≤ b) :
    K_means_init metric dataset FLT_MAX K centroids initial_centroid x =
        (match seeding_rounds metric dataset FLT_MAX initial_centroid x
            (dataset.get_num_of_Objects - 1)
            (seeding_start dataset centroids initial_centroid) with
          | Except.error e => Except.error e
          | Except.ok st =>
            seeding_rounds metric dataset FLT_MAX initial_centroid x
              (K - dataset.get_num_of_Objects) st) ∧
      (seeding_rounds metric dataset FLT_MAX initial_centroid x
            (dataset.get_num_of_Objects - 1)
            (seeding_start dataset centroids initial_centroid) =
          Except.error seeding_fault.not_a_number ∨
        ∃ st, seeding_rounds metric dataset FLT_MAX initial_centroid x
              (dataset.get_num_of_Objects - 1)
              (seeding_start dataset centroids initial_centroid) = Except.ok st ∧
          st.t = dataset.get_num_of_Objects ∧
          st.chosen.length = dataset.get_num_of_Objects ∧ st.chosen.Nodup ∧
          (∀ c ∈ st.chosen, c < dataset.get_num_of_Objects) ∧
          ∀ k, k < dataset.get_num_of_Objects →
            st.centroids k = dataset.get_ith_object (st.chosen.getD k 0)) := by
  have hinv := seeding_start_inv dataset initial_centroid centroids hinit
  have ht : (seeding_start dataset centroids initial_centroid).t = 1 := rfl
  constructor
  · rw [K_means_init_eq metric dataset FLT_MAX initial_centroid x K centroids (by omega) hinit]
    have e : K - 1 = (dataset.get_num_of_Objects - 1) + (K - dataset.get_num_of_Objects) := by
      omega
    have h := seeding_rounds_add metric dataset FLT_MAX initial_centroid x
      (dataset.get_num_of_Objects - 1) (K - dataset.get_num_of_Objects)
      (seeding_start dataset centroids initial_centroid)
    rw [← e] at h
    refine h.trans ?_
    cases seeding_rounds metric dataset FLT_MAX initial_centroid x
      (dataset.get_num_of_Objects - 1) (seeding_start dataset centroids initial_centroid) <;> rfl
  · rcases seeding_rounds_spec metric dataset FLT_MAX initial_centroid x hx
        (dataset.get_num_of_Objects - 1) _ hinv (by rw [ht]; omega) with h | ⟨st, h1, h2, h3⟩
    · exact Or.inl h
    · right
      have htn : st.t = dataset.get_num_of_Objects := by rw [h3, ht]; omega
      obtain ⟨_, i2, i3, i4, _, i6, _⟩ := h2
      exact ⟨st, h1, htn, by rw [i2, htn], i3, i4, fun k hk => i6 k (by omega)⟩

theorem K_means_init_small_dataset_witness :
    K_means_init sample_metric single_dataset 1000 2 sample_centroids 0 half_draw =
      (match seeding_rounds sample_metric single_dataset 1000 0 half_draw
          (single_dataset.get_num_of_Objects - 1)
          (seeding_start single_dataset sample_centroids 0) with
        | Except.error e => Except.error e
        | Except.ok st =>
          seeding_rounds sample_metric single_dataset 1000 0 half_draw
            (2 - single_dataset.get_num_of_Objects) st) :=
  (K_means_init_small_dataset sample_metric single_dataset 1000 2 sample_centroids 0 half_draw
    (by decide) (by decide) (by decide) half_draw_valid).1

/-- C20, as stated, fails: on the dataset with one item and `K = 2`, `K_means_init` surfaces
no error to its caller; its only round reads `object_index[1]` outside the vector of one
entry to select the second centroid. -/
theorem K_means_init_reads_out_of_bounds :
    K_means_init sample_metric single_dataset 1000 2 sample_centroids 0 half_draw =
      Except.error seeding_fault.out_of_bounds := by
  rw [K_means_init_eq sample_metric single_dataset 1000 0 half_draw 2 sample_centroids
    (by decide) (by decide)]
  simp only [seeding_rounds]
  rw [seeding_round_full sample_metric single_dataset 1000 0 half_draw _
    (seeding_start_inv single_dataset 0 sample_centroids (by decide)) rfl]

/-! ## The brute-force search -/

section brute_force

variable {Obj : Type} (addr : Nat → Nat) (dataset : Dataset Obj) (query_object : Obj) (N : Int)
  (metric : Obj → Obj → ℚ)

theorem exact_nearest_neighbors_eq :
    exact_nearest_neighbors addr dataset query_object N metric =
      ((List.range dataset.get_num_of_Objects).foldl
        (accumulate addr dataset search_type.kNN 0 query_object metric N 0) []).reverse := rfl

/-- One offer to the queue keeps it a queue of the nearest positions seen: while it is not
full it holds every position seen, and no position left out is nearer than one it holds. -/
theorem push_at_most_N_best (hN : 1 ≤ N) (dist : Nat → ℚ) (o : Nat) (seen : List Nat)
    (acc : List (ℚ × Nat)) (hs : acc.Pairwise (fun x y => y.1 ≤ x.1))
    (hl : (acc.length : Int) ≤ N) (hd : ∀ x ∈ acc, x.1 = dist x.2)
    (hall : (acc.length : Int) < N → ∀ q ∈ seen, q ∈ acc.map Prod.snd)
    (hbest : ∀ x ∈ acc, ∀ q ∈ seen, q ∉ acc.map Prod.snd → x.1 ≤ dist q) :
    (((push_at_most_N addr o N (dist o) acc).length : Int) < N →
      ∀ q ∈ seen ++ [o], q ∈ (push_at_most_N addr o N (dist o) acc).map Prod.snd) ∧
    (∀ x ∈ push_at_most_N addr o N (dist o) acc, x.1 = dist x.2) ∧
    ∀ x ∈ push_at_most_N addr o N (dist o) acc, ∀ q ∈ seen ++ [o],
      q ∉ (push_at_most_N addr o N (dist o) acc).map Prod.snd → x.1 ≤ dist q := by
  unfold push_at_most_N
  by_cases hlt : (acc.length : Int) < N
  · rw [if_pos hlt]
    have hp := heap_push_perm addr (dist o, o) acc
    have hin : ∀ q ∈ seen ++ [o], q ∈ (heap_push addr (dist o, o) acc).map Prod.snd := by
      intro q hq
      rw [(hp.map Prod.snd).mem_iff]
      rcases List.mem_append.mp hq with h | h
      · exact List.mem_cons_of_mem _ (hall hlt q h)
      · rw [List.mem_singleton] at h
        rw [h]
        exact List.mem_cons_self _ _
    refine ⟨fun _ => hin, ?_, ?_⟩
    · intro x hx
      rcases List.mem_cons.mp (hp.subset hx) with h | h
      · rw [h]
      · exact hd x h
    · intro x _ q hq hnot
      exact absurd (hin q hq) hnot
  · rw [if_neg hlt]
    cases acc with
    | nil =>
      simp only [List.length_nil] at hlt
      push_cast at hlt
      omega
    | cons top rest =>
      have hlen : ((top :: rest).length : Int) = N := by omega
      rw [List.pairwise_cons] at hs
      by_cases hdt : dist o < top.1
      · simp only [hdt, if_true]
        have hp := heap_push_perm addr (dist o, o) rest
        have hlen2 : ((heap_push addr (dist o, o) rest).length : Int) = N := by
          rw [hp.length_eq]
          simpa using hlen
        have hle : ∀ x ∈ heap_push addr (dist o, o) rest, x.1 ≤ top.1 := by
          intro x hx
          rcases List.mem_cons.mp (hp.subset hx) with h | h
          · rw [h]; exact le_of_lt hdt
          · exact hs.1 x h
        refine ⟨fun h => absurd h (by omega), ?_, ?_⟩
        · intro x hx
          rcases List.mem_cons.mp (hp.subset hx) with h | h
          · rw [h]
          · exact hd x (List.mem_cons_of_mem _ h)
        · intro x hx q hq hnot
          rw [(hp.map Prod.snd).mem_iff] at hnot
          simp only [List.map_cons, List.mem_cons, not_or] at hnot
          rcases List.mem_append.mp hq with h | h
          · by_cases hqa : q ∈ (top :: rest).map Prod.snd
            · simp only [List.map_cons, List.mem_cons] at hqa
              rcases hqa with hqa | hqa
              · have := hd top (List.mem_cons_self _ _)
                rw [hqa, ← this]
                exact hle x hx
              · exact absurd hqa hnot.2
            · rcases List.mem_cons.mp (hp.subset hx) with hx1 | hx1
              · have := hbest top (List.mem_cons_self _ _) q h hqa
                rw [hx1]
                exact le_trans (le_of_lt hdt) this
              · exact hbest x (List.mem_cons_of_mem _ hx1) q h hqa
          · rw [List.mem_singleton] at h
            exact absurd h hnot.1
      · simp only [hdt, if_false]
        refine ⟨fun h => absurd h (by omega), hd, ?_⟩
        intro x hx q hq hnot
        rcases List.mem_append.mp hq with h | h
        · exact hbest x hx q h hnot
        · rw [List.mem_singleton] at h
          rw [h]
          have hxt : x.1 ≤ top.1 := by
            rcases List.mem_cons.mp hx with h1 | h1
            · rw [h1]
            · exact hs.1 x h1
          exact le_trans hxt (not_lt.mp hdt)

theorem knn_fold_best (R R2 : Int) (hN : 1 ≤ N) (l : List Nat) :
    ∀ (seen : List Nat) (acc : List (ℚ × Nat)), acc.Pairwise (fun x y => y.1 ≤ x.1) →
      (acc.length : Int) ≤ N →
      (∀ x ∈ acc, x.1 = metric query_object (dataset.get_ith_object x.2)) →
      ((acc.length : Int) < N → ∀ q ∈ seen, q ∈ acc.map Prod.snd) →
      (∀ x ∈ acc, ∀ q ∈ seen, q ∉ acc.map Prod.snd →
        x.1 ≤ metric query_object (dataset.get_ith_object q)) →
      ∀ x ∈ l.foldl (accumulate addr dataset search_type.kNN R query_object metric N R2) acc,
        ∀ q ∈ seen ++ l,
          q ∉ (l.foldl (accumulate addr dataset search_type.kNN R query_object metric N R2)
            acc).map Prod.snd →
          x.1 ≤ metric query_object (dataset.get_ith_object q) := by
  induction l with
  | nil =>
    intro seen acc _ _ _ _ hbest x hx q hq hnot
    rw [List.append_nil] at hq
    exact hbest x hx q hq hnot
  | cons o rest ih =>
    intro seen acc hs hl hd hall hbest
    rw [List.foldl_cons]
    have e : accumulate addr dataset search_type.kNN R query_object metric N R2 acc o =
        push_at_most_N addr o N (metric query_object (dataset.get_ith_object o)) acc := rfl
    rw [e]
    obtain ⟨b1, b2, b3⟩ := push_at_most_N_best addr N hN
      (fun q => metric query_object (dataset.get_ith_object q)) o seen acc hs hl hd hall hbest
    have hl2 := push_at_most_N_length addr o N (metric query_object (dataset.get_ith_object o))
      acc hN hl
    have hs2 := push_at_most_N_sorted addr o N (metric query_object (dataset.get_ith_object o))
      acc hs
    have := ih (seen ++ [o]) _ hs2 (by rw [hl2]; exact min_le_left _ _) b2 b1 b3
    intro x hx q hq
    apply this x hx q
    rw [List.append_assoc]
    exact hq

/-- What the brute-force search returns: `min N n` pairs in non-decreasing distance, at
distinct dataset positions, each with the distance of its position, and no position left out
is nearer to the query than a position returned. -/
theorem exact_nearest_neighbors_spec (hN : 1 ≤ N) :
    ((exact_nearest_neighbors addr dataset query_object N metric).length : Int) =
        min N (dataset.get_num_of_Objects : Int) ∧
      (exact_nearest_neighbors addr dataset query_object N metric).Pairwise
        (fun x y => x.1 ≤ y.1) ∧
      ((exact_nearest_neighbors addr dataset query_object N metric).map Prod.snd).Nodup ∧
      (∀ x ∈ exact_nearest_neighbors addr dataset query_object N metric,
        x.2 < dataset.get_num_of_Objects ∧
          x.1 = metric query_object (dataset.get_ith_object x.2)) ∧
      ∀ x ∈ exact_nearest_neighbors addr dataset query_object N metric,
        ∀ q, q < dataset.get_num_of_Objects →
          q ∉ (exact_nearest_neighbors addr dataset query_object N metric).map Prod.snd →
          x.1 ≤ metric query_object (dataset.get_ith_object q) := by
  rw [exact_nearest_neighbors_eq]
  obtain ⟨f1, f2, f3⟩ := knn_fold_spec addr dataset 0 query_object metric N 0 hN
    (List.range dataset.get_num_of_Objects) []
    (by simp only [List.length_nil]; push_cast; omega) List.Pairwise.nil
  have f4 := knn_fold_nodup addr dataset 0 query_object metric N 0
    (List.range dataset.get_num_of_Objects) [] (by simpa using List.nodup_range _)
  have f5 := knn_fold_best addr dataset query_object N metric 0 0 hN
    (List.range dataset.get_num_of_Objects) [] [] List.Pairwise.nil
    (by simp only [List.length_nil]; push_cast; omega)
    (fun x hx => absurd hx (List.not_mem_nil _))
    (fun _ q hq => absurd hq (List.not_mem_nil _))
    (fun x hx => absurd hx (List.not_mem_nil _))
  refine ⟨?_, ?_, ?_, ?_, ?_⟩
  · rw [List.length_reverse, f1]
    simp
  · rw [List.pairwise_reverse]
    exact f2
  · rw [List.map_reverse, List.nodup_reverse]
    exact f4
  · intro x hx
    rw [List.mem_reverse] at hx
    rcases f3 x hx with h | ⟨h, h'⟩
    · exact absurd h (List.not_mem_nil _)
    · exact ⟨List.mem_range.mp h, h'⟩
  · intro x hx q hq hnot
    rw [List.mem_reverse] at hx
    rw [List.map_reverse, List.mem_reverse] at hnot
    exact f5 x hx q (by simpa using hq) hnot

end brute_force

/-- A list of pairs at distinct positions below `n`, sorted by distance, such that no position
left out is nearer than a position of the list, carries the smallest distances: they are the
first entries of the sorted list of all the distances. -/
theorem smallest_eq_take_sort (n : Nat) (dist : Nat → ℚ) (r : List (ℚ × Nat))
    (hs : r.Pairwise (fun x y => x.1 ≤ y.1)) (hnd : (r.map Prod.snd).Nodup)
    (hm : ∀ x ∈ r, x.2 < n ∧ x.1 = dist x.2)
    (hb : ∀ x ∈ r, ∀ q, q < n → q ∉ r.map Prod.snd → x.1 ≤ dist q) :
    r.map Prod.fst =
      (((List.range n).map dist).insertionSort (fun a b => a ≤ b)).take r.length := by
  have hperm1 : ((List.range n).filter (fun q => decide (q ∈ r.map Prod.snd)) ++
      (List.range n).filter (fun q => !decide (q ∈ r.map Prod.snd))).Perm (List.range n) :=
    List.filter_append_perm _ _
  have hperm2 : ((List.range n).filter (fun q => decide (q ∈ r.map Prod.snd))).Perm
      (r.map Prod.snd) := by
    rw [List.perm_ext_iff_of_nodup ((List.nodup_range n).filter _) hnd]
    intro q
    simp only [List.mem_filter, List.mem_range, decide_eq_true_eq]
    constructor
    · exact fun h => h.2
    · intro h
      refine ⟨?_, h⟩
      rw [List.mem_map] at h
      obtain ⟨x, hx, rfl⟩ := h
      exact (hm x hx).1
  have hfst : (r.map Prod.snd).map dist = r.map Prod.fst := by
    rw [List.map_map]
    apply List.map_congr_left
    intro x hx
    exact ((hm x hx).2).symm
  have hperm3 : (r.map Prod.fst ++
      (((List.range n).filter (fun q => !decide (q ∈ r.map Prod.snd))).map dist).insertionSort
        (fun a b => a ≤ b)).Perm ((List.range n).map dist) := by
    refine List.Perm.trans ?_ (hperm1.map dist)
    rw [List.map_append, ← hfst]
    exact List.Perm.append (hperm2.map dist).symm (List.perm_insertionSort _ _)
  have hsorted : (r.map Prod.fst ++
      (((List.range n).filter (fun q => !decide (q ∈ r.map Prod.snd))).map dist).insertionSort
        (fun a b => a ≤ b)).Sorted (fun a b => a ≤ b) := by
    unfold List.Sorted
    rw [List.pairwise_append]
    refine ⟨?_, List.sorted_insertionSort _ _, ?_⟩
    · rw [List.pairwise_map]
      exact hs
    · intro a ha b hb'
      rw [(List.perm_insertionSort _ _).mem_iff, List.mem_map] at hb'
      obtain ⟨q, hq, rfl⟩ := hb'
      rw [List.mem_map] at ha
      obtain ⟨x, hx, rfl⟩ := ha
      simp only [List.mem_filter, List.mem_range, Bool.not_eq_true', decide_eq_false_iff_not]
        at hq
      exact hb x hx q hq.1 hq.2
  have heq := List.eq_of_perm_of_sorted
    (hperm3.trans (List.perm_insertionSort (fun a b => a ≤ b) ((List.range n).map dist)).symm)
    hsorted (List.sorted_insertionSort _ _)
  rw [← heq]
  rw [List.take_left' (by simp)]

/-- Among pairs at distinct positions, sorted by distance, the entry number `i` is no nearer
than the entry number `i` of a list that carries the smallest distances. -/
theorem sorted_dominates (n : Nat) (dist : Nat → ℚ) (A E : List (ℚ × Nat))
    (hAs : A.Pairwise (fun x y => x.1 ≤ y.1)) (hAnd : (A.map Prod.snd).Nodup)
    (hAm : ∀ x ∈ A, x.2 < n ∧ x.1 = dist x.2)
    (hEs : E.Pairwise (fun x y => x.1 ≤ y.1))
    (hEm : ∀ x ∈ E, x.2 < n ∧ x.1 = dist x.2)
    (hEb : ∀ x ∈ E, ∀ q, q < n → q ∉ E.map Prod.snd → x.1 ≤ dist q)
    (i : Nat) (a e : ℚ × Nat) (ha : A[i]? = some a) (he : E[i]? = some e) : e.1 ≤ a.1 := by
  by_contra hlt
  rw [not_le] at hlt
  have hiA : i < A.length := by
    rcases Nat.lt_or_ge i A.length with h | h
    · exact h
    · rw [List.getElem?_eq_none h] at ha
      exact absurd ha (by simp)
  have hiE : i < E.length := by
    rcases Nat.lt_or_ge i E.length with h | h
    · exact h
    · rw [List.getElem?_eq_none h] at he
      exact absurd he (by simp)
  have hAd : A.drop i = a :: A.drop (i + 1) := by
    rw [List.drop_eq_getElem_cons hiA]
    rw [List.getElem?_eq_getElem hiA] at ha
    simp only [Option.some.injEq] at ha
    rw [ha]
  have hEd : E.drop i = e :: E.drop (i + 1) := by
    rw [List.drop_eq_getElem_cons hiE]
    rw [List.getElem?_eq_getElem hiE] at he
    simp only [Option.some.injEq] at he
    rw [he]
  have hAsplit : A = A.take i ++ a :: A.drop (i + 1) := by
    rw [← hAd, List.take_append_drop]
  have hEsplit : E = E.take i ++ e :: E.drop (i + 1) := by
    rw [← hEd, List.take_append_drop]
  have hAtake : A.take (i + 1) = A.take i ++ [a] := by
    rw [List.take_succ, ha]
    rfl
  have hAp := hAs
  rw [hAsplit, List.pairwise_append] at hAp
  have hEp := hEs
  rw [hEsplit, List.pairwise_append, List.pairwise_cons] at hEp
  have hAle : ∀ x ∈ A.take (i + 1), x.1 ≤ a.1 := by
    intro x hx
    rw [hAtake] at hx
    rcases List.mem_append.mp hx with h | h
    · exact hAp.2.2 x h a (List.mem_cons_self _ _)
    · rw [List.mem_singleton] at h
      rw [h]
  have hsub : (A.take (i + 1)).map Prod.snd ⊆ (E.take i).map Prod.snd := by
    intro p hp
    rw [List.mem_map] at hp
    obtain ⟨x, hx, rfl⟩ := hp
    have hxA : x ∈ A := List.mem_of_mem_take hx
    have hxd : dist x.2 < e.1 := by
      rw [← (hAm x hxA).2]
      exact lt_of_le_of_lt (hAle x hx) hlt
    have heE : e ∈ E := by
      rw [hEsplit]
      exact List.mem_append_right _ (List.mem_cons_self _ _)
    by_cases hin : x.2 ∈ E.map Prod.snd
    · rw [List.mem_map] at hin
      obtain ⟨y, hy, hyx⟩ := hin
      have hyd : y.1 < e.1 := by
        rw [(hEm y hy).2, hyx]
        exact hxd
      rw [hEsplit] at hy
      rcases List.mem_append.mp hy with h | h
      · rw [List.mem_map]
        exact ⟨y, h, hyx⟩
      · rcases List.mem_cons.mp h with h1 | h1
        · rw [h1] at hyd
          exact absurd hyd (lt_irrefl _)
        · exact absurd (hEp.2.1.1 y h1) (not_le.mpr hyd)
    · exact absurd (hEb e heE x.2 (hAm x hxA).1 hin) (not_le.mpr hxd)
  have hnd : ((A.take (i + 1)).map Prod.snd).Nodup :=
    hAnd.sublist ((List.take_sublist _ _).map _)
  have hlen := (List.subperm_of_subset hnd hsub).length_le
  simp only [List.length_map, List.length_take] at hlen
  omega

/-! ## Brute force against the hypercube search -/

/-- What the hypercube search returns on the index built over a dataset: at most `N` pairs in
non-decreasing distance, at distinct dataset positions, each with the distance of its
position; their number is `min N e` for `e` the number of items examined. -/
theorem appr_nearest_neighbors_import {Obj : Type} (addr : Nat → Nat) (d1 : Nat)
    (M probes : Int) (bits : Nat → Obj → Nat) (dataset : Dataset Obj) (query_object : Obj)
    (N : Int) (metric : Obj → Obj → ℚ) (hd : 1 ≤ d1) (hN : 1 ≤ N) :
    ((appr_nearest_neighbors addr (import_data (new_hypercube d1 M probes bits) dataset) dataset
        query_object N metric).length : Int) =
      min N ((items (probe addr (import_data (new_hypercube d1 M probes bits) dataset) dataset
        search_type.kNN 0 query_object metric N 0)).length : Int) ∧
    (appr_nearest_neighbors addr (import_data (new_hypercube d1 M probes bits) dataset) dataset
      query_object N metric).Pairwise (fun x y => x.1 ≤ y.1) ∧
    ((appr_nearest_neighbors addr (import_data (new_hypercube d1 M probes bits) dataset) dataset
      query_object N metric).map Prod.snd).Nodup ∧
    ∀ x ∈ appr_nearest_neighbors addr (import_data (new_hypercube d1 M probes bits) dataset)
        dataset query_object N metric,
      x.2 < dataset.get_num_of_Objects ∧
        x.1 = metric query_object (dataset.get_ith_object x.2) := by
  have hd' : 1 ≤ (import_data (new_hypercube d1 M probes bits) dataset).d1 := hd
  obtain ⟨j, k, _, _, _, _, _, h5, _⟩ :=
    probe_run addr (import_data (new_hypercube d1 M probes bits) dataset) dataset
      search_type.kNN 0 query_object metric N 0 hd'
  obtain ⟨f1, f2, f3⟩ := knn_fold_spec addr dataset 0 query_object metric N 0 hN
    (items (probe addr (import_data (new_hypercube d1 M probes bits) dataset) dataset
      search_type.kNN 0 query_object metric N 0)) []
    (by simp only [List.length_nil]; push_cast; omega) List.Pairwise.nil
  have hsub := items_sublist addr (import_data (new_hypercube d1 M probes bits) dataset) dataset
    search_type.kNN 0 query_object metric N 0 hd'
  have hnd := items_in_order_nodup (import_data (new_hypercube d1 M probes bits) dataset) hd'
    (import_data_stored_once d1 M probes bits dataset)
    (vertex_of (import_data (new_hypercube d1 M probes bits) dataset) query_object)
  have hn := knn_fold_nodup addr dataset 0 query_object metric N 0
    (items (probe addr (import_data (new_hypercube d1 M probes bits) dataset) dataset
      search_type.kNN 0 query_object metric N 0)) []
    (by simpa using hsub.nodup hnd)
  rw [← h5] at f1 f2 f3 hn
  unfold appr_nearest_neighbors
  simp only [List.length_nil] at f1
  push_cast at f1
  rw [zero_add] at f1
  refine ⟨by rw [List.length_reverse]; exact f1, ?_, ?_, ?_⟩
  · rw [List.pairwise_reverse]
    exact f2
  · rw [List.map_reverse, List.nodup_reverse]
    exact hn
  · intro x hx
    rw [List.mem_reverse] at hx
    rcases f3 x hx with h | ⟨h, h'⟩
    · exact absurd h (List.not_mem_nil _)
    · refine ⟨?_, h'⟩
      obtain ⟨v, _, hv⟩ := items_inserted addr
        (import_data (new_hypercube d1 M probes bits) dataset) dataset search_type.kNN 0
        query_object metric N 0 hd' x.2 h
      rw [import_data_cube_array] at hv
      simp only [List.mem_filter, List.mem_range] at hv
      exact hv.1

/-- With `probes ≥ 2^d1` and `M` at least the size of the dataset, the hypercube search
examines every dataset position once. -/
theorem items_exhaustive_import {Obj : Type} (addr : Nat → Nat) (d1 : Nat) (M probes : Int)
    (bits : Nat → Obj → Nat) (dataset : Dataset Obj) (query_object : Obj) (N : Int)
    (metric : Obj → Obj → ℚ) (hd : 1 ≤ d1) (hb : ∀ j o, bits j o ≤ 1)
    (hp : (2 : Int) ^ d1 ≤ probes) (hM : (dataset.get_num_of_Objects : Int) ≤ M) :
    (items (probe addr (import_data (new_hypercube d1 M probes bits) dataset) dataset
      search_type.kNN 0 query_object metric N 0)).Perm
        (List.range dataset.get_num_of_Objects) := by
  have hd' : 1 ≤ (import_data (new_hypercube d1 M probes bits) dataset).d1 := hd
  have hv : vertex_of (import_data (new_hypercube d1 M probes bits) dataset) query_object
      < 2 ^ d1 :=
    vertex_of_lt (import_data (new_hypercube d1 M probes bits) dataset) query_object
      (fun j => hb j _)
  have hperm := items_in_order_import d1 hd M probes bits hb dataset _ hv
  have hex := items_exhaustive addr (import_data (new_hypercube d1 M probes bits) dataset)
    dataset search_type.kNN 0 query_object metric N 0 hd' hp
    (by
      rw [hperm.length_eq, List.length_range]
      have : (import_data (new_hypercube d1 M probes bits) dataset).M = M := rfl
      rw [this]
      exact hM)
  rw [hex]
  exact hperm

theorem appr_length_exhaustive {Obj : Type} (addr : Nat → Nat) (d1 : Nat) (M probes : Int)
    (bits : Nat → Obj → Nat) (dataset : Dataset Obj) (query_object : Obj) (N : Int)
    (metric : Obj → Obj → ℚ) (hd : 1 ≤ d1) (hN : 1 ≤ N) (hb : ∀ j o, bits j o ≤ 1)
    (hp : (2 : Int) ^ d1 ≤ probes) (hM : (dataset.get_num_of_Objects : Int) ≤ M) :
    ((appr_nearest_neighbors addr (import_data (new_hypercube d1 M probes bits) dataset) dataset
        query_object N metric).length : Int) = min N (dataset.get_num_of_Objects : Int) := by
  rw [(appr_nearest_neighbors_import addr d1 M probes bits dataset query_object N metric hd
    hN).1,
    (items_exhaustive_import addr d1 M probes bits dataset query_object N metric hd hb hp
      hM).length_eq, List.length_range]

theorem sample_appr_length :
    0 < (appr_nearest_neighbors id (import_data (new_hypercube 2 4 4 sample_bits) sample_dataset)
      sample_dataset 0 2 sample_metric).length := by
  have h := appr_length_exhaustive id 2 4 4 sample_bits sample_dataset 0 2 sample_metric
    (by decide) (by decide) sample_bits_le (by decide) (by decide)
  have e : ((sample_dataset.get_num_of_Objects : Nat) : Int) = 4 := rfl
  rw [e] at h
  have h2 : min (2 : Int) 4 = 2 := by decide
  rw [h2] at h
  omega

/-- C29. Brute-force kNN is the reference: for every dataset, query, metric and `N ≥ 1`,
`hypercube::exact_nearest_neighbors` returns `min N n` pairs (`n` the size of the dataset),
sorted in non-decreasing distance; the pairs name pairwise distinct dataset positions, each
with `dist = metric(query, item)`; the distances returned are the first `min N n` entries of
the sorted list of all the distances `metric(query, item)` over the dataset; and no position
left out is nearer to the query than a position returned. -/
theorem exact_nearest_neighbors_reference {Obj : Type} (addr : Nat → Nat)
    (dataset : Dataset Obj) (query_object : Obj) (N : Int) (metric : Obj → Obj → ℚ)
    (hN : 1 ≤ N) :
    ((exact_nearest_neighbors addr dataset query_object N metric).length : Int) =
        min N (dataset.get_num_of_Objects : Int) ∧
      (exact_nearest_neighbors addr dataset query_object N metric).Pairwise
        (fun x y => x.1 ≤ y.1) ∧
      ((exact_nearest_neighbors addr dataset query_object N metric).map Prod.snd).Nodup ∧
      (∀ x ∈ exact_nearest_neighbors addr dataset query_object N metric,
        x.2 < dataset.get_num_of_Objects ∧
          x.1 = metric query_object (dataset.get_ith_object x.2)) ∧
      (exact_nearest_neighbors addr dataset query_object N metric).map Prod.fst =
        (((List.range dataset.get_num_of_Objects).map
            (fun i => metric query_object (dataset.get_ith_object i))).insertionSort
          (fun a b => a ≤ b)).take
            (exact_nearest_neighbors addr dataset query_object N metric).length ∧
      ∀ x ∈ exact_nearest_neighbors addr dataset query_object N metric,
        ∀ q, q < dataset.get_num_of_Objects →
          q ∉ (exact_nearest_neighbors addr dataset query_object N metric).map Prod.snd →
          x.1 ≤ metric query_object (dataset.get_ith_object q) := by
  obtain ⟨h1, h2, h3, h4, h5⟩ :=
    exact_nearest_neighbors_spec addr dataset query_object N metric hN
  exact ⟨h1, h2, h3, h4,
    smallest_eq_take_sort dataset.get_num_of_Objects
      (fun i => metric query_object (dataset.get_ith_object i)) _ h2 h3 h4 h5, h5⟩

theorem exact_nearest_neighbors_reference_witness :
    (1 : Int) ≤ 2 ∧
      ((exact_nearest_neighbors id sample_dataset 0 2 sample_metric).length : Int) =
        min 2 (sample_dataset.get_num_of_Objects : Int) ∧
      (exact_nearest_neighbors id sample_dataset 0 2 sample_metric).map Prod.fst =
        (((List.range sample_dataset.get_num_of_Objects).map
            (fun i => sample_metric 0 (sample_dataset.get_ith_object i))).insertionSort
          (fun a b => a ≤ b)).take
            (exact_nearest_neighbors id sample_dataset 0 2 sample_metric).length :=
  ⟨by decide,
    (exact_nearest_neighbors_reference id sample_dataset 0 2 sample_metric (by decide)).1,
    (exact_nearest_neighbors_reference id sample_dataset 0 2 sample_metric
      (by decide)).2.2.2.2.1⟩

/-- C30. Approximation factor is at least 1: on the index that `import_data` builds over a
dataset from a fresh hypercube of dimension `d1 ≥ 1`, for every query, every `N ≥ 1` and
every pair of budgets, every index `i` below the length of the result of
`appr_nearest_neighbors` is below the length of the result of `exact_nearest_neighbors` over
the same dataset, and the distance number `i` of the approximate result is at least the
distance number `i` of the exact result; so when that exact distance is positive, the value
`AF = dist_cube / dist_true` that `execute` computes for the index is at least 1. -/
theorem approximation_factor_ge_one {Obj : Type} (addr : Nat → Nat) (d1 : Nat)
    (M probes : Int) (bits : Nat → Obj → Nat) (dataset : Dataset Obj) (query_object : Obj)
    (N : Int) (metric : Obj → Obj → ℚ) (hd : 1 ≤ d1) (hN : 1 ≤ N) (i : Nat)
    (hi : i < (appr_nearest_neighbors addr (import_data (new_hypercube d1 M probes bits)
      dataset) dataset query_object N metric).length) :
    ∃ a e,
      (appr_nearest_neighbors addr (import_data (new_hypercube d1 M probes bits) dataset)
        dataset query_object N metric)[i]? = some a ∧
      (exact_nearest_neighbors addr dataset query_object N metric)[i]? = some e ∧
      e.1 ≤ a.1 ∧
      (0 < e.1 →
        execute_AF
            (appr_nearest_neighbors addr (import_data (new_hypercube d1 M probes bits) dataset)
              dataset query_object N metric)
            (exact_nearest_neighbors addr dataset query_object N metric) i =
          some (a.1 / e.1) ∧
        1 ≤ a.1 / e.1) := by
  obtain ⟨a1, a2, a3, a4⟩ :=
    appr_nearest_neighbors_import addr d1 M probes bits dataset query_object N metric hd hN
  obtain ⟨e1, e2, e3, e4, e5⟩ :=
    exact_nearest_neighbors_spec addr dataset query_object N metric hN
  have hAn : (appr_nearest_neighbors addr (import_data (new_hypercube d1 M probes bits)
      dataset) dataset query_object N metric).length ≤ dataset.get_num_of_Objects := by
    have hsub : (appr_nearest_neighbors addr (import_data (new_hypercube d1 M probes bits)
        dataset) dataset query_object N metric).map Prod.snd ⊆
        List.range dataset.get_num_of_Objects := by
      intro p hp
      rw [List.mem_map] at hp
      obtain ⟨x, hx, rfl⟩ := hp
      exact List.mem_range.mpr (a4 x hx).1
    have := (List.subperm_of_subset a3 hsub).length_le
    simpa using this
  have hAN : ((appr_nearest_neighbors addr (import_data (new_hypercube d1 M probes bits)
      dataset) dataset query_object N metric).length : Int) ≤ N := by
    rw [a1]
    exact min_le_left _ _
  have hiE : i < (exact_nearest_neighbors addr dataset query_object N metric).length := by
    have : ((i : Nat) : Int) <
        ((exact_nearest_neighbors addr dataset query_object N metric).length : Int) := by
      rw [e1]
      apply lt_min
      · omega
      · omega
    omega
  have ha := List.getElem?_eq_getElem hi
  have he := List.getElem?_eq_getElem hiE
  have hle := sorted_dominates dataset.get_num_of_Objects
    (fun q => metric query_object (dataset.get_ith_object q)) _ _ a2 a3 a4 e2 e4 e5 i _ _ ha he
  refine ⟨_, _, ha, he, hle, ?_⟩
  intro hpos
  constructor
  · unfold execute_AF
    simp only [ge_iff_le, Nat.succ_le_of_lt hi, Nat.succ_le_of_lt hiE, if_true,
      List.getD_eq_getElem?_getD, ha, he, Option.getD_some]
  · rw [le_div_iff₀ hpos, one_mul]
    exact hle

theorem approximation_factor_ge_one_witness :
    ∃ a e,
      (appr_nearest_neighbors id (import_data (new_hypercube 2 4 4 sample_bits) sample_dataset)
        sample_dataset 0 2 sample_metric)[0]? = some a ∧
      (exact_nearest_neighbors id sample_dataset 0 2 sample_metric)[0]? = some e ∧
      e.1 ≤ a.1 ∧
      (0 < e.1 →
        execute_AF
            (appr_nearest_neighbors id (import_data (new_hypercube 2 4 4 sample_bits)
              sample_dataset) sample_dataset 0 2 sample_metric)
            (exact_nearest_neighbors id sample_dataset 0 2 sample_metric) 0 =
          some (a.1 / e.1) ∧
        1 ≤ a.1 / e.1) :=
  approximation_factor_ge_one id 2 4 4 sample_bits sample_dataset 0 2 sample_metric (by decide)
    (by decide) 0 sample_appr_length

/-! ## The claim loops on an arbitrary sequence of returned pairs -/

section claim_events

variable {Obj : Type} (get_name : Obj → String) (dataset : Dataset Obj)

theorem claim_all_cons (a : Nat × ℚ × Nat) (events : List (Nat × ℚ × Nat))
    (st : (String → Option (ℚ × Nat)) × Bool) :
    claim_all get_name dataset (a :: events) st =
      claim_all get_name dataset events (claim get_name dataset a.1 st a.2) := rfl

theorem claim_all_append (l1 l2 : List (Nat × ℚ × Nat))
    (st : (String → Option (ℚ × Nat)) × Bool) :
    claim_all get_name dataset (l1 ++ l2) st =
      claim_all get_name dataset l2 (claim_all get_name dataset l1 st) := by
  unfold claim_all
  rw [List.foldl_append]

theorem claim_all_mono (events : List (Nat × ℚ × Nat)) (s : String) :
    ∀ st : (String → Option (ℚ × Nat)) × Bool, (st.1 s).isSome = true →
      ((claim_all get_name dataset events st).1 s).isSome = true := by
  induction events with
  | nil => intro st h; exact h
  | cons a rest ih =>
    intro st h
    rw [claim_all_cons]
    apply ih
    rw [claim_fst]
    split_ifs
    · exact claim_update_isSome _ _ _
    · exact h

/-- The flag after a sequence of pairs: it is set when it was set before or when a name that
had no claim before has one after. -/
theorem claim_all_flag (events : List (Nat × ℚ × Nat)) :
    ∀ st : (String → Option (ℚ × Nat)) × Bool,
      (claim_all get_name dataset events st).2 = true ↔
        (st.2 = true ∨
          ∃ s, st.1 s = none ∧ ((claim_all get_name dataset events st).1 s).isSome = true) := by
  induction events with
  | nil =>
    intro st
    constructor
    · exact fun h => Or.inl h
    · rintro (h | ⟨s, h1, h2⟩)
      · exact h
      · have h3 : (claim_all get_name dataset [] st).1 s = st.1 s := rfl
        rw [h3, h1] at h2
        exact absurd h2 (by simp)
  | cons a rest ih =>
    intro st
    rw [claim_all_cons, ih, claim_snd, Bool.or_eq_true]
    constructor
    · rintro ((h | h) | ⟨s, h1, h2⟩)
      · exact Or.inl h
      · right
        refine ⟨get_name (dataset.get_ith_object a.2.2), Option.isNone_iff_eq_none.mp h, ?_⟩
        apply claim_all_mono
        rw [claim_fst, if_pos rfl]
        exact claim_update_isSome _ _ _
      · right
        refine ⟨s, ?_, h2⟩
        rw [claim_fst] at h1
        split_ifs at h1 with hs
        · have := claim_update_isSome a.2.1 a.1 (st.1 s)
          rw [h1] at this
          exact absurd this (by simp)
        · exact h1
    · rintro (h | ⟨s, h1, h2⟩)
      · exact Or.inl (Or.inl h)
      · by_cases hc : (claim get_name dataset a.1 st a.2).1 s = none
        · exact Or.inr ⟨s, hc, h2⟩
        · left
          right
          rw [claim_fst] at hc
          split_ifs at hc with hs
          · rw [← hs, h1]
            rfl
          · exact absurd h1 hc

/-- The claim map after a sequence of pairs, from the empty map: a name has no claim exactly
when no pair carried it, and a claim holds the distance and the centroid of the first pair
among those of smallest distance that carried the name. -/
theorem claim_all_rule (events : List (Nat × ℚ × Nat)) (s : String) :
    ((claim_all get_name dataset events (fun _ => none, false)).1 s = none ↔
      ∀ e ∈ events, get_name (dataset.get_ith_object e.2.2) ≠ s) ∧
    ∀ c, (claim_all get_name dataset events (fun _ => none, false)).1 s = some c →
      ∃ (k : Nat) (e : Nat × ℚ × Nat), events[k]? = some e ∧
        get_name (dataset.get_ith_object e.2.2) = s ∧
        e.2.1 = c.1 ∧ e.1 = c.2 ∧
        (∀ e' ∈ events, get_name (dataset.get_ith_object e'.2.2) = s → c.1 ≤ e'.2.1) ∧
        ∀ (k' : Nat) (e' : Nat × ℚ × Nat), k' < k → events[k']? = some e' →
          get_name (dataset.get_ith_object e'.2.2) = s → c.1 < e'.2.1 := by
  induction events using List.reverseRecOn with
  | nil =>
    constructor
    · constructor
      · intro _ e he
        exact absurd he (List.not_mem_nil _)
      · intro _
        rfl
    · intro c hc
      have h : (claim_all get_name dataset [] (fun _ => none, false)).1 s = none := rfl
      rw [h] at hc
      exact absurd hc (by simp)
  | append_singleton l a ih =>
    obtain ⟨ih1, ih2⟩ := ih
    have hstep : (claim_all get_name dataset (l ++ [a]) (fun _ => none, false)).1 s =
        if s = get_name (dataset.get_ith_object a.2.2) then
          claim_update a.2.1 a.1 ((claim_all get_name dataset l (fun _ => none, false)).1 s)
        else (claim_all get_name dataset l (fun _ => none, false)).1 s := by
      rw [claim_all_append]
      have h : claim_all get_name dataset [a] (claim_all get_name dataset l (fun _ => none, false))
          = claim get_name dataset a.1 (claim_all get_name dataset l (fun _ => none, false)) a.2 :=
        rfl
      rw [h, claim_fst]
    have hlast : (l ++ [a])[l.length]? = some a := by
      rw [List.getElem?_append_right (le_refl _)]
      simp
    have hold : ∀ (k : Nat) (e : Nat × ℚ × Nat), l[k]? = some e → (l ++ [a])[k]? = some e := by
      intro k e hk
      have hkl : k < l.length := by
        rcases Nat.lt_or_ge k l.length with h | h
        · exact h
        · rw [List.getElem?_eq_none h] at hk
          exact absurd hk (by simp)
      rw [List.getElem?_append_left hkl]
      exact hk
    have hback : ∀ (k : Nat) (e : Nat × ℚ × Nat), k < l.length → (l ++ [a])[k]? = some e → e ∈ l := by
      intro k e hk he
      rw [List.getElem?_append_left hk, List.getElem?_eq_getElem hk] at he
      simp only [Option.some.injEq] at he
      rw [← he]
      exact List.getElem_mem _
    rw [hstep]
    by_cases hs : s = get_name (dataset.get_ith_object a.2.2)
    · rw [if_pos hs]
      constructor
      · constructor
        · intro h
          have := claim_update_isSome a.2.1 a.1
            ((claim_all get_name dataset l (fun _ => none, false)).1 s)
          rw [h] at this
          exact absurd this (by simp)
        · intro h
          exact absurd hs.symm (h a (List.mem_append_right _ (List.mem_singleton_self _)))
      · intro c hc
        cases hm : (claim_all get_name dataset l (fun _ => none, false)).1 s with
        | none =>
          rw [hm] at hc
          simp only [claim_update, Option.some.injEq] at hc
          have hno := ih1.mp hm
          refine ⟨l.length, a, hlast, hs.symm, ?_, ?_, ?_, ?_⟩
          · rw [← hc]
          · rw [← hc]
          · intro e' he' hn
            rcases List.mem_append.mp he' with h | h
            · exact absurd hn (hno e' h)
            · rw [List.mem_singleton] at h
              rw [h, ← hc]
          · intro k' e' hk' he' hn
            exact absurd hn (hno e' (hback k' e' hk' he'))
        | some c0 =>
          rw [hm] at hc
          obtain ⟨k, e, h1, h2, h3, h4, h5, h6⟩ := ih2 c0 hm
          by_cases hgt : c0.1 > a.2.1
          · simp only [claim_update, hgt, if_true, Option.some.injEq] at hc
            refine ⟨l.length, a, hlast, hs.symm, ?_, ?_, ?_, ?_⟩
            · rw [← hc]
            · rw [← hc]
            · intro e' he' hn
              rw [← hc]
              rcases List.mem_append.mp he' with h | h
              · exact le_of_lt (lt_of_lt_of_le hgt (h5 e' h hn))
              · rw [List.mem_singleton] at h
                rw [h]
            · intro k' e' hk' he' hn
              rw [← hc]
              exact lt_of_lt_of_le hgt (h5 e' (hback k' e' hk' he') hn)
          · simp only [claim_update, hgt, if_false, Option.some.injEq] at hc
            rw [← hc]
            have hkl : k < l.length := by
              rcases Nat.lt_or_ge k l.length with h | h
              · exact h
              · rw [List.getElem?_eq_none h] at h1
                exact absurd h1 (by simp)
            refine ⟨k, e, hold k e h1, h2, h3, h4, ?_, ?_⟩
            · intro e' he' hn
              rcases List.mem_append.mp he' with h | h
              · exact h5 e' h hn
              · rw [List.mem_singleton] at h
                rw [h]
                exact not_lt.mp hgt
            · intro k' e' hk' he' hn
              have hk'l : k' < l.length := lt_trans hk' hkl
              rw [List.getElem?_append_left hk'l] at he'
              exact h6 k' e' hk' he' hn
    · rw [if_neg hs]
      constructor
      · rw [ih1]
        constructor
        · intro h e he
          rcases List.mem_append.mp he with h1 | h1
          · exact h e h1
          · rw [List.mem_singleton] at h1
            rw [h1]
            exact fun hh => hs hh.symm
        · intro h e he
          exact h e (List.mem_append_left _ he)
      · intro c hc
        obtain ⟨k, e, h1, h2, h3, h4, h5, h6⟩ := ih2 c hc
        have hkl : k < l.length := by
          rcases Nat.lt_or_ge k l.length with h | h
          · exact h
          · rw [List.getElem?_eq_none h] at h1
            exact absurd h1 (by simp)
        refine ⟨k, e, hold k e h1, h2, h3, h4, ?_, ?_⟩
        · intro e' he' hn
          rcases List.mem_append.mp he' with h | h
          · exact h5 e' h hn
          · rw [List.mem_singleton] at h
            rw [h] at hn
            exact absurd hn.symm hs
        · intro k' e' hk' he' hn
          have hk'l : k' < l.length := lt_trans hk' hkl
          rw [List.getElem?_append_left hk'l] at he'
          exact h6 k' e' hk' he' hn

/-- One pass of the loop runs the claim body on the pairs of the pass, in order. -/
theorem range_pass_events (range_query : Nat → Nat → Int → Int → List (ℚ × Nat)) (K pass : Nat)
    (R R2 : Int) (map : String → Option (ℚ × Nat)) :
    range_pass get_name dataset range_query K pass R R2 map =
      claim_all get_name dataset (pass_events range_query K pass R R2) (map, false) := by
  unfold range_pass pass_events claim_all
  generalize (map, false) = st
  induction K generalizing st with
  | zero => rfl
  | succ k ih =>
    rw [List.range_succ, List.foldl_append, List.flatMap_append, List.foldl_append, ih]
    simp only [List.foldl_cons, List.foldl_nil, List.flatMap_cons, List.flatMap_nil,
      List.append_nil, List.foldl_map]

end claim_events

/-- C21. Claim update rule in reverse assignment: after any sequence `events` of returned
pairs `(i, dist, item)` processed from the empty map (`i` the index of the querying centroid),
a name has no claim exactly when no pair carried it, and the claim stored for a name holds
the smallest `dist` among all the pairs that carried the name, with the centroid index of the
first pair that attained this smallest `dist`. A pass of the `while(1)` loop of
`cube_range_search_clustering` / `lsh_range_search_clustering` extends the sequence by the
pairs its queries return for the centroids `0 .. K-1`, and its flag is true if and only if
some name that had no claim before the pass has one after it. -/
theorem claim_update_rule {Obj : Type} (get_name : Obj → String) (dataset : Dataset Obj)
    (range_query : Nat → Nat → Int → Int → List (ℚ × Nat)) (K pass : Nat) (R R2 : Int)
    (events : List (Nat × ℚ × Nat)) :
    (∀ s,
      ((claim_all get_name dataset events (fun _ => none, false)).1 s = none ↔
        ∀ e ∈ events, get_name (dataset.get_ith_object e.2.2) ≠ s) ∧
      ∀ c, (claim_all get_name dataset events (fun _ => none, false)).1 s = some c →
        ∃ (k : Nat) (e : Nat × ℚ × Nat), events[k]? = some e ∧
        get_name (dataset.get_ith_object e.2.2) = s ∧
          e.2.1 = c.1 ∧ e.1 = c.2 ∧
          (∀ e' ∈ events, get_name (dataset.get_ith_object e'.2.2) = s → c.1 ≤ e'.2.1) ∧
          ∀ (k' : Nat) (e' : Nat × ℚ × Nat), k' < k → events[k']? = some e' →
            get_name (dataset.get_ith_object e'.2.2) = s → c.1 < e'.2.1) ∧
    (range_pass get_name dataset range_query K pass R R2
        (claim_all get_name dataset events (fun _ => none, false)).1).1 =
      (claim_all get_name dataset (events ++ pass_events range_query K pass R R2)
        (fun _ => none, false)).1 ∧
    ((range_pass get_name dataset range_query K pass R R2
        (claim_all get_name dataset events (fun _ => none, false)).1).2 = true ↔
      ∃ s, (claim_all get_name dataset events (fun _ => none, false)).1 s = none ∧
        ((range_pass get_name dataset range_query K pass R R2
          (claim_all get_name dataset events (fun _ => none, false)).1).1 s).isSome = true) := by
  refine ⟨fun s => claim_all_rule get_name dataset events s, ?_, ?_⟩
  · rw [range_pass_events, claim_all_append]
    unfold claim_all
    generalize pass_events range_query K pass R R2 = l
    generalize (List.foldl (fun st e => claim get_name dataset e.1 st e.2)
      ((fun _ => none : String → Option (ℚ × Nat)), false) events) = st
    induction l generalizing st with
    | nil => rfl
    | cons a rest ih =>
      rw [List.foldl_cons, List.foldl_cons]
      have e1 := ih (claim get_name dataset a.1 (st.1, false) a.2)
      have e2 := ih (claim get_name dataset a.1 st a.2)
      have e3 : (claim get_name dataset a.1 (st.1, false) a.2).1 =
          (claim get_name dataset a.1 st a.2).1 := by
        funext s
        rw [claim_fst, claim_fst]
      rw [e3] at e1
      rw [← e1, ← e2]
  · rw [range_pass_events, claim_all_flag]
    constructor
    · rintro (h | h)
      · exact absurd h (by simp)
      · exact h
    · exact fun h => Or.inr h

/-! ## The initial radius of the reverse assignment -/

theorem double_to_int_mono (x y : ℚ) (h : x ≤ y) : double_to_int x ≤ double_to_int y := by
  unfold double_to_int
  by_cases hx : 0 ≤ x
  · have hy : 0 ≤ y := le_trans hx h
    rw [if_pos hx, if_pos hy]
    exact Int.floor_mono h
  · rw [if_neg hx]
    by_cases hy : 0 ≤ y
    · rw [if_pos hy]
      have h1 : ⌈x⌉ ≤ 0 := by
        rw [Int.ceil_le]
        push_cast
        exact le_of_lt (not_le.mp hx)
      have h2 : 0 ≤ ⌊y⌋ := Int.floor_nonneg.mpr hy
      exact le_trans h1 h2
    · rw [if_neg hy]
      exact Int.ceil_mono h

theorem min_fold_spec (g : Nat → Int) (l : List Nat) :
    ∀ R : Int, l.foldl (fun R j => min R (g j)) R ≤ R ∧
      (∀ j ∈ l, l.foldl (fun R j => min R (g j)) R ≤ g j) ∧
      (l.foldl (fun R j => min R (g j)) R = R ∨
        ∃ j ∈ l, l.foldl (fun R j => min R (g j)) R = g j) := by
  induction l with
  | nil =>
    intro R
    exact ⟨le_refl _, fun j hj => absurd hj (List.not_mem_nil _), Or.inl rfl⟩
  | cons a rest ih =>
    intro R
    rw [List.foldl_cons]
    obtain ⟨h1, h2, h3⟩ := ih (min R (g a))
    refine ⟨le_trans h1 (min_le_left _ _), ?_, ?_⟩
    · intro j hj
      rcases List.mem_cons.mp hj with h | h
      · rw [h]
        exact le_trans h1 (min_le_right _ _)
      · exact h2 j h
    · rcases h3 with h | ⟨j, hj, h⟩
      · rcases min_choice R (g a) with hc | hc
        · left
          rw [h, hc]
        · right
          exact ⟨a, List.mem_cons_self _ _, by rw [h, hc]⟩
      · right
        exact ⟨j, List.mem_cons_of_mem _ hj, h⟩

theorem pair_fold_spec (f : Nat → Nat → Int) (K : Nat) (l : List Nat) :
    ∀ R : Int,
      l.foldl (fun R i => (List.range' (i + 1) (K - (i + 1))).foldl (fun R j => min R (f i j)) R)
          R ≤ R ∧
      (∀ i ∈ l, ∀ j, i < j → j < K →
        l.foldl
          (fun R i => (List.range' (i + 1) (K - (i + 1))).foldl (fun R j => min R (f i j)) R)
          R ≤ f i j) ∧
      (l.foldl (fun R i => (List.range' (i + 1) (K - (i + 1))).foldl (fun R j => min R (f i j)) R)
          R = R ∨
        ∃ i ∈ l, ∃ j, i < j ∧ j < K ∧
          l.foldl
            (fun R i => (List.range' (i + 1) (K - (i + 1))).foldl (fun R j => min R (f i j)) R)
            R = f i j) := by
  induction l with
  | nil =>
    intro R
    exact ⟨le_refl _, fun i hi => absurd hi (List.not_mem_nil _), Or.inl rfl⟩
  | cons a rest ih =>
    intro R
    rw [List.foldl_cons]
    obtain ⟨g1, g2, g3⟩ := min_fold_spec (f a) (List.range' (a + 1) (K - (a + 1))) R
    obtain ⟨h1, h2, h3⟩ :=
      ih ((List.range' (a + 1) (K - (a + 1))).foldl (fun R j => min R (f a j)) R)
    have hmem : ∀ j, j ∈ List.range' (a + 1) (K - (a + 1)) ↔ a < j ∧ j < K := by
      intro j
      rw [List.mem_range'_1]
      omega
    refine ⟨le_trans h1 g1, ?_, ?_⟩
    · intro i hi j hij hj
      rcases List.mem_cons.mp hi with h | h
      · rw [h] at hij
        rw [h]
        exact le_trans h1 (g2 j ((hmem j).mpr ⟨hij, hj⟩))
      · exact h2 i h j hij hj
    · rcases h3 with h | ⟨i, hi, j, hij, hj, h⟩
      · rcases g3 with hc | ⟨j, hj, hc⟩
        · left
          rw [h, hc]
        · right
          exact ⟨a, List.mem_cons_self _ _, j, ((hmem j).mp hj).1, ((hmem j).mp hj).2,
            by rw [h, hc]⟩
      · right
        exact ⟨i, List.mem_cons_of_mem _ hi, j, hij, hj, h⟩

/-- The initial radius is the `int` half of the truncated smallest distance of two
centroids. -/
theorem initial_R_eq {Obj : Type} (distance : Obj → Obj → ℚ) (centroids : Nat → Obj) (K : Nat)
    (hK : 2 ≤ K) (i0 j0 : Nat) (hij : i0 < j0) (hj : j0 < K)
    (hmin : ∀ i j, i < j → j < K →
      distance (centroids i0) (centroids j0) ≤ distance (centroids i) (centroids j)) :
    initial_R distance centroids K =
      Int.tdiv (double_to_int (distance (centroids i0) (centroids j0))) 2 := by
  unfold initial_R
  congr 1
  obtain ⟨h1, h2, h3⟩ := pair_fold_spec
    (fun i j => double_to_int (distance (centroids i) (centroids j))) K (List.range K)
    (double_to_int (distance (centroids (K - 2)) (centroids (K - 1))))
  apply le_antisymm
  · exact h2 i0 (List.mem_range.mpr (lt_trans hij hj)) j0 hij hj
  · rcases h3 with h | ⟨i, _, j, hij', hj', h⟩
    · rw [h]
      exact double_to_int_mono _ _ (hmin (K - 2) (K - 1) (by omega) (by omega))
    · rw [h]
      exact double_to_int_mono _ _ (hmin i j hij' hj')

theorem tdiv_floor_half (m : ℚ) (hm : 0 ≤ m) :
    Int.tdiv (double_to_int m) 2 = ⌊m / 2⌋ := by
  unfold double_to_int
  rw [if_pos hm]
  have hf : 0 ≤ ⌊m⌋ := Int.floor_nonneg.mpr hm
  rw [Int.tdiv_eq_ediv hf (by norm_num)]
  symm
  rw [Int.floor_eq_iff]
  have h1 : (⌊m⌋ : ℚ) ≤ m := Int.floor_le m
  have h2 : m < (⌊m⌋ : ℚ) + 1 := Int.lt_floor_add_one m
  have h3 : 2 * (⌊m⌋ / 2) ≤ ⌊m⌋ := by omega
  have h4 : ⌊m⌋ ≤ 2 * (⌊m⌋ / 2) + 1 := by omega
  have h3' : (2 : ℚ) * ((⌊m⌋ / 2 : Int) : ℚ) ≤ (⌊m⌋ : ℚ) := by exact_mod_cast h3
  have h4' : (⌊m⌋ : ℚ) ≤ 2 * ((⌊m⌋ / 2 : Int) : ℚ) + 1 := by exact_mod_cast h4
  constructor
  · linarith
  · linarith

theorem sample_far_distance :
    sample_metric (sample_far_centroids 0) (sample_far_centroids 1) = 3 := by
  simp [sample_metric, sample_far_centroids]

theorem sample_far_min (i j : Nat) (hij : i < j) (hj : j < 2) :
    sample_metric (sample_far_centroids 0) (sample_far_centroids 1) ≤
      sample_metric (sample_far_centroids i) (sample_far_centroids j) := by
  have h1 : j = 1 := by omega
  have h0 : i = 0 := by omega
  rw [h0, h1]

/-- C22 (amended). Initial radius of reverse assignment: for every `K ≥ 2` centroids, the
initial `R` used by `lsh_range_search_clustering` / `cube_range_search_clustering` is the
`int` quotient by 2 of the smallest distance `d(c_i, c_j)`, `i < j`, truncated to `int`; for a
non-negative smallest distance `m` this is the integer part of `m / 2`, so
`R ≤ m / 2 < R + 1`. -/
theorem initial_R_truncated_half {Obj : Type} (distance : Obj → Obj → ℚ)
    (centroids : Nat → Obj) (K : Nat) (hK : 2 ≤ K) (i0 j0 : Nat) (hij : i0 < j0) (hj : j0 < K)
    (hmin : ∀ i j, i < j → j < K →
      distance (centroids i0) (centroids j0) ≤ distance (centroids i) (centroids j)) :
    initial_R distance centroids K =
        Int.tdiv (double_to_int (distance (centroids i0) (centroids j0))) 2 ∧
      (0 ≤ distance (centroids i0) (centroids j0) →
        initial_R distance centroids K = ⌊distance (centroids i0) (centroids j0) / 2⌋ ∧
        ((initial_R distance centroids K : Int) : ℚ) ≤
          distance (centroids i0) (centroids j0) / 2 ∧
        distance (centroids i0) (centroids j0) / 2 <
          ((initial_R distance centroids K : Int) : ℚ) + 1) := by
  have e := initial_R_eq distance centroids K hK i0 j0 hij hj hmin
  refine ⟨e, fun h0 => ?_⟩
  have e2 : initial_R distance centroids K = ⌊distance (centroids i0) (centroids j0) / 2⌋ := by
    rw [e, tdiv_floor_half _ h0]
  refine ⟨e2, ?_, ?_⟩
  · rw [e2]
    exact Int.floor_le _
  · rw [e2]
    exact Int.lt_floor_add_one _

theorem initial_R_truncated_half_witness :
    initial_R sample_metric sample_far_centroids 2 =
      Int.tdiv
        (double_to_int (sample_metric (sample_far_centroids 0) (sample_far_centroids 1))) 2 :=
  (initial_R_truncated_half sample_metric sample_far_centroids 2 (by decide) 0 1 (by decide)
    (by decide) sample_far_min).1

/-- C22, as stated, fails: two centroids at distance 3 give the initial radius 1, which is
not one half of their distance. -/
theorem initial_R_not_half :
    initial_R sample_metric sample_far_centroids 2 = 1 ∧
      sample_metric (sample_far_centroids 0) (sample_far_centroids 1) / 2 = 3 / 2 ∧
      ((initial_R sample_metric sample_far_centroids 2 : Int) : ℚ) ≠
        sample_metric (sample_far_centroids 0) (sample_far_centroids 1) / 2 := by
  have e : initial_R sample_metric sample_far_centroids 2 = 1 := by
    rw [initial_R_eq sample_metric sample_far_centroids 2 (by decide) 0 1 (by decide)
      (by decide) sample_far_min, sample_far_distance]
    have h : double_to_int 3 = 3 := by
      unfold double_to_int
      rw [if_pos (by norm_num)]
      exact Int.floor_eq_iff.mpr ⟨by norm_num, by norm_num⟩
    rw [h]
    decide
  refine ⟨e, ?_, ?_⟩
  · rw [sample_far_distance]
  · rw [e, sample_far_distance]
    norm_num

/-! ## A zero initial radius -/

/-- A range query with the band `[0, 0)` returns nothing. -/
theorem range_search_zero {Obj : Type} (addr : Nat → Nat) (cube : hypercube Obj)
    (dataset : Dataset Obj) (query_object : Obj) (metric : Obj → Obj → ℚ) (hd : 1 ≤ cube.d1) :
    range_search addr cube dataset query_object 0 metric 0 = [] := by
  obtain ⟨j, k, _, _, _, _, _, h5, _⟩ :=
    probe_run addr cube dataset search_type.RANGE_SEARCH 0 query_object metric 0 0 hd
  have hfold := range_fold_eq addr dataset 0 query_object metric 0 0
    (items (probe addr cube dataset search_type.RANGE_SEARCH 0 query_object metric 0 0)) []
  rw [← h5, List.nil_append] at hfold
  unfold range_search
  rw [hfold, List.map_eq_nil_iff, List.filter_eq_nil_iff]
  intro o _
  simp only [Int.cast_zero, decide_eq_true_eq, not_and, not_lt]
  exact fun h => h

theorem claim_pass_nil {Obj : Type} (get_name : Obj → String) (dataset : Dataset Obj)
    (Q : Nat → List (ℚ × Nat)) (hQ : ∀ i, Q i = []) (indices : List Nat)
    (st : (String → Option (ℚ × Nat)) × Bool) :
    claim_pass get_name dataset Q indices st = st := by
  unfold claim_pass
  induction indices generalizing st with
  | nil => rfl
  | cons i rest ih =>
    rw [List.foldl_cons, hQ i, List.foldl_nil]
    exact ih st

theorem assign_claims_empty {Obj : Type} (metric : Obj → Obj → ℚ) (get_name : Obj → String)
    (dataset : Dataset Obj) (centroids : Nat → Obj) (K : Nat) :
    assign_claims metric get_name dataset centroids K (fun _ => none) =
      exact_lloyds_assignment metric dataset centroids K := rfl

theorem sample_near_min (i j : Nat) (hij : i < j) (hj : j < 2) :
    sample_metric (sample_dataset.get_ith_object 0) (sample_dataset.get_ith_object 1) ≤
      sample_metric (sample_dataset.get_ith_object i) (sample_dataset.get_ith_object j) := by
  have h1 : j = 1 := by omega
  have h0 : i = 0 := by omega
  rw [h0, h1]

theorem sample_near_distance :
    sample_metric (sample_dataset.get_ith_object 0) (sample_dataset.get_ith_object 1) = 1 := by
  simp [sample_metric, sample_dataset]
  norm_num

/-- C23. Zero initial radius: in `cube_range_search_clustering` with `K ≥ 2` on an index of
dimension `d1 ≥ 1`, whenever the smallest distance `d(c_i, c_j)`, `i < j`, is non-negative
and below 2, the truncated and halved initial `R` is 0, every range query of the first pass
(band `[0, 0)`) returns nothing, the first pass leaves the claim map empty and the flag
false, the radius-growing loop ends after that single pass with no claim, and the clusters
built are exactly those of the exact Lloyd assignment for the same centroids. -/
theorem zero_initial_radius {Obj : Type} (addr : Nat → Nat) (cube : hypercube Obj)
    (metric euclidean_distance : Obj → Obj → ℚ) (get_name : Obj → String)
    (dataset : Dataset Obj) (centroids : Nat → Obj) (K : Nat) (fuel : Nat)
    (hd : 1 ≤ cube.d1) (hK : 2 ≤ K) (i0 j0 : Nat) (hij : i0 < j0) (hj : j0 < K)
    (hmin : ∀ i j, i < j → j < K →
      euclidean_distance (centroids i0) (centroids j0) ≤
        euclidean_distance (centroids i) (centroids j))
    (h0 : 0 ≤ euclidean_distance (centroids i0) (centroids j0))
    (h2 : euclidean_distance (centroids i0) (centroids j0) < 2) :
    initial_R euclidean_distance centroids K = 0 ∧
      (∀ i, range_search addr cube dataset (centroids i)
        (initial_R euclidean_distance centroids K) metric 0 = []) ∧
      range_pass get_name dataset
          (fun _ i R R2 => range_search addr cube dataset (centroids i) R metric R2) K 0
          (initial_R euclidean_distance centroids K) 0 (fun _ => none) =
        (fun _ => none, false) ∧
      range_growing get_name dataset
          (fun _ i R R2 => range_search addr cube dataset (centroids i) R metric R2) K
          (fuel + 1) 0 (initial_R euclidean_distance centroids K) 0 (fun _ => none) =
        some (fun _ => none) ∧
      cube_range_search_assignment addr cube metric euclidean_distance get_name dataset
          centroids K (fuel + 1) =
        some (exact_lloyds_assignment metric dataset centroids K) := by
  have hR : initial_R euclidean_distance centroids K = 0 := by
    rw [initial_R_eq euclidean_distance centroids K hK i0 j0 hij hj hmin,
      tdiv_floor_half _ h0, Int.floor_eq_iff]
    constructor
    · push_cast
      linarith
    · push_cast
      linarith
  have hq : ∀ i, range_search addr cube dataset (centroids i)
      (initial_R euclidean_distance centroids K) metric 0 = [] := by
    intro i
    rw [hR]
    exact range_search_zero addr cube dataset (centroids i) metric hd
  have hpass : range_pass get_name dataset
      (fun _ i R R2 => range_search addr cube dataset (centroids i) R metric R2) K 0
      (initial_R euclidean_distance centroids K) 0 (fun _ => none) =
      (fun _ => none, false) := by
    rw [range_pass_eq]
    exact claim_pass_nil get_name dataset _ hq _ _
  have hgrow : range_growing get_name dataset
      (fun _ i R R2 => range_search addr cube dataset (centroids i) R metric R2) K
      (fuel + 1) 0 (initial_R euclidean_distance centroids K) 0 (fun _ => none) =
      some (fun _ => none) := by
    unfold range_growing
    simp only [hpass, if_true]
  refine ⟨hR, hq, hpass, hgrow, ?_⟩
  unfold cube_range_search_assignment
  rw [if_neg (by omega)]
  unfold reverse_assignment
  rw [hgrow, Option.map_some', assign_claims_empty]

theorem zero_initial_radius_witness :
    initial_R sample_metric sample_dataset.get_ith_object 2 = 0 ∧
      cube_range_search_assignment id sample_cube sample_metric sample_metric sample_name
          sample_dataset sample_dataset.get_ith_object 2 1 =
        some (exact_lloyds_assignment sample_metric sample_dataset
          sample_dataset.get_ith_object 2) :=
  ⟨(zero_initial_radius id sample_cube sample_metric sample_metric sample_name sample_dataset
      sample_dataset.get_ith_object 2 0 (by decide) (by decide) 0 1 (by decide) (by decide)
      sample_near_min (by rw [sample_near_distance]; norm_num)
      (by rw [sample_near_distance]; norm_num)).1,
    (zero_initial_radius id sample_cube sample_metric sample_metric sample_name sample_dataset
      sample_dataset.get_ith_object 2 0 (by decide) (by decide) 0 1 (by decide) (by decide)
      sample_near_min (by rw [sample_near_distance]; norm_num)
      (by rw [sample_near_distance]; norm_num)).2.2.2.2⟩

/-! ## The static counter of `update` -/

section counter

variable {Obj : Type} (get_ith : Obj → Nat → ℚ) (new_Object : List ℚ → Obj)
  (post_order_traversal : List Obj → Obj) (d : Nat)

theorem update_sequence_snoc (calls : List (update_call Obj)) (c : update_call Obj) :
    update_sequence get_ith new_Object post_order_traversal d (calls ++ [c]) =
      ((update_sequence get_ith new_Object post_order_traversal d calls).1 ++
          [update get_ith new_Object post_order_traversal d c.dataset c.update_method c.metric
            c.K c.clusters c.centroids
            (update_sequence get_ith new_Object post_order_traversal d calls).2],
        (update get_ith new_Object post_order_traversal d c.dataset c.update_method c.metric
          c.K c.clusters c.centroids
          (update_sequence get_ith new_Object post_order_traversal d calls).2).iters) := by
  unfold update_sequence
  rw [List.foldl_append]
  rfl

theorem update_iters (dataset : Dataset Obj) (update_method : String) (metric : Obj → Obj → ℚ)
    (K : Nat) (clusters : Nat → List Nat) (centroids : Nat → Obj) (iters : Int) :
    (update get_ith new_Object post_order_traversal d dataset update_method metric K clusters
      centroids iters).iters = iters + 1 := rfl

theorem update_converged_of_cap (dataset : Dataset Obj) (update_method : String)
    (metric : Obj → Obj → ℚ) (K : Nat) (clusters : Nat → List Nat) (centroids : Nat → Obj)
    (iters : Int) (h : 11 ≤ iters) :
    (update get_ith new_Object post_order_traversal d dataset update_method metric K clusters
      centroids iters).converged = true := by
  unfold update
  simp only
  rw [if_pos (by omega)]

/-- The counter after a sequence of calls is the number of calls, and call number `n`
(counted from 0) leaves the counter at `n + 1` and returns true when `n + 1 ≥ 12`. -/
theorem update_sequence_spec (calls : List (update_call Obj)) :
    (update_sequence get_ith new_Object post_order_traversal d calls).2 = (calls.length : Int) ∧
    (update_sequence get_ith new_Object post_order_traversal d calls).1.length = calls.length ∧
    ∀ (n : Nat) (u : update_result Obj),
      (update_sequence get_ith new_Object post_order_traversal d calls).1[n]? = some u →
        u.iters = (n : Int) + 1 ∧ (11 ≤ n → u.converged = true) := by
  induction calls using List.reverseRecOn with
  | nil =>
    refine ⟨rfl, rfl, ?_⟩
    intro n u h
    have e : (update_sequence get_ith new_Object post_order_traversal d
      ([] : List (update_call Obj))).1 = [] := rfl
    rw [e] at h
    simp at h
  | append_singleton l c ih =>
    obtain ⟨h1, h2, h3⟩ := ih
    rw [update_sequence_snoc]
    refine ⟨?_, ?_, ?_⟩
    · simp only [update_iters, h1, List.length_append, List.length_singleton]
      push_cast
      rfl
    · simp only [List.length_append, List.length_singleton, h2]
    · intro n u hu
      simp only at hu
      rcases Nat.lt_or_ge n l.length with hn | hn
      · rw [List.getElem?_append_left (by rw [h2]; exact hn)] at hu
        exact h3 n u hu
      · rw [List.getElem?_append_right (by rw [h2]; exact hn), h2] at hu
        have hn0 : n - l.length = 0 := by
          rcases Nat.eq_zero_or_pos (n - l.length) with h | h
          · exact h
          · rw [List.getElem?_eq_none (by simp; omega)] at hu
            exact absurd hu (by simp)
        rw [hn0] at hu
        simp only [List.getElem?_cons_zero, Option.some.injEq] at hu
        have hnl : n = l.length := by omega
        rw [← hu]
        constructor
        · rw [update_iters, h1, hnl]
        · intro h11
          apply update_converged_of_cap
          rw [h1]
          omega

end counter

/-- C26. Persistent iteration counter: the counter tested by `Cluster_info::update` is
incremented on every call and never reset, so for every sequence of calls (on whatever
objects, with whatever arguments) call number `n + 1` overall, `n + 1 ≥ 12`, leaves the
counter at `n + 1` and returns true whatever the deviation; the counter after the sequence is
the number of calls, and a run of `exact_lloyds` started after the sequence (which holds 12
or more calls) performs exactly one iteration: one assignment, one call of `update`, and it
returns. -/
theorem update_counter_persistent {Obj : Type} (get_ith : Obj → Nat → ℚ)
    (new_Object : List ℚ → Obj) (post_order_traversal : List Obj → Obj) (d : Nat)
    (calls : List (update_call Obj)) (n : Nat) (hn : 11 ≤ n) (hlen : n < calls.length) :
    (∃ u, (update_sequence get_ith new_Object post_order_traversal d calls).1[n]? = some u ∧
      u.iters = (n : Int) + 1 ∧ u.converged = true) ∧
    (update_sequence get_ith new_Object post_order_traversal d calls).2 = (calls.length : Int) ∧
    ∀ (dataset : Dataset Obj) (update_method : String) (metric : Obj → Obj → ℚ) (K : Nat)
      (fuel : Nat) (centroids : Nat → Obj),
      exact_lloyds get_ith new_Object post_order_traversal d dataset update_method metric K
          (fuel + 1) centroids
          (update_sequence get_ith new_Object post_order_traversal d calls).2 =
        some
          { clusters := exact_lloyds_assignment metric dataset centroids K
            centroids :=
              (update get_ith new_Object post_order_traversal d dataset update_method metric K
                (exact_lloyds_assignment metric dataset centroids K) centroids
                (calls.length : Int)).centroids
            iters := (calls.length : Int) + 1 } := by
  obtain ⟨h1, h2, h3⟩ := update_sequence_spec get_ith new_Object post_order_traversal d calls
  refine ⟨?_, h1, ?_⟩
  · have hlt : n < (update_sequence get_ith new_Object post_order_traversal d calls).1.length := by
      rw [h2]
      exact hlen
    refine ⟨_, List.getElem?_eq_getElem hlt, ?_, ?_⟩
    · exact (h3 n _ (List.getElem?_eq_getElem hlt)).1
    · exact (h3 n _ (List.getElem?_eq_getElem hlt)).2 hn
  · intro dataset update_method metric K fuel centroids
    rw [h1]
    unfold exact_lloyds
    simp only
    rw [if_pos (update_converged_of_cap get_ith new_Object post_order_traversal d dataset
      update_method metric K _ centroids _ (by omega))]
    rfl

theorem update_counter_persistent_witness :
    ∃ u, (update_sequence (fun (o : ℚ) (_ : Nat) => o) (fun l => l.getD 0 0) (fun _ => 0) 1
        (List.replicate 12
          { dataset := sample_dataset, update_method := "Mean Vector", metric := sample_metric,
            K := 2,
            clusters := exact_lloyds_assignment sample_metric sample_dataset sample_centroids 2,
            centroids := sample_centroids })).1[11]? = some u ∧
      u.iters = ((11 : Nat) : Int) + 1 ∧ u.converged = true :=
  (update_counter_persistent (fun (o : ℚ) (_ : Nat) => o) (fun l => l.getD 0 0) (fun _ => 0) 1
    (List.replicate 12
      { dataset := sample_dataset, update_method := "Mean Vector", metric := sample_metric,
        K := 2,
        clusters := exact_lloyds_assignment sample_metric sample_dataset sample_centroids 2,
        centroids := sample_centroids }) 11 (by decide) (by simp)).1

/-! ## Silhouette -/

section silhouette_entries

variable {Obj : Type} (metric : Obj → Obj → ℚ) (dataset : Dataset Obj) (DBL_MAX : ℚ) (K : Nat)
  (clusters : Nat → List Nat) (centroids : Nat → Obj)

theorem silhouette_inner (s : Nat → ℚ) (t : ℚ) (n : Nat) :
    (List.range n).foldl (fun (acc : ℚ × ℚ) j => (acc.1 + s j, acc.2 + s j)) (0, t) =
      (∑ j in Finset.range n, s j, t + ∑ j in Finset.range n, s j) := by
  induction n with
  | zero => simp
  | succ n ih =>
    rw [List.range_succ, List.foldl_append, ih]
    simp only [List.foldl_cons, List.foldl_nil, Finset.sum_range_succ]
    rw [add_assoc]

theorem silhouette_outer (k : Nat) :
    ((List.range k).foldl
      (fun (st : List (Option ℚ) × ℚ × Int) i =>
        ((st.1 ++ [double_div
            ((List.range (clusters i).length).foldl
              (fun (acc : ℚ × ℚ) j =>
                (acc.1 + silhouette_s_i metric dataset DBL_MAX K clusters centroids i j,
                  acc.2 + silhouette_s_i metric dataset DBL_MAX K clusters centroids i j))
              (0, st.2.1)).1
            (((clusters i).length : Int) - 1)],
          ((List.range (clusters i).length).foldl
            (fun (acc : ℚ × ℚ) j =>
              (acc.1 + silhouette_s_i metric dataset DBL_MAX K clusters centroids i j,
                acc.2 + silhouette_s_i metric dataset DBL_MAX K clusters centroids i j))
            (0, st.2.1)).2,
          st.2.2 + ((clusters i).length : Int)) : List (Option ℚ) × ℚ × Int))
      ([], 0, 0)).1 =
    (List.range k).map (fun i =>
      double_div
        (∑ j in Finset.range (clusters i).length,
          silhouette_s_i metric dataset DBL_MAX K clusters centroids i j)
        (((clusters i).length : Int) - 1)) := by
  induction k with
  | zero => rfl
  | succ k ih =>
    rw [List.range_succ, List.foldl_append, List.map_append]
    simp only [List.foldl_cons, List.foldl_nil, List.map_cons, List.map_nil]
    rw [ih, silhouette_inner]

theorem silhouette_entry (i : Nat) (hi : i < K) :
    (silhouette metric dataset DBL_MAX K clusters centroids)[i]? =
      some (double_div
        (∑ j in Finset.range (clusters i).length,
          silhouette_s_i metric dataset DBL_MAX K clusters centroids i j)
        (((clusters i).length : Int) - 1)) := by
  unfold silhouette
  simp only
  rw [silhouette_outer metric dataset DBL_MAX K clusters centroids K]
  rw [List.getElem?_append_left (by simp; exact hi)]
  rw [List.getElem?_map, List.getElem?_range hi]
  rfl

end silhouette_entries

/-- C27. Silhouette per-cluster value: for every cluster `i < K`, `Cluster_info::silhouette`
computes the entry of the cluster as `(sum of s_j over its members) / (cl_size - 1)` with no
guard: the division is by zero exactly when the cluster has size 1, and for a cluster of
size 2 or more the entry is the sum over `cl_size - 1`, which is the mean of the `s_j` (the
sum over `cl_size`) only when the sum is 0. -/
theorem silhouette_cluster_value {Obj : Type} (metric : Obj → Obj → ℚ) (dataset : Dataset Obj)
    (DBL_MAX : ℚ) (K : Nat) (clusters : Nat → List Nat) (centroids : Nat → Obj) (i : Nat)
    (hi : i < K) :
    (silhouette metric dataset DBL_MAX K clusters centroids)[i]? =
        some (double_div
          (∑ j in Finset.range (clusters i).length,
            silhouette_s_i metric dataset DBL_MAX K clusters centroids i j)
          (((clusters i).length : Int) - 1)) ∧
      ((silhouette metric dataset DBL_MAX K clusters centroids)[i]? = some none ↔
        (clusters i).length = 1) ∧
      (2 ≤ (clusters i).length →
        (silhouette metric dataset DBL_MAX K clusters centroids)[i]? =
          some (some
            ((∑ j in Finset.range (clusters i).length,
              silhouette_s_i metric dataset DBL_MAX K clusters centroids i j) /
                (((clusters i).length : ℚ) - 1))) ∧
        ((∑ j in Finset.range (clusters i).length,
            silhouette_s_i metric dataset DBL_MAX K clusters centroids i j) /
              (((clusters i).length : ℚ) - 1) =
          (∑ j in Finset.range (clusters i).length,
            silhouette_s_i metric dataset DBL_MAX K clusters centroids i j) /
              ((clusters i).length : ℚ) ↔
          ∑ j in Finset.range (clusters i).length,
            silhouette_s_i metric dataset DBL_MAX K clusters centroids i j = 0)) := by
  have e := silhouette_entry metric dataset DBL_MAX K clusters centroids i hi
  refine ⟨e, ?_, ?_⟩
  · rw [e]
    unfold double_div
    constructor
    · intro h
      by_cases h0 : ((clusters i).length : Int) - 1 = 0
      · omega
      · rw [if_neg h0] at h
        simp at h
    · intro h
      rw [if_pos (by omega)]
  · intro h2
    have hne1 : ((clusters i).length : ℚ) - 1 ≠ 0 := by
      have : (2 : ℚ) ≤ ((clusters i).length : ℚ) := by exact_mod_cast h2
      linarith
    have hne2 : ((clusters i).length : ℚ) ≠ 0 := by
      have : (2 : ℚ) ≤ ((clusters i).length : ℚ) := by exact_mod_cast h2
      linarith
    constructor
    · rw [e]
      unfold double_div
      rw [if_neg (by omega)]
      push_cast
      rfl
    · rw [div_eq_div_iff hne1 hne2]
      constructor
      · intro h
        linarith
      · intro h
        rw [h, zero_mul, zero_mul]

theorem silhouette_cluster_value_witness :
    (0 : Nat) < 2 ∧
      (silhouette sample_metric sample_dataset 1000 2
          (exact_lloyds_assignment sample_metric sample_dataset sample_centroids 2)
          sample_centroids)[0]? =
        some (double_div
          (∑ j in Finset.range
              (exact_lloyds_assignment sample_metric sample_dataset sample_centroids 2 0).length,
            silhouette_s_i sample_metric sample_dataset 1000 2
              (exact_lloyds_assignment sample_metric sample_dataset sample_centroids 2)
              sample_centroids 0 j)
          (((exact_lloyds_assignment sample_metric sample_dataset sample_centroids 2 0).length :
            Int) - 1)) :=
  ⟨by decide,
    (silhouette_cluster_value sample_metric sample_dataset 1000 2
      (exact_lloyds_assignment sample_metric sample_dataset sample_centroids 2) sample_centroids
      0 (by decide)).1⟩

/-! ## The bookkeeping of the seeding -/

section bookkeeping

variable {Obj : Type} (metric : Obj → Obj → ℚ) (dataset : Dataset Obj) (FLT_MAX : ℚ)
  (initial_centroid : Nat) (x : Nat → ℚ → ℚ)

theorem seeding_inv_t_le (st : seeding_state Obj)
    (hinv : seeding_inv dataset initial_centroid st) : st.t ≤ dataset.get_num_of_Objects := by
  obtain ⟨_, i2, i3, i4, _⟩ := hinv
  have hsub : st.chosen ⊆ List.range dataset.get_num_of_Objects :=
    fun c hc => List.mem_range.mpr (i4 c hc)
  have := (List.subperm_of_subset i3 hsub).length_le
  rw [List.length_range, i2] at this
  exact this

theorem seeding_rounds_t (j : Nat) :
    ∀ st st1 : seeding_state Obj,
      seeding_rounds metric dataset FLT_MAX initial_centroid x j st = Except.ok st1 →
        st1.t = st.t + j := by
  induction j with
  | zero =>
    intro st st1 h
    simp only [seeding_rounds, Except.ok.injEq] at h
    rw [← h]
    rfl
  | succ j ih =>
    intro st st1 h
    simp only [seeding_rounds] at h
    cases hr : seeding_round metric dataset FLT_MAX initial_centroid x st with
    | error e =>
      rw [hr] at h
      simp at h
    | ok st2 =>
      rw [hr] at h
      simp only at h
      have h1 := seeding_round_t metric dataset FLT_MAX initial_centroid x st st2 hr
      have h2 := ih st2 st1 h
      omega

/-- Induction over the rounds: a property of the state that holds at the start and that every
round with a draw in range carries over holds in every state the rounds reach. -/
theorem seeding_rounds_induction (hx : ∀ t b, 0 ≤ b → 0 ≤ x t b ∧ x t b ≤ b)
    (Q : seeding_state Obj → Prop)
    (hstep : ∀ (st : seeding_state Obj) (r : Int) (ci : Nat),
      seeding_inv dataset initial_centroid st → Q st → ci < dataset.get_num_of_Objects →
      ci ∉ st.chosen →
      Q (seeding_next dataset st (scan metric dataset FLT_MAX initial_centroid st) r ci))
    (j : Nat) :
    ∀ st st1 : seeding_state Obj, seeding_inv dataset initial_centroid st → Q st →
      seeding_rounds metric dataset FLT_MAX initial_centroid x j st = Except.ok st1 →
        seeding_inv dataset initial_centroid st1 ∧ Q st1 := by
  induction j with
  | zero =>
    intro st st1 hinv hQ h
    simp only [seeding_rounds, Except.ok.injEq] at h
    rw [← h]
    exact ⟨hinv, hQ⟩
  | succ j ih =>
    intro st st1 hinv hQ h
    simp only [seeding_rounds] at h
    have hle := seeding_inv_t_le dataset initial_centroid st hinv
    rcases Nat.lt_or_ge st.t dataset.get_num_of_Objects with ht | ht
    · obtain ⟨r1, r2⟩ := seeding_round_spec metric dataset FLT_MAX initial_centroid x hx st hinv
        ht
      by_cases hz : (scan metric dataset FLT_MAX initial_centroid st).max_Di = 0
      · rw [r1 hz] at h
        simp at h
      · obtain ⟨r, ci, hr1, hr2, hci1, hci2, hround⟩ := r2 hz
        rw [hround] at h
        simp only at h
        exact ih _ st1
          (seeding_next_inv metric dataset FLT_MAX initial_centroid st hinv r ci hr1 hr2 hci1
            hci2)
          (hstep st r ci hinv hQ hci1 hci2) h
    · rw [seeding_round_full metric dataset FLT_MAX initial_centroid x st hinv (by omega)] at h
      simp at h

/-- After the loop over the items of a round, the entries of an item that is no centroid are
the bookkeeping of all the centroids chosen so far. -/
theorem scan_bookkeeping
    (hF : ∀ p q, p < dataset.get_num_of_Objects → q < dataset.get_num_of_Objects →
      metric (dataset.get_ith_object p) (dataset.get_ith_object q) < FLT_MAX)
    (st : seeding_state Obj) (hinv : seeding_inv dataset initial_centroid st)
    (hbk : bookkeeping_inv metric dataset st) (i : Nat) (hi : i < dataset.get_num_of_Objects)
    (hmem : i ∉ st.chosen) :
    nearest_so_far metric dataset st st.t i
      ((scan metric dataset FLT_MAX initial_centroid st).D i)
      ((scan metric dataset FLT_MAX initial_centroid st).nearest_centroid i) := by
  obtain ⟨_, s2, s3, _, _⟩ := scan_spec metric dataset FLT_MAX initial_centroid st
  rw [s2 i hi, s3 i hi]
  have hcand := (scan_candidate_iff dataset initial_centroid st hinv i hi).mpr hmem
  obtain ⟨i1, i2, i3, i4, i5, i6, i7, i8, i9, i10, i11⟩ := hinv
  obtain ⟨b1, b2⟩ := hbk
  unfold scan_D2 scan_nc2
  by_cases ht : st.t = 1
  · have hic : i ≠ initial_centroid := by
      intro h
      rw [i8 ht, h] at hmem
      exact hmem (List.mem_singleton_self _)
    have hD1 : scan_D1 FLT_MAX initial_centroid st i = FLT_MAX := by
      unfold scan_D1
      rw [if_pos ⟨ht, hic⟩]
    have hc0 : st.centroids 0 = dataset.get_ith_object (st.chosen.getD 0 0) :=
      i6 0 (by omega)
    have hlt0 : st.chosen.getD 0 0 < dataset.get_num_of_Objects := by
      rw [i8 ht]
      simp only [List.getD_cons_zero]
      have : initial_centroid ∈ st.chosen := by
        rw [i8 ht]
        exact List.mem_singleton_self _
      exact i4 _ this
    have ht0 : st.t - 1 = 0 := by omega
    rw [hD1, ht0]
    have hlt : metric (st.centroids 0) (dataset.get_ith_object i) < FLT_MAX := by
      rw [hc0]
      exact hF _ _ hlt0 hi
    rw [if_pos ⟨hcand, hlt⟩, if_pos ⟨hcand, hlt⟩]
    refine ⟨0, by omega, rfl, ?_, ?_, ?_⟩
    · rw [b1, ht0]
    · intro k' hk'
      have : k' = 0 := by omega
      rw [this]
    · intro k' hk'
      omega
  · have hD1 : scan_D1 FLT_MAX initial_centroid st i = st.D i := by
      unfold scan_D1
      rw [if_neg (fun h => ht h.1)]
    have hn1 : scan_nc1 initial_centroid st i = st.nearest_centroid i := by
      unfold scan_nc1
      rw [if_neg (fun h => ht h.1)]
    obtain ⟨k, hk, e1, e2, e3, e4⟩ := b2 ht i hi hmem
    rw [hD1]
    by_cases hlt : metric (st.centroids (st.t - 1)) (dataset.get_ith_object i) < st.D i
    · rw [if_pos ⟨hcand, hlt⟩, if_pos ⟨hcand, hlt⟩]
      refine ⟨st.t - 1, by omega, rfl, ?_, ?_, ?_⟩
      · rw [b1]
      · intro k' hk'
        rcases Nat.lt_or_ge k' (st.t - 1) with h | h
        · exact le_of_lt (lt_of_lt_of_le hlt (e3 k' h))
        · have : k' = st.t - 1 := by omega
          rw [this]
      · intro k' hk'
        exact lt_of_lt_of_le hlt (e3 k' hk')
    · rw [if_neg (fun h => hlt h.2), if_neg (fun h => hlt h.2), hn1]
      refine ⟨k, by omega, e1, e2, ?_, e4⟩
      intro k' hk'
      rcases Nat.lt_or_ge k' (st.t - 1) with h | h
      · exact e3 k' h
      · have : k' = st.t - 1 := by omega
        rw [this]
        exact not_lt.mp hlt

theorem seeding_start_bookkeeping (centroids : Nat → Obj) :
    bookkeeping_inv metric dataset (seeding_start dataset centroids initial_centroid) := by
  constructor
  · rfl
  · intro h
    exact absurd rfl h

theorem seeding_next_bookkeeping
    (hF : ∀ p q, p < dataset.get_num_of_Objects → q < dataset.get_num_of_Objects →
      metric (dataset.get_ith_object p) (dataset.get_ith_object q) < FLT_MAX)
    (st : seeding_state Obj) (r : Int) (ci : Nat)
    (hinv : seeding_inv dataset initial_centroid st) (hbk : bookkeeping_inv metric dataset st) :
    bookkeeping_inv metric dataset
      (seeding_next dataset st (scan metric dataset FLT_MAX initial_centroid st) r ci) := by
  have hlen : st.chosen.length = st.t := hinv.2.1
  constructor
  · show ci = (st.chosen ++ [ci]).getD (st.t + 1 - 1) 0
    rw [List.getD_eq_getElem?_getD, List.getElem?_append_right (by omega)]
    have : st.t + 1 - 1 - st.chosen.length = 0 := by omega
    rw [this]
    rfl
  · intro _ i hi hmem
    have hmem' : i ∉ st.chosen ∧ i ≠ ci := by
      have h : i ∉ st.chosen ++ [ci] := hmem
      rw [List.mem_append, List.mem_singleton, not_or] at h
      exact h
    obtain ⟨k, hk, e1, e2, e3, e4⟩ :=
      scan_bookkeeping metric dataset FLT_MAX initial_centroid hF st hinv hbk i hi hmem'.1
    have hcen : ∀ k', k' < st.t →
        (seeding_next dataset st (scan metric dataset FLT_MAX initial_centroid st) r
          ci).centroids k' = st.centroids k' := by
      intro k' hk'
      show Function.update st.centroids st.t (dataset.get_ith_object ci) k' = st.centroids k'
      rw [Function.update_noteq (by omega)]
    have hD : (seeding_next dataset st (scan metric dataset FLT_MAX initial_centroid st) r
        ci).D i = (scan metric dataset FLT_MAX initial_centroid st).D i := by
      show Function.update (scan metric dataset FLT_MAX initial_centroid st).D ci 0 i = _
      rw [Function.update_noteq hmem'.2]
    have hnc : (seeding_next dataset st (scan metric dataset FLT_MAX initial_centroid st) r
        ci).nearest_centroid i =
        (scan metric dataset FLT_MAX initial_centroid st).nearest_centroid i := by
      show Function.update (scan metric dataset FLT_MAX initial_centroid st).nearest_centroid
        ci (ci : Int) i = _
      rw [Function.update_noteq hmem'.2]
    have hch : (seeding_next dataset st (scan metric dataset FLT_MAX initial_centroid st) r
        ci).chosen.getD k 0 = st.chosen.getD k 0 := by
      show (st.chosen ++ [ci]).getD k 0 = st.chosen.getD k 0
      rw [List.getD_eq_getElem?_getD, List.getD_eq_getElem?_getD,
        List.getElem?_append_left (by omega)]
    have ht' : (seeding_next dataset st (scan metric dataset FLT_MAX initial_centroid st) r
        ci).t - 1 = st.t := by
      show st.t + 1 - 1 = st.t
      omega
    rw [ht', hD, hnc]
    refine ⟨k, hk, ?_, ?_, ?_, ?_⟩
    · rw [hcen k hk]
      exact e1
    · rw [hch]
      exact e2
    · intro k' hk'
      rw [hcen k' hk']
      exact e3 k' hk'
    · intro k' hk'
      rw [hcen k' (by omega)]
      exact e4 k' hk'

end bookkeeping

/-- C24. k-means++ distance bookkeeping: in `K_means_init` (whose loop runs the rounds from
the state `seeding_start`), with every draw in the range of its distribution and every
distance between two items below `FLT_MAX`, let `st` be the state after `j` rounds, so that
round `t = j + 1` starts in it with `t` centroids. After the loop over the items of that
round, for every item `i` that is not a selected centroid, `D[i]` is the smallest of the
distances `metric(c_k, item_i)` over the `t` centroids, `nearest_centroid[i]` is the dataset
position of the first selected centroid at that distance, and the round has compared the old
`D[i]` (`FLT_MAX` in the first round) with the distance to the newest centroid `c_(t-1)`
only. -/
theorem K_means_init_bookkeeping {Obj : Type} (metric : Obj → Obj → ℚ) (dataset : Dataset Obj)
    (FLT_MAX : ℚ) (centroids : Nat → Obj) (initial_centroid : Nat) (x : Nat → ℚ → ℚ)
    (hinit : initial_centroid < dataset.get_num_of_Objects)
    (hx : ∀ t b, 0 ≤ b → 0 ≤ x t b ∧ x t b ≤ b)
    (hF : ∀ p q, p < dataset.get_num_of_Objects → q < dataset.get_num_of_Objects →
      metric (dataset.get_ith_object p) (dataset.get_ith_object q) < FLT_MAX)
    (j : Nat) (st : seeding_state Obj)
    (hrun : seeding_rounds metric dataset FLT_MAX initial_centroid x j
      (seeding_start dataset centroids initial_centroid) = Except.ok st)
    (i : Nat) (hi : i < dataset.get_num_of_Objects) (hmem : i ∉ st.chosen) :
    st.t = j + 1 ∧ st.chosen.length = st.t ∧
      (∀ k, k < st.t → st.centroids k = dataset.get_ith_object (st.chosen.getD k 0)) ∧
      (∃ k, k < st.t ∧
        (scan metric dataset FLT_MAX initial_centroid st).D i =
          metric (st.centroids k) (dataset.get_ith_object i) ∧
        (scan metric dataset FLT_MAX initial_centroid st).nearest_centroid i =
          ((st.chosen.getD k 0 : Nat) : Int) ∧
        (∀ k', k' < st.t →
          (scan metric dataset FLT_MAX initial_centroid st).D i ≤
            metric (st.centroids k') (dataset.get_ith_object i)) ∧
        ∀ k', k' < k →
          (scan metric dataset FLT_MAX initial_centroid st).D i <
            metric (st.centroids k') (dataset.get_ith_object i)) ∧
      (scan metric dataset FLT_MAX initial_centroid st).D i =
        (if metric (st.centroids (st.t - 1)) (dataset.get_ith_object i) <
            (if st.t = 1 then FLT_MAX else st.D i) then
          metric (st.centroids (st.t - 1)) (dataset.get_ith_object i)
        else (if st.t = 1 then FLT_MAX else st.D i)) := by
  obtain ⟨hinv, hbk⟩ := seeding_rounds_induction metric dataset FLT_MAX initial_centroid x hx
    (bookkeeping_inv metric dataset)
    (fun st r ci hinv hQ _ _ =>
      seeding_next_bookkeeping metric dataset FLT_MAX initial_centroid hF st r ci hinv hQ)
    j _ st (seeding_start_inv dataset initial_centroid centroids hinit)
    (seeding_start_bookkeeping metric dataset initial_centroid centroids) hrun
  have ht := seeding_rounds_t metric dataset FLT_MAX initial_centroid x j _ st hrun
  have hb := scan_bookkeeping metric dataset FLT_MAX initial_centroid hF st hinv hbk i hi hmem
  refine ⟨?_, hinv.2.1, hinv.2.2.2.2.2.1, hb, ?_⟩
  · rw [ht]
    show 1 + j = j + 1
    omega
  · obtain ⟨_, s2, _⟩ := scan_spec metric dataset FLT_MAX initial_centroid st
    rw [s2 i hi]
    have hcand := (scan_candidate_iff dataset initial_centroid st hinv i hi).mpr hmem
    have hD1 : scan_D1 FLT_MAX initial_centroid st i = if st.t = 1 then FLT_MAX else st.D i := by
      unfold scan_D1
      by_cases h1 : st.t = 1
      · have hic : i ≠ initial_centroid := by
          intro h
          rw [hinv.2.2.2.2.2.2.2.1 h1, h] at hmem
          exact hmem (List.mem_singleton_self _)
        rw [if_pos ⟨h1, hic⟩, if_pos h1]
      · rw [if_neg (fun h => h1 h.1), if_neg h1]
    unfold scan_D2
    rw [hD1]
    by_cases hlt : metric (st.centroids (st.t - 1)) (dataset.get_ith_object i) <
        (if st.t = 1 then FLT_MAX else st.D i)
    · rw [if_pos ⟨hcand, hlt⟩, if_pos hlt]
    · rw [if_neg (fun h => hlt h.2), if_neg hlt]

theorem K_means_init_bookkeeping_witness :
    (seeding_start sample_dataset sample_centroids 0).t = 0 + 1 ∧
      ∃ k, k < (seeding_start sample_dataset sample_centroids 0).t ∧
        (scan sample_metric sample_dataset 1000 0
            (seeding_start sample_dataset sample_centroids 0)).D 1 =
          sample_metric ((seeding_start sample_dataset sample_centroids 0).centroids k)
            (sample_dataset.get_ith_object 1) :=
  have h := K_means_init_bookkeeping sample_metric sample_dataset 1000 sample_centroids 0
    half_draw (by decide) half_draw_valid
    (by
      intro p q hp hq
      have hp4 : p < 4 := hp
      have hq4 : q < 4 := hq
      interval_cases p <;> interval_cases q <;>
        simp [sample_metric, sample_dataset] <;> norm_num [abs_lt])
    0 (seeding_start sample_dataset sample_centroids 0) rfl 1 (by decide)
    (by
      show 1 ∉ [0]
      decide)
  ⟨h.1, h.2.2.2.1.imp (fun _ hk => ⟨hk.1, hk.2.1⟩)⟩

/-! ## The partial sums of the seeding -/

section weights

variable {Obj : Type} (metric : Obj → Obj → ℚ) (dataset : Dataset Obj) (FLT_MAX : ℚ)
  (initial_centroid : Nat)

/-- The value `max_Di` after the loop over the items is 0 or the entry `D[i]` of an item the
loop has scanned. -/
theorem scan_max_attained_fold (st : seeding_state Obj) (k : Nat) :
    ((List.range k).foldl
        (scan_step metric dataset FLT_MAX initial_centroid st.t st.centroid_index
          (st.centroids (st.t - 1)))
        { D := st.D, nearest_centroid := st.nearest_centroid, max_Di := 0,
          scanned := [] }).max_Di = 0 ∨
    ∃ i, i < k ∧ scan_nc1 initial_centroid st i ≠ (i : Int) ∧
      scan_D2 metric dataset FLT_MAX initial_centroid st i =
        ((List.range k).foldl
          (scan_step metric dataset FLT_MAX initial_centroid st.t st.centroid_index
            (st.centroids (st.t - 1)))
          { D := st.D, nearest_centroid := st.nearest_centroid, max_Di := 0,
            scanned := [] }).max_Di := by
  induction k with
  | zero => exact Or.inl rfl
  | succ k ih =>
    have hk := scan_fold metric dataset FLT_MAX initial_centroid st k
    rw [List.range_succ, List.foldl_append]
    simp only [List.foldl_cons, List.foldl_nil]
    generalize (List.range k).foldl
        (scan_step metric dataset FLT_MAX initial_centroid st.t st.centroid_index
          (st.centroids (st.t - 1)))
        { D := st.D, nearest_centroid := st.nearest_centroid, max_Di := 0, scanned := [] } = s
      at ih hk ⊢
    obtain ⟨hD, hnc, _, _, _⟩ := hk
    have hDk : s.D k = st.D k := by rw [hD]; simp
    have hnck : s.nearest_centroid k = st.nearest_centroid k := by rw [hnc]; simp
    obtain ⟨_, _, _, f4⟩ := scan_step_fields metric dataset FLT_MAX initial_centroid st.t
      st.centroid_index (st.centroids (st.t - 1)) s k
      (scan_D1 FLT_MAX initial_centroid st k) (scan_nc1 initial_centroid st k)
      (by rw [hDk]; rfl) (by rw [hnck]; rfl)
    have e2 : (if scan_nc1 initial_centroid st k ≠ (k : Int) ∧
          metric (st.centroids (st.t - 1)) (dataset.get_ith_object k) <
            scan_D1 FLT_MAX initial_centroid st k then
          metric (st.centroids (st.t - 1)) (dataset.get_ith_object k)
        else scan_D1 FLT_MAX initial_centroid st k) =
        scan_D2 metric dataset FLT_MAX initial_centroid st k := rfl
    rw [e2] at f4
    rw [f4]
    have hold : s.max_Di = 0 ∨ ∃ i, i < k + 1 ∧ scan_nc1 initial_centroid st i ≠ (i : Int) ∧
        scan_D2 metric dataset FLT_MAX initial_centroid st i = s.max_Di := by
      rcases ih with h | ⟨i, h1, h2, h3⟩
      · exact Or.inl h
      · exact Or.inr ⟨i, by omega, h2, h3⟩
    by_cases hcand : scan_nc1 initial_centroid st k ≠ (k : Int)
    · rw [if_pos hcand]
      by_cases hgt : scan_D2 metric dataset FLT_MAX initial_centroid st k > s.max_Di
      · rw [if_pos hgt]
        exact Or.inr ⟨k, by omega, hcand, rfl⟩
      · rw [if_neg hgt]
        exact hold
    · rw [if_neg hcand]
      exact hold

theorem scan_max_attained (st : seeding_state Obj)
    (hinv : seeding_inv dataset initial_centroid st)
    (hM : (scan metric dataset FLT_MAX initial_centroid st).max_Di ≠ 0) :
    ∃ i, i < dataset.get_num_of_Objects ∧ i ∉ st.chosen ∧
      (scan metric dataset FLT_MAX initial_centroid st).D i =
        (scan metric dataset FLT_MAX initial_centroid st).max_Di := by
  rcases scan_max_attained_fold metric dataset FLT_MAX initial_centroid st
    dataset.get_num_of_Objects with h | ⟨i, h1, h2, h3⟩
  · exact absurd h hM
  · obtain ⟨_, s2, _⟩ := scan_spec metric dataset FLT_MAX initial_centroid st
    refine ⟨i, h1, (scan_candidate_iff dataset initial_centroid st hinv i h1).mp h2, ?_⟩
    rw [s2 i h1]
    exact h3

theorem scan_le_max (st : seeding_state Obj) (hinv : seeding_inv dataset initial_centroid st)
    (i : Nat) (hi : i < dataset.get_num_of_Objects) (hmem : i ∉ st.chosen) :
    (scan metric dataset FLT_MAX initial_centroid st).D i ≤
      (scan metric dataset FLT_MAX initial_centroid st).max_Di := by
  obtain ⟨_, s2, _, _, s5⟩ := scan_spec metric dataset FLT_MAX initial_centroid st
  rw [s2 i hi]
  exact s5 i hi ((scan_candidate_iff dataset initial_centroid st hinv i hi).mpr hmem)

/-- With non-negative distances and `FLT_MAX ≥ 0`, the entries `D[i]` of the items that are no
centroids are non-negative after the loop over the items. -/
theorem scan_D_nonneg (hF0 : 0 ≤ FLT_MAX) (hnn : ∀ a b, 0 ≤ metric a b)
    (st : seeding_state Obj)
    (hD : st.t ≠ 1 → ∀ i, i < dataset.get_num_of_Objects → i ∉ st.chosen → 0 ≤ st.D i)
    (hinv : seeding_inv dataset initial_centroid st)
    (i : Nat) (hi : i < dataset.get_num_of_Objects) (hmem : i ∉ st.chosen) :
    0 ≤ (scan metric dataset FLT_MAX initial_centroid st).D i := by
  obtain ⟨_, s2, _⟩ := scan_spec metric dataset FLT_MAX initial_centroid st
  rw [s2 i hi]
  have hD1 : 0 ≤ scan_D1 FLT_MAX initial_centroid st i := by
    unfold scan_D1
    by_cases h : st.t = 1 ∧ i ≠ initial_centroid
    · rw [if_pos h]
      exact hF0
    · rw [if_neg h]
      by_cases h1 : st.t = 1
      · have hic : i = initial_centroid := by
          by_contra hne
          exact h ⟨h1, hne⟩
        rw [hinv.2.2.2.2.2.2.2.1 h1, hic] at hmem
        exact absurd (List.mem_singleton_self _) hmem
      · exact hD h1 i hi hmem
  unfold scan_D2
  split_ifs
  · exact hnn _ _
  · exact hD1

theorem seeding_next_D_nonneg (hF0 : 0 ≤ FLT_MAX) (hnn : ∀ a b, 0 ≤ metric a b)
    (st : seeding_state Obj) (r : Int) (ci : Nat)
    (hinv : seeding_inv dataset initial_centroid st)
    (hD : st.t ≠ 1 → ∀ i, i < dataset.get_num_of_Objects → i ∉ st.chosen → 0 ≤ st.D i) :
    (seeding_next dataset st (scan metric dataset FLT_MAX initial_centroid st) r ci).t ≠ 1 →
      ∀ i, i < dataset.get_num_of_Objects →
        i ∉ (seeding_next dataset st (scan metric dataset FLT_MAX initial_centroid st) r
          ci).chosen →
        0 ≤ (seeding_next dataset st (scan metric dataset FLT_MAX initial_centroid st) r
          ci).D i := by
  intro _ i hi hmem
  have hmem' : i ∉ st.chosen ∧ i ≠ ci := by
    have h : i ∉ st.chosen ++ [ci] := hmem
    rw [List.mem_append, List.mem_singleton, not_or] at h
    exact h
  show 0 ≤ Function.update (scan metric dataset FLT_MAX initial_centroid st).D ci 0 i
  rw [Function.update_noteq hmem'.2]
  exact scan_D_nonneg metric dataset FLT_MAX initial_centroid hF0 hnn st hD hinv i hi hmem'.1

end weights

/-- The entry `j` of the vector of partial sums is the sum of the first `j` increments. -/
theorem compute_P_sum (D : Nat → ℚ) (object_index : List Nat) (max_Di : ℚ) (m : Nat) :
    ∀ j, j ≤ m →
      (compute_P D object_index max_Di m).getD j 0 =
        ∑ k in Finset.range j,
          (D (object_index.getD (k + 1) 0) * D (object_index.getD (k + 1) 0)) /
            (max_Di * max_Di) := by
  induction m with
  | zero =>
    intro j hj
    have : j = 0 := by omega
    rw [this, (compute_P_spec D object_index max_Di 0).2.1]
    simp
  | succ m ih =>
    intro j hj
    rw [compute_P_succ]
    have hlen := (compute_P_spec D object_index max_Di m).1
    rcases Nat.lt_or_ge j (m + 1) with h | h
    · rw [List.getD_append _ _ _ _ (by rw [hlen]; exact h)]
      exact ih j (by omega)
    · have hj' : j = m + 1 := by omega
      rw [hj', List.getD_append_right _ _ _ _ (by rw [hlen])]
      rw [hlen, Nat.sub_self, List.getD_cons_zero, ih m (le_refl _), Finset.sum_range_succ]

/-- C25. Normalised prefix sums in `K_means_init`: with every draw in the range of its
distribution, non-negative distances and `FLT_MAX ≥ 0`, let `st` be the state after `j` rounds
(round `t = j + 1` starts in it) and let `M = max_Di > 0` after the loop over the items of
that round. There are `N - t` items that are no centroids, `M` is the largest of their `D[i]`,
the vector `P` has `N - t + 1` entries, `P[0] = 0`, and `P[m]` is the sum over the first `m`
such items, in dataset order, of `(D[i] / M)^2`; every increment lies in `[0, 1]`, `P` is
non-decreasing and `1 ≤ P[N-t] ≤ N - t`. -/
theorem K_means_init_normalised_sums {Obj : Type} (metric : Obj → Obj → ℚ) (dataset : Dataset Obj)
    (FLT_MAX : ℚ) (centroids : Nat → Obj) (initial_centroid : Nat) (x : Nat → ℚ → ℚ)
    (hinit : initial_centroid < dataset.get_num_of_Objects)
    (hx : ∀ t b, 0 ≤ b → 0 ≤ x t b ∧ x t b ≤ b) (hF0 : 0 ≤ FLT_MAX)
    (hnn : ∀ a b, 0 ≤ metric a b) (j : Nat) (st : seeding_state Obj)
    (hrun : seeding_rounds metric dataset FLT_MAX initial_centroid x j
      (seeding_start dataset centroids initial_centroid) = Except.ok st)
    (hM : 0 < (scan metric dataset FLT_MAX initial_centroid st).max_Di) :
    st.t = j + 1 ∧
      ((List.range dataset.get_num_of_Objects).filter (fun i => i ∉ st.chosen)).length =
        dataset.get_num_of_Objects - st.t ∧
      (∀ i ∈ (List.range dataset.get_num_of_Objects).filter (fun i => i ∉ st.chosen),
        (scan metric dataset FLT_MAX initial_centroid st).D i ≤
          (scan metric dataset FLT_MAX initial_centroid st).max_Di) ∧
      (∃ i ∈ (List.range dataset.get_num_of_Objects).filter (fun i => i ∉ st.chosen),
        (scan metric dataset FLT_MAX initial_centroid st).D i =
          (scan metric dataset FLT_MAX initial_centroid st).max_Di) ∧
      (round_P metric dataset FLT_MAX initial_centroid st).length =
        dataset.get_num_of_Objects - st.t + 1 ∧
      (round_P metric dataset FLT_MAX initial_centroid st).getD 0 0 = 0 ∧
      (∀ m, m ≤ dataset.get_num_of_Objects - st.t →
        (round_P metric dataset FLT_MAX initial_centroid st).getD m 0 =
          ∑ k in Finset.range m,
            ((scan metric dataset FLT_MAX initial_centroid st).D
                (((List.range dataset.get_num_of_Objects).filter
                  (fun i => i ∉ st.chosen)).getD k 0) /
              (scan metric dataset FLT_MAX initial_centroid st).max_Di) ^ 2) ∧
      (∀ k, k < dataset.get_num_of_Objects - st.t →
        0 ≤ ((scan metric dataset FLT_MAX initial_centroid st).D
                (((List.range dataset.get_num_of_Objects).filter
                  (fun i => i ∉ st.chosen)).getD k 0) /
              (scan metric dataset FLT_MAX initial_centroid st).max_Di) ^ 2 ∧
          ((scan metric dataset FLT_MAX initial_centroid st).D
                (((List.range dataset.get_num_of_Objects).filter
                  (fun i => i ∉ st.chosen)).getD k 0) /
              (scan metric dataset FLT_MAX initial_centroid st).max_Di) ^ 2 ≤ 1) ∧
      (∀ a b, a ≤ b → b ≤ dataset.get_num_of_Objects - st.t →
        (round_P metric dataset FLT_MAX initial_centroid st).getD a 0 ≤
          (round_P metric dataset FLT_MAX initial_centroid st).getD b 0) ∧
      1 ≤ (round_P metric dataset FLT_MAX initial_centroid st).getD
        (dataset.get_num_of_Objects - st.t) 0 ∧
      (round_P metric dataset FLT_MAX initial_centroid st).getD
          (dataset.get_num_of_Objects - st.t) 0 ≤
        ((dataset.get_num_of_Objects - st.t : Nat) : ℚ) := by
  obtain ⟨hinv, hD⟩ := seeding_rounds_induction metric dataset FLT_MAX initial_centroid x hx
    (fun st => st.t ≠ 1 → ∀ i, i < dataset.get_num_of_Objects → i ∉ st.chosen → 0 ≤ st.D i)
    (fun st r ci hinv hQ _ _ =>
      seeding_next_D_nonneg metric dataset FLT_MAX initial_centroid hF0 hnn st r ci hinv hQ)
    j _ st (seeding_start_inv dataset initial_centroid centroids hinit)
    (fun h => absurd rfl h) hrun
  have ht := seeding_rounds_t metric dataset FLT_MAX initial_centroid x j _ st hrun
  have hsc := scan_scanned_eq metric dataset FLT_MAX initial_centroid st hinv
  have hlen := scan_scanned_length metric dataset FLT_MAX initial_centroid st hinv
  have hlen' : ((List.range dataset.get_num_of_Objects).filter
      (fun i => i ∉ st.chosen)).length = dataset.get_num_of_Objects - st.t := by
    rw [← hsc]
    exact hlen
  have hmemf : ∀ i, i ∈ (List.range dataset.get_num_of_Objects).filter
      (fun i => i ∉ st.chosen) ↔ i < dataset.get_num_of_Objects ∧ i ∉ st.chosen := by
    intro i
    simp [List.mem_filter]
  have hget : ∀ k, k < dataset.get_num_of_Objects - st.t →
      ((List.range dataset.get_num_of_Objects).filter (fun i => i ∉ st.chosen)).getD k 0 ∈
        (List.range dataset.get_num_of_Objects).filter (fun i => i ∉ st.chosen) := by
    intro k hk
    rw [List.getD_eq_getElem?_getD, List.getElem?_eq_getElem (by rw [hlen']; exact hk)]
    exact List.getElem_mem _
  have hle : ∀ i ∈ (List.range dataset.get_num_of_Objects).filter (fun i => i ∉ st.chosen),
      (scan metric dataset FLT_MAX initial_centroid st).D i ≤
        (scan metric dataset FLT_MAX initial_centroid st).max_Di := by
    intro i hi
    rw [hmemf] at hi
    exact scan_le_max metric dataset FLT_MAX initial_centroid st hinv i hi.1 hi.2
  have hge : ∀ i ∈ (List.range dataset.get_num_of_Objects).filter (fun i => i ∉ st.chosen),
      0 ≤ (scan metric dataset FLT_MAX initial_centroid st).D i := by
    intro i hi
    rw [hmemf] at hi
    exact scan_D_nonneg metric dataset FLT_MAX initial_centroid hF0 hnn st hD hinv i hi.1 hi.2
  have hinc : ∀ k, k < dataset.get_num_of_Objects - st.t →
      0 ≤ ((scan metric dataset FLT_MAX initial_centroid st).D
          (((List.range dataset.get_num_of_Objects).filter
            (fun i => i ∉ st.chosen)).getD k 0) /
          (scan metric dataset FLT_MAX initial_centroid st).max_Di) ^ 2 ∧
      ((scan metric dataset FLT_MAX initial_centroid st).D
          (((List.range dataset.get_num_of_Objects).filter
            (fun i => i ∉ st.chosen)).getD k 0) /
          (scan metric dataset FLT_MAX initial_centroid st).max_Di) ^ 2 ≤ 1 := by
    intro k hk
    have h1 := hle _ (hget k hk)
    have h2 := hge _ (hget k hk)
    constructor
    · exact sq_nonneg _
    · have h3 : (scan metric dataset FLT_MAX initial_centroid st).D
          (((List.range dataset.get_num_of_Objects).filter
            (fun i => i ∉ st.chosen)).getD k 0) /
          (scan metric dataset FLT_MAX initial_centroid st).max_Di ≤ 1 := by
        rw [div_le_one hM]
        exact h1
      have h4 : 0 ≤ (scan metric dataset FLT_MAX initial_centroid st).D
          (((List.range dataset.get_num_of_Objects).filter
            (fun i => i ∉ st.chosen)).getD k 0) /
          (scan metric dataset FLT_MAX initial_centroid st).max_Di :=
        div_nonneg h2 (le_of_lt hM)
      exact pow_le_one₀ h4 h3
  have hsum : ∀ m, m ≤ dataset.get_num_of_Objects - st.t →
      (round_P metric dataset FLT_MAX initial_centroid st).getD m 0 =
        ∑ k in Finset.range m,
          ((scan metric dataset FLT_MAX initial_centroid st).D
              (((List.range dataset.get_num_of_Objects).filter
                (fun i => i ∉ st.chosen)).getD k 0) /
            (scan metric dataset FLT_MAX initial_centroid st).max_Di) ^ 2 := by
    intro m hm
    unfold round_P
    rw [compute_P_sum _ _ _ _ m hm]
    apply Finset.sum_congr rfl
    intro k hk
    rw [Finset.mem_range] at hk
    have e : (0 :: ((scan metric dataset FLT_MAX initial_centroid st).scanned ++
        List.replicate
          (dataset.get_num_of_Objects - st.t -
            (scan metric dataset FLT_MAX initial_centroid st).scanned.length) 0)).getD (k + 1) 0 =
        ((List.range dataset.get_num_of_Objects).filter (fun i => i ∉ st.chosen)).getD k 0 := by
      rw [List.getD_cons_succ, List.getD_append _ _ _ _ (by rw [hlen]; omega), hsc]
    rw [e, div_pow, pow_two, pow_two]
  have hspec := compute_P_spec (scan metric dataset FLT_MAX initial_centroid st).D
    (0 :: ((scan metric dataset FLT_MAX initial_centroid st).scanned ++
      List.replicate
        (dataset.get_num_of_Objects - st.t -
          (scan metric dataset FLT_MAX initial_centroid st).scanned.length) 0))
    (scan metric dataset FLT_MAX initial_centroid st).max_Di
    (dataset.get_num_of_Objects - st.t)
  obtain ⟨i0, hi0, hi1, hi2⟩ := scan_max_attained metric dataset FLT_MAX initial_centroid st
    hinv (ne_of_gt hM)
  have hi0mem : i0 ∈ (List.range dataset.get_num_of_Objects).filter
      (fun i => i ∉ st.chosen) := (hmemf i0).mpr ⟨hi0, hi1⟩
  refine ⟨?_, hlen', hle, ⟨i0, hi0mem, hi2⟩, hspec.1, hspec.2.1, hsum, hinc, hspec.2.2, ?_, ?_⟩
  · rw [ht]
    show 1 + j = j + 1
    omega
  · rw [hsum _ (le_refl _)]
    obtain ⟨k0, hk0, hk0e⟩ := List.getElem_of_mem hi0mem
    have hk0' : k0 < dataset.get_num_of_Objects - st.t := by
      rw [← hlen']
      exact hk0
    have hterm : ((scan metric dataset FLT_MAX initial_centroid st).D
        (((List.range dataset.get_num_of_Objects).filter
          (fun i => i ∉ st.chosen)).getD k0 0) /
        (scan metric dataset FLT_MAX initial_centroid st).max_Di) ^ 2 = 1 := by
      rw [List.getD_eq_getElem?_getD, List.getElem?_eq_getElem hk0, Option.getD_some, hk0e, hi2,
        div_self (ne_of_gt hM), one_pow]
    rw [← hterm]
    exact Finset.single_le_sum
      (f := fun k => ((scan metric dataset FLT_MAX initial_centroid st).D
        (((List.range dataset.get_num_of_Objects).filter
          (fun i => i ∉ st.chosen)).getD k 0) /
        (scan metric dataset FLT_MAX initial_centroid st).max_Di) ^ 2)
      (fun k hk => (hinc k (Finset.mem_range.mp hk)).1) (Finset.mem_range.mpr hk0')
  · rw [hsum _ (le_refl _)]
    calc ∑ k in Finset.range (dataset.get_num_of_Objects - st.t),
          ((scan metric dataset FLT_MAX initial_centroid st).D
              (((List.range dataset.get_num_of_Objects).filter
                (fun i => i ∉ st.chosen)).getD k 0) /
            (scan metric dataset FLT_MAX initial_centroid st).max_Di) ^ 2
        ≤ ∑ _k in Finset.range (dataset.get_num_of_Objects - st.t), (1 : ℚ) :=
          Finset.sum_le_sum (fun k hk => (hinc k (Finset.mem_range.mp hk)).2)
      _ = ((dataset.get_num_of_Objects - st.t : Nat) : ℚ) := by simp

theorem sample_metric_pos (i j : Nat) (hi : i < sample_dataset.get_num_of_Objects)
    (hj : j < sample_dataset.get_num_of_Objects) (hij : i ≠ j) :
    0 < sample_metric (sample_dataset.get_ith_object i) (sample_dataset.get_ith_object j) := by
  have hi' : i < 4 := hi
  have hj' : j < 4 := hj
  unfold sample_metric
  rw [abs_pos]
  interval_cases i <;> interval_cases j <;>
    first
      | exact absurd rfl hij
      | (simp [sample_dataset]; norm_num)

theorem sample_max_Di_pos :
    0 < (scan sample_metric sample_dataset 1000 0
      (seeding_start sample_dataset sample_centroids 0)).max_Di := by
  have h1 := scan_max_Di_pos sample_metric sample_dataset 1000 0 (by norm_num)
    sample_metric_pos (seeding_start sample_dataset sample_centroids 0)
    (seeding_start_inv sample_dataset 0 sample_centroids (by decide))
    (fun h => absurd rfl h) (by decide)
  have h2 := (scan_spec sample_metric sample_dataset 1000 0
    (seeding_start sample_dataset sample_centroids 0)).2.2.2.1
  exact lt_of_le_of_ne h2 (Ne.symm h1)

theorem K_means_init_normalised_sums_witness :
    (round_P sample_metric sample_dataset 1000 0
        (seeding_start sample_dataset sample_centroids 0)).getD 0 0 = 0 ∧
      1 ≤ (round_P sample_metric sample_dataset 1000 0
        (seeding_start sample_dataset sample_centroids 0)).getD
          (sample_dataset.get_num_of_Objects -
            (seeding_start sample_dataset sample_centroids 0).t) 0 :=
  ⟨(K_means_init_normalised_sums sample_metric sample_dataset 1000 sample_centroids 0 half_draw
      (by decide) half_draw_valid (by norm_num) sample_metric_nonneg 0
      (seeding_start sample_dataset sample_centroids 0) rfl sample_max_Di_pos).2.2.2.2.2.1,
    (K_means_init_normalised_sums sample_metric sample_dataset 1000 sample_centroids 0 half_draw
      (by decide) half_draw_valid (by norm_num) sample_metric_nonneg 0
      (seeding_start sample_dataset sample_centroids 0) rfl
      sample_max_Di_pos).2.2.2.2.2.2.2.2.2.1⟩

/-! ## A draw outside the range of the weighted search -/

/-- A round whose draw lies above `P[N-t]`, with at least two items that are no centroids:
the search returns 0 and the round selects `object_index[0]`, the dataset position 0. -/
theorem seeding_round_above {Obj : Type} (metric : Obj → Obj → ℚ) (dataset : Dataset Obj)
    (FLT_MAX : ℚ) (initial_centroid : Nat) (x : Nat → ℚ → ℚ) (st : seeding_state Obj)
    (hinv : seeding_inv dataset initial_centroid st)
    (h2 : 2 ≤ dataset.get_num_of_Objects - st.t)
    (hM : (scan metric dataset FLT_MAX initial_centroid st).max_Di ≠ 0)
    (habove : (round_P metric dataset FLT_MAX initial_centroid st).getD
        (dataset.get_num_of_Objects - st.t) 0 <
      x st.t ((round_P metric dataset FLT_MAX initial_centroid st).getD
        (dataset.get_num_of_Objects - st.t) 0)) :
    binary_search (round_P metric dataset FLT_MAX initial_centroid st)
        (x st.t ((round_P metric dataset FLT_MAX initial_centroid st).getD
          (dataset.get_num_of_Objects - st.t) 0)) 0
        ((dataset.get_num_of_Objects - st.t : Nat) : Int) = some 0 ∧
      seeding_round metric dataset FLT_MAX initial_centroid x st =
        Except.ok (seeding_next dataset st (scan metric dataset FLT_MAX initial_centroid st) 0
          0) := by
  have hlen := scan_scanned_length metric dataset FLT_MAX initial_centroid st hinv
  have h1 : ¬ dataset.get_num_of_Objects < st.t := by omega
  have h2' : ¬ dataset.get_num_of_Objects - st.t <
      (scan metric dataset FLT_MAX initial_centroid st).scanned.length := by omega
  obtain ⟨p1, _, p3⟩ := compute_P_spec (scan metric dataset FLT_MAX initial_centroid st).D
    (0 :: ((scan metric dataset FLT_MAX initial_centroid st).scanned ++
      List.replicate (dataset.get_num_of_Objects - st.t -
        (scan metric dataset FLT_MAX initial_centroid st).scanned.length) 0))
    (scan metric dataset FLT_MAX initial_centroid st).max_Di
    (dataset.get_num_of_Objects - st.t)
  have hb := binary_search_above (round_P metric dataset FLT_MAX initial_centroid st)
    (dataset.get_num_of_Objects - st.t)
    (x st.t ((round_P metric dataset FLT_MAX initial_centroid st).getD
      (dataset.get_num_of_Objects - st.t) 0)) p1
    (fun i hi => lt_of_le_of_lt (p3 i _ hi (le_refl _)) habove)
  rw [if_neg (by omega)] at hb
  refine ⟨hb, ?_⟩
  have hb' : binary_search
      (compute_P (scan metric dataset FLT_MAX initial_centroid st).D
        (0 :: ((scan metric dataset FLT_MAX initial_centroid st).scanned ++
          List.replicate (dataset.get_num_of_Objects - st.t -
            (scan metric dataset FLT_MAX initial_centroid st).scanned.length) 0))
        (scan metric dataset FLT_MAX initial_centroid st).max_Di
        (dataset.get_num_of_Objects - st.t))
      (x st.t ((compute_P (scan metric dataset FLT_MAX initial_centroid st).D
        (0 :: ((scan metric dataset FLT_MAX initial_centroid st).scanned ++
          List.replicate (dataset.get_num_of_Objects - st.t -
            (scan metric dataset FLT_MAX initial_centroid st).scanned.length) 0))
        (scan metric dataset FLT_MAX initial_centroid st).max_Di
        (dataset.get_num_of_Objects - st.t)).getD (dataset.get_num_of_Objects - st.t) 0)) 0
      ((dataset.get_num_of_Objects - st.t : Nat) : Int) = some 0 := hb
  have hn : 0 < dataset.get_num_of_Objects := by omega
  unfold seeding_round
  simp only [if_neg h1, if_neg h2']
  rw [if_neg (fun h => hM h.2)]
  simp only [hb', le_refl, if_true, Int.toNat_zero, List.getElem?_cons_zero, if_pos hn]
  rfl

/-- C28. `binary_search` outside its domain returns an index and no error: for every
non-decreasing `P[0..n]` with `P[0] = 0`, `binary_search(P, x, 0, n)` returns 1 for every
`x ≤ 0` (also when `n = 0`, where `P` has no entry 1), and for every `x > P[n]` it returns 0
when `n ≥ 2` and 1 when `n ≤ 1`. `K_means_init` uses the value as an index into
`object_index`, whose entry 0 is 0: a round with at least two items that are no centroids,
`max_Di ≠ 0` and a draw above `P[N-t]` gets 0 from the search and makes the item at dataset
position 0 the next centroid. -/
theorem binary_search_index_without_error {Obj : Type} (P : List ℚ) (n : ℕ) (x : ℚ)
    (hlen : P.length = n + 1) (hP0 : P.getD 0 0 = 0)
    (hmono : ∀ i j : ℕ, i ≤ j → j ≤ n → P.getD i 0 ≤ P.getD j 0)
    (metric : Obj → Obj → ℚ) (dataset : Dataset Obj) (FLT_MAX : ℚ) (initial_centroid : Nat)
    (draw : Nat → ℚ → ℚ) (st : seeding_state Obj)
    (hinv : seeding_inv dataset initial_centroid st)
    (h2 : 2 ≤ dataset.get_num_of_Objects - st.t)
    (hM : (scan metric dataset FLT_MAX initial_centroid st).max_Di ≠ 0)
    (habove : (round_P metric dataset FLT_MAX initial_centroid st).getD
        (dataset.get_num_of_Objects - st.t) 0 <
      draw st.t ((round_P metric dataset FLT_MAX initial_centroid st).getD
        (dataset.get_num_of_Objects - st.t) 0)) :
    (x ≤ 0 → binary_search P x 0 n = some 1) ∧
      (P.getD n 0 < x → binary_search P x 0 n = some (if n ≤ 1 then 1 else 0)) ∧
      (n = 0 → P[1]? = none) ∧
      (round_object_index metric dataset FLT_MAX initial_centroid st)[0]? = some 0 ∧
      binary_search (round_P metric dataset FLT_MAX initial_centroid st)
        (draw st.t ((round_P metric dataset FLT_MAX initial_centroid st).getD
          (dataset.get_num_of_Objects - st.t) 0)) 0
        ((dataset.get_num_of_Objects - st.t : Nat) : Int) = some 0 ∧
      seeding_round metric dataset FLT_MAX initial_centroid draw st =
        Except.ok (seeding_next dataset st (scan metric dataset FLT_MAX initial_centroid st) 0
          0) := by
  obtain ⟨s1, s2⟩ := seeding_round_above metric dataset FLT_MAX initial_centroid draw st hinv h2
    hM habove
  refine ⟨?_, ?_, ?_, ?_, s1, s2⟩
  · intro hx
    have hP : ∀ i : ℕ, i ≤ n → 0 ≤ P.getD i 0 := by
      intro i hi
      have := hmono 0 i (Nat.zero_le _) hi
      rw [hP0] at this
      exact this
    exact binary_search_nonpos P n x hlen hP hx n n (by simp) (by omega) (le_refl _)
  · intro hx
    exact binary_search_above P n x hlen
      (fun i hi => lt_of_le_of_lt (hmono i n hi (le_refl _)) hx)
  · intro h0
    rw [List.getElem?_eq_none (by omega)]
  · unfold round_object_index
    rw [List.getElem?_cons_zero]

theorem binary_search_index_without_error_witness :
    binary_search [0, 2, 5] 6 0 2 = some 0 ∧
      seeding_round sample_metric sample_dataset 1000 0 (fun _ b => b + 1)
          (seeding_start sample_dataset sample_centroids 0) =
        Except.ok (seeding_next sample_dataset (seeding_start sample_dataset sample_centroids 0)
          (scan sample_metric sample_dataset 1000 0
            (seeding_start sample_dataset sample_centroids 0)) 0 0) :=
  have hmono : ∀ i j : ℕ, i ≤ j → j ≤ 2 →
      ([0, 2, 5] : List ℚ).getD i 0 ≤ ([0, 2, 5] : List ℚ).getD j 0 := by
    intro i j hij hj
    interval_cases j <;> interval_cases i <;> norm_num
  have h := binary_search_index_without_error [0, 2, 5] 2 6 rfl rfl hmono sample_metric
    sample_dataset 1000 0 (fun _ b => b + 1) (seeding_start sample_dataset sample_centroids 0)
    (seeding_start_inv sample_dataset 0 sample_centroids (by decide)) (by decide)
    (ne_of_gt sample_max_Di_pos) (by norm_num)
  ⟨h.2.1 (by norm_num), h.2.2.2.2.2⟩

/-! ## The hypercube search with exhaustive budgets -/

/-- With `probes ≥ 2^d1` and `M` at least the size of the dataset, no position that the
hypercube search leaves out is nearer to the query than a position it returns. -/
theorem appr_nearest_neighbors_best {Obj : Type} (addr : Nat → Nat) (d1 : Nat) (M probes : Int)
    (bits : Nat → Obj → Nat) (dataset : Dataset Obj) (query_object : Obj) (N : Int)
    (metric : Obj → Obj → ℚ) (hd : 1 ≤ d1) (hN : 1 ≤ N) (hb : ∀ j o, bits j o ≤ 1)
    (hp : (2 : Int) ^ d1 ≤ probes) (hM : (dataset.get_num_of_Objects : Int) ≤ M) :
    ∀ x ∈ appr_nearest_neighbors addr (import_data (new_hypercube d1 M probes bits) dataset)
        dataset query_object N metric,
      ∀ q, q < dataset.get_num_of_Objects →
        q ∉ (appr_nearest_neighbors addr (import_data (new_hypercube d1 M probes bits) dataset)
          dataset query_object N metric).map Prod.snd →
        x.1 ≤ metric query_object (dataset.get_ith_object q) := by
  have hd' : 1 ≤ (import_data (new_hypercube d1 M probes bits) dataset).d1 := hd
  obtain ⟨j, k, _, _, _, _, _, h5, _⟩ :=
    probe_run addr (import_data (new_hypercube d1 M probes bits) dataset) dataset
      search_type.kNN 0 query_object metric N 0 hd'
  have hperm := items_exhaustive_import addr d1 M probes bits dataset query_object N metric hd
    hb hp hM
  have hbest := knn_fold_best addr dataset query_object N metric 0 0 hN
    (items (probe addr (import_data (new_hypercube d1 M probes bits) dataset) dataset
      search_type.kNN 0 query_object metric N 0)) [] [] List.Pairwise.nil
    (by simp only [List.length_nil]; push_cast; omega)
    (fun x hx => absurd hx (List.not_mem_nil _))
    (fun _ q hq => absurd hq (List.not_mem_nil _))
    (fun x hx => absurd hx (List.not_mem_nil _))
  rw [← h5] at hbest
  intro x hx q hq hnot
  unfold appr_nearest_neighbors at hx hnot
  rw [List.mem_reverse] at hx
  rw [List.map_reverse, List.mem_reverse] at hnot
  apply hbest x hx q _ hnot
  rw [List.nil_append, hperm.mem_iff]
  exact List.mem_range.mpr hq

/-- C31. Exhaustive hypercube kNN equals brute force: on the index that `import_data` builds
over a dataset of `n` items from a fresh hypercube of dimension `d1 ≥ 1` whose projected bits
are 0 or 1, with `probes ≥ 2^d1` and `M ≥ max 1 n`, for every query and every `N ≥ 1` the
sequence of distances returned by `appr_nearest_neighbors` equals the sequence of distances
returned by `exact_nearest_neighbors` over the same dataset; both hold `min N n` distances,
the smallest of the sorted list of all the distances `metric(query, item)`. -/
theorem exhaustive_knn_equals_brute_force {Obj : Type} (addr : Nat → Nat) (d1 : Nat)
    (M probes : Int) (bits : Nat → Obj → Nat) (dataset : Dataset Obj) (query_object : Obj)
    (N : Int) (metric : Obj → Obj → ℚ) (hd : 1 ≤ d1) (hN : 1 ≤ N) (hb : ∀ j o, bits j o ≤ 1)
    (hp : (2 : Int) ^ d1 ≤ probes) (hM : max 1 (dataset.get_num_of_Objects : Int) ≤ M) :
    (appr_nearest_neighbors addr (import_data (new_hypercube d1 M probes bits) dataset) dataset
        query_object N metric).map Prod.fst =
      (exact_nearest_neighbors addr dataset query_object N metric).map Prod.fst ∧
    ((appr_nearest_neighbors addr (import_data (new_hypercube d1 M probes bits) dataset) dataset
        query_object N metric).length : Int) = min N (dataset.get_num_of_Objects : Int) ∧
    ((exact_nearest_neighbors addr dataset query_object N metric).length : Int) =
      min N (dataset.get_num_of_Objects : Int) ∧
    (exact_nearest_neighbors addr dataset query_object N metric).map Prod.fst =
      (((List.range dataset.get_num_of_Objects).map
          (fun i => metric query_object (dataset.get_ith_object i))).insertionSort
        (fun a b => a ≤ b)).take
          (exact_nearest_neighbors addr dataset query_object N metric).length := by
  have hM' : (dataset.get_num_of_Objects : Int) ≤ M := le_trans (le_max_right _ _) hM
  obtain ⟨_, a2, a3, a4⟩ :=
    appr_nearest_neighbors_import addr d1 M probes bits dataset query_object N metric hd hN
  have a5 := appr_nearest_neighbors_best addr d1 M probes bits dataset query_object N metric hd
    hN hb hp hM'
  have alen := appr_length_exhaustive addr d1 M probes bits dataset query_object N metric hd hN
    hb hp hM'
  obtain ⟨e1, e2, e3, e4, e5⟩ :=
    exact_nearest_neighbors_spec addr dataset query_object N metric hN
  have hA := smallest_eq_take_sort dataset.get_num_of_Objects
    (fun i => metric query_object (dataset.get_ith_object i)) _ a2 a3 a4 a5
  have hE := smallest_eq_take_sort dataset.get_num_of_Objects
    (fun i => metric query_object (dataset.get_ith_object i)) _ e2 e3 e4 e5
  have hlen : (appr_nearest_neighbors addr (import_data (new_hypercube d1 M probes bits)
      dataset) dataset query_object N metric).length =
      (exact_nearest_neighbors addr dataset query_object N metric).length := by
    have : ((appr_nearest_neighbors addr (import_data (new_hypercube d1 M probes bits)
        dataset) dataset query_object N metric).length : Int) =
        ((exact_nearest_neighbors addr dataset query_object N metric).length : Int) := by
      rw [alen, e1]
    exact_mod_cast this
  refine ⟨?_, alen, e1, hE⟩
  rw [hA, hE, hlen]

theorem exhaustive_knn_equals_brute_force_witness :
    (appr_nearest_neighbors id (import_data (new_hypercube 2 4 4 sample_bits) sample_dataset)
        sample_dataset 0 2 sample_metric).map Prod.fst =
      (exact_nearest_neighbors id sample_dataset 0 2 sample_metric).map Prod.fst :=
  (exhaustive_knn_equals_brute_force id 2 4 4 sample_bits sample_dataset 0 2 sample_metric
    (by decide) (by decide) sample_bits_le (by decide) (by decide)).1

/-! ## The seeding on items at distance zero -/

/-- A round whose loop over the items leaves `max_Di = 0` divides by zero, whatever the
draw. -/
theorem seeding_round_degenerate {Obj : Type} (metric : Obj → Obj → ℚ) (dataset : Dataset Obj)
    (FLT_MAX : ℚ) (initial_centroid : Nat) (x : Nat → ℚ → ℚ) (st : seeding_state Obj)
    (hinv : seeding_inv dataset initial_centroid st) (ht : st.t < dataset.get_num_of_Objects)
    (hz : (scan metric dataset FLT_MAX initial_centroid st).max_Di = 0) :
    seeding_round metric dataset FLT_MAX initial_centroid x st =
      Except.error seeding_fault.not_a_number := by
  have hlen := scan_scanned_length metric dataset FLT_MAX initial_centroid st hinv
  have h1 : ¬ dataset.get_num_of_Objects < st.t := by omega
  have h2 : ¬ dataset.get_num_of_Objects - st.t <
      (scan metric dataset FLT_MAX initial_centroid st).scanned.length := by omega
  have hm : 1 ≤ dataset.get_num_of_Objects - st.t := by omega
  unfold seeding_round
  simp only [if_neg h1, if_neg h2]
  rw [if_pos ⟨hm, hz⟩]

theorem identical_scan_D (i : Nat) (hi : i < 3) :
    (scan sample_metric identical_dataset 1000 0
      (seeding_start identical_dataset sample_centroids 0)).D i = 0 := by
  have hi' : i < identical_dataset.get_num_of_Objects := hi
  rw [(scan_spec sample_metric identical_dataset 1000 0
    (seeding_start identical_dataset sample_centroids 0)).2.1 i hi']
  interval_cases i <;>
    simp [scan_D2, scan_D1, scan_nc1, seeding_start, sample_metric, identical_dataset]

theorem identical_max_Di :
    (scan sample_metric identical_dataset 1000 0
      (seeding_start identical_dataset sample_centroids 0)).max_Di = 0 := by
  by_contra hne
  obtain ⟨i, hi, _, hD⟩ := scan_max_attained sample_metric identical_dataset 1000 0
    (seeding_start identical_dataset sample_centroids 0)
    (seeding_start_inv identical_dataset 0 sample_centroids (by decide)) hne
  rw [identical_scan_D i hi] at hD
  exact hne hD.symm

/-- C18, at the failing input: three items at the same point, `K = 2`, first index 0. The
loop over the items of the first round leaves `D[0] = D[1] = D[2] = 0` and `max_Di = 0`, so
the round divides `D[i]^2` by `max_Di^2 = 0` for both entries of `P` after `P[0]`, whatever
the draw: the run of `K_means_init` does not return two centroids at distinct positions
chosen by an index `r` in `1 .. 2`, it leaves the numbers. -/
theorem K_means_init_identical_items :
    (∀ i, i < 3 →
      (scan sample_metric identical_dataset 1000 0
        (seeding_start identical_dataset sample_centroids 0)).D i = 0) ∧
    (scan sample_metric identical_dataset 1000 0
      (seeding_start identical_dataset sample_centroids 0)).max_Di = 0 ∧
    ∀ x : Nat → ℚ → ℚ,
      K_means_init sample_metric identical_dataset 1000 2 sample_centroids 0 x =
        Except.error seeding_fault.not_a_number := by
  refine ⟨identical_scan_D, identical_max_Di, ?_⟩
  intro x
  rw [K_means_init_eq sample_metric identical_dataset 1000 0 x 2 sample_centroids (by decide)
    (by decide)]
  have h := seeding_round_degenerate sample_metric identical_dataset 1000 0 x
    (seeding_start identical_dataset sample_centroids 0)
    (seeding_start_inv identical_dataset 0 sample_centroids (by decide)) (by decide)
    identical_max_Di
  show seeding_rounds sample_metric identical_dataset 1000 0 x 1
    (seeding_start identical_dataset sample_centroids 0) = _
  simp only [seeding_rounds]
  rw [h]

end AP3
